import Mathlib

/-!
Patch rebalancing, moving window, particle push, Poisson solver, probes and particle
diagnostics of Smilei.

A shallow embedding of `VectorPatch::createPatches` and
`VectorPatch::exchangePatches` (`src/Patch/VectorPatch.cpp`), the two halves of
`VectorPatch::load_balance`, of `SimWindow::isMoving` and `SimWindow::operate`
(`src/MovWindow/SimWindow.cpp`), of the call sequence of `VectorPatch::dynamics`, of the
iteration control and the field centring of `VectorPatch::solvePoisson`, of
`VectorPatch::move_probes` and of `DiagnosticParticles::run`
(`src/Diagnostic/DiagnosticParticles.cpp`), followed by the properties of the
rebalancing protocol, of one tick of the moving window, of the push, of the solver, of
the probes, of the histograms and of the Hilbert index.

Conventions of the embedding.

* `std::vector` is a `List`; `push_back x` is `++ [x]`, `erase (begin()+i)` is
  `eraseIdx i`, `insert (begin()+i, x)` puts `x` in front of position `i`.
* Hilbert indices, counts and loop counters are natural numbers; the local
  `existing_patch_id`, which starts at `-1`, and MPI peer ranks (`rank - 1` is
  `-1` on rank 0) are integers.  The message tags of `exchangePatches`, the tag
  multiplier `nmessage`, and `output_size` and the bin indices of
  `DiagnosticParticles` are 32-bit `int` values: every operation on them is followed
  by `wrapInt32`.
* A fatal `ERROR(...)`, a dereference of a patch slot that does not exist and a read
  of `recv_patch_id_[0]` or `recv_patch_id_.back()` while the vector is empty are
  results `Except.error`.
* `smpi->patch_count` is a table `rank ↦ count`.
* In `SimWindow::operate` the patches are objects behind pointers: `PatchRef.old i` is
  the pointer `vecPatches_old[i]`, `PatchRef.created j` the pointer returned by the
  `j`-th `PatchesFactory::clone`, and the state carries the objects next to the pointer
  sequence `patches_`, so that a write through one pointer is seen through every copy
  of it.
* `double` is a type parameter `D` with the operations the code uses; the energy
  identities are stated in exact arithmetic.  `Pcoordinates[0]` is an `unsigned int`
  and its decrement wraps modulo `2^32`.
* Methods of `Patch` whose bodies are outside of these sources (`isXmin`, `isXmax`,
  `wasXmax`, `has_an_MPI_neighbor`) are fields of `WindowEnv`; every property is proved
  for all of them.
* The OpenMP loops are run by one thread, in program order.
* The residuals of the conjugate gradient of `solvePoisson` are a parameter, one value
  per iteration; MPI broadcasts read the value on the root rank.
* In `DiagnosticParticles::run` the C library (`sqrt`, `pow`, `log10`, and `floor`
  followed by the conversion to `int`) is a record of functions `MathFns`; an access
  past the end of a vector and a read through the null pointer `chi` are results
  `Except.error`.
* The Hilbert index itself is not in these sources; it is modelled from the
  specification, see the section on the Hilbert index.
-/

namespace Smilei

/-! ## Data model -/

/-- How the state of a patch object came to exist on this rank: it was resident
before the rebalance (`payload` names its particle and field content), or it was
created by `PatchesFactory::clone` from the template with hindex `templateHindex`
with the window displacement `n_moved`. -/
inductive PatchOrigin where
  | resident (payload : Nat)
  | cloned (templateHindex : Nat) (n_moved : Nat)
  deriving DecidableEq

/-- The part of `Patch` the rebalancing code reads: `Hindex()`, and the sizes
`vecSpecies.size()`, `probes.size()`, `EMfields->antennas.size()` that enter the
message-tag multiplier. -/
structure Patch where
  hindex : Nat
  nSpecies : Nat
  nProbes : Nat
  nAntennas : Nat
  origin : PatchOrigin
  deriving DecidableEq

/-- The members of `VectorPatch` used by the rebalancing protocol. -/
structure VectorPatch where
  patches_ : List Patch
  refHindex_ : Nat
  recv_patch_id_ : List Nat
  send_patch_id_ : List Nat
  recv_patches_ : List Patch
  deriving DecidableEq

/-- Abnormal terminations. -/
inductive Fault where
  /-- The fatal `ERROR("No patch to clone. This should never happen!")`. -/
  | noPatchToClone
  /-- A patch slot that does not exist is dereferenced. -/
  | invalidPatch
  /-- The first or the last element of an empty vector is read (`recv_patch_id_[0]`,
  `recv_patch_id_.back()`): the behaviour of the program is undefined from there on. -/
  | emptyRead
  deriving DecidableEq

/-- Calls made by `exchangePatches` on its collaborators, in program order. -/
inductive Call where
  | isend (p : Patch) (dest : Int) (tag : Int)
  | recv (p : Patch) (source : Int) (tag : Int)
  | barrier
  | delete (p : Patch)
  | updateMPIenv (p : Patch)
  | update_field_list
  deriving DecidableEq

/-- Modelled from the spec: `PatchesFactory::clone` (not in the sources at hand)
makes "a structurally-equivalent empty patch from the template, at the correct
target hindex" and with the window displacement `n_moved`. -/
def PatchesFactory.clone (existing_patch : Patch) (hindex n_moved : Nat) : Patch :=
  { hindex := hindex
    nSpecies := existing_patch.nSpecies
    nProbes := existing_patch.nProbes
    nAntennas := existing_patch.nAntennas
    origin := PatchOrigin.cloned existing_patch.hindex n_moved }

/-! ## `createPatches` -/

/-- Index of the future first patch:
`int istart(0); for (irk=0; irk<rank; irk++) istart += patch_count[irk];` -/
def istartOf (rank : Nat) (patch_count : Nat → Nat) : Nat :=
  (List.range rank).foldl (fun istart irk => istart + patch_count irk) 0

/-- The hindices this process must own at the end of the exchange:
`for (ipatch=0; ipatch<patch_count[rank]; ipatch++)
recv_patch_id_.push_back(istart+ipatch);` -/
def recvInit (istart count : Nat) : List Nat :=
  (List.range count).foldl (fun recv ipatch => recv ++ [istart + ipatch]) []

/-- The read `recv_patch_id_[0]`; on an empty vector the read is undefined. -/
def frontOf (recv_patch_id_ : List Nat) : Except Fault Int :=
  match recv_patch_id_.head? with
  | some x => Except.ok (x : Int)
  | none => Except.error Fault.emptyRead

/-- The read `recv_patch_id_.back()`; on an empty vector the read is undefined. -/
def backOf (recv_patch_id_ : List Nat) : Except Fault Int :=
  match recv_patch_id_.getLast? with
  | some x => Except.ok (x : Int)
  | none => Except.error Fault.emptyRead

/-- One turn of the loop on current patches:
`if (refHindex_+ipatch < recv_patch_id_[0] || refHindex_+ipatch > recv_patch_id_.back())
send_patch_id_.push_back(ipatch);` with the reads in the order of the `||`. -/
def sendStep (refHindex_ : Nat) (recv_patch_id_ : List Nat) (send : List Nat) (ipatch : Nat) :
    Except Fault (List Nat) :=
  match frontOf recv_patch_id_ with
  | Except.error e => Except.error e
  | Except.ok front =>
    if (refHindex_ : Int) + ipatch < front then Except.ok (send ++ [ipatch])
    else
      match backOf recv_patch_id_ with
      | Except.error e => Except.error e
      | Except.ok back =>
        if (refHindex_ : Int) + ipatch > back then Except.ok (send ++ [ipatch])
        else Except.ok send

/-- Loop on current patches to define the patches to send,
`for (ipatch=0; ipatch < nPatches_now; ipatch++)`. -/
def sendLoop (refHindex_ : Nat) (recv_patch_id_ : List Nat) (nPatches_now : Nat) :
    Except Fault (List Nat) :=
  (List.range nPatches_now).foldl
    (fun (acc : Except Fault (List Nat)) (ipatch : Nat) =>
      match acc with
      | Except.error e => Except.error e
      | Except.ok send => sendStep refHindex_ recv_patch_id_ send ipatch)
    (Except.ok [])

/-- The test of the backward loop: the future hindex is currently owned. -/
def ownedNow (refHindex_ nPatches_now r : Nat) : Bool :=
  decide ((r : Int) ≥ refHindex_ ∧ (r : Int) ≤ (refHindex_ : Int) + nPatches_now - 1)

/-- Backward loop on future patches, `for (ipatch = size-1; ipatch >= 0; ipatch--)`;
the first argument is `ipatch + 1`.  The state is `(recv_patch_id_, existing_patch_id)`. -/
def backwardScan (refHindex_ nPatches_now : Nat) : Nat → List Nat × Int → List Nat × Int
  | 0, st => st
  | ipatch + 1, (recv, existing_patch_id) =>
    match recv[ipatch]? with
    | none => backwardScan refHindex_ nPatches_now ipatch (recv, existing_patch_id)
    | some r =>
      if ownedNow refHindex_ nPatches_now r then
        backwardScan refHindex_ nPatches_now ipatch (recv.eraseIdx ipatch, (r : Int))
      else
        backwardScan refHindex_ nPatches_now ipatch (recv, existing_patch_id)

/-- Creation of the new patches:
`for (ipatch=0; ipatch<recv_patch_id_.size(); ipatch++)
recv_patches_.push_back(PatchesFactory::clone(existing_patch, ..., recv_patch_id_[ipatch],
n_moved, false));` -/
def cloneLoop (existing_patch : Patch) (n_moved : Nat) (recv_patch_id_ : List Nat) : List Patch :=
  recv_patch_id_.foldl
    (fun recv_patches h => recv_patches ++ [PatchesFactory.clone existing_patch h n_moved])
    []

/-- The local `n_moved`:
`unsigned int n_moved(0); ... if (simWindow) n_moved = simWindow->getNmoved();`
with `none` for a null pointer. -/
def nMovedOf (simWindow : Option Nat) : Nat :=
  match simWindow with
  | some n => n
  | none => 0

/-- Result of `createPatches`: the new members and the two locals
`existing_patch_id`, `existing_patch` the clones were made from. -/
structure Created where
  vp : VectorPatch
  existing_patch_id : Int
  existing_patch : Patch
  deriving DecidableEq

/-- The method `VectorPatch::createPatches`.  `simWindow` is `none` for a null pointer and
`some n` for a window with `getNmoved() = n`. -/
def createPatches (simWindow : Option Nat) (rank : Nat)
    (patch_count : Nat → Nat) (v : VectorPatch) : Except Fault Created :=
  match v.patches_ with
  | [] => Except.error Fault.invalidPatch
  | p0 :: _ =>
    let refHindex_ := p0.hindex
    let nPatches_now := v.patches_.length
    let istart := istartOf rank patch_count
    let recv0 := recvInit istart (patch_count rank)
    match sendLoop refHindex_ recv0 nPatches_now with
    | Except.error e => Except.error e
    | Except.ok send =>
      let scan := backwardScan refHindex_ nPatches_now recv0.length (recv0, -1)
      let recv := scan.1
      let existing_patch_id := scan.2
      if existing_patch_id < 0 then Except.error Fault.noPatchToClone
      else if existing_patch_id - refHindex_ < 0 then Except.error Fault.invalidPatch
      else
        match v.patches_[(existing_patch_id - refHindex_).toNat]? with
        | none => Except.error Fault.invalidPatch
        | some existing_patch =>
          let n_moved := nMovedOf simWindow
          Except.ok
            { vp :=
                { patches_ := v.patches_
                  refHindex_ := refHindex_
                  recv_patch_id_ := recv
                  send_patch_id_ := send
                  recv_patches_ := cloneLoop existing_patch n_moved recv }
              existing_patch_id := existing_patch_id
              existing_patch := existing_patch }

/-! ## `exchangePatches` -/

/-- The value of a 32-bit `int` that holds the integer `x`: `x` modulo `2^32`, taken in
`[-2^31, 2^31)`. -/
def wrapInt32 (x : Int) : Int := (x + 2147483648) % 4294967296 - 2147483648

/-- The tag multiplier `int nmessage = 2*nSpecies + (2+nDim_particle)*probes.size() + 9
+ antennas.size() + 4*nmax_laser` with `nmax_laser = 4`. -/
def nmessageOf (nSpecies nDim_particle nProbes nAntennas : Nat) : Int :=
  wrapInt32 ((2 * nSpecies + (2 + nDim_particle) * nProbes + 9 + nAntennas + 4 * 4 : Nat) : Int)

/-- Tag of the isend of the patch at local index `id`, an `int`:
`(refHindex_+send_patch_id_[ipatch])*nmessage`. -/
def sendTag (refHindex_ id : Nat) (nmessage : Int) : Int :=
  wrapInt32 (((refHindex_ + id : Nat) : Int) * nmessage)

/-- Tag of the recv of the patch with hindex `h`, an `int`:
`recv_patch_id_[ipatch]*nmessage`. -/
def recvTag (h : Nat) (nmessage : Int) : Int := wrapInt32 ((h : Int) * nmessage)

/-- The send loop; the last argument is the running `newMPIrank`. -/
def sendPosts (rank refHindex_ istart : Nat) (nmessage : Int) (patches_ : List Patch) :
    List Nat → Int → Except Fault (List Call)
  | [], _ => Except.ok []
  | id :: rest, newMPIrank =>
    let newMPIrank := if id + refHindex_ > istart then (rank : Int) + 1 else newMPIrank
    match patches_[id]? with
    | none => Except.error Fault.invalidPatch
    | some p =>
      match sendPosts rank refHindex_ istart nmessage patches_ rest newMPIrank with
      | Except.error e => Except.error e
      | Except.ok calls =>
        Except.ok (Call.isend p newMPIrank (sendTag refHindex_ id nmessage) :: calls)

/-- The receive loop; `ipatch` is the loop counter and the last argument the
running `oldMPIrank`. -/
def recvPosts (rank refHindex_ : Nat) (nmessage : Int) (recv_patches_ : List Patch) :
    List Nat → Nat → Int → Except Fault (List Call)
  | [], _, _ => Except.ok []
  | h :: rest, ipatch, oldMPIrank =>
    let oldMPIrank := if h > refHindex_ then (rank : Int) + 1 else oldMPIrank
    match recv_patches_[ipatch]? with
    | none => Except.error Fault.invalidPatch
    | some p =>
      match recvPosts rank refHindex_ nmessage recv_patches_ rest (ipatch + 1) oldMPIrank with
      | Except.error e => Except.error e
      | Except.ok calls =>
        Except.ok (Call.recv p oldMPIrank (recvTag h nmessage) :: calls)

/-- Delete sent patches, `for (ipatch=nPatchSend-1; ipatch>=0; ipatch--)`: the
argument is the part of `send_patch_id_` still to visit, last entry first. -/
def deleteSent : List Nat → List Patch → Except Fault (List Call × List Patch)
  | [], patches_ => Except.ok ([], patches_)
  | id :: rest, patches_ =>
    match patches_[id]? with
    | none => Except.error Fault.invalidPatch
    | some p =>
      match deleteSent rest (patches_.eraseIdx id) with
      | Except.error e => Except.error e
      | Except.ok (calls, ps) => Except.ok (Call.delete p :: calls, ps)

/-- The call `patches_.insert(patches_.begin()+ipatch, p)`. -/
def insertAt (ipatch : Nat) (p : Patch) (patches_ : List Patch) : List Patch :=
  patches_.take ipatch ++ p :: patches_.drop ipatch

/-- Put received patches in the local vector: `push_back` when
`recv_patch_id_[ipatch] > refHindex_`, else `insert` at `begin()+ipatch`. -/
def insertReceived (refHindex_ : Nat) (recv_patches_ : List Patch) :
    List Nat → Nat → List Patch → Except Fault (List Patch)
  | [], _, patches_ => Except.ok patches_
  | h :: rest, ipatch, patches_ =>
    match recv_patches_[ipatch]? with
    | none => Except.error Fault.invalidPatch
    | some p =>
      if h > refHindex_ then
        insertReceived refHindex_ recv_patches_ rest (ipatch + 1) (patches_ ++ [p])
      else if ipatch ≤ patches_.length then
        insertReceived refHindex_ recv_patches_ rest (ipatch + 1) (insertAt ipatch p patches_)
      else Except.error Fault.invalidPatch

/-- Modelled from the spec: `VectorPatch::set_refHindex` (declared in a header
that is not in the sources at hand) sets `refHindex_` to the "hindex of the first
locally owned patch". -/
def set_refHindex (old : Nat) (patches_ : List Patch) : Nat :=
  match patches_ with
  | [] => old
  | p :: _ => p.hindex

/-- The method `VectorPatch::exchangePatches`: the calls made, in order, and the members
afterwards. -/
def exchangePatches (rank : Nat) (patch_count : Nat → Nat) (nDim_particle : Nat)
    (v : VectorPatch) : Except Fault (List Call × VectorPatch) :=
  match v.patches_ with
  | [] => Except.error Fault.invalidPatch
  | p0 :: _ =>
    let istart := istartOf rank patch_count
    let nmessage := nmessageOf p0.nSpecies nDim_particle p0.nProbes p0.nAntennas
    match sendPosts rank v.refHindex_ istart nmessage v.patches_ v.send_patch_id_
        ((rank : Int) - 1) with
    | Except.error e => Except.error e
    | Except.ok sends =>
      match recvPosts rank v.refHindex_ nmessage v.recv_patches_ v.recv_patch_id_ 0
          ((rank : Int) - 1) with
      | Except.error e => Except.error e
      | Except.ok recvs =>
        match deleteSent v.send_patch_id_.reverse v.patches_ with
        | Except.error e => Except.error e
        | Except.ok (deletes, kept) =>
          match insertReceived v.refHindex_ v.recv_patches_ v.recv_patch_id_ 0 kept with
          | Except.error e => Except.error e
          | Except.ok patches =>
            Except.ok
              (sends ++ recvs ++ [Call.barrier] ++ deletes
                  ++ patches.map Call.updateMPIenv ++ [Call.update_field_list],
                { patches_ := patches
                  refHindex_ := set_refHindex v.refHindex_ patches
                  recv_patch_id_ := v.recv_patch_id_
                  send_patch_id_ := v.send_patch_id_
                  recv_patches_ := [] })

/-- The two steps of `VectorPatch::load_balance` that follow the recomputation of
`patch_count`: `createPatches`, then `exchangePatches`. -/
def rebalance (simWindow : Option Nat) (rank : Nat)
    (patch_count : Nat → Nat) (nDim_particle : Nat) (v : VectorPatch) :
    Except Fault (List Call × VectorPatch) :=
  match createPatches simWindow rank patch_count v with
  | Except.error e => Except.error e
  | Except.ok c => exchangePatches rank patch_count nDim_particle c.vp

/-! ## Scenario A -/

/-- A resident patch with hindex `h` (one species, no probe, no antenna). -/
def residentPatch (h : Nat) : Patch :=
  { hindex := h, nSpecies := 1, nProbes := 0, nAntennas := 0, origin := PatchOrigin.resident h }

/-- A rank that owns the resident patches `first, ..., first+n-1`. -/
def residentRank (first n : Nat) : VectorPatch :=
  { patches_ := (List.range n).map (fun i => residentPatch (first + i))
    refHindex_ := first
    recv_patch_id_ := []
    send_patch_id_ := []
    recv_patches_ := [] }

/-- An ownership table given by the list of its counts. -/
def tableOf (counts : List Nat) : Nat → Nat := fun rank => counts.getD rank 0

/-- Hindices of a patch sequence, in order. -/
def hindexes (ps : List Patch) : List Nat := ps.map Patch.hindex

/-- The `isend` calls of a trace, in order: patch, destination rank, tag. -/
def isendsOf (calls : List Call) : List (Patch × Int × Int) :=
  calls.filterMap (fun c =>
    match c with
    | Call.isend p dest tag => some (p, dest, tag)
    | _ => none)

/-- The `recv` calls of a trace, in order: patch, source rank, tag. -/
def recvsOf (calls : List Call) : List (Patch × Int × Int) :=
  calls.filterMap (fun c =>
    match c with
    | Call.recv p source tag => some (p, source, tag)
    | _ => none)

/-- The calls of rank 1 in a rebalance of two ranks from the ownership
`[159072863, 2]` to `[159072864, 1]`: rank 1 holds the hindices 159072863 and 159072864
and gives the first one to rank 0. -/
def overflowCalls : List Call :=
  match rebalance none 1 (tableOf [159072864, 1]) 1 (residentRank 159072863 2) with
  | Except.ok (calls, _) => calls
  | Except.error _ => []

/-- Scenario A before the rebalance: 3 ranks, 8 patches, ownership `[3,3,2]`. -/
def scenarioABefore (rank : Nat) : VectorPatch :=
  match rank with
  | 0 => residentRank 0 3
  | 1 => residentRank 3 3
  | _ => residentRank 6 2

/-- Scenario A after `createPatches` and `exchangePatches` with the map `[2,3,3]`
(one-dimensional particles). -/
def scenarioAAfter (rank : Nat) : VectorPatch :=
  match rebalance none rank (tableOf [2, 3, 3]) 1 (scenarioABefore rank) with
  | Except.ok (_, w) => w
  | Except.error _ => scenarioABefore rank

/-- The calls made on each rank of Scenario A. -/
def scenarioACalls (rank : Nat) : List Call :=
  match rebalance none rank (tableOf [2, 3, 3]) 1 (scenarioABefore rank) with
  | Except.ok (calls, _) => calls
  | Except.error _ => []

/-- The result of `createPatches` on each rank of Scenario A. -/
def scenarioACreated (rank : Nat) : Created :=
  match createPatches none rank (tableOf [2, 3, 3]) (scenarioABefore rank) with
  | Except.ok c => c
  | Except.error _ =>
    { vp := scenarioABefore rank, existing_patch_id := -1, existing_patch := residentPatch 0 }

/-! ## Moving window: data model -/

/-- A table of `int` indexed as `t[idim][side]`, like `neighbor_` and `MPI_neighbor_`. -/
abbrev NeighborTable : Type := Nat → Nat → Int

/-- The assignment `t[idim][side] = v`. -/
def NeighborTable.assign (t : NeighborTable) (idim side : Nat) (v : Int) : NeighborTable :=
  fun i s => if i = idim ∧ s = side then v else t i s

/-- The part of a `Patch` object that `SimWindow::operate` reads and writes.  `D` stands
for `double`; `fieldNRJ` is what `EMfields->computeNRJ()` returns and `speciesNRJ ispec`
what `vecSpecies[ispec]->computeNRJ()` returns; `nSpecies` is `vecSpecies.size()`. -/
structure WindowPatch (D : Type) where
  hindex : Int
  Pcoordinates0 : Nat
  MPI_me_ : Int
  neighbor_ : NeighborTable
  MPI_neighbor_ : NeighborTable
  tmp_neighbor_ : NeighborTable
  tmp_MPI_neighbor_ : NeighborTable
  nSpecies : Nat
  fieldNRJ : D
  speciesNRJ : Nat → D

/-- A pointer to a patch object: the object `vecPatches_old[ipatch]` points to, or the
object made by the `j`-th call of `PatchesFactory::clone` of this tick. -/
inductive PatchRef where
  | old (ipatch : Nat)
  | created (j : Nat)
  deriving DecidableEq

/-- The members of `SimWindow`. -/
structure SimWindow (D : Type) where
  active : Bool
  time_start : D
  velocity_x : D
  cell_length_x_ : D
  x_moved : D
  n_moved : Nat

/-- What `SimWindow::operate` takes from `Params`, `SmileiMPI` and `VectorPatch`, and the
code it calls that is not in the sources at hand: the `Patch` predicates `isXmin`,
`isXmax`, `wasXmax`, `has_an_MPI_neighbor`, and the patch object that
`PatchesFactory::clone` followed by `finalizeMPIenvironment` produces from a template, a
hindex and `n_moved`.  `trackDiags` lists the indices `idiag` of `localDiags` that are a
`DiagnosticTrack`. -/
structure WindowEnv (D : Type) where
  MPI_PROC_NULL : Int
  nrequests : Int
  n_space0 : Nat
  nDim_particle : Nat
  restart : Bool
  itime : Nat
  trackDiags : List Nat
  isXmin : WindowPatch D → Bool
  isXmax : WindowPatch D → Bool
  wasXmax : WindowPatch D → Bool
  has_an_MPI_neighbor : WindowPatch D → Bool
  clone : WindowPatch D → Int → Nat → WindowPatch D

/-- Calls made by `SimWindow::operate` on its collaborators, in program order. -/
inductive WindowCall (D : Type) where
  | laserDisabled (p : PatchRef)
  | isend (p : PatchRef) (dest : Int) (tag : Int)
  | disableXmax (p : PatchRef) (ispec : Nat)
  | clone (template : PatchRef) (hindex : Int) (n_moved : Nat)
  | finalizeMPIenvironment (p : PatchRef)
  | recv (p : PatchRef) (source : Int) (tag : Int)
  | createParticles (p : PatchRef) (ispec : Nat)
  | setIDs (idiag : Nat) (p : PatchRef)
  | updateGridSize (p : PatchRef) (arg : PatchRef)
  | waitall (p : PatchRef)
  | updateTagenv (p : PatchRef)
  | setXminBoundaryCondition (p : PatchRef) (ispec : Nat)
  | createType (p : PatchRef)
  | cleanType (p : PatchRef)
  | rebuildBoundCond (p : PatchRef)
  | update_field_list
  | delete (p : PatchRef)
  | storeNRJlostField (p : PatchRef) (energy : D)
  | storeNRJlostSpecies (p : PatchRef) (ispec : Nat) (energy : D)
  deriving DecidableEq

/-- The locals and members `SimWindow::operate` works on.  `objs[i]` is the object
`vecPatches_old[i]` points to, `news[j]` the object made by the `j`-th clone;
`delete_patches_`, `update_patches_` and `send_patches_` only ever hold pointers of
`vecPatches_old` and are kept as the indices of these. -/
structure WindowState (D : Type) where
  objs : List (WindowPatch D)
  news : List (WindowPatch D)
  patches_ : List PatchRef
  patch_to_be_created : List Nat
  delete_patches_ : List Nat
  update_patches_ : List Nat
  send_patches_ : List Nat
  calls : List (WindowCall D)

/-- The `VectorPatch` members `SimWindow::operate` uses. -/
structure WindowVectorPatch (D : Type) where
  patches_ : List (WindowPatch D)
  lastIterationPatchesMoved : Nat

/-- Everything `SimWindow::operate` leaves behind: the window, the objects and lists,
the patch sequence with every pointer followed, and the two lost-energy amounts. -/
structure WindowResult (D : Type) where
  window : SimWindow D
  state : WindowState D
  patches : List (WindowPatch D)
  lastIterationPatchesMoved : Nat
  energy_field_lost : D
  energy_part_lost : Nat → D

/-- The object a pointer points to. -/
def deref {D : Type} (objs news : List (WindowPatch D)) : PatchRef → Option (WindowPatch D)
  | PatchRef.old ipatch => objs[ipatch]?
  | PatchRef.created j => news[j]?

/-! ## Moving window: `isMoving` and `operate` -/

/-- The method `SimWindow::isMoving`:
`return active && ((time_dual - time_start)*velocity_x > x_moved);` -/
def isMoving {D : Type} [Sub D] [Mul D] [LT D] [DecidableRel (fun a b : D => a < b)]
    (w : SimWindow D) (time_dual : D) : Bool :=
  w.active && decide ((time_dual - w.time_start) * w.velocity_x > w.x_moved)

/-- The decrement `Pcoordinates[0] -= 1` of an `unsigned int`. -/
def decrementUnsigned (x : Nat) : Nat := (x + 4294967295) % 4294967296

/-- The first four assignments of the relabelling branch:
`Pcoordinates[0] -= 1; neighbor_[0][1] = hindex; hindex = neighbor_[0][0];
MPI_neighbor_[0][1] = MPI_me_;` -/
def becomeLeftNeighbor {D : Type} (mypatch : WindowPatch D) : WindowPatch D :=
  { mypatch with
    Pcoordinates0 := decrementUnsigned mypatch.Pcoordinates0
    neighbor_ := mypatch.neighbor_.assign 0 1 mypatch.hindex
    hindex := mypatch.neighbor_ 0 0
    MPI_neighbor_ := mypatch.MPI_neighbor_.assign 0 1 mypatch.MPI_me_ }

/-- One turn of `for (idim = 1; idim < nDim_particle; idim++)` of the staging: the four
`tmp_` entries of `mypatch` for `idim` are read from `left`. -/
def stageDim {D : Type} (left : WindowPatch D) (mypatch : WindowPatch D) (idim : Nat) :
    WindowPatch D :=
  { mypatch with
    tmp_neighbor_ :=
      (mypatch.tmp_neighbor_.assign idim 0 (left.neighbor_ idim 0)).assign idim 1
        (left.neighbor_ idim 1)
    tmp_MPI_neighbor_ :=
      (mypatch.tmp_MPI_neighbor_.assign idim 0 (left.MPI_neighbor_ idim 0)).assign idim 1
        (left.MPI_neighbor_ idim 1) }

/-- The staging of the relabelling branch: `tmp_neighbor_[0][0]` and
`tmp_MPI_neighbor_[0][0]`, then the loop on `idim`, all read from
`left = vecPatches_old[mypatch->hindex - h0]`.  The reads touch `neighbor_` and
`MPI_neighbor_` only and the writes `tmp_neighbor_` and `tmp_MPI_neighbor_` only, so
`left` is read once even when it is `mypatch` itself. -/
def stageNeighbors {D : Type} (nDim_particle : Nat) (left : WindowPatch D)
    (mypatch : WindowPatch D) : WindowPatch D :=
  (List.range' 1 (nDim_particle - 1)).foldl (stageDim left)
    { mypatch with
      tmp_neighbor_ := mypatch.tmp_neighbor_.assign 0 0 (left.neighbor_ 0 0)
      tmp_MPI_neighbor_ := mypatch.tmp_MPI_neighbor_.assign 0 0 (left.MPI_neighbor_ 0 0) }

/-- The calls `for (ispec < nSpecies) mypatch->vecSpecies[ispec]->disableXmax();` made
when `mypatch->isXmax()`. -/
def disableXmaxCalls {D : Type} (env : WindowEnv D) (nSpecies : Nat) (ipatch : Nat)
    (mypatch : WindowPatch D) : List (WindowCall D) :=
  if env.isXmax mypatch then
    (List.range nSpecies).map (fun ispec => WindowCall.disableXmax (PatchRef.old ipatch) ispec)
  else []

/-- The loop on the patches of `vecPatches_old` (lines 96 to 138); the list is the part
of `0, ..., nPatches-1` still to visit. -/
def relabelLoop {D : Type} (env : WindowEnv D) (h0 : Int) (nSpecies : Nat) :
    List Nat → WindowState D → Except Fault (WindowState D)
  | [], st => Except.ok st
  | ipatch :: rest, st =>
    match st.objs[ipatch]? with
    | none => Except.error Fault.invalidPatch
    | some mypatch =>
      let tbc :=
        if mypatch.MPI_neighbor_ 0 1 ≠ mypatch.MPI_me_ then st.patch_to_be_created ++ [ipatch]
        else st.patch_to_be_created
      if mypatch.MPI_neighbor_ 0 0 ≠ mypatch.MPI_me_ then
        if mypatch.MPI_neighbor_ 0 0 ≠ env.MPI_PROC_NULL then
          relabelLoop env h0 nSpecies rest
            { st with
              patch_to_be_created := tbc
              delete_patches_ := st.delete_patches_ ++ [ipatch]
              send_patches_ := st.send_patches_ ++ [ipatch]
              calls := st.calls ++
                [WindowCall.isend (PatchRef.old ipatch) (mypatch.MPI_neighbor_ 0 0)
                  (mypatch.neighbor_ 0 0 * env.nrequests)] }
        else
          relabelLoop env h0 nSpecies rest
            { st with
              patch_to_be_created := tbc
              delete_patches_ := st.delete_patches_ ++ [ipatch] }
      else
        let moved := becomeLeftNeighbor mypatch
        let objs1 := st.objs.set ipatch moved
        if moved.hindex - h0 < 0 then Except.error Fault.invalidPatch
        else
          match objs1[(moved.hindex - h0).toNat]? with
          | none => Except.error Fault.invalidPatch
          | some left =>
            relabelLoop env h0 nSpecies rest
              { st with
                objs := objs1.set ipatch (stageNeighbors env.nDim_particle left moved)
                patches_ := st.patches_.set (moved.hindex - h0).toNat (PatchRef.old ipatch)
                patch_to_be_created := tbc
                update_patches_ := st.update_patches_ ++ [ipatch]
                calls := st.calls ++ disableXmaxCalls env nSpecies ipatch mypatch }

/-- Modelled from the spec: `PatchesFactory::clone` and `finalizeMPIenvironment` (not in
the sources at hand) make the new patch "cloned from the first local patch as template,
offset by the new `n_moved`" at the hindex it is asked for; everything else about the
object is the parameter `env.clone`. -/
def newPatch {D : Type} (env : WindowEnv D) (template : WindowPatch D) (hindex : Int)
    (n_moved : Nat) : WindowPatch D :=
  { env.clone template hindex n_moved with hindex := hindex }

/-- The calls of one turn of the creation loop after the clone: a `recv` from the right
neighbour's rank when there is one, else the forced creation of particles (under
`params.restart`) and the `setIDs` of every `DiagnosticTrack`; then `laserDisabled` and
`updateGridSize`. -/
def createCalls {D : Type} (env : WindowEnv D) (nSpecies : Nat) (template : PatchRef)
    (me : PatchRef) (mypatch : WindowPatch D) (n_moved : Nat) : List (WindowCall D) :=
  [WindowCall.clone template mypatch.hindex n_moved, WindowCall.finalizeMPIenvironment me]
    ++ (if mypatch.MPI_neighbor_ 0 1 ≠ env.MPI_PROC_NULL then
          [WindowCall.recv me (mypatch.MPI_neighbor_ 0 1) (mypatch.hindex * env.nrequests)]
        else
          (if env.restart then
              (List.range nSpecies).map (fun ispec => WindowCall.createParticles me ispec)
            else [])
            ++ env.trackDiags.map (fun idiag => WindowCall.setIDs idiag me))
    ++ [WindowCall.laserDisabled me, WindowCall.updateGridSize me me]

/-- Creation of new patches (lines 145 to 168); the list is the part of
`patch_to_be_created` still to visit.  `vecPatches(0)` is read anew in every turn. -/
def createLoop {D : Type} (env : WindowEnv D) (h0 : Int) (nSpecies : Nat) (n_moved : Nat) :
    List Nat → WindowState D → Except Fault (WindowState D)
  | [], st => Except.ok st
  | ipatch :: rest, st =>
    match st.patches_[0]? with
    | none => Except.error Fault.invalidPatch
    | some first =>
      match deref st.objs st.news first with
      | none => Except.error Fault.invalidPatch
      | some template =>
        createLoop env h0 nSpecies n_moved rest
          { st with
            news := st.news ++ [newPatch env template (h0 + ipatch) n_moved]
            patches_ := st.patches_.set ipatch (PatchRef.created st.news.length)
            calls := st.calls ++
              createCalls env nSpecies first (PatchRef.created st.news.length)
                (newPatch env template (h0 + ipatch) n_moved) n_moved }

/-- Wait for sends to be completed (lines 171 to 175). -/
def waitCalls {D : Type} (env : WindowEnv D) (objs : List (WindowPatch D)) :
    List (WindowCall D) :=
  (List.range objs.length).flatMap (fun ipatch =>
    match objs[ipatch]? with
    | none => []
    | some p =>
      if p.MPI_neighbor_ 0 0 ≠ p.MPI_me_ ∧ p.MPI_neighbor_ 0 0 ≠ env.MPI_PROC_NULL then
        [WindowCall.waitall (PatchRef.old ipatch)]
      else [])

/-- One turn of `for (idim = 1; idim < nDim_particle; idim++)` of the commit. -/
def commitDim {D : Type} (mypatch : WindowPatch D) (idim : Nat) : WindowPatch D :=
  { mypatch with
    MPI_neighbor_ :=
      (mypatch.MPI_neighbor_.assign idim 0 (mypatch.tmp_MPI_neighbor_ idim 0)).assign idim 1
        (mypatch.tmp_MPI_neighbor_ idim 1)
    neighbor_ :=
      (mypatch.neighbor_.assign idim 0 (mypatch.tmp_neighbor_ idim 0)).assign idim 1
        (mypatch.tmp_neighbor_ idim 1) }

/-- The commit of one relabelled patch: `MPI_neighbor_[0][0]` and `neighbor_[0][0]` from
the `tmp_` tables, then the loop on `idim`. -/
def commitNeighbors {D : Type} (nDim_particle : Nat) (mypatch : WindowPatch D) :
    WindowPatch D :=
  (List.range' 1 (nDim_particle - 1)).foldl commitDim
    { mypatch with
      MPI_neighbor_ := mypatch.MPI_neighbor_.assign 0 0 (mypatch.tmp_MPI_neighbor_ 0 0)
      neighbor_ := mypatch.neighbor_.assign 0 0 (mypatch.tmp_neighbor_ 0 0) }

/-- Update the correct neighbor values (lines 179 to 189), over `update_patches_`. -/
def commitLoop {D : Type} (nDim_particle : Nat) :
    List Nat → List (WindowPatch D) → List (WindowPatch D)
  | [], objs => objs
  | j :: rest, objs =>
    match objs[j]? with
    | none => commitLoop nDim_particle rest objs
    | some mypatch =>
      commitLoop nDim_particle rest (objs.set j (commitNeighbors nDim_particle mypatch))

/-- The value of the local `mypatch` when the loop of lines 191 to 219 starts: the last
pointer of `update_patches_`, else the last created patch, else `vecPatches_old[nPatches-1]`. -/
def staleMypatch (nPatches : Nat) (patch_to_be_created update_patches_ : List Nat) : PatchRef :=
  match update_patches_.getLast? with
  | some j => PatchRef.old j
  | none =>
    match patch_to_be_created with
    | [] => PatchRef.old (nPatches - 1)
    | _ :: _ => PatchRef.created (patch_to_be_created.length - 1)

/-- The calls of one turn of the loop of lines 191 to 219 on the patch `p` in slot
`ipatch`, reached through the pointer `r`. -/
def refreshCalls {D : Type} (env : WindowEnv D) (nSpecies : Nat) (mypatch : PatchRef)
    (r : PatchRef) (p : WindowPatch D) : List (WindowCall D) :=
  [WindowCall.updateTagenv r]
    ++ (if env.isXmin p then
          (List.range nSpecies).map (fun ispec => WindowCall.setXminBoundaryCondition r ispec)
        else [])
    ++ [if env.has_an_MPI_neighbor p then WindowCall.createType r else WindowCall.cleanType r]
    ++ (if env.isXmin p then [WindowCall.rebuildBoundCond r, WindowCall.laserDisabled r]
        else [])
    ++ (if env.wasXmax p then
          [WindowCall.rebuildBoundCond r, WindowCall.laserDisabled r,
            WindowCall.updateGridSize r mypatch]
        else [])

/-- The loop of lines 191 to 219 over the patch sequence. -/
def refreshLoop {D : Type} (env : WindowEnv D) (nSpecies : Nat) (mypatch : PatchRef)
    (objs news : List (WindowPatch D)) (patches_ : List PatchRef) : List (WindowCall D) :=
  patches_.flatMap (fun r =>
    match deref objs news r with
    | none => []
    | some p => refreshCalls env nSpecies mypatch r p)

/-- Delete useless patches (lines 234 to 249): the state is `energy_field_lost` and
`energy_part_lost`; the Poynting sums, which no other part of the function reads, are
left out. -/
def lostEnergy {D : Type} [Add D] (env : WindowEnv D) (nSpecies : Nat)
    (objs : List (WindowPatch D)) : List Nat → D × (Nat → D) → D × (Nat → D)
  | [], acc => acc
  | j :: rest, (energy_field_lost, energy_part_lost) =>
    match objs[j]? with
    | none => lostEnergy env nSpecies objs rest (energy_field_lost, energy_part_lost)
    | some mypatch =>
      if env.isXmin mypatch then
        lostEnergy env nSpecies objs rest
          (energy_field_lost + mypatch.fieldNRJ,
            fun ispec =>
              if ispec < nSpecies then energy_part_lost ispec + mypatch.speciesNRJ ispec
              else energy_part_lost ispec)
      else lostEnergy env nSpecies objs rest (energy_field_lost, energy_part_lost)

/-- The calls `delete mypatch` of lines 234 to 249. -/
def deleteCalls {D : Type} (delete_patches_ : List Nat) : List (WindowCall D) :=
  delete_patches_.map (fun j => WindowCall.delete (PatchRef.old j))

/-- The calls of lines 251 to 253 on `vecPatches(0)`. -/
def storeCalls {D : Type} (nSpecies : Nat) (first : PatchRef) (energy_field_lost : D)
    (energy_part_lost : Nat → D) : List (WindowCall D) :=
  WindowCall.storeNRJlostField first energy_field_lost
    :: (List.range nSpecies).map (fun ispec =>
        WindowCall.storeNRJlostSpecies first ispec (energy_part_lost ispec))

/-- The state at line 95 of an advancing tick: `vecPatches_old` holds the pointers of
the patch sequence and every patch got `laserDisabled`. -/
def initialState {D : Type} (patches_ : List (WindowPatch D)) : WindowState D :=
  { objs := patches_
    news := []
    patches_ := (List.range patches_.length).map PatchRef.old
    patch_to_be_created := []
    delete_patches_ := []
    update_patches_ := []
    send_patches_ := []
    calls := (List.range patches_.length).map (fun ipatch =>
      WindowCall.laserDisabled (PatchRef.old ipatch)) }

/-- The method `SimWindow::operate`. -/
def operate {D : Type} [Zero D] [Add D] [Sub D] [Mul D] [NatCast D] [LT D]
    [DecidableRel (fun a b : D => a < b)]
    (env : WindowEnv D) (w : SimWindow D) (vecPatches : WindowVectorPatch D) (time_dual : D) :
    Except Fault (WindowResult D) :=
  if ! isMoving w time_dual then
    Except.ok
      { window := w
        state := { initialState vecPatches.patches_ with calls := [] }
        patches := vecPatches.patches_
        lastIterationPatchesMoved := vecPatches.lastIterationPatchesMoved
        energy_field_lost := 0
        energy_part_lost := fun _ => 0 }
  else
    match vecPatches.patches_ with
    | [] => Except.error Fault.invalidPatch
    | p0 :: _ =>
      let h0 := p0.hindex
      let nSpecies := p0.nSpecies
      let x_moved := w.x_moved + w.cell_length_x_ * (env.n_space0 : D)
      let n_moved := w.n_moved + env.n_space0
      match relabelLoop env h0 nSpecies (List.range vecPatches.patches_.length)
          (initialState vecPatches.patches_) with
      | Except.error e => Except.error e
      | Except.ok st1 =>
        match createLoop env h0 nSpecies n_moved st1.patch_to_be_created st1 with
        | Except.error e => Except.error e
        | Except.ok st2 =>
          let waits := waitCalls env st2.objs
          let objs := commitLoop env.nDim_particle st2.update_patches_ st2.objs
          let refresh := refreshLoop env nSpecies
            (staleMypatch vecPatches.patches_.length st2.patch_to_be_created
              st2.update_patches_) objs st2.news st2.patches_
          let lost := lostEnergy env nSpecies objs st2.delete_patches_ (0, fun _ => 0)
          match st2.patches_[0]? with
          | none => Except.error Fault.invalidPatch
          | some first =>
            Except.ok
              { window := { w with x_moved := x_moved, n_moved := n_moved }
                state :=
                  { st2 with
                    objs := objs
                    calls := st2.calls ++ waits ++ refresh ++ [WindowCall.update_field_list]
                      ++ deleteCalls st2.delete_patches_
                      ++ storeCalls nSpecies first lost.1 lost.2 }
                patches := st2.patches_.filterMap (deref objs st2.news)
                lastIterationPatchesMoved := env.itime
                energy_field_lost := lost.1
                energy_part_lost := lost.2 }

/-! ## Lifetime of send buffers -/

/-- The three calls that matter for the lifetime of a patch used as a send buffer. -/
inductive BufferEvent (α : Type) where
  | isend (p : α)
  | waitall (p : α)
  | delete (p : α)
  deriving DecidableEq

/-- A call of `exchangePatches` seen as a buffer event. -/
def bufferEventOfCall : Call → Option (BufferEvent Patch)
  | Call.isend p _ _ => some (BufferEvent.isend p)
  | Call.delete p => some (BufferEvent.delete p)
  | _ => none

/-- A call of `SimWindow::operate` seen as a buffer event. -/
def bufferEventOfWindowCall {D : Type} : WindowCall D → Option (BufferEvent PatchRef)
  | WindowCall.isend p _ _ => some (BufferEvent.isend p)
  | WindowCall.waitall p => some (BufferEvent.waitall p)
  | WindowCall.delete p => some (BufferEvent.delete p)
  | _ => none

/-- In a sequence of buffer events, every `delete` of a patch that was passed to an
earlier `isend` has a `waitall` on that patch between the two. -/
def WaitedBeforeDelete {α : Type} (evs : List (BufferEvent α)) : Prop :=
  ∀ (i j : Nat) (p : α), j < i → evs[j]? = some (BufferEvent.isend p) →
    evs[i]? = some (BufferEvent.delete p) →
    ∃ k : Nat, j < k ∧ k < i ∧ evs[k]? = some (BufferEvent.waitall p)

/-! ## Scenario B and a two-rank window -/

/-- A patch of a line of `nx` patches owned by `owner`, all on rank `me` except that
the patch left of hindex `first` is on rank `me - 1`: hindex `h`, left neighbour `h-1`
and right neighbour `h+1`, the sentinel `-2` beyond the two ends, field energy `10+h`
and two species with energies `100*(h+1)` and `100*(h+1)+1`. -/
def linePatch (me : Int) (first nx : Int) (h : Int) : WindowPatch Int :=
  { hindex := h
    Pcoordinates0 := h.toNat
    MPI_me_ := me
    neighbor_ := fun idim side =>
      if idim = 0 then
        (if side = 0 then (if h = 0 then -2 else h - 1)
          else (if h + 1 = nx then -2 else h + 1))
      else -2
    MPI_neighbor_ := fun idim side =>
      if idim = 0 then
        (if side = 0 then (if h = 0 then -2 else if h = first then me - 1 else me)
          else (if h + 1 = nx then -2 else me))
      else -2
    tmp_neighbor_ := fun _ _ => 0
    tmp_MPI_neighbor_ := fun _ _ => 0
    nSpecies := 2
    fieldNRJ := 10 + h
    speciesNRJ := fun ispec => 100 * (h + 1) + ispec }

/-- The environment of the line: sentinel `-2`, one-dimensional particles, patches of
`n_space0` cells, a boundary patch being one whose neighbour rank is the sentinel. -/
def lineEnv (me first nx : Int) (n_space0 : Nat) (restart : Bool) : WindowEnv Int :=
  { MPI_PROC_NULL := -2
    nrequests := 27
    n_space0 := n_space0
    nDim_particle := 1
    restart := restart
    itime := 7
    trackDiags := [0]
    isXmin := fun p => decide (p.MPI_neighbor_ 0 0 = -2)
    isXmax := fun p => decide (p.MPI_neighbor_ 0 1 = -2)
    wasXmax := fun p => decide (p.hindex + 2 = nx)
    has_an_MPI_neighbor := fun p =>
      decide (p.MPI_neighbor_ 0 0 ≠ p.MPI_me_ ∧ p.MPI_neighbor_ 0 0 ≠ -2)
    clone := fun t h _ => { linePatch me first nx h with MPI_me_ := t.MPI_me_ } }

/-- The window of Scenario B: active, `velocity_x = 1`, `time_start = 0`, cells of
length 1, nothing moved yet. -/
def scenarioBWindow : SimWindow Int :=
  { active := true, time_start := 0, velocity_x := 1, cell_length_x_ := 1,
    x_moved := 0, n_moved := 0 }

/-- Scenario B: a single process (rank 0) with the 4 patches of hindex 0 to 3. -/
def scenarioBPatches : WindowVectorPatch Int :=
  { patches_ := [linePatch 0 0 4 0, linePatch 0 0 4 1, linePatch 0 0 4 2, linePatch 0 0 4 3]
    lastIterationPatchesMoved := 0 }

/-- The result of one tick of Scenario B at `time_dual = 1`. -/
def scenarioBResult (n_space0 : Nat) (restart : Bool) : Option (WindowResult Int) :=
  match operate (lineEnv 0 0 4 n_space0 restart) scenarioBWindow scenarioBPatches 1 with
  | Except.ok r => some r
  | Except.error _ => none

/-- Rank 1 of two ranks that share a line of 4 patches: it owns hindex 2 and 3, and
the left neighbour of its first patch is on rank 0. -/
def twoRankPatches : WindowVectorPatch Int :=
  { patches_ := [linePatch 1 2 4 2, linePatch 1 2 4 3]
    lastIterationPatchesMoved := 0 }

/-- The result of one tick on rank 1 of the two-rank window. -/
def twoRankResult : Option (WindowResult Int) :=
  match operate (lineEnv 1 2 4 1 false) scenarioBWindow twoRankPatches 1 with
  | Except.ok r => some r
  | Except.error _ => none

/-! ## `VectorPatch::dynamics` -/

/-- Calls made by `VectorPatch::dynamics`, in program order. -/
inductive DynamicsCall where
  | timersParticlesRestart
  | restartRhoJ (ipatch : Nat)
  | speciesDynamics (ipatch ispec : Nat)
  | timersParticlesUpdate
  | timersSyncPartRestart
  | exchangeParticles (ispec : Nat)
  | cleanParticlesOverhead (ipatch : Nat)
  | timersSyncPartUpdate
  deriving DecidableEq

/-- The body of the loop on patches: `restartRhoJ`, then the push of every species
with `isProj(time_dual, simWindow) || diag_flag`.  A patch is the list of the values
of `isProj` of its species. -/
def pushCalls (diag_flag : Bool) (ipatch : Nat) (vecSpecies : List Bool) : List DynamicsCall :=
  DynamicsCall.restartRhoJ ipatch
    :: (List.range vecSpecies.length).flatMap (fun ispec =>
        match vecSpecies[ispec]? with
        | none => []
        | some isProj =>
          if isProj || diag_flag then [DynamicsCall.speciesDynamics ipatch ispec] else [])

/-- The loop `for (ispec < (*this)(0)->vecSpecies.size())` that calls
`SyncVectorPatch::exchangeParticles` when the species of patch 0 `isProj`. -/
def exchangeCalls (vecSpecies0 : List Bool) : List DynamicsCall :=
  (List.range vecSpecies0.length).flatMap (fun ispec =>
    match vecSpecies0[ispec]? with
    | none => []
    | some isProj => if isProj then [DynamicsCall.exchangeParticles ispec] else [])

/-- The method `VectorPatch::dynamics`, one thread: `diag_flag` is the value of
`needsRhoJsNow(itime)`. -/
def dynamics (diag_flag : Bool) (itime : Int) (patches : List (List Bool)) :
    Except Fault (List DynamicsCall) :=
  match patches with
  | [] => Except.error Fault.invalidPatch
  | first :: _ =>
    Except.ok
      ([DynamicsCall.timersParticlesRestart]
        ++ (List.range patches.length).flatMap (fun ipatch =>
            match patches[ipatch]? with
            | none => []
            | some vecSpecies => pushCalls diag_flag ipatch vecSpecies)
        ++ [DynamicsCall.timersParticlesUpdate, DynamicsCall.timersSyncPartRestart]
        ++ exchangeCalls first
        ++ (if itime % 10 = 0 then
              (List.range patches.length).map DynamicsCall.cleanParticlesOverhead
            else [])
        ++ [DynamicsCall.timersSyncPartUpdate])

/-! ## Moving window: the loops in closed form -/

/-- The left neighbour belongs to this rank: `MPI_neighbor_[0][0] == MPI_me_`. -/
def leftIsMine {D : Type} (p : WindowPatch D) : Bool :=
  decide (p.MPI_neighbor_ 0 0 = p.MPI_me_)

/-- The right neighbour belongs to this rank: `MPI_neighbor_[0][1] == MPI_me_`. -/
def rightIsMine {D : Type} (p : WindowPatch D) : Bool :=
  decide (p.MPI_neighbor_ 0 1 = p.MPI_me_)

/-- The left neighbour belongs to another rank that exists: the patch is sent. -/
def leftIsRemote {D : Type} (env : WindowEnv D) (p : WindowPatch D) : Bool :=
  decide (p.MPI_neighbor_ 0 0 ≠ p.MPI_me_ ∧ p.MPI_neighbor_ 0 0 ≠ env.MPI_PROC_NULL)

/-- A test on the patch in slot `i` of a sequence, false when there is no such slot. -/
def testAt {D : Type} (pre : List (WindowPatch D)) (f : WindowPatch D → Bool) (i : Nat) : Bool :=
  match pre[i]? with
  | some p => f p
  | none => false

/-- The slot `neighbor_[0][0] - h0` a relabelled patch is stored in. -/
def relabelTarget {D : Type} (h0 : Int) (p : WindowPatch D) : Nat :=
  (p.neighbor_ 0 0 - h0).toNat

/-- What the first loop makes of the patch `p` of the sequence `pre`, in terms of the
sequence as it was before the tick. -/
def relabelled {D : Type} (nDim_particle : Nat) (h0 : Int) (pre : List (WindowPatch D))
    (p : WindowPatch D) : WindowPatch D :=
  if leftIsMine p then
    match pre[relabelTarget h0 p]? with
    | some left => stageNeighbors nDim_particle left (becomeLeftNeighbor p)
    | none => becomeLeftNeighbor p
  else p

/-- The calls of the turn `i` of the first loop, in terms of the sequence before the tick. -/
def relabelCallsOf {D : Type} (env : WindowEnv D) (nSpecies : Nat)
    (pre : List (WindowPatch D)) (i : Nat) : List (WindowCall D) :=
  match pre[i]? with
  | none => []
  | some p =>
    if leftIsMine p then disableXmaxCalls env nSpecies i p
    else if p.MPI_neighbor_ 0 0 ≠ env.MPI_PROC_NULL then
      [WindowCall.isend (PatchRef.old i) (p.MPI_neighbor_ 0 0)
        (p.neighbor_ 0 0 * env.nrequests)]
    else []

/-- The write of the turn `i` of the first loop into the patch sequence. -/
def slotStep {D : Type} (h0 : Int) (pre : List (WindowPatch D)) (slots : List PatchRef)
    (i : Nat) : List PatchRef :=
  match pre[i]? with
  | some p => if leftIsMine p then slots.set (relabelTarget h0 p) (PatchRef.old i) else slots
  | none => slots

/-- Two states of a patch object agree on what the relabelling of another patch reads
from it: `MPI_me_`, the left entries `[0][0]` and the transverse rows of the tables. -/
def SameFrame {D : Type} (p q : WindowPatch D) : Prop :=
  q.MPI_me_ = p.MPI_me_ ∧ q.MPI_neighbor_ 0 0 = p.MPI_neighbor_ 0 0
    ∧ q.neighbor_ 0 0 = p.neighbor_ 0 0
    ∧ ∀ idim side, 1 ≤ idim →
        q.neighbor_ idim side = p.neighbor_ idim side
          ∧ q.MPI_neighbor_ idim side = p.MPI_neighbor_ idim side

/-- Every neighbour that `MPI_neighbor_[0][0]` gives to this rank is a patch of the
local sequence: its hindex is one of `h0, ..., h0 + nPatches - 1`. -/
def RelabelValid {D : Type} (h0 : Int) (pre : List (WindowPatch D)) : Prop :=
  ∀ (i : Nat) (p : WindowPatch D), pre[i]? = some p → p.MPI_neighbor_ 0 0 = p.MPI_me_ →
    0 ≤ p.neighbor_ 0 0 - h0 ∧ (p.neighbor_ 0 0 - h0).toNat < pre.length

/-- One turn of the loop of lines 96 to 138, as `relabelLoop` makes it. -/
def relabelStep {D : Type} (env : WindowEnv D) (h0 : Int) (nSpecies : Nat) (ipatch : Nat)
    (st : WindowState D) : Except Fault (WindowState D) :=
  match st.objs[ipatch]? with
  | none => Except.error Fault.invalidPatch
  | some mypatch =>
    let tbc :=
      if mypatch.MPI_neighbor_ 0 1 ≠ mypatch.MPI_me_ then st.patch_to_be_created ++ [ipatch]
      else st.patch_to_be_created
    if mypatch.MPI_neighbor_ 0 0 ≠ mypatch.MPI_me_ then
      if mypatch.MPI_neighbor_ 0 0 ≠ env.MPI_PROC_NULL then
        Except.ok
          { st with
            patch_to_be_created := tbc
            delete_patches_ := st.delete_patches_ ++ [ipatch]
            send_patches_ := st.send_patches_ ++ [ipatch]
            calls := st.calls ++
              [WindowCall.isend (PatchRef.old ipatch) (mypatch.MPI_neighbor_ 0 0)
                (mypatch.neighbor_ 0 0 * env.nrequests)] }
      else
        Except.ok
          { st with
            patch_to_be_created := tbc
            delete_patches_ := st.delete_patches_ ++ [ipatch] }
    else
      let moved := becomeLeftNeighbor mypatch
      let objs1 := st.objs.set ipatch moved
      if moved.hindex - h0 < 0 then Except.error Fault.invalidPatch
      else
        match objs1[(moved.hindex - h0).toNat]? with
        | none => Except.error Fault.invalidPatch
        | some left =>
          Except.ok
            { st with
              objs := objs1.set ipatch (stageNeighbors env.nDim_particle left moved)
              patches_ := st.patches_.set (moved.hindex - h0).toNat (PatchRef.old ipatch)
              patch_to_be_created := tbc
              update_patches_ := st.update_patches_ ++ [ipatch]
              calls := st.calls ++ disableXmaxCalls env nSpecies ipatch mypatch }

/-- The writes of the creation loop into the patch sequence: the slot
`patch_to_be_created[j]` gets the pointer to the `j`-th created object, counted from
`base`. -/
def createSlots (base : Nat) : List Nat → List PatchRef → List PatchRef
  | [], slots => slots
  | ipatch :: rest, slots =>
    createSlots (base + 1) rest (slots.set ipatch (PatchRef.created base))

/-- Every pointer of the sequence points to an object. -/
def RefsValid {D : Type} (st : WindowState D) : Prop :=
  ∀ r ∈ st.patches_, (deref st.objs st.news r).isSome = true

/-- The window of Scenario B with the moving window switched off. -/
def inactiveWindow : SimWindow Int := { scenarioBWindow with active := false }

/-- The `isend` calls of a window trace, in order: patch, destination rank, tag. -/
def windowIsends {D : Type} (calls : List (WindowCall D)) : List (PatchRef × Int × Int) :=
  calls.filterMap (fun c =>
    match c with
    | WindowCall.isend p dest tag => some (p, dest, tag)
    | _ => none)

/-- The `recv` calls of a window trace, in order: patch, source rank, tag. -/
def windowRecvs {D : Type} (calls : List (WindowCall D)) : List (PatchRef × Int × Int) :=
  calls.filterMap (fun c =>
    match c with
    | WindowCall.recv p source tag => some (p, source, tag)
    | _ => none)

/-- The `createParticles` calls of a window trace, in order: patch and species. -/
def windowCreateParticles {D : Type} (calls : List (WindowCall D)) : List (PatchRef × Nat) :=
  calls.filterMap (fun c =>
    match c with
    | WindowCall.createParticles p ispec => some (p, ispec)
    | _ => none)

/-- The `clone` calls of a window trace, in order: template, hindex and `n_moved`. -/
def windowClones {D : Type} (calls : List (WindowCall D)) : List (PatchRef × Int × Nat) :=
  calls.filterMap (fun c =>
    match c with
    | WindowCall.clone template hindex n_moved => some (template, hindex, n_moved)
    | _ => none)

/-- The lost-energy amounts passed to `storeNRJlost`, in order: the patch they are
stored on, `none` for the field amount or `some ispec`, and the amount. -/
def windowStored {D : Type} (calls : List (WindowCall D)) :
    List (PatchRef × Option Nat × D) :=
  calls.filterMap (fun c =>
    match c with
    | WindowCall.storeNRJlostField p e => some (p, none, e)
    | WindowCall.storeNRJlostSpecies p ispec e => some (p, some ispec, e)
    | _ => none)

/-- The calls of the loop on patches of `dynamics` for the patch `ipatch`. -/
def pushBlock (diag_flag : Bool) (patches : List (List Bool)) (ipatch : Nat) :
    List DynamicsCall :=
  match patches[ipatch]? with
  | none => []
  | some vecSpecies => pushCalls diag_flag ipatch vecSpecies

/-! ## Moving window: the invariants of the patch sequence -/

/-- The ordering invariant of the patch sequence: slot `i` holds the patch of hindex
`h0 + i`. -/
def HindexOrdered {D : Type} (h0 : Int) (pre : List (WindowPatch D)) : Prop :=
  pre.map (fun p => p.hindex) = (List.range pre.length).map (fun (i : Nat) => h0 + (i : Int))

/-- Consistency of the x-neighbour tables of the local patches: a left or right
neighbour that the table gives to this rank is a patch of the local sequence, and `p`
has the local patch `l` as left neighbour exactly when `l` has the local patch `p` as
right neighbour. -/
def XConsistent {D : Type} (pre : List (WindowPatch D)) : Prop :=
  (∀ p ∈ pre, leftIsMine p = true → ∃ l ∈ pre, l.hindex = p.neighbor_ 0 0)
  ∧ (∀ l ∈ pre, rightIsMine l = true → ∃ p ∈ pre, p.hindex = l.neighbor_ 0 1)
  ∧ (∀ p ∈ pre, ∀ l ∈ pre,
      (leftIsMine p = true ∧ p.neighbor_ 0 0 = l.hindex)
        ↔ (rightIsMine l = true ∧ l.neighbor_ 0 1 = p.hindex))

/-- The slot the turn `i` of the first loop writes when it relabels the patch `i`. -/
def targetAt {D : Type} (h0 : Int) (pre : List (WindowPatch D)) (i : Nat) : Nat :=
  match pre[i]? with
  | some p => relabelTarget h0 p
  | none => 0

/-! ## Local diagnostics and the notification of the probes -/

/-- An entry of `vecPatches.localDiags`, by the `dynamic_cast` that succeeds on it: a
`DiagnosticProbes` with its member `patchesHaveMoved`, a `DiagnosticTrack`, or another
diagnostic. -/
inductive LocalDiag where
  | probes (patchesHaveMoved : Bool)
  | track
  | other
  deriving DecidableEq

/-- The last loop of `VectorPatch::load_balance` (lines 616 to 619):
`if (diagProbes) diagProbes->patchesHaveMoved = true;` on every entry of `localDiags`. -/
def markProbes (localDiags : List LocalDiag) : List LocalDiag :=
  localDiags.map (fun d =>
    match d with
    | LocalDiag.probes _ => LocalDiag.probes true
    | d => d)

/-- The method `VectorPatch::load_balance`: `patch_count` is the table that
`smpi->recompute_patch_count` leaves, then `createPatches`, `exchangePatches` and the
loop on `localDiags`. -/
def load_balance (simWindow : Option Nat) (rank : Nat)
    (patch_count : Nat → Nat) (nDim_particle : Nat) (v : VectorPatch)
    (localDiags : List LocalDiag) : Except Fault (List Call × VectorPatch × List LocalDiag) :=
  match rebalance simWindow rank patch_count nDim_particle v with
  | Except.error e => Except.error e
  | Except.ok (calls, w) => Except.ok (calls, w, markProbes localDiags)

/-- The indices `idiag` for which `dynamic_cast<DiagnosticTrack*>(localDiags[idiag])`
succeeds. -/
def trackIndices (localDiags : List LocalDiag) : List Nat :=
  (List.range localDiags.length).filter (fun idiag => localDiags[idiag]? = some LocalDiag.track)

/-- The method `SimWindow::operate` together with `vecPatches.localDiags`: the function
reads `localDiags` for `track->setIDs` and assigns to no member of any entry, so the
list comes back as it was; what it records for the probes is
`vecPatches.lastIterationPatchesMoved = itime`. -/
def operateWithDiags {D : Type} [Zero D] [Add D] [Sub D] [Mul D] [NatCast D] [LT D]
    [DecidableRel (fun a b : D => a < b)]
    (env : WindowEnv D) (w : SimWindow D) (vp : WindowVectorPatch D) (time_dual : D)
    (localDiags : List LocalDiag) : Except Fault (WindowResult D × List LocalDiag) :=
  match operate { env with trackDiags := trackIndices localDiags } w vp time_dual with
  | Except.error e => Except.error e
  | Except.ok r => Except.ok (r, localDiags)

/-- Scenario B with a `DiagnosticTrack` and a `DiagnosticProbes` whose flag is down:
the local diagnostics and `lastIterationPatchesMoved` after one tick at `itime = 7`. -/
def scenarioBDiags : Option (List LocalDiag × Nat) :=
  match operateWithDiags (lineEnv 0 0 4 8 false) scenarioBWindow scenarioBPatches 1
      [LocalDiag.track, LocalDiag.probes false] with
  | Except.ok (r, diags) => some (diags, r.lastIterationPatchesMoved)
  | Except.error _ => none

/-- Rank 0 of Scenario A with the same two diagnostics: the local diagnostics after
`load_balance`. -/
def scenarioADiags : Option (List LocalDiag) :=
  match load_balance none 0 (tableOf [2, 3, 3]) 1 (scenarioABefore 0)
      [LocalDiag.track, LocalDiag.probes false] with
  | Except.ok (_, _, diags) => some diags
  | Except.error _ => none

/-! ## `VectorPatch::solvePoisson` -/

/-- What `solvePoisson` reads from the fields of a patch once `initE` and `exchangeE` are
done: the border and corner values of `Ex` and `Ey`. -/
structure PoissonPatch (D : Type) where
  getEx_Xmin : D
  getEx_Xmax : D
  getEx_XminYmax : D
  getEy_XminYmax : D
  getEx_XmaxYmin : D
  getEy_XmaxYmin : D

/-- The `VectorPatch` of one rank as `solvePoisson` uses it. -/
structure PoissonRank (D : Type) where
  refHindex_ : Int
  patches_ : List (PoissonPatch D)

/-- What `solvePoisson` takes from `Params`. -/
structure PoissonParams (D : Type) where
  poisson_iter_max : Nat
  poisson_error_max : D
  n_space_global : Nat → Nat
  number_of_patches : Nat → Nat
  mi : Nat → Nat

/-- The branch taken at lines 450 to 459: the `WARNING` "did not converge" or the
`MESSAGE` "converged", with the iteration count and the control parameter printed. -/
inductive PoissonStatus (D : Type) where
  | didNotConverge (iteration : Nat) (ctrl : D)
  | converged (iteration : Nat) (ctrl : D)
  deriving DecidableEq

/-- What `solvePoisson` leaves on one rank: the number of iterations made, the last
control parameter, the branch of the status report and what is logged (on the master
only), the vector `E_Add` and the calls `centeringE(E_Add)`, one per patch. -/
structure PoissonResult (D : Type) where
  iteration : Nat
  ctrl : D
  status : PoissonStatus D
  log : List (PoissonStatus D)
  E_Add : List D
  centeringE : List (Nat × List D)

/-- The `unsigned int nx_p2_global` of lines 384 to 390, `dims` being
`Ex_[0]->dims_.size()`. -/
def nx_p2_global (dims : Nat) (n_space_global : Nat → Nat) : Nat :=
  let nx := (n_space_global 0 + 1) % 4294967296
  if dims > 1 then
    let nx := (nx * (n_space_global 1 + 1)) % 4294967296
    if dims > 2 then (nx * (n_space_global 2 + 1)) % 4294967296 else nx
  else nx

/-- The loop `while ((ctrl > error_max) && (iteration < iteration_max))` of the conjugate
gradient: `ctrlOf k` is the control parameter after `k` iterations, the first argument
bounds the number of turns still allowed and the second is `iteration`; the result is
`iteration` at the exit. -/
def cgLoop {D : Type} [LT D] [DecidableRel (fun a b : D => a < b)]
    (error_max : D) (ctrlOf : Nat → D) (iteration_max : Nat) : Nat → Nat → Nat
  | 0, iteration => iteration
  | fuel + 1, iteration =>
    if ctrlOf iteration > error_max ∧ iteration < iteration_max then
      cgLoop error_max ctrlOf iteration_max fuel (iteration + 1)
    else iteration

/-- The patch `(*this)(hindex - refHindex_)` of a rank. -/
def poissonPatchAt {D : Type} (r : PoissonRank D) (hindex : Int) :
    Except Fault (PoissonPatch D) :=
  if hindex - r.refHindex_ < 0 then Except.error Fault.invalidPatch
  else
    match r.patches_[(hindex - r.refHindex_).toNat]? with
    | none => Except.error Fault.invalidPatch
    | some p => Except.ok p

/-- A value read on the rank `root` from its patch of hindex `hindex` and handed to
every rank by `MPI_Bcast`. -/
def bcastFrom {D : Type} (world : List (PoissonRank D)) (root : Int) (hindex : Int)
    (get : PoissonPatch D → D) : Except Fault D :=
  if root < 0 then Except.error Fault.invalidPatch
  else
    match world[root.toNat]? with
    | none => Except.error Fault.invalidPatch
    | some r =>
      match poissonPatchAt r hindex with
      | Except.error e => Except.error e
      | Except.ok p => Except.ok (get p)

/-- The vector `E_Add` of lines 471 to 538.  `dims` is `Ex_[0]->dims_.size()`; the three
branches are those of the source, in its order and with its conditions, the second
being guarded by the same condition as the first.  `generalhilbertindex` and `hrank` are
not in the sources at hand and are parameters. -/
def centeringVector {D : Type} [Zero D] [One D] [Add D] [Neg D] [Mul D] [Div D]
    (params : PoissonParams D) (world : List (PoissonRank D)) (dims : Nat)
    (generalhilbertindex : Nat → Nat → Int → Int → Int) (hrank : Int → Int) :
    Except Fault (List D) :=
  let E_Add : List D := List.replicate dims 0
  if dims > 1 then Except.ok E_Add
  else if dims > 1 then
    let patch_YmaxXmin :=
      generalhilbertindex (params.mi 0) (params.mi 1) 0 ((params.number_of_patches 1 : Int) - 1)
    let rank_XminYmax := hrank patch_YmaxXmin
    let patch_YminXmax :=
      generalhilbertindex (params.mi 0) (params.mi 1) ((params.number_of_patches 0 : Int) - 1) 0
    let rank_XmaxYmin := hrank patch_YminXmax
    match bcastFrom world rank_XminYmax patch_YmaxXmin (fun p => p.getEx_XminYmax),
      bcastFrom world rank_XminYmax patch_YmaxXmin (fun p => p.getEy_XminYmax),
      bcastFrom world rank_XmaxYmin patch_YminXmax (fun p => p.getEx_XmaxYmin),
      bcastFrom world rank_XmaxYmin patch_YminXmax (fun p => p.getEy_XmaxYmin) with
    | Except.ok Ex_XminYmax, Except.ok Ey_XminYmax, Except.ok Ex_XmaxYmin,
        Except.ok Ey_XmaxYmin =>
      Except.ok ((E_Add.set 0 (-(1 / (1 + 1)) * (Ex_XminYmax + Ex_XmaxYmin))).set 1
        (-(1 / (1 + 1)) * (Ey_XminYmax + Ey_XmaxYmin)))
    | _, _, _, _ => Except.error Fault.invalidPatch
  else if dims = 1 then
    match bcastFrom world 0 0 (fun p => p.getEx_Xmin),
      bcastFrom world ((world.length : Int) - 1) ((params.number_of_patches 0 : Int) - 1)
        (fun p => p.getEx_Xmax) with
    | Except.ok Ex_Xmin, Except.ok Ex_Xmax =>
      Except.ok (E_Add.set 0 (-(1 / (1 + 1)) * (Ex_Xmin + Ex_Xmax)))
    | _, _ => Except.error Fault.invalidPatch
  else Except.ok E_Add

/-- The method `VectorPatch::solvePoisson` on the rank `me` of `world`.  `rnew k` is the
value of `rnew_dot_rnew` that `MPI_Allreduce` gives after `k` iterations (`k = 0`: before
the loop); the constant `-0.5` is `-(1/(1+1))`. -/
def solvePoisson {D : Type} [Zero D] [One D] [Add D] [Neg D] [Mul D] [Div D] [NatCast D]
    [LT D] [DecidableRel (fun a b : D => a < b)]
    (params : PoissonParams D) (world : List (PoissonRank D)) (me : Nat) (isMaster : Bool)
    (dims : Nat) (rnew : Nat → D)
    (generalhilbertindex : Nat → Nat → Int → Int → Int) (hrank : Int → Int) :
    Except Fault (PoissonResult D) :=
  match world[me]? with
  | none => Except.error Fault.invalidPatch
  | some this =>
    match this.patches_ with
    | [] => Except.error Fault.invalidPatch
    | _ :: _ =>
      let iteration_max := params.poisson_iter_max
      let error_max := params.poisson_error_max
      let ctrlOf : Nat → D := fun k => rnew k / ((nx_p2_global dims params.n_space_global : Nat) : D)
      let iteration := cgLoop error_max ctrlOf iteration_max iteration_max 0
      let ctrl := ctrlOf iteration
      let status :=
        if iteration_max > 0 ∧ iteration = iteration_max then
          PoissonStatus.didNotConverge iteration ctrl
        else PoissonStatus.converged iteration ctrl
      match centeringVector params world dims generalhilbertindex hrank with
      | Except.error e => Except.error e
      | Except.ok E_Add =>
        Except.ok
          { iteration := iteration
            ctrl := ctrl
            status := status
            log := if isMaster then [status] else []
            E_Add := E_Add
            centeringE := (List.range this.patches_.length).map (fun ipatch => (ipatch, E_Add)) }

/-- A rank with a single patch whose six border and corner values are given. -/
def poissonRank {D : Type} (xmin xmax exXminYmax eyXminYmax exXmaxYmin eyXmaxYmin : D) :
    PoissonRank D :=
  { refHindex_ := 0
    patches_ :=
      [{ getEx_Xmin := xmin, getEx_Xmax := xmax, getEx_XminYmax := exXminYmax,
         getEy_XminYmax := eyXminYmax, getEx_XmaxYmin := exXmaxYmin,
         getEy_XmaxYmin := eyXmaxYmin }] }

/-- Parameters of a run with one patch of one cell per direction: `nx_p2_global` is 2 in
one dimension and 4 in two. -/
def poissonParams {D : Type} (poisson_iter_max : Nat) (poisson_error_max : D) :
    PoissonParams D :=
  { poisson_iter_max := poisson_iter_max
    poisson_error_max := poisson_error_max
    n_space_global := fun _ => 1
    number_of_patches := fun _ => 1
    mi := fun _ => 0 }

/-- The status report of `solvePoisson` on a one-rank, one-patch, one-dimensional run
with integer residuals: iterations made, last control parameter, branch taken. -/
def poissonReport (poisson_iter_max : Nat) (poisson_error_max : Int) (rnew : Nat → Int) :
    Option (Nat × Int × PoissonStatus Int) :=
  match solvePoisson (poissonParams poisson_iter_max poisson_error_max)
      [poissonRank 0 0 0 0 0 0] 0 true 1 rnew (fun _ _ _ _ => 0) (fun _ => 0) with
  | Except.ok r => some (r.iteration, r.ctrl, r.status)
  | Except.error _ => none

/-- The vector `E_Add` of a one-rank, one-patch run over the rationals. -/
def poissonCentering (dims : Nat) (r : PoissonRank Rat) : Option (List Rat) :=
  match solvePoisson (poissonParams 0 0) [r] 0 true dims (fun _ => 0)
      (fun _ _ _ _ => 0) (fun _ => 0) with
  | Except.ok res => some res.E_Add
  | Except.error _ => none

/-! ## `VectorPatch::move_probes` -/

/-- The local domain of a patch: `getDomainLocalMin(iDim)` and `getDomainLocalMax(iDim)`. -/
structure ProbePatch (D : Type) where
  getDomainLocalMin : Nat → D
  getDomainLocalMax : Nat → D

/-- The positions of a `DiagnosticProbes`: `nDim` is `posArray->dims_[1]` and
`posArray` has one row `iDim ↦ (*posArray)(ipart_mpi, iDim)` per probe particle. -/
structure ProbeArray (D : Type) where
  nDim : Nat
  posArray : List (Nat → D)

/-- Abnormal terminations of `move_probes`. -/
inductive ProbeFault where
  /-- The fatal `ERROR(ipart_mpi << " not in a patch on this process")`. -/
  | notInPatch (ipart_mpi : Nat)
  /-- A patch slot that does not exist is dereferenced. -/
  | invalidPatch
  deriving DecidableEq

/-- A probe particle put in a patch: `ipart_mpi`, the patch index `iPatch` and the local
index `ilocal_part` its position was written at. -/
structure Placement where
  ipart_mpi : Nat
  iPatch : Nat
  ilocal_part : Nat
  deriving DecidableEq

/-- The loop `for (iDim < nDim) isNotIn = isNotIn || ((pos[iDim] < min) || (pos[iDim] >=
max));` on one patch, from the value `isNotIn` has when the loop starts. -/
def outsideDims {D : Type} [LT D] [LE D] [DecidableRel (fun a b : D => a < b)]
    [DecidableRel (fun a b : D => a ≤ b)] (nDim : Nat) (pos : Nat → D) (patch : ProbePatch D)
    (isNotIn : Bool) : Bool :=
  (List.range nDim).foldl
    (fun (isNotIn : Bool) (iDim : Nat) =>
      isNotIn || (decide (pos iDim < patch.getDomainLocalMin iDim)
        || decide (pos iDim ≥ patch.getDomainLocalMax iDim)))
    isNotIn

/-- The loop `while (isNotIn)` of lines 951 to 959; the state is `iPatch`, `isNotIn` and
`ilocal_part`.  The first argument bounds the number of turns: every turn adds one to
`iPatch` and a turn that reaches `size()` raises the error, so `size()` turns are never
all completed. -/
def scanPatches {D : Type} [LT D] [LE D] [DecidableRel (fun a b : D => a < b)]
    [DecidableRel (fun a b : D => a ≤ b)] (patches_ : List (ProbePatch D)) (nDim : Nat)
    (pos : Nat → D) (ipart_mpi : Nat) : Nat → Nat → Bool → Nat → Except ProbeFault (Nat × Nat)
  | 0, iPatch, isNotIn, ilocal_part =>
    if isNotIn then Except.error (ProbeFault.notInPatch ipart_mpi)
    else Except.ok (iPatch, ilocal_part)
  | fuel + 1, iPatch, isNotIn, ilocal_part =>
    if isNotIn then
      let iPatch := iPatch + 1
      if iPatch ≥ patches_.length then Except.error (ProbeFault.notInPatch ipart_mpi)
      else
        match patches_[iPatch]? with
        | none => Except.error ProbeFault.invalidPatch
        | some patch =>
          scanPatches patches_ nDim pos ipart_mpi fuel iPatch
            (outsideDims nDim pos patch isNotIn) 0
    else Except.ok (iPatch, ilocal_part)

/-- The loop on the probe particles of one `DiagnosticProbes` (lines 938 to 966): the
rows still to visit, then `ipart_mpi`, `iPatch` and `ilocal_part`. -/
def placeProbes {D : Type} [Add D] [LT D] [LE D] [DecidableRel (fun a b : D => a < b)]
    [DecidableRel (fun a b : D => a ≤ b)] (patches_ : List (ProbePatch D)) (nDim : Nat)
    (x_moved : D) : List (Nat → D) → Nat → Nat → Nat → Except ProbeFault (List Placement)
  | [], _, _, _ => Except.ok []
  | row :: rows, ipart_mpi, iPatch, ilocal_part =>
    let pos : Nat → D := fun iDim => if iDim = 0 then row 0 + x_moved else row iDim
    match patches_[iPatch]? with
    | none => Except.error ProbeFault.invalidPatch
    | some patch =>
      match scanPatches patches_ nDim pos ipart_mpi patches_.length iPatch
          (outsideDims nDim pos patch false) ilocal_part with
      | Except.error e => Except.error e
      | Except.ok (iPatch, ilocal_part) =>
        match placeProbes patches_ nDim x_moved rows (ipart_mpi + 1) iPatch
            (ilocal_part + 1) with
        | Except.error e => Except.error e
        | Except.ok placed =>
          Except.ok ({ ipart_mpi := ipart_mpi, iPatch := iPatch, ilocal_part := ilocal_part }
            :: placed)

/-- The method `VectorPatch::move_probes`: `localDiags` holds `some` for the entries that
are a `DiagnosticProbes`; the result lists, for each of them in order (`nprobe = 0, 1,
...`), where its probe particles were put. -/
def move_probes {D : Type} [Add D] [LT D] [LE D] [DecidableRel (fun a b : D => a < b)]
    [DecidableRel (fun a b : D => a ≤ b)] (patches_ : List (ProbePatch D)) (x_moved : D) :
    List (Option (ProbeArray D)) → Except ProbeFault (List (List Placement))
  | [] => Except.ok []
  | none :: localDiags => move_probes patches_ x_moved localDiags
  | some diagProbes :: localDiags =>
    match placeProbes patches_ diagProbes.nDim x_moved diagProbes.posArray 0 0 0 with
    | Except.error e => Except.error e
    | Except.ok placed =>
      match move_probes patches_ x_moved localDiags with
      | Except.error e => Except.error e
      | Except.ok others => Except.ok (placed :: others)

/-- A patch whose local domain is `[xmin, xmax)` in the direction 0. -/
def probePatch (xmin xmax : Int) : ProbePatch Int :=
  { getDomainLocalMin := fun _ => xmin, getDomainLocalMax := fun _ => xmax }

/-- One probe diagnostic with one-dimensional points at the given abscissas. -/
def probeLine (xs : List Int) : ProbeArray Int :=
  { nDim := 1, posArray := xs.map (fun x => fun _ => x) }

/-! ## `DiagnosticParticles`: data model -/

/-- The functions of the C library that `DiagnosticParticles::run` calls: `sqrt`, `pow`,
`log10`, and `floor` followed by the conversion to `int` of `ind = floor(...)`. -/
structure MathFns (D : Type) where
  sqrt : D → D
  pow : D → D → D
  log10 : D → D
  floor : D → Int

/-- One particle of a `Particles` array: `Position[0..2]`, `Momentum[0..2]`, `Charge` (a
`short`) and `Weight`, at the same index. -/
structure DiagParticle (D : Type) where
  x : D
  y : D
  z : D
  px : D
  py : D
  pz : D
  q : Int
  w : D

/-- What `run` reads of a `Species`: `mass`, `dynamics_type`, the bins `bmin`, `bmax`,
its particles and the array `particles->Chi`. -/
structure DiagSpecies (D : Type) where
  mass : D
  dynamics_type : String
  bmin : List Nat
  bmax : List Nat
  particles : List (DiagParticle D)
  Chi : List D

/-- One axis of the diagnostic: `type`, `min`, `max`, `nbins`, `logscale`,
`edge_inclusive`. -/
structure DiagnosticParticlesAxis (D : Type) where
  type : String
  min : D
  max : D
  nbins : Int
  logscale : Bool
  edge_inclusive : Bool

/-- The members of `DiagnosticParticles` that `run` uses. -/
structure DiagnosticParticles (D : Type) where
  output : String
  every : Nat
  time_average : Nat
  species : List Nat
  axes : List (DiagnosticParticlesAxis D)
  output_size : Int
  data_sum : List D

/-- Abnormal terminations of `DiagnosticParticles`. -/
inductive DiagFault where
  /-- The fatal `ERROR("In particle diagnostics, axis ... unknown")` of `run`. -/
  | axisUnknown (axistype : String)
  /-- The fatal `ERROR("... axis ... cannot exist in ...D")` of the constructor. -/
  | axisCannotExist (axistype : String)
  /-- An array is read or written outside of its bounds. -/
  | outOfRange
  /-- The pointer `chi` is read while it is `NULL`. -/
  | nullChi
  /-- A vector is resized with a negative `int`: converted to the unsigned size type it
  exceeds `max_size()`, and `resize` throws `std::length_error`. -/
  | lengthError
  deriving DecidableEq

/-- The check of the constructor on the first item of an axis (lines 62 to 64). -/
def checkAxisType (nDim_particle : Nat) (type : String) : Except DiagFault Unit :=
  if (type = "z" ∧ nDim_particle < 3) ∨ (type = "y" ∧ nDim_particle < 2) then
    Except.error (DiagFault.axisCannotExist type)
  else Except.ok ()

/-- The total size of the output array (lines 101 to 103):
`output_size = 1; for (iaxis) output_size *= axes[iaxis].nbins;` with `output_size` and
`nbins` of type `int`, so that each product is taken on 32 bits. -/
def outputSize {D : Type} (axes : List (DiagnosticParticlesAxis D)) : Int :=
  axes.foldl (fun output_size axis => wrapInt32 (output_size * axis.nbins)) 1

/-- The call `v.resize(n)` on a vector whose new elements are `fill`. -/
def resize {α : Type} (v : List α) (n : Nat) (fill : α) : List α :=
  v.take n ++ List.replicate (n - v.length) fill

/-- The call `v.resize(n)` with `n` of type `int`, as in `data_sum.resize(output_size)`. -/
def resizeInt {α : Type} (v : List α) (n : Int) (fill : α) : Except DiagFault (List α) :=
  if n < 0 then Except.error DiagFault.lengthError else Except.ok (resize v n.toNat fill)

/-- The assignment `v[i] = a`. -/
def writeAt {α : Type} (v : List α) (i : Nat) (a : α) : Except DiagFault (List α) :=
  if i < v.length then Except.ok (v.set i a) else Except.error DiagFault.outOfRange

/-- The read `v[i]`. -/
def readAt {α : Type} (v : List α) (i : Nat) : Except DiagFault α :=
  match v[i]? with
  | some a => Except.ok a
  | none => Except.error DiagFault.outOfRange

/-- A loop `for (ipart ...)` over the given indices with the body `body`. -/
def forParticles {σ : Type} (body : Nat → σ → Except DiagFault σ) :
    List Nat → σ → Except DiagFault σ
  | [], st => Except.ok st
  | ipart :: rest, st =>
    match body ipart st with
    | Except.error e => Except.error e
    | Except.ok st => forParticles body rest st

/-- The indices of `for (int ipart = bmin ; ipart < bmax ; ipart++)`. -/
def binRange (bmin bmax : Nat) : List Nat := List.range' bmin (bmax - bmin)

/-! ## `DiagnosticParticles::run` -/

/-- The particle `ipart` of the current species, for the reads `(*x)[ipart]`, ... -/
def particleAt {D : Type} (s : DiagSpecies D) (ipart : Nat) : Except DiagFault (DiagParticle D) :=
  readAt s.particles ipart

/-- The chain `if (axistype == "x") ... else if ... else ERROR(...)` of lines 234 to 298:
the quantity that the selected loop stores in `axis_array[ipart]`, or the fatal error.
The conditions are those of the source, in its order; the third one tests `"y"`, as the
second does.  `chi` is the pointer `chi`, `none` while it is `NULL`. -/
def axisQuantity {D : Type} [One D] [Add D] [Sub D] [Neg D] [Mul D] [Div D] [IntCast D]
    (fns : MathFns D) (s : DiagSpecies D) (chi : Option (List D)) (axistype : String) :
    Except DiagFault (Nat → Except DiagFault D) :=
  let two : D := 1 + 1
  let sumsq : DiagParticle D → D := fun p => fns.pow p.px two + fns.pow p.py two + fns.pow p.pz two
  let onParticle : (DiagParticle D → D) → Nat → Except DiagFault D := fun f ipart =>
    match particleAt s ipart with
    | Except.error e => Except.error e
    | Except.ok p => Except.ok (f p)
  if axistype = "x" then Except.ok (onParticle (fun p => p.x))
  else if axistype = "y" then Except.ok (onParticle (fun p => p.y))
  else if axistype = "y" then Except.ok (onParticle (fun p => p.z))
  else if axistype = "px" then Except.ok (onParticle (fun p => s.mass * p.px))
  else if axistype = "py" then Except.ok (onParticle (fun p => s.mass * p.py))
  else if axistype = "pz" then Except.ok (onParticle (fun p => s.mass * p.pz))
  else if axistype = "p" then
    Except.ok (onParticle (fun p => s.mass * fns.sqrt (sumsq p)))
  else if axistype = "gamma" then
    Except.ok (onParticle (fun p => fns.sqrt (1 + fns.pow p.px two + fns.pow p.py two
      + fns.pow p.pz two)))
  else if axistype = "ekin" then
    Except.ok (onParticle (fun p => s.mass * (fns.sqrt (1 + fns.pow p.px two + fns.pow p.py two
      + fns.pow p.pz two) - 1)))
  else if axistype = "vx" then
    Except.ok (onParticle (fun p => p.px / fns.sqrt (1 + fns.pow p.px two + fns.pow p.py two
      + fns.pow p.pz two)))
  else if axistype = "vy" then
    Except.ok (onParticle (fun p => p.py / fns.sqrt (1 + fns.pow p.px two + fns.pow p.py two
      + fns.pow p.pz two)))
  else if axistype = "vz" then
    Except.ok (onParticle (fun p => p.pz / fns.sqrt (1 + fns.pow p.px two + fns.pow p.py two
      + fns.pow p.pz two)))
  else if axistype = "v" then
    Except.ok (onParticle (fun p => fns.pow (1 + 1 / (sumsq p)) (-(1 / two))))
  else if axistype = "vperp2" then
    Except.ok (onParticle (fun p => (fns.pow p.py two + fns.pow p.pz two)
      / (1 + fns.pow p.px two + fns.pow p.py two + fns.pow p.pz two)))
  else if axistype = "charge" then Except.ok (onParticle (fun p => ((p.q : Int) : D)))
  else if axistype = "chi" then
    Except.ok (fun ipart =>
      match chi with
      | none => Except.error DiagFault.nullChi
      | some chi => readAt chi ipart)
  else Except.error (DiagFault.axisUnknown axistype)

/-- The update of `index_array[ipart]` by one axis (lines 327 to 334 and 341 to 349):
`ind` is the value of `floor((axis_array[ipart]-axismin) * coeff)`.  The sums
`index_array[ipart] += ind` and the difference `axissize-1` are taken on `int`. -/
def binIndex (edge_inclusive : Bool) (axissize : Int) (ind : Int) (index : Int) : Int :=
  if index < 0 then index
  else if !edge_inclusive then
    if ind ≥ 0 ∧ ind < axissize then wrapInt32 (index + ind) else -1
  else
    let ind := if ind < 0 then 0 else ind
    let ind := if ind ≥ axissize then wrapInt32 (axissize - 1) else ind
    wrapInt32 (index + ind)

/-- The value that `ind = floor( (axis_array[ipart]-axismin) * coeff )` (lines 327 and
341) takes for a particle whose axis quantity is `v`: on a logarithmic axis `v`, `min` and
`max` are replaced by their `log10` (lines 303 to 310), and `coeff` is
`((double)axissize)/(axismax-axismin)` (line 322). -/
def axisBin {D : Type} [Sub D] [Mul D] [Div D] [IntCast D] (fns : MathFns D)
    (axis : DiagnosticParticlesAxis D) (v : D) : Int :=
  let axis_value := if axis.logscale then fns.log10 v else v
  let axismin := if axis.logscale then fns.log10 axis.min else axis.min
  let axismax := if axis.logscale then fns.log10 axis.max else axis.max
  let coeff : D := ((axis.nbins : Int) : D) / (axismax - axismin)
  fns.floor ((axis_value - axismin) * coeff)

/-- One turn of the loop on the axes (lines 225 to 354) for the bin `[bmin, bmax)`; the
state is `axis_array` and `index_array`. -/
def axisPass {D : Type} [One D] [Add D] [Sub D] [Neg D] [Mul D] [Div D] [IntCast D]
    (fns : MathFns D) (s : DiagSpecies D) (chi : Option (List D)) (bmin bmax : Nat)
    (iaxis : Nat) (axis : DiagnosticParticlesAxis D) (st : List D × List Int) :
    Except DiagFault (List D × List Int) :=
  let axissize := axis.nbins
  match axisQuantity fns s chi axis.type with
  | Except.error e => Except.error e
  | Except.ok quantity =>
    -- first loop on particles to store the indexing (axis) quantity
    match forParticles (fun ipart (axis_array : List D) =>
        match quantity ipart with
        | Except.error e => Except.error e
        | Except.ok v => writeAt axis_array ipart v) (binRange bmin bmax) st.1 with
    | Except.error e => Except.error e
    | Except.ok axis_array =>
      -- if log scale
      match (if axis.logscale then
          forParticles (fun ipart (axis_array : List D) =>
            match readAt axis_array ipart with
            | Except.error e => Except.error e
            | Except.ok v => writeAt axis_array ipart (fns.log10 v)) (binRange bmin bmax)
            axis_array
        else Except.ok axis_array) with
      | Except.error e => Except.error e
      | Except.ok axis_array =>
        let axismin := if axis.logscale then fns.log10 axis.min else axis.min
        let axismax := if axis.logscale then fns.log10 axis.max else axis.max
        -- multiplication by the size of the axis
        match (if iaxis > 0 then
            forParticles (fun ipart (index_array : List Int) =>
              match readAt index_array ipart with
              | Except.error e => Except.error e
              | Except.ok index => writeAt index_array ipart (wrapInt32 (index * axissize)))
              (binRange bmin bmax) st.2
          else Except.ok st.2) with
        | Except.error e => Except.error e
        | Except.ok index_array =>
          let coeff : D := ((axissize : Int) : D) / (axismax - axismin)
          match forParticles (fun ipart (index_array : List Int) =>
              match readAt index_array ipart, readAt axis_array ipart with
              | Except.ok index, Except.ok v =>
                writeAt index_array ipart
                  (binIndex axis.edge_inclusive axissize (fns.floor ((v - axismin) * coeff))
                    index)
              | _, _ => Except.error DiagFault.outOfRange) (binRange bmin bmax)
              index_array with
          | Except.error e => Except.error e
          | Except.ok index_array => Except.ok (axis_array, index_array)

/-- The loop on the axes for one bin: the axes still to visit, then `iaxis`. -/
def binAxes {D : Type} [One D] [Add D] [Sub D] [Neg D] [Mul D] [Div D] [IntCast D]
    (fns : MathFns D) (s : DiagSpecies D) (chi : Option (List D)) (bmin bmax : Nat) :
    List (DiagnosticParticlesAxis D) → Nat → List D × List Int →
      Except DiagFault (List D × List Int)
  | [], _, st => Except.ok st
  | axis :: axes, iaxis, st =>
    match axisPass fns s chi bmin bmax iaxis axis st with
    | Except.error e => Except.error e
    | Except.ok st => binAxes fns s chi bmin bmax axes (iaxis + 1) st

/-- The quantity stored in `data_array[ipart]` (lines 358 to 416): the first `if` is on
`"density"`, the chain that follows starts with `"charge_density"`; no branch is taken for
another `output`, and `data_array` then keeps what it held. -/
def dataQuantity {D : Type} [One D] [Add D] [Mul D] [Div D] [IntCast D]
    (fns : MathFns D) (mass : D) (output : String) : Option (DiagParticle D → D) :=
  let gamma : DiagParticle D → D := fun p => fns.sqrt (1 + p.px * p.px + p.py * p.py + p.pz * p.pz)
  if output = "density" then some (fun p => p.w)
  else if output = "charge_density" then some (fun p => p.w * ((p.q : Int) : D))
  else if output = "jx_density" then some (fun p => p.w * ((p.q : Int) : D) * p.px / gamma p)
  else if output = "jy_density" then some (fun p => p.w * ((p.q : Int) : D) * p.py / gamma p)
  else if output = "jz_density" then some (fun p => p.w * ((p.q : Int) : D) * p.pz / gamma p)
  else if output = "p_density" then
    some (fun p => mass * p.w * fns.sqrt (p.px * p.px + p.py * p.py + p.pz * p.pz))
  else if output = "px_density" then some (fun p => mass * p.w * p.px)
  else if output = "py_density" then some (fun p => mass * p.w * p.py)
  else if output = "pz_density" then some (fun p => mass * p.w * p.pz)
  else if output = "pressure_xx" then some (fun p => mass * p.w * p.px * p.px / gamma p)
  else if output = "pressure_yy" then some (fun p => mass * p.w * p.py * p.py / gamma p)
  else if output = "pressure_zz" then some (fun p => mass * p.w * p.pz * p.pz / gamma p)
  else if output = "pressure_xy" then some (fun p => mass * p.w * p.px * p.py / gamma p)
  else if output = "pressure_xz" then some (fun p => mass * p.w * p.px * p.pz / gamma p)
  else if output = "pressure_yz" then some (fun p => mass * p.w * p.py * p.pz / gamma p)
  else none

/-- Step 2 of a bin: the loop that fills `data_array[bmin .. bmax-1]`, if any. -/
def prepareData {D : Type} [One D] [Add D] [Mul D] [Div D] [IntCast D]
    (fns : MathFns D) (s : DiagSpecies D) (output : String) (bmin bmax : Nat)
    (data_array : List D) : Except DiagFault (List D) :=
  match dataQuantity fns s.mass output with
  | none => Except.ok data_array
  | some quantity =>
    forParticles (fun ipart (data_array : List D) =>
      match particleAt s ipart with
      | Except.error e => Except.error e
      | Except.ok p => writeAt data_array ipart (quantity p)) (binRange bmin bmax) data_array

/-- Step 3 of a bin (lines 420 to 424): `ind = index_array[ipart]; if (ind<0) continue;
data_sum[ind] += data_array[ipart];` -/
def accumulate {D : Type} [Add D] (index_array : List Int) (data_array : List D)
    (bmin bmax : Nat) (data_sum : List D) : Except DiagFault (List D) :=
  forParticles (fun ipart (data_sum : List D) =>
    match readAt index_array ipart with
    | Except.error e => Except.error e
    | Except.ok ind =>
      if ind < 0 then Except.ok data_sum
      else
        match readAt data_sum ind.toNat, readAt data_array ipart with
        | Except.ok acc, Except.ok v => writeAt data_sum ind.toNat (acc + v)
        | _, _ => Except.error DiagFault.outOfRange) (binRange bmin bmax) data_sum

/-- The three work arrays and the output array. -/
structure DiagArrays (D : Type) where
  axis_array : List D
  index_array : List Int
  data_array : List D
  data_sum : List D

/-- One turn of the loop on the bins (lines 218 to 426). -/
def binPass {D : Type} [One D] [Add D] [Sub D] [Neg D] [Mul D] [Div D] [IntCast D]
    (fns : MathFns D) (diag : DiagnosticParticles D) (s : DiagSpecies D)
    (chi : Option (List D)) (ibin : Nat) (a : DiagArrays D) : Except DiagFault (DiagArrays D) :=
  match readAt s.bmin ibin, readAt s.bmax ibin with
  | Except.ok bmin, Except.ok bmax =>
    match binAxes fns s chi bmin bmax diag.axes 0 (a.axis_array, a.index_array) with
    | Except.error e => Except.error e
    | Except.ok (axis_array, index_array) =>
      match prepareData fns s diag.output bmin bmax a.data_array with
      | Except.error e => Except.error e
      | Except.ok data_array =>
        match accumulate index_array data_array bmin bmax a.data_sum with
        | Except.error e => Except.error e
        | Except.ok data_sum =>
          Except.ok
            { axis_array := axis_array, index_array := index_array, data_array := data_array,
              data_sum := data_sum }
  | _, _ => Except.error DiagFault.outOfRange

/-- One turn of the loop on the species (lines 192 to 428); the state is the pointer
`chi` and the arrays. -/
def speciesPass {D : Type} [Zero D] [One D] [Add D] [Sub D] [Neg D] [Mul D] [Div D]
    [IntCast D] (fns : MathFns D) (diag : DiagnosticParticles D)
    (vecSpecies : List (DiagSpecies D)) (nbins : Nat) (ispecies : Nat)
    (st : Option (List D) × DiagArrays D) : Except DiagFault (Option (List D) × DiagArrays D) :=
  match readAt vecSpecies ispecies with
  | Except.error e => Except.error e
  | Except.ok s =>
    let chi := if s.dynamics_type = "rrll" then some s.Chi else st.1
    let a : DiagArrays D :=
      { axis_array := resize st.2.axis_array s.particles.length 0
        index_array := List.replicate s.particles.length 0
        data_array := resize st.2.data_array s.particles.length 0
        data_sum := st.2.data_sum }
    match forParticles (binPass fns diag s chi) (List.range nbins) a with
    | Except.error e => Except.error e
    | Except.ok a => Except.ok (chi, a)

/-- The method `DiagnosticParticles::run`: the array `data_sum` afterwards. -/
def DiagnosticParticles.run {D : Type} [Zero D] [One D] [Add D] [Sub D] [Neg D] [Mul D]
    [Div D] [IntCast D] (fns : MathFns D) (diag : DiagnosticParticles D) (timestep : Nat)
    (vecSpecies : List (DiagSpecies D)) : Except DiagFault (List D) :=
  match vecSpecies with
  | [] => Except.error DiagFault.outOfRange
  | s0 :: _ =>
    let nbins := s0.bmin.length
    if timestep % diag.every ≥ diag.time_average then Except.ok diag.data_sum
    else
      match (if diag.time_average ≤ 1 then resizeInt diag.data_sum diag.output_size 0
          else Except.ok diag.data_sum) with
      | Except.error e => Except.error e
      | Except.ok data_sum =>
        let data_sum :=
          if timestep % diag.every = 0 then List.replicate data_sum.length 0 else data_sum
        match forParticles (speciesPass fns diag vecSpecies nbins) diag.species
            (none,
              { axis_array := [], index_array := [], data_array := [], data_sum := data_sum })
            with
        | Except.error e => Except.error e
        | Except.ok (_, a) => Except.ok a.data_sum

/-- Integer stand-ins for the C library, for the evaluation of scenarios: `sqrt` and
`log10` are the identity, `pow(a, b)` is `a`, and `floor` of an integer is itself. -/
def intFns : MathFns Int :=
  { sqrt := fun a => a, pow := fun a _ => a, log10 := fun a => a, floor := fun a => a }

/-- A particle at position `(x, y, z)` with zero momentum, charge 1 and weight 1. -/
def diagParticle (x y z : Int) : DiagParticle Int :=
  { x := x, y := y, z := z, px := 0, py := 0, pz := 0, q := 1, w := 1 }

/-- A species of mass 1 with one bin that holds all of its particles. -/
def diagSpecies (particles : List (DiagParticle Int)) : DiagSpecies Int :=
  { mass := 1, dynamics_type := "norm", bmin := [0], bmax := [particles.length],
    particles := particles, Chi := [] }

/-- An axis from 0 to `nbins` with `nbins` bins of width 1, linear scale. -/
def unitAxis (type : String) (nbins : Int) (edge_inclusive : Bool) :
    DiagnosticParticlesAxis Int :=
  { type := type, min := 0, max := nbins, nbins := nbins, logscale := false,
    edge_inclusive := edge_inclusive }

/-- A density diagnostic of species 0 on the given axes, written at every timestep. -/
def densityDiag (axes : List (DiagnosticParticlesAxis Int)) : DiagnosticParticles Int :=
  { output := "density", every := 1, time_average := 1, species := [0], axes := axes,
    output_size := outputSize axes, data_sum := [] }

/-! ## The Hilbert index of a patch -/

/-- Modelled from the spec: the file `Hilbert_functions` (included by `VectorPatch.cpp`,
not in the sources at hand) holds the "Hilbert curve mapping" that "converts integer patch
coordinates ↔ a linear ordering index".  The model is the classical construction of the
curve, level by level on the bits of the coordinates, with a Gray code and a state made
of an entry point `e` and a direction `d`.  This is the rotation of the `n` bits of `x`
to the right by `k`. -/
def rotr (n x k : Nat) : Nat := ((x >>> k) ||| (x <<< (n - k))) % 2 ^ n

/-- Modelled from the spec: part of the missing `Hilbert_functions`, the rotation of the
`n` bits of `x` to the left by `k`. -/
def rotl (n x k : Nat) : Nat := ((x <<< k) ||| (x >>> (n - k))) % 2 ^ n

/-- Modelled from the spec: part of the missing `Hilbert_functions`, the Gray code. -/
def gc (i : Nat) : Nat := i ^^^ (i >>> 1)

/-- Modelled from the spec: part of the missing `Hilbert_functions`, the inverse of the
Gray code on `n` bits. -/
def gcinv (n g : Nat) : Nat := (List.range (n - 1)).foldl (fun i j => i ^^^ (g >>> (j + 1))) g

/-- Modelled from the spec: part of the missing `Hilbert_functions`, the number of
trailing set bits of `i`, among its `n` lowest bits. -/
def tsb : Nat → Nat → Nat
  | 0, _ => 0
  | n + 1, i => if i % 2 = 1 then 1 + tsb n (i / 2) else 0

/-- Modelled from the spec: part of the missing `Hilbert_functions`, the entry point of
the sub-cell of rank `w`. -/
def entry (w : Nat) : Nat := if w = 0 then 0 else gc (2 * ((w - 1) / 2))

/-- Modelled from the spec: part of the missing `Hilbert_functions`, the direction of the
sub-cell of rank `w` in dimension `n`. -/
def direction (n w : Nat) : Nat :=
  if w = 0 then 0 else if w % 2 = 0 then tsb n (w - 1) % n else tsb n w % n

/-- Modelled from the spec: part of the missing `Hilbert_functions`, the transformation of
the bits `b` of one level into the frame of the state `(e, d)`. -/
def ted (n e d b : Nat) : Nat := rotr n (b ^^^ e) (d + 1)

/-- Modelled from the spec: part of the missing `Hilbert_functions`, the inverse of
`ted`. -/
def tedinv (n e d b : Nat) : Nat := rotl n b (d + 1) ^^^ e

/-- Modelled from the spec: part of the missing `Hilbert_functions`, the entry point of
the state after the sub-cell of rank `w`. -/
def nextEntry (n e d w : Nat) : Nat := e ^^^ rotl n (entry w) (d + 1)

/-- Modelled from the spec: part of the missing `Hilbert_functions`, the direction of the
state after the sub-cell of rank `w`. -/
def nextDirection (n d w : Nat) : Nat := (d + direction n w + 1) % n

/-- Modelled from the spec: part of the missing `Hilbert_functions`, the index of the
point `(x, y)` on the Hilbert curve of order `m` of a square of `2^m x 2^m` patches,
from the state `(e, d)`. -/
def hilbertindex : Nat → Nat → Nat → Nat → Nat → Nat
  | 0, _, _, _, _ => 0
  | m + 1, e, d, x, y =>
    let l := x / 2 ^ m % 2 + 2 * (y / 2 ^ m % 2)
    let w := gcinv 2 (ted 2 e d l)
    w * 4 ^ m + hilbertindex m (nextEntry 2 e d w) (nextDirection 2 d w) (x % 2 ^ m) (y % 2 ^ m)

/-- Modelled from the spec: part of the missing `Hilbert_functions`, the inverse of
`hilbertindex`: the point of index `h`. -/
def hilbertindexinv : Nat → Nat → Nat → Nat → Nat × Nat
  | 0, _, _, _ => (0, 0)
  | m + 1, e, d, h =>
    let w := h / 4 ^ m
    let l := tedinv 2 e d (gc w)
    let r := hilbertindexinv m (nextEntry 2 e d w) (nextDirection 2 d w) (h % 4 ^ m)
    (l % 2 * 2 ^ m + r.1, l / 2 % 2 * 2 ^ m + r.2)

/-- Modelled from the spec: part of the missing `Hilbert_functions`, the index of the
point `(x, y, z)` on the Hilbert curve of order `m` of a cube of `2^m x 2^m x 2^m`
patches, from the state `(e, d)`. -/
def hilbertindex3D : Nat → Nat → Nat → Nat → Nat → Nat → Nat
  | 0, _, _, _, _, _ => 0
  | m + 1, e, d, x, y, z =>
    let l := x / 2 ^ m % 2 + 2 * (y / 2 ^ m % 2) + 4 * (z / 2 ^ m % 2)
    let w := gcinv 3 (ted 3 e d l)
    w * 8 ^ m + hilbertindex3D m (nextEntry 3 e d w) (nextDirection 3 d w) (x % 2 ^ m)
      (y % 2 ^ m) (z % 2 ^ m)

/-- Modelled from the spec: part of the missing `Hilbert_functions`, the inverse of
`hilbertindex3D`. -/
def hilbertindexinv3D : Nat → Nat → Nat → Nat → Nat × Nat × Nat
  | 0, _, _, _ => (0, 0, 0)
  | m + 1, e, d, h =>
    let w := h / 8 ^ m
    let l := tedinv 3 e d (gc w)
    let r := hilbertindexinv3D m (nextEntry 3 e d w) (nextDirection 3 d w) (h % 8 ^ m)
    (l % 2 * 2 ^ m + r.1, l / 2 % 2 * 2 ^ m + r.2.1, l / 4 % 2 * 2 ^ m + r.2.2)

/-- Modelled from the spec: `generalhilbertindex(m0, m1, x, y)` (called by `solvePoisson`,
defined in the missing `Hilbert_functions`), the "index(coords) -> hindex" of a grid of
`2^m0 x 2^m1` patches: the grid is a row of squares along its longer side, the squares
follow one another and each one is filled by the Hilbert curve. -/
def generalhilbertindex (m0 m1 x y : Nat) : Nat :=
  if m0 ≥ m1 then x / 2 ^ m1 * 4 ^ m1 + hilbertindex m1 0 0 (x % 2 ^ m1) y
  else y / 2 ^ m0 * 4 ^ m0 + hilbertindex m0 0 0 x (y % 2 ^ m0)

/-- Modelled from the spec: the inverse of `generalhilbertindex` ("and its inverse"),
from the missing `Hilbert_functions`. -/
def generalhilbertindexinv (m0 m1 h : Nat) : Nat × Nat :=
  if m0 ≥ m1 then
    ((h / 4 ^ m1) * 2 ^ m1 + (hilbertindexinv m1 0 0 (h % 4 ^ m1)).1,
      (hilbertindexinv m1 0 0 (h % 4 ^ m1)).2)
  else
    ((hilbertindexinv m0 0 0 (h % 4 ^ m0)).1,
      (h / 4 ^ m0) * 2 ^ m0 + (hilbertindexinv m0 0 0 (h % 4 ^ m0)).2)

/-- Modelled from the spec: the index of a grid of `2^m0` patches in one dimension
(the mapping must support the dimensionalities 1D, 2D and 3D): the curve is the line
itself. -/
def generalhilbertindex1D (_m0 x : Nat) : Nat := x

/-- Modelled from the spec: the inverse of `generalhilbertindex1D`. -/
def generalhilbertindexinv1D (_m0 h : Nat) : Nat := h

/-- Modelled from the spec: the index of a grid of `2^m0 x 2^m1 x 2^m2` patches, from the
missing `Hilbert_functions`: the grid is made of cubes whose side is the shortest side of
the grid; the cubes are ordered by the two-dimensional index of their position along the
two other directions, and each cube is filled by the Hilbert curve. -/
def generalhilbertindex3D (m0 m1 m2 x y z : Nat) : Nat :=
  let mmin := min m0 (min m1 m2)
  let cube := hilbertindex3D mmin 0 0 (x % 2 ^ mmin) (y % 2 ^ mmin) (z % 2 ^ mmin)
  if m2 ≤ m0 ∧ m2 ≤ m1 then
    generalhilbertindex (m0 - mmin) (m1 - mmin) (x / 2 ^ mmin) (y / 2 ^ mmin) * 8 ^ mmin + cube
  else if m1 ≤ m0 then
    generalhilbertindex (m0 - mmin) (m2 - mmin) (x / 2 ^ mmin) (z / 2 ^ mmin) * 8 ^ mmin + cube
  else
    generalhilbertindex (m1 - mmin) (m2 - mmin) (y / 2 ^ mmin) (z / 2 ^ mmin) * 8 ^ mmin + cube

/-- Modelled from the spec: the inverse of `generalhilbertindex3D`. -/
def generalhilbertindexinv3D (m0 m1 m2 h : Nat) : Nat × Nat × Nat :=
  let mmin := min m0 (min m1 m2)
  let cube := hilbertindexinv3D mmin 0 0 (h % 8 ^ mmin)
  if m2 ≤ m0 ∧ m2 ≤ m1 then
    let up := generalhilbertindexinv (m0 - mmin) (m1 - mmin) (h / 8 ^ mmin)
    (up.1 * 2 ^ mmin + cube.1, up.2 * 2 ^ mmin + cube.2.1, cube.2.2)
  else if m1 ≤ m0 then
    let up := generalhilbertindexinv (m0 - mmin) (m2 - mmin) (h / 8 ^ mmin)
    (up.1 * 2 ^ mmin + cube.1, cube.2.1, up.2 * 2 ^ mmin + cube.2.2)
  else
    let up := generalhilbertindexinv (m1 - mmin) (m2 - mmin) (h / 8 ^ mmin)
    (cube.1, up.1 * 2 ^ mmin + cube.2.1, up.2 * 2 ^ mmin + cube.2.2)
/-! ## The loops of `createPatches` in closed form -/

theorem foldl_push_filter {α : Type} (p : α → Prop) [DecidablePred p] (l : List α) (init : List α) :
    l.foldl (fun acc x => if p x then acc ++ [x] else acc) init = init ++ l.filter (fun x => decide (p x)) := by
  induction l generalizing init with
  | nil => simp
  | cons a t ih =>
    simp only [List.foldl_cons, ih, List.filter_cons]
    by_cases h : p a <;> simp [h]

theorem foldl_push_map {α β : Type} (f : α → β) (l : List α) (init : List β) :
    l.foldl (fun acc x => acc ++ [f x]) init = init ++ l.map f := by
  induction l generalizing init with
  | nil => simp
  | cons a t ih => simp [List.foldl_cons, ih]

theorem istartOf_eq_sum (rank : Nat) (patch_count : Nat → Nat) :
    istartOf rank patch_count = ((List.range rank).map patch_count).sum := by
  unfold istartOf
  induction rank with
  | zero => simp
  | succ n ih => simp [List.range_succ, List.foldl_append, ih]

theorem istartOf_succ (rank : Nat) (patch_count : Nat → Nat) :
    istartOf (rank + 1) patch_count = istartOf rank patch_count + patch_count rank := by
  simp [istartOf, List.range_succ, List.foldl_append]

theorem recvInit_eq (istart count : Nat) :
    recvInit istart count = List.range' istart count := by
  unfold recvInit
  rw [foldl_push_map (fun ipatch => istart + ipatch)]
  simp [List.range_eq_range']

theorem cloneLoop_eq (e : Patch) (m : Nat) (l : List Nat) :
    cloneLoop e m l = l.map (fun h => PatchesFactory.clone e h m) := by
  unfold cloneLoop
  rw [foldl_push_map (fun h => PatchesFactory.clone e h m)]
  simp

theorem sendLoop_error (ref : Nat) (recv : List Nat) (e : Fault) (l : List Nat) :
    l.foldl
      (fun (acc : Except Fault (List Nat)) (ipatch : Nat) =>
        match acc with
        | Except.error e => Except.error e
        | Except.ok send => sendStep ref recv send ipatch)
      (Except.error e) = Except.error e := by
  induction l with
  | nil => rfl
  | cons a rest ih => rw [List.foldl_cons]; exact ih

theorem sendLoop_nil (ref n : Nat) (hn : 0 < n) :
    sendLoop ref [] n = Except.error Fault.emptyRead := by
  obtain ⟨k, rfl⟩ : ∃ k, n = k + 1 := ⟨n - 1, by omega⟩
  unfold sendLoop
  rw [List.range_succ_eq_map, List.foldl_cons]
  exact sendLoop_error ref [] Fault.emptyRead _

theorem sendLoop_eq (ref : Nat) (recv : List Nat) (front back : Int)
    (hf : frontOf recv = Except.ok front) (hb : backOf recv = Except.ok back) (n : Nat) :
    sendLoop ref recv n =
      Except.ok ((List.range n).filter (fun (ipatch : Nat) =>
        decide (((ref : Int) + ipatch < front) ∨ ((ref : Int) + ipatch > back)))) := by
  unfold sendLoop
  have key : ∀ (l init : List Nat),
      l.foldl
        (fun (acc : Except Fault (List Nat)) (ipatch : Nat) =>
          match acc with
          | Except.error e => Except.error e
          | Except.ok send => sendStep ref recv send ipatch)
        (Except.ok init)
      = Except.ok (init ++ l.filter (fun (ipatch : Nat) =>
          decide (((ref : Int) + ipatch < front) ∨ ((ref : Int) + ipatch > back)))) := by
    intro l
    induction l with
    | nil => intro init; simp
    | cons a rest ih =>
      intro init
      have hstep : sendStep ref recv init a
          = Except.ok (if ((ref : Int) + a < front) ∨ ((ref : Int) + a > back)
              then init ++ [a] else init) := by
        simp only [sendStep, hf, hb]
        by_cases h1 : (ref : Int) + a < front
        · rw [if_pos h1, if_pos (Or.inl h1)]
        · rw [if_neg h1]
          by_cases h2 : (ref : Int) + a > back
          · rw [if_pos h2, if_pos (Or.inr h2)]
          · rw [if_neg h2, if_neg (by tauto)]
      rw [List.foldl_cons]
      show List.foldl _ (sendStep ref recv init a) rest = _
      rw [hstep, ih]
      by_cases h : ((ref : Int) + a < front) ∨ ((ref : Int) + a > back)
      · rw [if_pos h, List.filter_cons_of_pos (by simpa using h)]
        simp
      · rw [if_neg h, List.filter_cons_of_neg (by simpa using h)]
  rw [key, List.nil_append]

theorem backwardScan_spec (ref n : Nat) (k : Nat) (recv : List Nat) (ex : Int)
    (hk : k ≤ recv.length) :
    backwardScan ref n k (recv, ex) =
      ((recv.take k).filter (fun r => !ownedNow ref n r) ++ recv.drop k,
        match (recv.take k).find? (ownedNow ref n) with
        | some r => (r : Int)
        | none => ex) := by
  induction k generalizing recv ex with
  | zero => simp [backwardScan]
  | succ k ih =>
    have hlt : k < recv.length := hk
    have hget : recv[k]? = some recv[k] := List.getElem?_eq_getElem hlt
    rw [backwardScan, hget]
    simp only
    have htake : recv.take (k+1) = recv.take k ++ [recv[k]] := by
      rw [List.take_succ, hget]; rfl
    by_cases ho : ownedNow ref n recv[k] = true
    · rw [if_pos ho, ih _ _ (by rw [List.length_eraseIdx]; split <;> omega)]
      have e1 : (recv.eraseIdx k).take k = recv.take k := by
        rw [List.eraseIdx_eq_take_drop_succ, List.take_append_of_le_length (by simp; omega)]
        simp [List.take_take]
      have e2 : (recv.eraseIdx k).drop k = recv.drop (k+1) := by
        rw [List.eraseIdx_eq_take_drop_succ, List.drop_append_of_le_length (by simp; omega)]
        simp [List.drop_take]
      rw [e1, e2, htake, List.filter_append, List.find?_append]
      simp [ho]
      cases List.find? (ownedNow ref n) (List.take k recv) <;> simp
    · rw [if_neg ho, ih _ _ (by omega)]
      rw [htake, List.filter_append, List.find?_append]
      simp [ho]


theorem ownedNow_iff (ref n r : Nat) : ownedNow ref n r = true ↔ ref ≤ r ∧ r < ref + n := by
  unfold ownedNow
  simp only [decide_eq_true_eq]
  omega

theorem createPatches_closed (sw : Option Nat) (rank : Nat) (pc : Nat → Nat)
    (v : VectorPatch) (p0 : Patch) (rest : List Patch) (hp : v.patches_ = p0 :: rest) :
    createPatches sw rank pc v =
      match sendLoop p0.hindex (List.range' (istartOf rank pc) (pc rank)) (rest.length + 1) with
      | Except.error e => Except.error e
      | Except.ok send =>
        match (List.range' (istartOf rank pc) (pc rank)).find?
            (ownedNow p0.hindex (rest.length + 1)) with
        | none => Except.error Fault.noPatchToClone
        | some r =>
          match (p0 :: rest)[r - p0.hindex]? with
          | none => Except.error Fault.invalidPatch
          | some e =>
            Except.ok
              { vp :=
                  { patches_ := p0 :: rest
                    refHindex_ := p0.hindex
                    recv_patch_id_ := (List.range' (istartOf rank pc) (pc rank)).filter
                      (fun r => !ownedNow p0.hindex (rest.length + 1) r)
                    send_patch_id_ := send
                    recv_patches_ := ((List.range' (istartOf rank pc) (pc rank)).filter
                      (fun r => !ownedNow p0.hindex (rest.length + 1) r)).map
                        (fun h => PatchesFactory.clone e h (nMovedOf sw)) }
                existing_patch_id := (r : Int)
                existing_patch := e } := by
  obtain ⟨ps, rh, ri, si, rp⟩ := v
  simp only at hp
  subst hp
  simp only [createPatches, recvInit_eq, List.length_cons]
  cases hs : sendLoop p0.hindex (List.range' (istartOf rank pc) (pc rank)) (rest.length + 1) with
  | error e => rfl
  | ok send =>
    simp only []
    rw [backwardScan_spec _ _ _ _ _ (le_refl _)]
    simp only [List.take_length, List.drop_length, List.append_nil]
    cases hf : List.find? (ownedNow p0.hindex (rest.length + 1))
        (List.range' (istartOf rank pc) (pc rank)) with
    | none => simp
    | some r =>
      have ho := List.find?_some hf
      rw [ownedNow_iff] at ho
      have h1 : ¬ ((r : Int) < 0) := by omega
      have h2 : ¬ ((r : Int) - (p0.hindex : Int) < 0) := by omega
      have h3 : ((r : Int) - (p0.hindex : Int)).toNat = r - p0.hindex := by omega
      simp only [h1, h2, h3, if_false, cloneLoop_eq]


theorem frontOf_range' (s c : Nat) (hc : 0 < c) :
    frontOf (List.range' s c) = Except.ok (s : Int) := by
  unfold frontOf
  rw [List.head?_range']
  simp [Nat.pos_iff_ne_zero.mp hc]

theorem backOf_range' (s c : Nat) (hc : 0 < c) :
    backOf (List.range' s c) = Except.ok ((s + c - 1 : Nat) : Int) := by
  unfold backOf
  rw [List.getLast?_range']
  simp [Nat.pos_iff_ne_zero.mp hc]

theorem sendLoop_range' (ref s c n : Nat) (hc : 0 < c) :
    sendLoop ref (List.range' s c) n =
      Except.ok ((List.range n).filter
        (fun i => decide (¬ (s ≤ ref + i ∧ ref + i < s + c)))) := by
  rw [sendLoop_eq ref _ _ _ (frontOf_range' s c hc) (backOf_range' s c hc)]
  congr 1
  apply List.filter_congr
  intro i _
  congr 1
  apply propext
  omega

theorem createPatches_empty (sw : Option Nat) (rank : Nat) (pc : Nat → Nat)
    (v : VectorPatch) (p0 : Patch) (rest : List Patch) (hp : v.patches_ = p0 :: rest)
    (h0 : pc rank = 0) : createPatches sw rank pc v = Except.error Fault.emptyRead := by
  rw [createPatches_closed sw rank pc v p0 rest hp, h0, List.range'_zero,
    sendLoop_nil _ _ (Nat.succ_pos _)]

theorem createPatches_dichotomy (sw : Option Nat) (rank : Nat)
    (pc : Nat → Nat) (v : VectorPatch) (p0 : Patch) (rest : List Patch)
    (hp : v.patches_ = p0 :: rest) (hcount : 0 < pc rank) :
    (createPatches sw rank pc v = Except.error Fault.noPatchToClone ∧
        ¬ ∃ h, (istartOf rank pc ≤ h ∧ h < istartOf rank pc + pc rank)
            ∧ (p0.hindex ≤ h ∧ h < p0.hindex + (rest.length + 1)))
      ∨ ((∃ c, createPatches sw rank pc v = Except.ok c) ∧
        ∃ h, (istartOf rank pc ≤ h ∧ h < istartOf rank pc + pc rank)
            ∧ (p0.hindex ≤ h ∧ h < p0.hindex + (rest.length + 1))) := by
  rw [createPatches_closed sw rank pc v p0 rest hp, sendLoop_range' _ _ _ _ hcount]
  simp only []
  cases hf : List.find? (ownedNow p0.hindex (rest.length + 1))
      (List.range' (istartOf rank pc) (pc rank)) with
  | none =>
    left
    refine ⟨rfl, ?_⟩
    rintro ⟨h, hN, hC⟩
    have hall := List.find?_eq_none.mp hf h
      (by rw [List.mem_range']; exact ⟨h - istartOf rank pc, by omega, by omega⟩)
    exact hall ((ownedNow_iff _ _ _).mpr hC)
  | some r =>
    right
    have ho := (ownedNow_iff _ _ _).mp (List.find?_some hf)
    have hm := List.mem_of_find?_eq_some hf
    rw [List.mem_range'] at hm
    obtain ⟨i, hi, rfl⟩ := hm
    have hlt : istartOf rank pc + 1 * i - p0.hindex < (p0 :: rest).length := by
      simp only [List.length_cons]; omega
    refine ⟨?_, istartOf rank pc + 1 * i, by omega, ho⟩
    simp only [List.getElem?_eq_getElem hlt]
    exact ⟨_, rfl⟩

theorem createPatches_completes (sw : Option Nat) (rank : Nat)
    (pc : Nat → Nat) (v : VectorPatch) (p0 : Patch) (rest : List Patch)
    (hp : v.patches_ = p0 :: rest)
    (hov : ∃ h, (istartOf rank pc ≤ h ∧ h < istartOf rank pc + pc rank)
            ∧ (p0.hindex ≤ h ∧ h < p0.hindex + (rest.length + 1))) :
    ∃ c, createPatches sw rank pc v = Except.ok c := by
  have hcount : 0 < pc rank := by
    obtain ⟨h, hN, _⟩ := hov
    omega
  rcases createPatches_dichotomy sw rank pc v p0 rest hp hcount with ⟨_, hno⟩ | ⟨hc, _⟩
  · exact absurd hov hno
  · exact hc

theorem createPatches_fatal_cases (sw : Option Nat) (rank : Nat)
    (pc : Nat → Nat) (v : VectorPatch) (p0 : Patch) (rest : List Patch)
    (hp : v.patches_ = p0 :: rest) :
    (pc rank = 0 → createPatches sw rank pc v = Except.error Fault.emptyRead)
    ∧ (0 < pc rank →
        (createPatches sw rank pc v = Except.error Fault.noPatchToClone ↔
          ¬ ∃ h, (istartOf rank pc ≤ h ∧ h < istartOf rank pc + pc rank)
                ∧ (p0.hindex ≤ h ∧ h < p0.hindex + (rest.length + 1))))
    ∧ ((∃ h, (istartOf rank pc ≤ h ∧ h < istartOf rank pc + pc rank)
            ∧ (p0.hindex ≤ h ∧ h < p0.hindex + (rest.length + 1))) →
        ∃ c, createPatches sw rank pc v = Except.ok c) := by
  refine ⟨createPatches_empty sw rank pc v p0 rest hp, ?_,
    createPatches_completes sw rank pc v p0 rest hp⟩
  intro hcount
  rcases createPatches_dichotomy sw rank pc v p0 rest hp hcount with
    ⟨he, hno⟩ | ⟨⟨c, hc⟩, hov⟩
  · exact ⟨fun _ => hno, fun _ => he⟩
  · constructor
    · intro he; rw [hc] at he; cases he
    · intro hno; exact absurd hov hno

theorem createPatches_ok_inv (sw : Option Nat) (rank : Nat) (pc : Nat → Nat)
    (v : VectorPatch) (p0 : Patch) (rest : List Patch) (c : Created)
    (hp : v.patches_ = p0 :: rest) (hc : createPatches sw rank pc v = Except.ok c) :
    ∃ r e, (List.range' (istartOf rank pc) (pc rank)).find? (ownedNow p0.hindex (rest.length + 1))
          = some r
      ∧ (p0 :: rest)[r - p0.hindex]? = some e
      ∧ (istartOf rank pc ≤ r ∧ r < istartOf rank pc + pc rank)
      ∧ (p0.hindex ≤ r ∧ r < p0.hindex + (rest.length + 1))
      ∧ c = { vp :=
                { patches_ := p0 :: rest
                  refHindex_ := p0.hindex
                  recv_patch_id_ := (List.range' (istartOf rank pc) (pc rank)).filter
                    (fun h => decide (¬ (p0.hindex ≤ h ∧ h < p0.hindex + (rest.length + 1))))
                  send_patch_id_ := (List.range (rest.length + 1)).filter
                    (fun i => decide (¬ (istartOf rank pc ≤ p0.hindex + i
                      ∧ p0.hindex + i < istartOf rank pc + pc rank)))
                  recv_patches_ := ((List.range' (istartOf rank pc) (pc rank)).filter
                    (fun h => decide (¬ (p0.hindex ≤ h ∧ h < p0.hindex + (rest.length + 1))))).map
                      (fun h => PatchesFactory.clone e h (nMovedOf sw)) }
              existing_patch_id := (r : Int)
              existing_patch := e } := by
  have hcount : 0 < pc rank := by
    rcases Nat.eq_zero_or_pos (pc rank) with h0 | h0
    · rw [createPatches_empty sw rank pc v p0 rest hp h0] at hc
      cases hc
    · exact h0
  rw [createPatches_closed sw rank pc v p0 rest hp, sendLoop_range' _ _ _ _ hcount] at hc
  simp only [] at hc
  cases hf : List.find? (ownedNow p0.hindex (rest.length + 1))
      (List.range' (istartOf rank pc) (pc rank)) with
  | none => rw [hf] at hc; cases hc
  | some r =>
    rw [hf] at hc
    simp only at hc
    have ho := (ownedNow_iff _ _ _).mp (List.find?_some hf)
    have hm := List.mem_of_find?_eq_some hf
    rw [List.mem_range'] at hm
    obtain ⟨i, hi, hri⟩ := hm
    have hN : istartOf rank pc ≤ r ∧ r < istartOf rank pc + pc rank := by omega
    cases he : (p0 :: rest)[r - p0.hindex]? with
    | none => rw [he] at hc; cases hc
    | some e =>
      rw [he] at hc
      simp only [Except.ok.injEq] at hc
      refine ⟨r, e, rfl, he, hN, ho, ?_⟩
      rw [← hc]
      have hfil : (List.range' (istartOf rank pc) (pc rank)).filter
            (fun r => !ownedNow p0.hindex (rest.length + 1) r)
          = (List.range' (istartOf rank pc) (pc rank)).filter
            (fun h => decide (¬ (p0.hindex ≤ h ∧ h < p0.hindex + (rest.length + 1)))) := by
        apply List.filter_congr
        intro x _
        by_cases hx : p0.hindex ≤ x ∧ x < p0.hindex + (rest.length + 1)
        · simp [(ownedNow_iff _ _ _).mpr hx, hx]
        · have : ownedNow p0.hindex (rest.length + 1) x = false := by
            rw [← Bool.not_eq_true, ownedNow_iff]; exact hx
          simp [this, hx]
      rw [hfil]

theorem istartOf_all_ones (nprocs rank : Nat) (h : rank ≤ nprocs) :
    istartOf rank (tableOf (List.replicate nprocs 1)) = rank := by
  induction rank with
  | zero => simp [istartOf]
  | succ k ih =>
    have hk : tableOf (List.replicate nprocs 1) k = 1 := by
      have hlt : k < nprocs := by omega
      simp [tableOf, List.getD_eq_getElem?_getD, List.getElem?_replicate, hlt]
    rw [istartOf_succ, ih (by omega), hk]

/-- C7. After a completed `createPatches` on a rank whose current range is
`[ref, ref+n-1]` (`ref` the hindex of its first patch, `n` its number of patches)
and whose new range is `[istart, istart+count-1]`: `count >= 1`, `send_patch_id_`
is the ascending list of the local indices `i < n` with `ref+i` outside the new
range, `recv_patch_id_` is the ascending list of the hindices of the new range that
are outside the current range, and `recv_patches_` holds one clone of the template
per entry of `recv_patch_id_`, in the same order and created at that hindex. -/
theorem createPatches_send_recv_lists (sw : Option Nat) (rank : Nat)
    (pc : Nat → Nat) (v : VectorPatch) (p0 : Patch) (rest : List Patch) (c : Created)
    (hp : v.patches_ = p0 :: rest) (hc : createPatches sw rank pc v = Except.ok c) :
    1 ≤ pc rank
    ∧ c.vp.refHindex_ = p0.hindex
    ∧ c.vp.send_patch_id_ = (List.range (rest.length + 1)).filter
        (fun i => decide (¬ (istartOf rank pc ≤ p0.hindex + i
          ∧ p0.hindex + i < istartOf rank pc + pc rank)))
    ∧ c.vp.recv_patch_id_ = (List.range' (istartOf rank pc) (pc rank)).filter
        (fun h => decide (¬ (p0.hindex ≤ h ∧ h < p0.hindex + (rest.length + 1))))
    ∧ c.vp.recv_patches_ = c.vp.recv_patch_id_.map
        (fun h => PatchesFactory.clone c.existing_patch h (nMovedOf sw))
    ∧ hindexes c.vp.recv_patches_ = c.vp.recv_patch_id_
    ∧ List.Pairwise (fun a b => a < b) c.vp.send_patch_id_
    ∧ List.Pairwise (fun a b => a < b) c.vp.recv_patch_id_ := by
  obtain ⟨r, e, _, _, hN, _, rfl⟩ := createPatches_ok_inv sw rank pc v p0 rest c hp hc
  refine ⟨by omega, rfl, rfl, rfl, rfl, ?_, ?_, ?_⟩
  · simp only [hindexes, List.map_map]
    conv_rhs => rw [← List.map_id (List.filter _ _)]
    rfl
  · exact List.Pairwise.filter _ (List.pairwise_lt_range _)
  · exact List.Pairwise.filter _ (List.pairwise_lt_range' _ _)

/-- C6. Whenever `createPatches` completes, the template it clones from exists:
`existing_patch_id - refHindex_` is a valid index of the local sequence, the
template is the patch at that index, the index is not in `send_patch_id_`, and when
the sequence satisfies `patches_[i]->hindex == refHindex_ + i` the template has
hindex `existing_patch_id`.  In a one-patch-per-process configuration with an
all-ones map, `createPatches` completes with the single local patch as template and
nothing to send or receive. -/
theorem createPatches_template_exists (sw : Option Nat) :
    (∀ (rank : Nat) (pc : Nat → Nat) (v : VectorPatch) (p0 : Patch) (rest : List Patch)
        (c : Created),
      v.patches_ = p0 :: rest → createPatches sw rank pc v = Except.ok c →
        0 ≤ c.existing_patch_id - (c.vp.refHindex_ : Int)
        ∧ (c.existing_patch_id - (c.vp.refHindex_ : Int)).toNat < v.patches_.length
        ∧ v.patches_[(c.existing_patch_id - (c.vp.refHindex_ : Int)).toNat]?
            = some c.existing_patch
        ∧ (c.existing_patch_id - (c.vp.refHindex_ : Int)).toNat ∉ c.vp.send_patch_id_
        ∧ (hindexes v.patches_ = List.range' p0.hindex (rest.length + 1) →
            (c.existing_patch.hindex : Int) = c.existing_patch_id))
    ∧ (∀ (nprocs rank : Nat) (v : VectorPatch) (p : Patch),
      rank < nprocs → v.patches_ = [p] → p.hindex = rank →
        ∃ c, createPatches sw rank (tableOf (List.replicate nprocs 1)) v = Except.ok c
          ∧ c.existing_patch = p ∧ c.vp.send_patch_id_ = [] ∧ c.vp.recv_patch_id_ = []
          ∧ c.vp.recv_patches_ = []) := by
  have general : ∀ (rank : Nat) (pc : Nat → Nat) (v : VectorPatch) (p0 : Patch)
      (rest : List Patch) (c : Created),
      v.patches_ = p0 :: rest → createPatches sw rank pc v = Except.ok c →
        0 ≤ c.existing_patch_id - (c.vp.refHindex_ : Int)
        ∧ (c.existing_patch_id - (c.vp.refHindex_ : Int)).toNat < v.patches_.length
        ∧ v.patches_[(c.existing_patch_id - (c.vp.refHindex_ : Int)).toNat]?
            = some c.existing_patch
        ∧ (c.existing_patch_id - (c.vp.refHindex_ : Int)).toNat ∉ c.vp.send_patch_id_
        ∧ (hindexes v.patches_ = List.range' p0.hindex (rest.length + 1) →
            (c.existing_patch.hindex : Int) = c.existing_patch_id) := by
    intro rank pc v p0 rest c hp hc
    obtain ⟨r, e, _, he, hN, hC, rfl⟩ := createPatches_ok_inv sw rank pc v p0 rest c hp hc
    have h3 : ((r : Int) - (p0.hindex : Int)).toNat = r - p0.hindex := by omega
    simp only [h3, hp, List.length_cons]
    refine ⟨by omega, by omega, he, ?_, ?_⟩
    · simp only [List.mem_filter, List.mem_range, decide_eq_true_eq, not_and, not_not]
      intro _ hcon
      exact absurd (hcon (by omega)) (by omega)
    · intro hh
      have hlt : r - p0.hindex < (p0 :: rest).length := by simp only [List.length_cons]; omega
      have h1 : (hindexes (p0 :: rest))[r - p0.hindex]? = some e.hindex := by
        unfold hindexes
        rw [List.getElem?_map, he]
        rfl
      rw [hh, List.getElem?_range' _ _ (by omega)] at h1
      simp only [Option.some.injEq] at h1
      omega
  refine ⟨general, ?_⟩
  intro nprocs rank v p hr hp hh
  have hone : tableOf (List.replicate nprocs 1) rank = 1 := by
    simp [tableOf, List.getD_eq_getElem?_getD, List.getElem?_replicate, hr]
  have hst := istartOf_all_ones nprocs rank (by omega)
  obtain ⟨c, hc⟩ := createPatches_completes sw rank (tableOf (List.replicate nprocs 1))
    v p [] hp ⟨rank, by rw [hst, hone]; omega, by simp only [List.length_nil]; omega⟩
  obtain ⟨r, e, _, he, hN, hC, hcc⟩ := createPatches_ok_inv sw rank _ v p [] c hp hc
  rw [hst, hone] at hN hcc
  simp only [List.length_nil] at hC he hcc
  have hr0 : r - p.hindex = 0 := by omega
  rw [hr0] at he
  simp only [List.getElem?_cons_zero, Option.some.injEq] at he
  subst he
  refine ⟨c, hc, ?_, ?_, ?_, ?_⟩ <;> rw [hcc] <;> simp [hh, List.range']

/-! ## The deletion loop -/

theorem enumFrom_filter_all (s : Nat) (d : List Nat) (t : List Patch)
    (hd : ∀ x ∈ d, x < s) :
    ((t.enumFrom s).filter (fun ip => decide (ip.1 ∉ d))).map Prod.snd = t := by
  induction t generalizing s with
  | nil => rfl
  | cons p t ih =>
    have hs : s ∉ d := fun hm => absurd (hd s hm) (by omega)
    rw [List.enumFrom_cons, List.filter_cons_of_pos (by simpa using hs), List.map_cons,
      ih (s + 1) (fun x hx => by have := hd x hx; omega)]

theorem keep_eraseIdx (s id : Nat) (d : List Nat) (ps : List Patch) (hid : id < ps.length)
    (hd : ∀ x ∈ d, x < s + id) :
    (((ps.eraseIdx id).enumFrom s).filter (fun ip => decide (ip.1 ∉ d))).map Prod.snd
      = ((ps.enumFrom s).filter (fun ip => decide (ip.1 ∉ (s + id) :: d))).map Prod.snd := by
  induction ps generalizing s id with
  | nil => simp at hid
  | cons p t ih =>
    cases id with
    | zero =>
      rw [List.eraseIdx_cons_zero, List.enumFrom_cons,
        List.filter_cons_of_neg (by simp),
        enumFrom_filter_all s d t (by simpa using hd),
        enumFrom_filter_all (s + 1) ((s + 0) :: d) t (by
          intro x hx
          rcases List.mem_cons.mp hx with rfl | hx
          · omega
          · have := hd x hx; omega)]
    | succ k =>
      have hk : k < t.length := by simpa using hid
      have e : s + (k + 1) = (s + 1) + k := by omega
      rw [List.eraseIdx_cons_succ, List.enumFrom_cons, List.enumFrom_cons, e]
      have IH := ih (s + 1) k hk (fun x hx => by have := hd x hx; omega)
      by_cases hs : s ∈ d
      · rw [List.filter_cons_of_neg (by simpa using hs),
          List.filter_cons_of_neg (by simp [hs]), IH]
      · rw [List.filter_cons_of_pos (by simpa using hs),
          List.filter_cons_of_pos (by
            simp only [List.mem_cons, not_or, decide_eq_true_eq]
            exact ⟨by omega, hs⟩),
          List.map_cons, List.map_cons, IH]

theorem deleteSent_desc (d : List Nat) (ps : List Patch)
    (hd : List.Pairwise (fun a b => b < a) d) (hv : ∀ id ∈ d, id < ps.length) :
    deleteSent d ps = Except.ok
      (d.filterMap (fun id => ps[id]?.map Call.delete),
        ((ps.enum).filter (fun ip => decide (ip.1 ∉ d))).map Prod.snd) := by
  induction d generalizing ps with
  | nil =>
    simp only [deleteSent, List.filterMap_nil, List.not_mem_nil, not_false_eq_true, decide_True]
    rw [List.filter_eq_self.mpr (by simp), List.enum_map_snd]
  | cons id rest ih =>
    have hid : id < ps.length := hv id (List.mem_cons_self _ _)
    have hlt : ∀ x ∈ rest, x < id := (List.pairwise_cons.mp hd).1
    have hget : ps[id]? = some ps[id] := List.getElem?_eq_getElem hid
    rw [deleteSent, hget]
    simp only
    rw [ih (ps.eraseIdx id) (List.pairwise_cons.mp hd).2 (by
      intro x hx
      have := hlt x hx
      rw [List.length_eraseIdx]
      split <;> omega)]
    simp only [List.filterMap_cons, hget, Option.map_some']
    have hcalls : rest.filterMap (fun i => (ps.eraseIdx id)[i]?.map Call.delete)
        = rest.filterMap (fun i => ps[i]?.map Call.delete) := by
      apply List.filterMap_congr
      intro x hx
      rw [List.getElem?_eraseIdx_of_lt _ _ _ (hlt x hx)]
    have hkeep := keep_eraseIdx 0 id rest ps hid (by simpa using hlt)
    rw [Nat.zero_add] at hkeep
    rw [hcalls]
    unfold List.enum
    rw [hkeep]

/-- C10. For an ascending list `send_patch_id_` of distinct valid local indices, the
reverse-order deletion loop of `exchangePatches` completes without touching a slot
that does not exist (the loop checks each index against the sequence as it is at
that moment), it deletes the patches that were at the indices of `send_patch_id_`,
last entry first, and the sequence left is that of the patches whose index is not
in `send_patch_id_`, in their original order. -/
theorem deleteSent_removes_exactly_sent (send_patch_id_ : List Nat) (patches_ : List Patch)
    (hs : List.Pairwise (fun a b => a < b) send_patch_id_)
    (hv : ∀ id ∈ send_patch_id_, id < patches_.length) :
    deleteSent send_patch_id_.reverse patches_ = Except.ok
      (send_patch_id_.reverse.filterMap (fun id => patches_[id]?.map Call.delete),
        ((patches_.enum).filter (fun ip => decide (ip.1 ∉ send_patch_id_))).map Prod.snd) := by
  rw [deleteSent_desc send_patch_id_.reverse patches_ (List.pairwise_reverse.mpr hs)
    (fun id hid => hv id (List.mem_reverse.mp hid))]
  simp only [List.mem_reverse]

/-! ## The insertion loop and the two posting loops -/

theorem getElem?_staged (A : List Patch) (f : Nat → Patch) (h : Nat) (t : List Nat) :
    (A ++ (h :: t).map f)[A.length]? = some (f h) := by
  rw [List.getElem?_append_right (le_refl _)]
  simp

theorem insertReceived_above (ref : Nat) (f : Nat → Patch) (hi : List Nat) (A ps : List Patch)
    (hhi : ∀ x ∈ hi, x > ref) :
    insertReceived ref (A ++ hi.map f) hi A.length ps = Except.ok (ps ++ hi.map f) := by
  induction hi generalizing A ps with
  | nil => simp [insertReceived]
  | cons h t ih =>
    rw [insertReceived, getElem?_staged]
    simp only [hhi h (List.mem_cons_self _ _), if_true]
    have e : A ++ (h :: t).map f = (A ++ [f h]) ++ t.map f := by simp
    have el : A.length + 1 = (A ++ [f h]).length := by simp
    rw [e, el, ih (A ++ [f h]) (ps ++ [f h]) (fun x hx => hhi x (List.mem_cons_of_mem _ hx))]
    simp

theorem insertReceived_split (ref : Nat) (f : Nat → Patch) (lo hi : List Nat)
    (A front back : List Patch) (hlen : front.length = A.length)
    (hlo : ∀ x ∈ lo, ¬ x > ref) (hhi : ∀ x ∈ hi, x > ref) :
    insertReceived ref (A ++ (lo ++ hi).map f) (lo ++ hi) A.length (front ++ back)
      = Except.ok (front ++ lo.map f ++ back ++ hi.map f) := by
  induction lo generalizing A front with
  | nil =>
    simp only [List.nil_append, List.map_nil, List.append_nil]
    exact insertReceived_above ref f hi A (front ++ back) hhi
  | cons x t ih =>
    rw [List.cons_append, insertReceived, getElem?_staged]
    simp only [hlo x (List.mem_cons_self _ _), if_false]
    have hle : A.length ≤ (front ++ back).length := by simp; omega
    rw [if_pos hle]
    have hins : insertAt A.length (f x) (front ++ back) = (front ++ [f x]) ++ back := by
      unfold insertAt
      rw [← hlen, List.take_left, List.drop_left]
      simp
    have e : A ++ (x :: (t ++ hi)).map f = (A ++ [f x]) ++ (t ++ hi).map f := by simp
    have el : A.length + 1 = (A ++ [f x]).length := by simp
    rw [hins, e, el, ih (A ++ [f x]) (front ++ [f x]) (by simp [hlen])
      (fun y hy => hlo y (List.mem_cons_of_mem _ hy))]
    simp

theorem sorted_split (t : Nat) (l : List Nat) (hs : List.Pairwise (fun a b => a < b) l) :
    l = l.filter (fun x => decide (¬ x > t)) ++ l.filter (fun x => decide (x > t)) := by
  induction l with
  | nil => rfl
  | cons a r ih =>
    have hr := (List.pairwise_cons.mp hs).2
    have ha := (List.pairwise_cons.mp hs).1
    by_cases h : a > t
    · have hall : ∀ x ∈ r, x > t := fun x hx => by have := ha x hx; omega
      rw [List.filter_cons_of_neg (by simpa using h), List.filter_cons_of_pos (by simpa using h),
        List.filter_eq_nil_iff.mpr (by intro x hx; simpa using hall x hx),
        List.filter_eq_self.mpr (by intro x hx; simpa using hall x hx)]
      rfl
    · rw [List.filter_cons_of_pos (by simpa using h), List.filter_cons_of_neg (by simpa using h),
        List.cons_append, ← ih hr]

theorem sendPosts_sorted (rank ref istart : Nat) (nm : Int) (ps : List Patch) (ids : List Nat)
    (cur : Int) (hs : List.Pairwise (fun a b => a < b) ids)
    (hv : ∀ id ∈ ids, id < ps.length)
    (hcur : cur = (rank : Int) - 1 ∨ ∀ id ∈ ids, id + ref > istart) :
    sendPosts rank ref istart nm ps ids cur = Except.ok
      (ids.filterMap (fun id => ps[id]?.map (fun p =>
        Call.isend p (if id + ref > istart then (rank : Int) + 1 else (rank : Int) - 1)
          (sendTag ref id nm)))) := by
  induction ids generalizing cur with
  | nil => rfl
  | cons id rest ih =>
    have hid : id < ps.length := hv id (List.mem_cons_self _ _)
    have hget : ps[id]? = some ps[id] := List.getElem?_eq_getElem hid
    have hlt := (List.pairwise_cons.mp hs).1
    rw [sendPosts, hget]
    simp only [List.filterMap_cons, hget, Option.map_some']
    by_cases h : id + ref > istart
    · rw [if_pos h, ih _ (List.pairwise_cons.mp hs).2 (fun x hx => hv x (List.mem_cons_of_mem _ hx))
        (Or.inr (fun x hx => by have := hlt x hx; omega))]
      simp only [if_pos h]
    · have hc : cur = (rank : Int) - 1 := by
        rcases hcur with hc | hall
        · exact hc
        · exact absurd (hall id (List.mem_cons_self _ _)) h
      rw [if_neg h, ih _ (List.pairwise_cons.mp hs).2 (fun x hx => hv x (List.mem_cons_of_mem _ hx))
        (Or.inl hc), hc]
      simp only [if_neg h]

theorem recvPosts_sorted (rank ref : Nat) (nm : Int) (f : Nat → Patch) (ids : List Nat)
    (A : List Patch) (cur : Int) (hs : List.Pairwise (fun a b => a < b) ids)
    (hcur : cur = (rank : Int) - 1 ∨ ∀ h ∈ ids, h > ref) :
    recvPosts rank ref nm (A ++ ids.map f) ids A.length cur = Except.ok
      (ids.map (fun h =>
        Call.recv (f h) (if h > ref then (rank : Int) + 1 else (rank : Int) - 1)
          (recvTag h nm))) := by
  induction ids generalizing cur A with
  | nil => rfl
  | cons h rest ih =>
    have hlt := (List.pairwise_cons.mp hs).1
    rw [recvPosts, getElem?_staged]
    have e : A ++ (h :: rest).map f = (A ++ [f h]) ++ rest.map f := by simp
    have el : A.length + 1 = (A ++ [f h]).length := by simp
    simp only [List.map_cons]
    by_cases hh : h > ref
    · rw [if_pos hh]
      have := ih (A ++ [f h]) ((rank : Int) + 1) (List.pairwise_cons.mp hs).2
        (Or.inr (fun x hx => by have := hlt x hx; omega))
      rw [← el] at this
      simp only [List.append_assoc, List.singleton_append] at this
      rw [this]
      simp only [if_pos hh]
    · have hc : cur = (rank : Int) - 1 := by
        rcases hcur with hc | hall
        · exact hc
        · exact absurd (hall h (List.mem_cons_self _ _)) hh
      rw [if_neg hh]
      have := ih (A ++ [f h]) cur (List.pairwise_cons.mp hs).2 (Or.inl hc)
      rw [← el] at this
      simp only [List.append_assoc, List.singleton_append] at this
      rw [this, hc]
      simp only [if_neg hh]

theorem exchangePatches_closed (rank : Nat) (pc : Nat → Nat) (nDim : Nat) (w : VectorPatch)
    (p0 : Patch) (rest : List Patch) (f : Nat → Patch)
    (hp : w.patches_ = p0 :: rest)
    (hss : List.Pairwise (fun a b => a < b) w.send_patch_id_)
    (hsv : ∀ id ∈ w.send_patch_id_, id < w.patches_.length)
    (hrs : List.Pairwise (fun a b => a < b) w.recv_patch_id_)
    (hrp : w.recv_patches_ = w.recv_patch_id_.map f) :
    exchangePatches rank pc nDim w = Except.ok
      (w.send_patch_id_.filterMap (fun id => w.patches_[id]?.map (fun p =>
          Call.isend p
            (if id + w.refHindex_ > istartOf rank pc then (rank : Int) + 1 else (rank : Int) - 1)
            (sendTag w.refHindex_ id (nmessageOf p0.nSpecies nDim p0.nProbes p0.nAntennas))))
        ++ w.recv_patch_id_.map (fun h =>
          Call.recv (f h) (if h > w.refHindex_ then (rank : Int) + 1 else (rank : Int) - 1)
            (recvTag h (nmessageOf p0.nSpecies nDim p0.nProbes p0.nAntennas)))
        ++ [Call.barrier]
        ++ w.send_patch_id_.reverse.filterMap (fun id => w.patches_[id]?.map Call.delete)
        ++ ((w.recv_patch_id_.filter (fun x => decide (¬ x > w.refHindex_))).map f
              ++ ((w.patches_.enum).filter
                    (fun ip => decide (ip.1 ∉ w.send_patch_id_))).map Prod.snd
              ++ (w.recv_patch_id_.filter (fun x => decide (x > w.refHindex_))).map f).map
            Call.updateMPIenv
        ++ [Call.update_field_list],
        { patches_ := (w.recv_patch_id_.filter (fun x => decide (¬ x > w.refHindex_))).map f
              ++ ((w.patches_.enum).filter
                    (fun ip => decide (ip.1 ∉ w.send_patch_id_))).map Prod.snd
              ++ (w.recv_patch_id_.filter (fun x => decide (x > w.refHindex_))).map f
          refHindex_ := set_refHindex w.refHindex_
            ((w.recv_patch_id_.filter (fun x => decide (¬ x > w.refHindex_))).map f
              ++ ((w.patches_.enum).filter
                    (fun ip => decide (ip.1 ∉ w.send_patch_id_))).map Prod.snd
              ++ (w.recv_patch_id_.filter (fun x => decide (x > w.refHindex_))).map f)
          recv_patch_id_ := w.recv_patch_id_
          send_patch_id_ := w.send_patch_id_
          recv_patches_ := [] }) := by
  obtain ⟨ps, ref, recv, send, rp⟩ := w
  simp only at hp hss hsv hrs hrp ⊢
  subst hp hrp
  have hsend := sendPosts_sorted rank ref (istartOf rank pc)
    (nmessageOf p0.nSpecies nDim p0.nProbes p0.nAntennas) (p0 :: rest) send ((rank : Int) - 1)
    hss hsv (Or.inl rfl)
  have hrecv := recvPosts_sorted rank ref (nmessageOf p0.nSpecies nDim p0.nProbes p0.nAntennas)
    f recv [] ((rank : Int) - 1) hrs (Or.inl rfl)
  have hdel := deleteSent_desc send.reverse (p0 :: rest) (List.pairwise_reverse.mpr hss)
    (fun id hid => hsv id (List.mem_reverse.mp hid))
  have hins := insertReceived_split ref f (recv.filter (fun x => decide (¬ x > ref)))
    (recv.filter (fun x => decide (x > ref))) [] []
    (((p0 :: rest).enum.filter (fun ip => decide (ip.1 ∉ send))).map Prod.snd) rfl
    (by intro x hx; simpa using (List.mem_filter.mp hx).2)
    (by intro x hx; simpa using (List.mem_filter.mp hx).2)
  rw [← sorted_split ref recv hrs] at hins
  simp only [List.nil_append, List.length_nil, List.mem_reverse] at hins hrecv hdel
  simp only [exchangePatches, hsend, hrecv, hdel, hins]

/-! ## A rebalance with an unchanged range -/

theorem createPatches_staged (sw : Option Nat) (rank : Nat) (pc : Nat → Nat)
    (v : VectorPatch) (p0 : Patch) (rest : List Patch) (c : Created)
    (hp : v.patches_ = p0 :: rest) (hc : createPatches sw rank pc v = Except.ok c) :
    c.vp.patches_ = p0 :: rest
    ∧ c.vp.refHindex_ = p0.hindex
    ∧ List.Pairwise (fun a b => a < b) c.vp.send_patch_id_
    ∧ (∀ id ∈ c.vp.send_patch_id_, id < c.vp.patches_.length)
    ∧ List.Pairwise (fun a b => a < b) c.vp.recv_patch_id_
    ∧ c.vp.recv_patches_ = c.vp.recv_patch_id_.map
        (fun h => PatchesFactory.clone c.existing_patch h (nMovedOf sw)) := by
  obtain ⟨r, e, _, _, _, _, rfl⟩ := createPatches_ok_inv sw rank pc v p0 rest c hp hc
  refine ⟨rfl, rfl, List.Pairwise.filter _ (List.pairwise_lt_range _), ?_,
    List.Pairwise.filter _ (List.pairwise_lt_range' _ _), rfl⟩
  intro id hid
  have := List.mem_range.mp (List.mem_filter.mp hid).1
  simpa using this

/-- C4. On a rank whose new range equals its current range (`istart` is the hindex
of its first patch and `patch_count[rank]` its number of patches), `createPatches`
completes with an empty `send_patch_id_`, an empty `recv_patch_id_` and no clone,
and `exchangePatches` then makes no `isend`, no `recv` and no `delete` (its calls
are the barrier, one `updateMPIenv` per patch and `update_field_list`) and leaves
the local patch sequence as it was. -/
theorem rebalance_same_range_noop (sw : Option Nat) (rank : Nat)
    (pc : Nat → Nat) (nDim : Nat) (v : VectorPatch) (p0 : Patch) (rest : List Patch)
    (hp : v.patches_ = p0 :: rest) (hstart : istartOf rank pc = p0.hindex)
    (hcount : pc rank = rest.length + 1) :
    ∃ c, createPatches sw rank pc v = Except.ok c
      ∧ c.vp.send_patch_id_ = [] ∧ c.vp.recv_patch_id_ = [] ∧ c.vp.recv_patches_ = []
      ∧ c.vp.patches_ = v.patches_
      ∧ ∃ calls w, exchangePatches rank pc nDim c.vp = Except.ok (calls, w)
        ∧ calls = [Call.barrier] ++ v.patches_.map Call.updateMPIenv ++ [Call.update_field_list]
        ∧ (∀ p dest tag, Call.isend p dest tag ∉ calls)
        ∧ (∀ p source tag, Call.recv p source tag ∉ calls)
        ∧ (∀ p, Call.delete p ∉ calls)
        ∧ w.patches_ = v.patches_
        ∧ w.refHindex_ = p0.hindex := by
  obtain ⟨c, hc⟩ := createPatches_completes sw rank pc v p0 rest hp
    ⟨p0.hindex, by omega, by omega⟩
  obtain ⟨hps, href, hss, hsv, hrs, hrp⟩ := createPatches_staged sw rank pc v p0 rest c hp hc
  obtain ⟨r, e, _, _, _, _, hcc⟩ := createPatches_ok_inv sw rank pc v p0 rest c hp hc
  have hs0 : c.vp.send_patch_id_ = [] := by
    rw [hcc]
    simp only
    rw [List.filter_eq_nil_iff]
    intro i hi
    have := List.mem_range.mp hi
    simp only [decide_eq_true_eq, not_not]
    omega
  have hr0 : c.vp.recv_patch_id_ = [] := by
    rw [hcc]
    simp only
    rw [List.filter_eq_nil_iff]
    intro h hh
    obtain ⟨i, hi, rfl⟩ := List.mem_range'.mp hh
    simp only [decide_eq_true_eq, not_not]
    omega
  have hx := exchangePatches_closed rank pc nDim c.vp p0 rest _ hps hss hsv hrs hrp
  rw [hs0, hr0, hps, href] at hx
  have hall : ((p0 :: rest).enum.filter (fun ip => decide (ip.1 ∉ ([] : List Nat)))).map Prod.snd
      = p0 :: rest := by
    rw [List.filter_eq_self.mpr (by simp), List.enum_map_snd]
  simp only [List.filterMap_nil, List.map_nil, List.filter_nil, List.reverse_nil,
    List.nil_append, List.append_nil, hall] at hx
  refine ⟨c, hc, hs0, hr0, by rw [hrp, hr0]; rfl, by rw [hps, hp], _, _, hx, ?_, ?_, ?_, ?_,
    by rw [hp], rfl⟩
  · rw [hp]
  · intro p d t hm
    simp at hm
  · intro p d t hm
    simp at hm
  · intro p hm
    simp at hm

/-! ## The hindex order after a rebalance -/

theorem sorted_eq_of_mem_iff (l₁ l₂ : List Nat) (h₁ : List.Pairwise (fun a b => a < b) l₁)
    (h₂ : List.Pairwise (fun a b => a < b) l₂) (hm : ∀ x, x ∈ l₁ ↔ x ∈ l₂) : l₁ = l₂ := by
  have n₁ : l₁.Nodup := h₁.imp (fun h => Nat.ne_of_lt h)
  have n₂ : l₂.Nodup := h₂.imp (fun h => Nat.ne_of_lt h)
  exact List.eq_of_perm_of_sorted ((List.perm_ext_iff_of_nodup n₁ n₂).mpr hm) h₁ h₂

theorem kept_sublist (send : List Nat) (ps : List Patch) :
    List.Sublist (((ps.enum).filter (fun ip => decide (ip.1 ∉ send))).map Prod.snd) ps := by
  have h := (List.filter_sublist (p := fun ip => decide (ip.1 ∉ send)) (ps.enum)).map Prod.snd
  rwa [List.enum_map_snd] at h

theorem mem_kept_hindexes (send : List Nat) (ps : List Patch) (ref n : Nat)
    (hinv : hindexes ps = List.range' ref n) (x : Nat) :
    x ∈ hindexes (((ps.enum).filter (fun ip => decide (ip.1 ∉ send))).map Prod.snd)
      ↔ ∃ i, i < n ∧ i ∉ send ∧ x = ref + i := by
  have hlen : ps.length = n := by
    have := congrArg List.length hinv
    simpa [hindexes] using this
  have hidx : ∀ i p, ps[i]? = some p → i < n ∧ p.hindex = ref + i := by
    intro i p hip
    have hi : i < ps.length := (List.getElem?_eq_some_iff.mp hip).1
    have h1 : (hindexes ps)[i]? = some p.hindex := by
      unfold hindexes
      rw [List.getElem?_map, hip]
      rfl
    rw [hinv, List.getElem?_range' _ _ (by omega)] at h1
    simp only [Option.some.injEq] at h1
    omega
  unfold hindexes
  simp only [List.mem_map, List.mem_filter, decide_eq_true_eq, Prod.exists]
  constructor
  · rintro ⟨p, ⟨i, q, ⟨hmem, hns⟩, rfl⟩, rfl⟩
    have := hidx i q (List.mk_mem_enum_iff_getElem?.mp hmem)
    exact ⟨i, this.1, hns, this.2⟩
  · rintro ⟨i, hi, hns, rfl⟩
    have hi' : i < ps.length := by omega
    have hget : ps[i]? = some ps[i] := List.getElem?_eq_getElem hi'
    exact ⟨ps[i], ⟨i, ps[i], ⟨List.mk_mem_enum_iff_getElem?.mpr hget, hns⟩, rfl⟩,
      (hidx i ps[i] hget).2⟩

theorem hindexes_clones (e : Patch) (m : Nat) (l : List Nat) :
    hindexes (l.map (fun h => PatchesFactory.clone e h m)) = l := by
  unfold hindexes
  rw [List.map_map]
  conv_rhs => rw [← List.map_id l]
  rfl

theorem exchange_after_create (sw : Option Nat) (rank : Nat) (pc : Nat → Nat)
    (nDim : Nat) (v : VectorPatch) (p0 : Patch) (rest : List Patch) (c : Created)
    (hp : v.patches_ = p0 :: rest)
    (hinv : hindexes v.patches_ = List.range' p0.hindex (rest.length + 1))
    (hc : createPatches sw rank pc v = Except.ok c) :
    ∃ calls w, exchangePatches rank pc nDim c.vp = Except.ok (calls, w)
      ∧ hindexes w.patches_ = List.range' (istartOf rank pc) (pc rank)
      ∧ w.refHindex_ = istartOf rank pc := by
  obtain ⟨hps, href, hss, hsv, hrs, hrp⟩ := createPatches_staged sw rank pc v p0 rest c hp hc
  obtain ⟨r, e, _, _, hN, hC, hcc⟩ := createPatches_ok_inv sw rank pc v p0 rest c hp hc
  have hx := exchangePatches_closed rank pc nDim c.vp p0 rest _ hps hss hsv hrs hrp
  have hsend : c.vp.send_patch_id_ = (List.range (rest.length + 1)).filter
      (fun i => decide (¬ (istartOf rank pc ≤ p0.hindex + i
        ∧ p0.hindex + i < istartOf rank pc + pc rank))) := by rw [hcc]
  have hrecv : c.vp.recv_patch_id_ = (List.range' (istartOf rank pc) (pc rank)).filter
      (fun h => decide (¬ (p0.hindex ≤ h ∧ h < p0.hindex + (rest.length + 1)))) := by rw [hcc]
  have hinv' : hindexes c.vp.patches_ = List.range' p0.hindex (rest.length + 1) := by
    rw [hps, ← hp]; exact hinv
  have hH : hindexes
      ((c.vp.recv_patch_id_.filter (fun x => decide (¬ x > c.vp.refHindex_))).map
          (fun h => PatchesFactory.clone c.existing_patch h (nMovedOf sw))
        ++ ((c.vp.patches_.enum).filter
              (fun ip => decide (ip.1 ∉ c.vp.send_patch_id_))).map Prod.snd
        ++ (c.vp.recv_patch_id_.filter (fun x => decide (x > c.vp.refHindex_))).map
          (fun h => PatchesFactory.clone c.existing_patch h (nMovedOf sw)))
      = List.range' (istartOf rank pc) (pc rank) := by
    have happ : ∀ a b : List Patch, hindexes (a ++ b) = hindexes a ++ hindexes b := by
      intro a b; simp [hindexes]
    rw [happ, happ, hindexes_clones, hindexes_clones, href]
    have hK := mem_kept_hindexes c.vp.send_patch_id_ c.vp.patches_ p0.hindex (rest.length + 1) hinv'
    have hKs : List.Pairwise (fun a b => a < b)
        (hindexes (((c.vp.patches_.enum).filter
              (fun ip => decide (ip.1 ∉ c.vp.send_patch_id_))).map Prod.snd)) := by
      have hsub := (kept_sublist c.vp.send_patch_id_ c.vp.patches_).map Patch.hindex
      have hsorted : List.Pairwise (fun a b => a < b) (hindexes c.vp.patches_) := by
        rw [hinv']; exact List.pairwise_lt_range' _ _
      exact hsorted.sublist hsub
    have hmemS : ∀ i, i < rest.length + 1 → (i ∉ c.vp.send_patch_id_ ↔
        (istartOf rank pc ≤ p0.hindex + i ∧ p0.hindex + i < istartOf rank pc + pc rank)) := by
      intro i hi
      rw [hsend]
      simp only [List.mem_filter, List.mem_range, decide_eq_true_eq]
      constructor
      · intro h
        by_contra hcon
        exact h ⟨hi, hcon⟩
      · intro h hcon
        exact hcon.2 h
    have hmemR : ∀ x, x ∈ c.vp.recv_patch_id_ ↔
        ((istartOf rank pc ≤ x ∧ x < istartOf rank pc + pc rank)
          ∧ ¬ (p0.hindex ≤ x ∧ x < p0.hindex + (rest.length + 1))) := by
      intro x
      rw [hrecv]
      simp only [List.mem_filter, List.mem_range'_1, decide_eq_true_eq]
    apply sorted_eq_of_mem_iff
    · rw [List.pairwise_append, List.pairwise_append]
      refine ⟨⟨List.Pairwise.filter _ hrs, hKs, ?_⟩, List.Pairwise.filter _ hrs, ?_⟩
      · intro a ha b hb
        have ha' := List.mem_filter.mp ha
        have haR := (hmemR a).mp ha'.1
        have ha2 : ¬ a > p0.hindex := by simpa using ha'.2
        obtain ⟨i, _, _, rfl⟩ := (hK b).mp hb
        omega
      · intro a ha b hb
        have hb' := List.mem_filter.mp hb
        have hbR := (hmemR b).mp hb'.1
        have hb2 : b > p0.hindex := by simpa using hb'.2
        rcases List.mem_append.mp ha with ha | ha
        · have ha' := List.mem_filter.mp ha
          have ha2 : ¬ a > p0.hindex := by simpa using ha'.2
          omega
        · obtain ⟨i, hi, _, rfl⟩ := (hK a).mp ha
          omega
    · exact List.pairwise_lt_range' _ _
    · intro x
      simp only [List.mem_append, List.mem_filter, decide_eq_true_eq, hmemR, hK,
        List.mem_range'_1]
      constructor
      · rintro ((⟨⟨hxN, _⟩, _⟩ | ⟨i, hi, hns, rfl⟩) | ⟨⟨hxN, _⟩, _⟩)
        · exact hxN
        · exact (hmemS i hi).mp hns
        · exact hxN
      · intro hxN
        by_cases hxC : p0.hindex ≤ x ∧ x < p0.hindex + (rest.length + 1)
        · left; right
          exact ⟨x - p0.hindex, by omega, (hmemS _ (by omega)).mpr (by
            have : p0.hindex + (x - p0.hindex) = x := by omega
            rw [this]; exact hxN), by omega⟩
        · by_cases hgt : x > p0.hindex
          · right; exact ⟨⟨hxN, hxC⟩, hgt⟩
          · left; left; exact ⟨⟨hxN, hxC⟩, hgt⟩
  refine ⟨_, _, hx, hH, ?_⟩
  simp only
  have hcount : 1 ≤ pc rank := by omega
  generalize hL : ((c.vp.recv_patch_id_.filter (fun x => decide (¬ x > c.vp.refHindex_))).map
          (fun h => PatchesFactory.clone c.existing_patch h (nMovedOf sw))
        ++ ((c.vp.patches_.enum).filter
              (fun ip => decide (ip.1 ∉ c.vp.send_patch_id_))).map Prod.snd
        ++ (c.vp.recv_patch_id_.filter (fun x => decide (x > c.vp.refHindex_))).map
          (fun h => PatchesFactory.clone c.existing_patch h (nMovedOf sw))) = L at hH ⊢
  cases L with
  | nil =>
    have := congrArg List.length hH
    simp [hindexes] at this
    omega
  | cons q t =>
    have h0 := congrArg List.head? hH
    rw [List.head?_range'] at h0
    simp only [hindexes, List.map_cons, List.head?_cons] at h0
    have hne : ¬ pc rank = 0 := by omega
    simp only [hne, if_false, Option.some.injEq] at h0
    simpa [set_refHindex] using h0

theorem cons_of_hindexes (ps : List Patch) (ref n : Nat) (hn : 1 ≤ n)
    (hinv : hindexes ps = List.range' ref n) :
    ∃ p0 rest, ps = p0 :: rest ∧ p0.hindex = ref ∧ rest.length + 1 = n := by
  cases ps with
  | nil =>
    have := congrArg List.length hinv
    simp [hindexes] at this
    omega
  | cons p0 rest =>
    have hl := congrArg List.length hinv
    have h0 := congrArg List.head? hinv
    rw [List.head?_range'] at h0
    have hne : ¬ n = 0 := by omega
    simp only [hindexes, List.map_cons, List.head?_cons, hne, if_false,
      Option.some.injEq] at h0
    simp only [hindexes, List.length_map, List.length_cons, List.length_range'] at hl
    exact ⟨p0, rest, rfl, h0, hl⟩

theorem rebalance_ok_hindexes (sw : Option Nat) (rank : Nat) (pc : Nat → Nat)
    (nDim : Nat) (v : VectorPatch) (ref n : Nat) (calls : List Call) (w : VectorPatch)
    (hn : 1 ≤ n) (hinv : hindexes v.patches_ = List.range' ref n)
    (hrun : rebalance sw rank pc nDim v = Except.ok (calls, w)) :
    hindexes w.patches_ = List.range' (istartOf rank pc) (pc rank)
      ∧ w.refHindex_ = istartOf rank pc := by
  obtain ⟨p0, rest, hp, h0, hl⟩ := cons_of_hindexes v.patches_ ref n hn hinv
  unfold rebalance at hrun
  cases hc : createPatches sw rank pc v with
  | error e => rw [hc] at hrun; cases hrun
  | ok c =>
    rw [hc] at hrun
    simp only at hrun
    obtain ⟨calls', w', hx, hH, hR⟩ := exchange_after_create sw rank pc nDim v p0 rest c hp
      (by rw [h0, hl]; exact hinv) hc
    rw [hx] at hrun
    simp only [Except.ok.injEq, Prod.mk.injEq] at hrun
    rw [← hrun.2]
    exact ⟨hH, hR⟩

/-- C1. A rank holds `n >= 1` patches with hindices `ref, ..., ref+n-1` in order, and
its new range `[istart, istart+count-1]` shares a hindex with `[ref, ref+n-1]`.
Then `createPatches` followed by `exchangePatches` completes, the local sequence has
exactly `count` patches, `refHindex_` is `istart`, and the patch at position `i` has
hindex `istart + i = refHindex_ + i`. -/
theorem rebalance_restores_hindex_order (sw : Option Nat) (rank : Nat)
    (pc : Nat → Nat) (nDim : Nat) (v : VectorPatch) (ref n : Nat)
    (hn : 1 ≤ n) (hinv : hindexes v.patches_ = List.range' ref n)
    (hov : ∃ h, (istartOf rank pc ≤ h ∧ h < istartOf rank pc + pc rank)
      ∧ (ref ≤ h ∧ h < ref + n)) :
    ∃ calls w, rebalance sw rank pc nDim v = Except.ok (calls, w)
      ∧ w.patches_.length = pc rank
      ∧ w.refHindex_ = istartOf rank pc
      ∧ hindexes w.patches_ = List.range' (istartOf rank pc) (pc rank)
      ∧ ∀ i p, w.patches_[i]? = some p →
          p.hindex = istartOf rank pc + i ∧ p.hindex = w.refHindex_ + i := by
  obtain ⟨p0, rest, hp, h0, hl⟩ := cons_of_hindexes v.patches_ ref n hn hinv
  obtain ⟨c, hc⟩ := createPatches_completes sw rank pc v p0 rest hp
    (by rw [h0, hl]; exact hov)
  obtain ⟨calls, w, hx, _, _⟩ := exchange_after_create sw rank pc nDim v p0 rest c hp
    (by rw [h0, hl]; exact hinv) hc
  have hrun : rebalance sw rank pc nDim v = Except.ok (calls, w) := by
    unfold rebalance
    rw [hc]
    exact hx
  obtain ⟨hH, hR⟩ := rebalance_ok_hindexes sw rank pc nDim v ref n calls w hn hinv hrun
  have hlen : w.patches_.length = pc rank := by
    have := congrArg List.length hH
    simpa [hindexes] using this
  refine ⟨calls, w, hrun, hlen, hR, hH, ?_⟩
  intro i p hip
  have hi : i < w.patches_.length := (List.getElem?_eq_some_iff.mp hip).1
  have h1 : (hindexes w.patches_)[i]? = some p.hindex := by
    unfold hindexes
    rw [List.getElem?_map, hip]
    rfl
  rw [hH, List.getElem?_range' _ _ (by omega)] at h1
  simp only [Option.some.injEq] at h1
  omega

theorem rebalance_restores_hindex_order_witness :
    ∃ calls w, rebalance none 1 (tableOf [2, 3, 3]) 1 (residentRank 3 3)
        = Except.ok (calls, w)
      ∧ w.patches_.length = tableOf [2, 3, 3] 1
      ∧ w.refHindex_ = istartOf 1 (tableOf [2, 3, 3])
      ∧ hindexes w.patches_
          = List.range' (istartOf 1 (tableOf [2, 3, 3])) (tableOf [2, 3, 3] 1)
      ∧ ∀ i p, w.patches_[i]? = some p →
          p.hindex = istartOf 1 (tableOf [2, 3, 3]) + i ∧ p.hindex = w.refHindex_ + i :=
  rebalance_restores_hindex_order none 1 (tableOf [2, 3, 3]) 1 (residentRank 3 3) 3 3
    (by decide) (by decide) ⟨3, by decide, by decide⟩

/-! ## Ownership across ranks -/

theorem istartOf_mono (pc : Nat → Nat) (r₁ r₂ : Nat) (h : r₁ ≤ r₂) :
    istartOf r₁ pc ≤ istartOf r₂ pc := by
  induction r₂ with
  | zero =>
    have : r₁ = 0 := by omega
    rw [this]
  | succ k ih =>
    rcases Nat.lt_or_ge r₁ (k + 1) with hlt | hge
    · have := ih (by omega)
      rw [istartOf_succ]
      omega
    · have : r₁ = k + 1 := by omega
      rw [this]

theorem istartOf_next_le (pc : Nat → Nat) (r₁ r₂ : Nat) (h : r₁ < r₂) :
    istartOf r₁ pc + pc r₁ ≤ istartOf r₂ pc := by
  rw [← istartOf_succ]
  exact istartOf_mono pc (r₁ + 1) r₂ h

theorem istartOf_cover (pc : Nat → Nat) (nprocs h : Nat) (hh : h < istartOf nprocs pc) :
    ∃ r, r < nprocs ∧ istartOf r pc ≤ h ∧ h < istartOf r pc + pc r := by
  induction nprocs with
  | zero => simp [istartOf] at hh
  | succ k ih =>
    rw [istartOf_succ] at hh
    rcases Nat.lt_or_ge h (istartOf k pc) with hlt | hge
    · obtain ⟨r, hr, h1, h2⟩ := ih hlt
      exact ⟨r, by omega, h1, h2⟩
    · exact ⟨k, by omega, hge, hh⟩

/-- C2. For every process count and ownership map whose counts sum to `total`: if
every rank starts from a sequence of `n >= 1` patches with consecutive hindices and
runs `createPatches` and `exchangePatches` without error, then afterwards no rank owns
a hindex twice, no hindex is owned by two ranks, and the hindices owned by some rank
are exactly `0, ..., total-1`. -/
theorem rebalance_owners_partition (sw : Option Nat) (nprocs : Nat)
    (pc : Nat → Nat) (nDim total : Nat) (before after : Nat → VectorPatch)
    (hsum : ((List.range nprocs).map pc).sum = total)
    (hinv : ∀ r, r < nprocs →
      ∃ ref n, 1 ≤ n ∧ hindexes (before r).patches_ = List.range' ref n)
    (hrun : ∀ r, r < nprocs →
      ∃ calls, rebalance sw r pc nDim (before r) = Except.ok (calls, after r)) :
    (∀ r, r < nprocs → (hindexes (after r).patches_).Nodup)
    ∧ (∀ r₁ r₂ h, r₁ < nprocs → r₂ < nprocs →
        h ∈ hindexes (after r₁).patches_ → h ∈ hindexes (after r₂).patches_ → r₁ = r₂)
    ∧ (∀ h, (∃ r, r < nprocs ∧ h ∈ hindexes (after r).patches_) ↔ h < total) := by
  have hown : ∀ r, r < nprocs →
      hindexes (after r).patches_ = List.range' (istartOf r pc) (pc r) := by
    intro r hr
    obtain ⟨ref, n, hn, hi⟩ := hinv r hr
    obtain ⟨calls, hc⟩ := hrun r hr
    exact (rebalance_ok_hindexes sw r pc nDim (before r) ref n calls (after r) hn hi hc).1
  have htot : istartOf nprocs pc = total := by rw [istartOf_eq_sum, hsum]
  refine ⟨?_, ?_, ?_⟩
  · intro r hr
    rw [hown r hr]
    exact List.nodup_range' _ _
  · intro r₁ r₂ h hr₁ hr₂ h₁ h₂
    rw [hown r₁ hr₁, List.mem_range'_1] at h₁
    rw [hown r₂ hr₂, List.mem_range'_1] at h₂
    rcases Nat.lt_trichotomy r₁ r₂ with hlt | heq | hgt
    · have := istartOf_next_le pc r₁ r₂ hlt
      omega
    · exact heq
    · have := istartOf_next_le pc r₂ r₁ hgt
      omega
  · intro h
    constructor
    · rintro ⟨r, hr, hm⟩
      rw [hown r hr, List.mem_range'_1] at hm
      have := istartOf_next_le pc r nprocs hr
      omega
    · intro hlt
      rw [← htot] at hlt
      obtain ⟨r, hr, h1, h2⟩ := istartOf_cover pc nprocs h hlt
      exact ⟨r, hr, by rw [hown r hr, List.mem_range'_1]; exact ⟨h1, h2⟩⟩

theorem rebalance_owners_partition_witness :
    (∀ r, r < 3 → (hindexes (scenarioAAfter r).patches_).Nodup)
    ∧ (∀ r₁ r₂ h, r₁ < 3 → r₂ < 3 →
        h ∈ hindexes (scenarioAAfter r₁).patches_ →
        h ∈ hindexes (scenarioAAfter r₂).patches_ → r₁ = r₂)
    ∧ (∀ h, (∃ r, r < 3 ∧ h ∈ hindexes (scenarioAAfter r).patches_) ↔ h < 8) :=
  rebalance_owners_partition none 3 (tableOf [2, 3, 3]) 1 8 scenarioABefore scenarioAAfter
    (by decide)
    (by
      intro r hr
      interval_cases r
      · exact ⟨0, 3, by decide, by decide⟩
      · exact ⟨3, 3, by decide, by decide⟩
      · exact ⟨6, 2, by decide, by decide⟩)
    (by
      intro r hr
      interval_cases r
      · exact ⟨scenarioACalls 0, rfl⟩
      · exact ⟨scenarioACalls 1, rfl⟩
      · exact ⟨scenarioACalls 2, rfl⟩)

/-! ## Routing of the messages -/

theorem isendsOf_append (a b : List Call) : isendsOf (a ++ b) = isendsOf a ++ isendsOf b := by
  simp [isendsOf, List.filterMap_append]

theorem recvsOf_append (a b : List Call) : recvsOf (a ++ b) = recvsOf a ++ recvsOf b := by
  simp [recvsOf, List.filterMap_append]

theorem isendsOf_sends (ps : List Patch) (ids : List Nat) (d : Nat → Int) (t : Nat → Int) :
    isendsOf (ids.filterMap (fun id => ps[id]?.map (fun p => Call.isend p (d id) (t id))))
      = ids.filterMap (fun id => ps[id]?.map (fun p => (p, d id, t id))) := by
  induction ids with
  | nil => rfl
  | cons id rest ih =>
    unfold isendsOf at ih ⊢
    cases h : ps[id]? with
    | none => simp only [List.filterMap_cons, h, Option.map_none']; exact ih
    | some p =>
      simp only [List.filterMap_cons, h, Option.map_some']
      rw [ih]

theorem recvsOf_sends (ps : List Patch) (ids : List Nat) (d : Nat → Int) (t : Nat → Int) :
    recvsOf (ids.filterMap (fun id => ps[id]?.map (fun p => Call.isend p (d id) (t id)))) = [] := by
  induction ids with
  | nil => rfl
  | cons id rest ih =>
    unfold recvsOf at ih ⊢
    cases h : ps[id]? with
    | none => simp only [List.filterMap_cons, h, Option.map_none']; exact ih
    | some p =>
      simp only [List.filterMap_cons, h, Option.map_some']
      exact ih

theorem isendsOf_recvs (f : Nat → Patch) (ids : List Nat) (d : Nat → Int) (t : Nat → Int) :
    isendsOf (ids.map (fun h => Call.recv (f h) (d h) (t h))) = [] := by
  induction ids with
  | nil => rfl
  | cons id rest ih =>
    unfold isendsOf at ih ⊢
    simp only [List.map_cons, List.filterMap_cons]
    exact ih

theorem recvsOf_recvs (f : Nat → Patch) (ids : List Nat) (d : Nat → Int) (t : Nat → Int) :
    recvsOf (ids.map (fun h => Call.recv (f h) (d h) (t h)))
      = ids.map (fun h => (f h, d h, t h)) := by
  induction ids with
  | nil => rfl
  | cons id rest ih =>
    unfold recvsOf at ih ⊢
    simp only [List.map_cons, List.filterMap_cons]
    rw [ih]

theorem isendsOf_deletes (ps : List Patch) (ids : List Nat) :
    isendsOf (ids.filterMap (fun id => ps[id]?.map Call.delete)) = [] := by
  induction ids with
  | nil => rfl
  | cons id rest ih =>
    unfold isendsOf at ih ⊢
    cases h : ps[id]? with
    | none => simp only [List.filterMap_cons, h, Option.map_none']; exact ih
    | some p =>
      simp only [List.filterMap_cons, h, Option.map_some']
      exact ih

theorem recvsOf_deletes (ps : List Patch) (ids : List Nat) :
    recvsOf (ids.filterMap (fun id => ps[id]?.map Call.delete)) = [] := by
  induction ids with
  | nil => rfl
  | cons id rest ih =>
    unfold recvsOf at ih ⊢
    cases h : ps[id]? with
    | none => simp only [List.filterMap_cons, h, Option.map_none']; exact ih
    | some p =>
      simp only [List.filterMap_cons, h, Option.map_some']
      exact ih

theorem isendsOf_updates (ps : List Patch) : isendsOf (ps.map Call.updateMPIenv) = [] := by
  induction ps with
  | nil => rfl
  | cons p rest ih =>
    unfold isendsOf at ih ⊢
    simp only [List.map_cons, List.filterMap_cons]
    exact ih

theorem recvsOf_updates (ps : List Patch) : recvsOf (ps.map Call.updateMPIenv) = [] := by
  induction ps with
  | nil => rfl
  | cons p rest ih =>
    unfold recvsOf at ih ⊢
    simp only [List.map_cons, List.filterMap_cons]
    exact ih

theorem sorted_split_of_mono (P : Nat → Prop) [DecidablePred P]
    (hmono : ∀ a b, a < b → P a → P b) (l : List Nat)
    (hs : List.Pairwise (fun a b => a < b) l) :
    l = l.filter (fun x => decide (¬ P x)) ++ l.filter (fun x => decide (P x)) := by
  induction l with
  | nil => rfl
  | cons a r ih =>
    have hr := (List.pairwise_cons.mp hs).2
    have ha := (List.pairwise_cons.mp hs).1
    by_cases h : P a
    · have hall : ∀ x ∈ r, P x := fun x hx => hmono a x (ha x hx) h
      rw [List.filter_cons_of_neg (by simpa using h), List.filter_cons_of_pos (by simpa using h),
        List.filter_eq_nil_iff.mpr (by intro x hx; simpa using hall x hx),
        List.filter_eq_self.mpr (by intro x hx; simpa using hall x hx)]
      rfl
    · rw [List.filter_cons_of_pos (by simpa using h), List.filter_cons_of_neg (by simpa using h),
        List.cons_append, ← ih hr]

theorem map_switch_sorted (P : Nat → Prop) [DecidablePred P]
    (hmono : ∀ a b, a < b → P a → P b) (lo hi : Int) (l : List Nat)
    (hs : List.Pairwise (fun a b => a < b) l) :
    ∃ a b, l.map (fun x => if P x then hi else lo)
      = List.replicate a lo ++ List.replicate b hi := by
  refine ⟨(l.filter (fun x => decide (¬ P x))).length,
    (l.filter (fun x => decide (P x))).length, ?_⟩
  conv_lhs => rw [sorted_split_of_mono P hmono l hs]
  rw [List.map_append]
  congr 1
  · rw [List.eq_replicate_iff]
    refine ⟨by simp, ?_⟩
    intro b hb
    obtain ⟨x, hx, rfl⟩ := List.mem_map.mp hb
    have : ¬ P x := by simpa using (List.mem_filter.mp hx).2
    simp only [this, if_false]
  · rw [List.eq_replicate_iff]
    refine ⟨by simp, ?_⟩
    intro b hb
    obtain ⟨x, hx, rfl⟩ := List.mem_map.mp hb
    have : P x := by simpa using (List.mem_filter.mp hx).2
    simp only [this, if_true]

theorem hindex_of_getElem? (ps : List Patch) (ref n i : Nat) (p : Patch)
    (hinv : hindexes ps = List.range' ref n) (hip : ps[i]? = some p) :
    i < n ∧ p.hindex = ref + i := by
  have hlen : ps.length = n := by
    have := congrArg List.length hinv
    simpa [hindexes] using this
  have hi : i < ps.length := (List.getElem?_eq_some_iff.mp hip).1
  have h1 : (hindexes ps)[i]? = some p.hindex := by
    unfold hindexes
    rw [List.getElem?_map, hip]
    rfl
  rw [hinv, List.getElem?_range' _ _ (by omega)] at h1
  simp only [Option.some.injEq] at h1
  omega

/-- C8. After a completed `createPatches` on a rank whose sequence satisfies
`patches_[i]->hindex == refHindex_ + i`, `exchangePatches` completes and: every patch
of the send list is passed to exactly one `isend`, in list order; a sent patch whose
hindex is below the new first hindex `istart` goes to `rank-1` and one whose hindex is
above the new last hindex `istart+count-1` goes to `rank+1` (every sent patch is one
or the other); every entry of `recv_patch_id_` gets one `recv`, in list order, from
`rank-1` when it is below `refHindex_` and from `rank+1` when it is above; and in
program order the destinations, and the sources, are a run of `rank-1` followed by a
run of `rank+1`: once switched to `rank+1` they never switch back. -/
theorem exchangePatches_neighbour_routing (sw : Option Nat) (rank : Nat)
    (pc : Nat → Nat) (nDim : Nat) (v : VectorPatch) (p0 : Patch) (rest : List Patch)
    (c : Created) (hp : v.patches_ = p0 :: rest)
    (hinv : hindexes v.patches_ = List.range' p0.hindex (rest.length + 1))
    (hc : createPatches sw rank pc v = Except.ok c) :
    ∃ calls w, exchangePatches rank pc nDim c.vp = Except.ok (calls, w)
      ∧ (isendsOf calls).map (fun m => m.1)
          = c.vp.send_patch_id_.filterMap (fun id => v.patches_[id]?)
      ∧ (isendsOf calls).length = c.vp.send_patch_id_.length
      ∧ (∀ m ∈ isendsOf calls,
          (m.1.hindex < istartOf rank pc → m.2.1 = (rank : Int) - 1)
          ∧ (istartOf rank pc + pc rank - 1 < m.1.hindex → m.2.1 = (rank : Int) + 1)
          ∧ (m.1.hindex < istartOf rank pc ∨ istartOf rank pc + pc rank - 1 < m.1.hindex))
      ∧ (recvsOf calls).map (fun m => m.1.hindex) = c.vp.recv_patch_id_
      ∧ (∀ m ∈ recvsOf calls,
          (m.1.hindex < c.vp.refHindex_ → m.2.1 = (rank : Int) - 1)
          ∧ (c.vp.refHindex_ < m.1.hindex → m.2.1 = (rank : Int) + 1)
          ∧ (m.1.hindex < c.vp.refHindex_ ∨ c.vp.refHindex_ < m.1.hindex))
      ∧ (∃ a b, (isendsOf calls).map (fun m => m.2.1)
          = List.replicate a ((rank : Int) - 1) ++ List.replicate b ((rank : Int) + 1))
      ∧ (∃ a b, (recvsOf calls).map (fun m => m.2.1)
          = List.replicate a ((rank : Int) - 1) ++ List.replicate b ((rank : Int) + 1)) := by
  obtain ⟨hps, href, hss, hsv, hrs, hrp⟩ := createPatches_staged sw rank pc v p0 rest c hp hc
  obtain ⟨r, e, _, _, hN, hC, hcc⟩ := createPatches_ok_inv sw rank pc v p0 rest c hp hc
  have hx := exchangePatches_closed rank pc nDim c.vp p0 rest _ hps hss hsv hrs hrp
  have hsend : c.vp.send_patch_id_ = (List.range (rest.length + 1)).filter
      (fun i => decide (¬ (istartOf rank pc ≤ p0.hindex + i
        ∧ p0.hindex + i < istartOf rank pc + pc rank))) := by rw [hcc]
  have hrecv : c.vp.recv_patch_id_ = (List.range' (istartOf rank pc) (pc rank)).filter
      (fun h => decide (¬ (p0.hindex ≤ h ∧ h < p0.hindex + (rest.length + 1)))) := by rw [hcc]
  have hvp : v.patches_ = c.vp.patches_ := by rw [hps, hp]
  have hinv' : hindexes c.vp.patches_ = List.range' p0.hindex (rest.length + 1) := by
    rw [← hvp]; exact hinv
  refine ⟨_, _, hx, ?_⟩
  simp only [isendsOf_append, recvsOf_append, isendsOf_sends, recvsOf_sends, isendsOf_recvs,
    recvsOf_recvs, isendsOf_deletes, recvsOf_deletes, isendsOf_updates, recvsOf_updates,
    List.append_nil, List.nil_append]
  have hb1 : isendsOf [Call.barrier] = [] := rfl
  have hb2 : recvsOf [Call.barrier] = [] := rfl
  have hu1 : isendsOf [Call.update_field_list] = [] := rfl
  have hu2 : recvsOf [Call.update_field_list] = [] := rfl
  simp only [hb1, hb2, hu1, hu2, List.append_nil, List.nil_append]
  have hvalid : ∀ id ∈ c.vp.send_patch_id_, c.vp.patches_[id]? = some (c.vp.patches_.getD id p0) := by
    intro id hid
    have := hsv id hid
    rw [List.getD_eq_getElem?_getD, List.getElem?_eq_getElem this]
    rfl
  refine ⟨?_, ?_, ?_, ?_, ?_, ?_, ?_⟩
  · rw [List.map_filterMap, hvp]
    apply List.filterMap_congr
    intro id _
    cases c.vp.patches_[id]? <;> rfl
  · have : (c.vp.send_patch_id_.filterMap (fun id => c.vp.patches_[id]?.map (fun p =>
          (p, (if id + c.vp.refHindex_ > istartOf rank pc then (rank : Int) + 1
                else (rank : Int) - 1),
            sendTag c.vp.refHindex_ id
              (nmessageOf p0.nSpecies nDim p0.nProbes p0.nAntennas)))))
        = c.vp.send_patch_id_.map (fun id => (c.vp.patches_.getD id p0,
            (if id + c.vp.refHindex_ > istartOf rank pc then (rank : Int) + 1
                else (rank : Int) - 1),
            sendTag c.vp.refHindex_ id
              (nmessageOf p0.nSpecies nDim p0.nProbes p0.nAntennas))) := by
      rw [← List.filterMap_eq_map]
      apply List.filterMap_congr
      intro id hid
      rw [hvalid id hid]
      rfl
    rw [this, List.length_map]
  · intro m hm
    obtain ⟨id, hid, hmid⟩ := List.mem_filterMap.mp hm
    cases hget : c.vp.patches_[id]? with
    | none => rw [hget] at hmid; cases hmid
    | some p =>
      rw [hget] at hmid
      simp only [Option.map_some', Option.some.injEq] at hmid
      subst hmid
      have hh := hindex_of_getElem? c.vp.patches_ p0.hindex (rest.length + 1) id p hinv' hget
      rw [hsend] at hid
      have hcond := (List.mem_filter.mp hid).2
      simp only [decide_eq_true_eq] at hcond
      simp only [href]
      refine ⟨?_, ?_, ?_⟩
      · intro hlt
        rw [if_neg (by omega)]
      · intro hgt
        rw [if_pos (by omega)]
      · omega
  · rw [List.map_map]
    conv_rhs => rw [← List.map_id c.vp.recv_patch_id_]
    rfl
  · intro m hm
    obtain ⟨h, hh, rfl⟩ := List.mem_map.mp hm
    rw [hrecv] at hh
    have hcond := (List.mem_filter.mp hh).2
    simp only [decide_eq_true_eq] at hcond
    have hclone : (PatchesFactory.clone c.existing_patch h (nMovedOf sw)).hindex = h := rfl
    simp only [hclone, href]
    refine ⟨?_, ?_, ?_⟩
    · intro hlt
      rw [if_neg (by omega)]
    · intro hgt
      rw [if_pos hgt]
    · omega
  · have hmap : (c.vp.send_patch_id_.filterMap (fun id => c.vp.patches_[id]?.map (fun p =>
          (p, (if id + c.vp.refHindex_ > istartOf rank pc then (rank : Int) + 1
                else (rank : Int) - 1),
            sendTag c.vp.refHindex_ id
              (nmessageOf p0.nSpecies nDim p0.nProbes p0.nAntennas))))).map (fun m => m.2.1)
        = c.vp.send_patch_id_.map (fun id =>
            if id + c.vp.refHindex_ > istartOf rank pc then (rank : Int) + 1
                else (rank : Int) - 1) := by
      rw [List.map_filterMap, ← List.filterMap_eq_map]
      apply List.filterMap_congr
      intro id hid
      rw [hvalid id hid]
      rfl
    rw [hmap]
    exact map_switch_sorted (fun id => id + c.vp.refHindex_ > istartOf rank pc)
      (fun a b hab ha => by omega) _ _ _ hss
  · rw [List.map_map]
    exact map_switch_sorted (fun h => h > c.vp.refHindex_)
      (fun a b hab ha => by omega) _ _ _ hrs

/-! ## Message tags and Scenario A -/

theorem wrapInt32_id (x : Int) (h1 : -2147483648 ≤ x) (h2 : x < 2147483648) :
    wrapInt32 x = x := by
  unfold wrapInt32
  omega

theorem nmessageOf_exact (nSpecies nDim_particle nProbes nAntennas : Nat)
    (hfit : 2 * nSpecies + (2 + nDim_particle) * nProbes + 9 + nAntennas + 16 < 2147483648) :
    nmessageOf nSpecies nDim_particle nProbes nAntennas
      = ((2 * nSpecies + (2 + nDim_particle) * nProbes + 9 + nAntennas + 16 : Nat) : Int) := by
  unfold nmessageOf
  rw [wrapInt32_id _ (by omega) (by omega)]

theorem recvTag_exact (h : Nat) (nm : Int) (h0 : 0 ≤ nm)
    (hf : (h : Int) * nm < 2147483648) : recvTag h nm = (h : Int) * nm := by
  have hp : 0 ≤ (h : Int) * nm := Int.mul_nonneg (Int.ofNat_nonneg _) h0
  unfold recvTag
  generalize (h : Int) * nm = p at hp hf ⊢
  exact wrapInt32_id p (by omega) hf

theorem recvTag_offset_exact (h o : Nat) (nm : Int) (h0 : 0 ≤ nm)
    (hf : (h : Int) * nm + o < 2147483648) :
    wrapInt32 (recvTag h nm + o) = (h : Int) * nm + o := by
  have hp : 0 ≤ (h : Int) * nm := Int.mul_nonneg (Int.ofNat_nonneg _) h0
  have ho : (0 : Int) ≤ (o : Int) := Int.ofNat_nonneg _
  rw [recvTag_exact h nm h0 (by
    generalize (h : Int) * nm = p at hp hf ⊢
    omega)]
  generalize (h : Int) * nm = p at hp hf ⊢
  exact wrapInt32_id _ (by omega) hf

theorem products_differ (h₁ h₂ o₁ o₂ : Nat) (nm : Int) (hne : h₁ ≠ h₂)
    (ho₁ : (o₁ : Int) < nm) (ho₂ : (o₂ : Int) < nm) :
    (h₁ : Int) * nm + o₁ ≠ (h₂ : Int) * nm + o₂ := by
  intro heq
  have p₁ : (0 : Int) ≤ (o₁ : Int) := Int.ofNat_nonneg _
  have p₂ : (0 : Int) ≤ (o₂ : Int) := Int.ofNat_nonneg _
  rcases Nat.lt_or_gt_of_ne hne with hlt | hgt
  · have : ((h₁ : Int) + 1) * nm ≤ (h₂ : Int) * nm :=
      Int.mul_le_mul_of_nonneg_right (by omega) (by omega)
    rw [Int.add_mul] at this
    generalize (h₁ : Int) * nm = a at heq this
    generalize (h₂ : Int) * nm = b at heq this
    omega
  · have : ((h₂ : Int) + 1) * nm ≤ (h₁ : Int) * nm :=
      Int.mul_le_mul_of_nonneg_right (by omega) (by omega)
    rw [Int.add_mul] at this
    generalize (h₁ : Int) * nm = a at heq this
    generalize (h₂ : Int) * nm = b at heq this
    omega

/-- Counterexample to C9 as stated. With one species and no probe or antenna `nmessage`
is 27; the base tag of hindex 159072863 is computed in a 32-bit `int`, where
`159072863 * 27 = 2^32 + 5` is 5: it collides with the tag of hindex 0 at offset 5.
The base tag of hindex 79536432 is negative. -/
theorem message_tags_collide_on_overflow :
    nmessageOf 1 1 0 0 = 27
    ∧ (159072863 : Nat) ≠ 0 ∧ (0 : Int) < nmessageOf 1 1 0 0 ∧ (5 : Int) < nmessageOf 1 1 0 0
    ∧ recvTag 159072863 (nmessageOf 1 1 0 0) + 0 = recvTag 0 (nmessageOf 1 1 0 0) + 5
    ∧ sendTag 159072860 3 (nmessageOf 1 1 0 0) = 5
    ∧ recvTag 79536432 (nmessageOf 1 1 0 0) < 0 :=
  ⟨by decide, by decide, by decide, by decide, by rfl, by rfl, by decide⟩

/-- C9, as amended. Message tags of different patches never collide as long as they fit
a 32-bit `int`. When `2*nSpecies + (2+nDim_particle)*nProbes + 9 + nAntennas + 16` is
below `2^31`, `nmessage` is that number and is at least 25; for two distinct hindices
and two per-category offsets below `nmessage` such that `h*nmessage + offset` is below
`2^31` for both, the tags, computed in `int`, are `h*nmessage + offset` and differ.  The
base tag used to send the patch at local index `id` equals the base tag used to receive
the hindex `refHindex_ + id`, whatever its size, and it is `h*nmessage` when that number
is below `2^31`. -/
theorem message_tags_distinct_when_fitting (nSpecies nDim_particle nProbes nAntennas : Nat)
    (hfit : 2 * nSpecies + (2 + nDim_particle) * nProbes + 9 + nAntennas + 16 < 2147483648) :
    nmessageOf nSpecies nDim_particle nProbes nAntennas
      = ((2 * nSpecies + (2 + nDim_particle) * nProbes + 9 + nAntennas + 16 : Nat) : Int)
    ∧ 25 ≤ nmessageOf nSpecies nDim_particle nProbes nAntennas
    ∧ (∀ h₁ h₂ o₁ o₂ : Nat, h₁ ≠ h₂ →
        (o₁ : Int) < nmessageOf nSpecies nDim_particle nProbes nAntennas →
        (o₂ : Int) < nmessageOf nSpecies nDim_particle nProbes nAntennas →
        (h₁ : Int) * nmessageOf nSpecies nDim_particle nProbes nAntennas + o₁ < 2147483648 →
        (h₂ : Int) * nmessageOf nSpecies nDim_particle nProbes nAntennas + o₂ < 2147483648 →
        wrapInt32 (recvTag h₁ (nmessageOf nSpecies nDim_particle nProbes nAntennas) + o₁)
            = (h₁ : Int) * nmessageOf nSpecies nDim_particle nProbes nAntennas + o₁
        ∧ wrapInt32 (recvTag h₂ (nmessageOf nSpecies nDim_particle nProbes nAntennas) + o₂)
            = (h₂ : Int) * nmessageOf nSpecies nDim_particle nProbes nAntennas + o₂
        ∧ wrapInt32 (recvTag h₁ (nmessageOf nSpecies nDim_particle nProbes nAntennas) + o₁)
          ≠ wrapInt32 (recvTag h₂ (nmessageOf nSpecies nDim_particle nProbes nAntennas) + o₂))
    ∧ (∀ refHindex_ id : Nat,
        sendTag refHindex_ id (nmessageOf nSpecies nDim_particle nProbes nAntennas)
          = recvTag (refHindex_ + id) (nmessageOf nSpecies nDim_particle nProbes nAntennas))
    ∧ (∀ h : Nat,
        (h : Int) * nmessageOf nSpecies nDim_particle nProbes nAntennas < 2147483648 →
        recvTag h (nmessageOf nSpecies nDim_particle nProbes nAntennas)
          = h * nmessageOf nSpecies nDim_particle nProbes nAntennas) := by
  have hnm := nmessageOf_exact nSpecies nDim_particle nProbes nAntennas hfit
  have h25 : 25 ≤ nmessageOf nSpecies nDim_particle nProbes nAntennas := by
    rw [hnm]
    omega
  have h0 : 0 ≤ nmessageOf nSpecies nDim_particle nProbes nAntennas := by omega
  refine ⟨hnm, h25, ?_, fun _ _ => rfl, fun h hf => recvTag_exact h _ h0 hf⟩
  intro h₁ h₂ o₁ o₂ hne ho₁ ho₂ hf₁ hf₂
  have w₁ := recvTag_offset_exact h₁ o₁ _ h0 hf₁
  have w₂ := recvTag_offset_exact h₂ o₂ _ h0 hf₂
  refine ⟨w₁, w₂, ?_⟩
  rw [w₁, w₂]
  exact products_differ h₁ h₂ o₁ o₂ _ hne ho₁ ho₂

theorem message_tags_distinct_when_fitting_witness :
    wrapInt32 (recvTag 2 (nmessageOf 1 1 0 0) + ((26 : Nat) : Int))
      ≠ wrapInt32 (recvTag 3 (nmessageOf 1 1 0 0) + ((0 : Nat) : Int)) :=
  ((message_tags_distinct_when_fitting 1 1 0 0 (by decide)).2.2.1 2 3 26 0 (by decide)
    (by decide) (by decide) (by decide) (by decide)).2.2

/-- C3. Scenario A: 3 processes, 8 patches, ranks owning hindices 0-2, 3-5, 6-7,
rebalanced to the map `[2,3,3]`.  All three ranks complete; process 0 makes exactly
one `isend`, of its patch with hindex 2, to process 1, and no `recv`; process 1 posts
the matching `recv` (hindex 2, source 0, same tag); afterwards the ranks own the
contiguous ascending ranges 0-1, 2-4 and 5-7. -/
theorem scenarioA_rebalance :
    rebalance none 0 (tableOf [2, 3, 3]) 1 (residentRank 0 3)
        = Except.ok (scenarioACalls 0, scenarioAAfter 0)
    ∧ rebalance none 1 (tableOf [2, 3, 3]) 1 (residentRank 3 3)
        = Except.ok (scenarioACalls 1, scenarioAAfter 1)
    ∧ rebalance none 2 (tableOf [2, 3, 3]) 1 (residentRank 6 2)
        = Except.ok (scenarioACalls 2, scenarioAAfter 2)
    ∧ hindexes (residentRank 0 3).patches_ = [0, 1, 2]
    ∧ hindexes (residentRank 3 3).patches_ = [3, 4, 5]
    ∧ hindexes (residentRank 6 2).patches_ = [6, 7]
    ∧ isendsOf (scenarioACalls 0) = [(residentPatch 2, 1, 2 * nmessageOf 1 1 0 0)]
    ∧ recvsOf (scenarioACalls 0) = []
    ∧ (recvsOf (scenarioACalls 1)).map (fun m => (m.1.hindex, m.2.1, m.2.2))
        = [(2, 0, 2 * nmessageOf 1 1 0 0)]
    ∧ (scenarioAAfter 0).patches_ = [residentPatch 0, residentPatch 1]
    ∧ hindexes (scenarioAAfter 0).patches_ = [0, 1]
    ∧ hindexes (scenarioAAfter 1).patches_ = [2, 3, 4]
    ∧ hindexes (scenarioAAfter 2).patches_ = [5, 6, 7]
    ∧ (scenarioAAfter 0).refHindex_ = 0
    ∧ (scenarioAAfter 1).refHindex_ = 2
    ∧ (scenarioAAfter 2).refHindex_ = 5 := by
  refine ⟨rfl, rfl, rfl, ?_, ?_, ?_, ?_, ?_, ?_, ?_, ?_, ?_, ?_, ?_, ?_, ?_⟩ <;> decide

/-! ## Instances -/

/-- C5 fails for `count == 0`. Rank 1 holds the patches of hindex 3, 4 and 5 and the
new ownership table is `[4, 0, 4]`, so its new range is empty: the first turn of the loop
on current patches reads `recv_patch_id_[0]` on the empty `recv_patch_id_`, and
`createPatches` does not get to the test that raises "No patch to clone".  With the table
`[1, 1, 6]` the new range is the single hindex 1, which the rank does not hold, and the
fatal error is raised; with `[2, 3, 3]` the ranges overlap and `createPatches`
completes. -/
theorem createPatches_count_zero_reads_empty_vector :
    tableOf [4, 0, 4] 1 = 0
    ∧ recvInit (istartOf 1 (tableOf [4, 0, 4])) (tableOf [4, 0, 4] 1) = []
    ∧ sendStep 3 [] [] 0 = Except.error Fault.emptyRead
    ∧ createPatches none 1 (tableOf [4, 0, 4]) (residentRank 3 3)
        = Except.error Fault.emptyRead
    ∧ createPatches none 1 (tableOf [1, 1, 6]) (residentRank 3 3)
        = Except.error Fault.noPatchToClone
    ∧ createPatches none 1 (tableOf [2, 3, 3]) (residentRank 3 3)
        = Except.ok (scenarioACreated 1) :=
  ⟨by decide, by decide, by rfl, by rfl, by rfl, by rfl⟩

theorem deleteSent_removes_exactly_sent_witness :
    deleteSent [0, 2].reverse [residentPatch 3, residentPatch 4, residentPatch 5] = Except.ok
      ([0, 2].reverse.filterMap
          (fun id => [residentPatch 3, residentPatch 4, residentPatch 5][id]?.map Call.delete),
        (([residentPatch 3, residentPatch 4, residentPatch 5].enum).filter
          (fun ip => decide (ip.1 ∉ [0, 2]))).map Prod.snd) :=
  deleteSent_removes_exactly_sent [0, 2]
    [residentPatch 3, residentPatch 4, residentPatch 5] (by decide) (by decide)

theorem rebalance_same_range_noop_witness :
    ∃ c, createPatches none 1 (tableOf [3, 3, 2]) (residentRank 3 3) = Except.ok c
      ∧ c.vp.send_patch_id_ = [] ∧ c.vp.recv_patch_id_ = [] ∧ c.vp.recv_patches_ = []
      ∧ c.vp.patches_ = (residentRank 3 3).patches_
      ∧ ∃ calls w, exchangePatches 1 (tableOf [3, 3, 2]) 1 c.vp = Except.ok (calls, w)
        ∧ calls = [Call.barrier] ++ (residentRank 3 3).patches_.map Call.updateMPIenv
            ++ [Call.update_field_list]
        ∧ (∀ p dest tag, Call.isend p dest tag ∉ calls)
        ∧ (∀ p source tag, Call.recv p source tag ∉ calls)
        ∧ (∀ p, Call.delete p ∉ calls)
        ∧ w.patches_ = (residentRank 3 3).patches_
        ∧ w.refHindex_ = (residentPatch 3).hindex :=
  rebalance_same_range_noop none 1 (tableOf [3, 3, 2]) 1 (residentRank 3 3)
    (residentPatch 3) [residentPatch 4, residentPatch 5] rfl (by decide) (by decide)

theorem createPatches_send_recv_lists_witness :
    1 ≤ tableOf [2, 3, 3] 1
    ∧ (scenarioACreated 1).vp.refHindex_ = (residentPatch 3).hindex
    ∧ (scenarioACreated 1).vp.send_patch_id_
        = (List.range ([residentPatch 4, residentPatch 5].length + 1)).filter
          (fun i => decide (¬ (istartOf 1 (tableOf [2, 3, 3]) ≤ (residentPatch 3).hindex + i
            ∧ (residentPatch 3).hindex + i
                < istartOf 1 (tableOf [2, 3, 3]) + tableOf [2, 3, 3] 1)))
    ∧ (scenarioACreated 1).vp.recv_patch_id_
        = (List.range' (istartOf 1 (tableOf [2, 3, 3])) (tableOf [2, 3, 3] 1)).filter
          (fun h => decide (¬ ((residentPatch 3).hindex ≤ h
            ∧ h < (residentPatch 3).hindex + ([residentPatch 4, residentPatch 5].length + 1))))
    ∧ (scenarioACreated 1).vp.recv_patches_ = (scenarioACreated 1).vp.recv_patch_id_.map
        (fun h => PatchesFactory.clone (scenarioACreated 1).existing_patch h (nMovedOf none))
    ∧ hindexes (scenarioACreated 1).vp.recv_patches_ = (scenarioACreated 1).vp.recv_patch_id_
    ∧ List.Pairwise (fun a b => a < b) (scenarioACreated 1).vp.send_patch_id_
    ∧ List.Pairwise (fun a b => a < b) (scenarioACreated 1).vp.recv_patch_id_ :=
  createPatches_send_recv_lists none 1 (tableOf [2, 3, 3]) (residentRank 3 3)
    (residentPatch 3) [residentPatch 4, residentPatch 5] (scenarioACreated 1) rfl rfl

theorem createPatches_template_exists_witness :
    (0 ≤ (scenarioACreated 1).existing_patch_id - ((scenarioACreated 1).vp.refHindex_ : Int)
      ∧ ((scenarioACreated 1).existing_patch_id
            - ((scenarioACreated 1).vp.refHindex_ : Int)).toNat
          < (residentRank 3 3).patches_.length
      ∧ (residentRank 3 3).patches_[((scenarioACreated 1).existing_patch_id
            - ((scenarioACreated 1).vp.refHindex_ : Int)).toNat]?
          = some (scenarioACreated 1).existing_patch
      ∧ ((scenarioACreated 1).existing_patch_id
            - ((scenarioACreated 1).vp.refHindex_ : Int)).toNat
          ∉ (scenarioACreated 1).vp.send_patch_id_
      ∧ (hindexes (residentRank 3 3).patches_
            = List.range' (residentPatch 3).hindex
                ([residentPatch 4, residentPatch 5].length + 1) →
          ((scenarioACreated 1).existing_patch.hindex : Int)
            = (scenarioACreated 1).existing_patch_id))
    ∧ (∃ c, createPatches none 1 (tableOf (List.replicate 3 1)) (residentRank 1 1)
          = Except.ok c
        ∧ c.existing_patch = residentPatch 1 ∧ c.vp.send_patch_id_ = []
        ∧ c.vp.recv_patch_id_ = [] ∧ c.vp.recv_patches_ = []) :=
  ⟨(createPatches_template_exists none).1 1 (tableOf [2, 3, 3]) (residentRank 3 3)
      (residentPatch 3) [residentPatch 4, residentPatch 5] (scenarioACreated 1) rfl rfl,
    (createPatches_template_exists none).2 3 1 (residentRank 1 1) (residentPatch 1)
      (by decide) rfl rfl⟩

theorem exchangePatches_neighbour_routing_witness :
    ∃ calls w, exchangePatches 1 (tableOf [2, 3, 3]) 1 (scenarioACreated 1).vp
        = Except.ok (calls, w)
      ∧ (isendsOf calls).map (fun m => m.1)
          = (scenarioACreated 1).vp.send_patch_id_.filterMap
              (fun id => (residentRank 3 3).patches_[id]?)
      ∧ (isendsOf calls).length = (scenarioACreated 1).vp.send_patch_id_.length
      ∧ (∀ m ∈ isendsOf calls,
          (m.1.hindex < istartOf 1 (tableOf [2, 3, 3]) → m.2.1 = ((1 : Nat) : Int) - 1)
          ∧ (istartOf 1 (tableOf [2, 3, 3]) + tableOf [2, 3, 3] 1 - 1 < m.1.hindex →
              m.2.1 = ((1 : Nat) : Int) + 1)
          ∧ (m.1.hindex < istartOf 1 (tableOf [2, 3, 3])
              ∨ istartOf 1 (tableOf [2, 3, 3]) + tableOf [2, 3, 3] 1 - 1 < m.1.hindex))
      ∧ (recvsOf calls).map (fun m => m.1.hindex) = (scenarioACreated 1).vp.recv_patch_id_
      ∧ (∀ m ∈ recvsOf calls,
          (m.1.hindex < (scenarioACreated 1).vp.refHindex_ → m.2.1 = ((1 : Nat) : Int) - 1)
          ∧ ((scenarioACreated 1).vp.refHindex_ < m.1.hindex → m.2.1 = ((1 : Nat) : Int) + 1)
          ∧ (m.1.hindex < (scenarioACreated 1).vp.refHindex_
              ∨ (scenarioACreated 1).vp.refHindex_ < m.1.hindex))
      ∧ (∃ a b, (isendsOf calls).map (fun m => m.2.1)
          = List.replicate a (((1 : Nat) : Int) - 1) ++ List.replicate b (((1 : Nat) : Int) + 1))
      ∧ (∃ a b, (recvsOf calls).map (fun m => m.2.1)
          = List.replicate a (((1 : Nat) : Int) - 1)
              ++ List.replicate b (((1 : Nat) : Int) + 1)) :=
  exchangePatches_neighbour_routing none 1 (tableOf [2, 3, 3]) 1 (residentRank 3 3)
    (residentPatch 3) [residentPatch 4, residentPatch 5] (scenarioACreated 1) rfl (by decide) rfl

/-! ## Moving window: the first loop -/

theorem assign_apply (t : NeighborTable) (idim side : Nat) (v : Int) (i s : Nat) :
    t.assign idim side v i s = if i = idim ∧ s = side then v else t i s := rfl

theorem stageNeighbors_frame {D : Type} (n : Nat) (l m : WindowPatch D) :
    (stageNeighbors n l m).hindex = m.hindex
    ∧ (stageNeighbors n l m).Pcoordinates0 = m.Pcoordinates0
    ∧ (stageNeighbors n l m).MPI_me_ = m.MPI_me_
    ∧ (stageNeighbors n l m).neighbor_ = m.neighbor_
    ∧ (stageNeighbors n l m).MPI_neighbor_ = m.MPI_neighbor_
    ∧ (stageNeighbors n l m).nSpecies = m.nSpecies
    ∧ (stageNeighbors n l m).fieldNRJ = m.fieldNRJ
    ∧ (stageNeighbors n l m).speciesNRJ = m.speciesNRJ := by
  unfold stageNeighbors
  generalize hx : ({ m with
      tmp_neighbor_ := m.tmp_neighbor_.assign 0 0 (l.neighbor_ 0 0)
      tmp_MPI_neighbor_ := m.tmp_MPI_neighbor_.assign 0 0 (l.MPI_neighbor_ 0 0) } :
      WindowPatch D) = x
  have hx0 : x.hindex = m.hindex ∧ x.Pcoordinates0 = m.Pcoordinates0 ∧ x.MPI_me_ = m.MPI_me_
      ∧ x.neighbor_ = m.neighbor_ ∧ x.MPI_neighbor_ = m.MPI_neighbor_
      ∧ x.nSpecies = m.nSpecies ∧ x.fieldNRJ = m.fieldNRJ ∧ x.speciesNRJ = m.speciesNRJ := by
    subst hx
    exact ⟨rfl, rfl, rfl, rfl, rfl, rfl, rfl, rfl⟩
  clear hx
  induction (List.range' 1 (n - 1)) generalizing x with
  | nil => exact hx0
  | cons d ds ih =>
    rw [List.foldl_cons]
    apply ih
    obtain ⟨h1, h2, h3, h4, h5, h6, h7, h8⟩ := hx0
    exact ⟨h1, h2, h3, h4, h5, h6, h7, h8⟩

theorem stageNeighbors_congr {D : Type} (n : Nat) (l l' m : WindowPatch D)
    (h : SameFrame l l') : stageNeighbors n l' m = stageNeighbors n l m := by
  obtain ⟨_, h2, h3, h4⟩ := h
  unfold stageNeighbors
  rw [h2, h3]
  generalize ({ m with
      tmp_neighbor_ := m.tmp_neighbor_.assign 0 0 (l.neighbor_ 0 0)
      tmp_MPI_neighbor_ := m.tmp_MPI_neighbor_.assign 0 0 (l.MPI_neighbor_ 0 0) } :
      WindowPatch D) = x
  have hmem : ∀ d ∈ List.range' 1 (n - 1), 1 ≤ d := by
    intro d hd
    exact (List.mem_range'_1.mp hd).1
  generalize List.range' 1 (n - 1) = L at hmem
  induction L generalizing x with
  | nil => rfl
  | cons d ds ih =>
    rw [List.foldl_cons, List.foldl_cons]
    have hd : 1 ≤ d := hmem d (List.mem_cons_self _ _)
    have e : stageDim l' x d = stageDim l x d := by
      unfold stageDim
      rw [(h4 d 0 hd).1, (h4 d 1 hd).1, (h4 d 0 hd).2, (h4 d 1 hd).2]
    rw [e]
    exact ih _ (fun d' hd' => hmem d' (List.mem_cons_of_mem _ hd'))

theorem becomeLeftNeighbor_frame {D : Type} (p : WindowPatch D) :
    SameFrame p (becomeLeftNeighbor p) := by
  refine ⟨rfl, ?_, ?_, ?_⟩
  · simp [becomeLeftNeighbor, assign_apply]
  · simp [becomeLeftNeighbor, assign_apply]
  · intro idim side h1
    have hne : ¬ idim = 0 := by omega
    simp [becomeLeftNeighbor, assign_apply, hne]

theorem sameFrame_refl {D : Type} (p : WindowPatch D) : SameFrame p p :=
  ⟨rfl, rfl, rfl, fun _ _ _ => ⟨rfl, rfl⟩⟩

theorem sameFrame_trans {D : Type} (p q r : WindowPatch D) (h1 : SameFrame p q)
    (h2 : SameFrame q r) : SameFrame p r := by
  obtain ⟨a1, a2, a3, a4⟩ := h1
  obtain ⟨b1, b2, b3, b4⟩ := h2
  refine ⟨b1.trans a1, b2.trans a2, b3.trans a3, ?_⟩
  intro idim side h
  exact ⟨(b4 idim side h).1.trans (a4 idim side h).1, (b4 idim side h).2.trans (a4 idim side h).2⟩

theorem stageNeighbors_sameFrame {D : Type} (n : Nat) (l m : WindowPatch D) :
    SameFrame m (stageNeighbors n l m) := by
  obtain ⟨_, _, h3, h4, h5, _⟩ := stageNeighbors_frame n l m
  refine ⟨h3, by rw [h5], by rw [h4], ?_⟩
  intro idim side _
  rw [h4, h5]
  exact ⟨rfl, rfl⟩

theorem relabelLoop_cons {D : Type} (env : WindowEnv D) (h0 : Int) (nSpecies : Nat)
    (ipatch : Nat) (rest : List Nat) (st : WindowState D) :
    relabelLoop env h0 nSpecies (ipatch :: rest) st =
      match relabelStep env h0 nSpecies ipatch st with
      | Except.error e => Except.error e
      | Except.ok st1 => relabelLoop env h0 nSpecies rest st1 := by
  rw [relabelLoop]
  unfold relabelStep
  cases st.objs[ipatch]? with
  | none => rfl
  | some mypatch =>
    simp only
    split
    · split <;> rfl
    · split
      · rfl
      · split <;> rfl

theorem set_self_of_getElem? {α : Type} (l : List α) (i : Nat) (a : α) (h : l[i]? = some a) :
    l.set i a = l := by
  apply List.ext_getElem?
  intro j
  rw [List.getElem?_set]
  split
  · rename_i hij
    subst hij
    have hi : i < l.length := (List.getElem?_eq_some_iff.mp h).1
    simp [hi, h]
  · rfl

theorem relabelStep_spec {D : Type} (env : WindowEnv D) (h0 : Int) (nSpecies : Nat)
    (pre : List (WindowPatch D)) (i : Nat) (p : WindowPatch D) (st : WindowState D)
    (hlen : st.objs.length = pre.length)
    (hframe : ∀ (j : Nat) (a b : WindowPatch D), pre[j]? = some a → st.objs[j]? = some b →
      SameFrame a b)
    (hpre : pre[i]? = some p) (hget : st.objs[i]? = some p)
    (hval : p.MPI_neighbor_ 0 0 = p.MPI_me_ →
      0 ≤ p.neighbor_ 0 0 - h0 ∧ (p.neighbor_ 0 0 - h0).toNat < pre.length) :
    relabelStep env h0 nSpecies i st = Except.ok
      { objs := st.objs.set i (relabelled env.nDim_particle h0 pre p)
        news := st.news
        patches_ := slotStep h0 pre st.patches_ i
        patch_to_be_created :=
          st.patch_to_be_created ++ (if rightIsMine p then [] else [i])
        delete_patches_ := st.delete_patches_ ++ (if leftIsMine p then [] else [i])
        update_patches_ := st.update_patches_ ++ (if leftIsMine p then [i] else [])
        send_patches_ := st.send_patches_ ++ (if leftIsRemote env p then [i] else [])
        calls := st.calls ++ relabelCallsOf env nSpecies pre i } := by
  have hi : i < st.objs.length := (List.getElem?_eq_some_iff.mp hget).1
  have htbc : (if p.MPI_neighbor_ 0 1 ≠ p.MPI_me_ then st.patch_to_be_created ++ [i]
      else st.patch_to_be_created)
      = st.patch_to_be_created ++ (if rightIsMine p then [] else [i]) := by
    unfold rightIsMine
    by_cases h : p.MPI_neighbor_ 0 1 = p.MPI_me_ <;> simp [h]
  unfold relabelStep
  simp only [hget, htbc]
  by_cases hL : p.MPI_neighbor_ 0 0 = p.MPI_me_
  · -- the left neighbour is local
    obtain ⟨hk0, hk⟩ := hval hL
    have hLm : leftIsMine p = true := by simp [leftIsMine, hL]
    have hR : leftIsRemote env p = false := by simp [leftIsRemote, hL]
    have hmh : (becomeLeftNeighbor p).hindex = p.neighbor_ 0 0 := rfl
    have hnot : ¬ (p.neighbor_ 0 0 - h0 < 0) := by omega
    have hkl : (p.neighbor_ 0 0 - h0).toNat < pre.length := hk
    obtain ⟨l0, hl0⟩ : ∃ l0, pre[(p.neighbor_ 0 0 - h0).toNat]? = some l0 :=
      ⟨_, List.getElem?_eq_getElem hkl⟩
    have hex : ∃ left, (st.objs.set i (becomeLeftNeighbor p))[(p.neighbor_ 0 0 - h0).toNat]?
        = some left ∧ SameFrame l0 left := by
      rw [List.getElem?_set]
      by_cases hik : i = (p.neighbor_ 0 0 - h0).toNat
      · rw [if_pos hik]
        simp only [hi, if_true]
        refine ⟨_, rfl, ?_⟩
        rw [← hik, hpre] at hl0
        cases hl0
        exact becomeLeftNeighbor_frame p
      · rw [if_neg hik]
        have hlt : (p.neighbor_ 0 0 - h0).toNat < st.objs.length := by omega
        exact ⟨_, List.getElem?_eq_getElem hlt, hframe _ _ _ hl0 (List.getElem?_eq_getElem hlt)⟩
    obtain ⟨left, hleft, hsf⟩ := hex
    simp only [hL, ne_eq, not_true_eq_false, if_false, hmh, hnot, hleft]
    have hrel : relabelled env.nDim_particle h0 pre p
        = stageNeighbors env.nDim_particle left (becomeLeftNeighbor p) := by
      unfold relabelled relabelTarget
      rw [hLm, if_pos rfl, hl0]
      exact (stageNeighbors_congr _ l0 left _ hsf).symm
    have hslot : slotStep h0 pre st.patches_ i
        = st.patches_.set (p.neighbor_ 0 0 - h0).toNat (PatchRef.old i) := by
      unfold slotStep relabelTarget
      rw [hpre]
      simp only [hLm, if_true]
    have hcalls : relabelCallsOf env nSpecies pre i = disableXmaxCalls env nSpecies i p := by
      unfold relabelCallsOf
      rw [hpre]
      simp only [hLm, if_true]
    rw [hrel, hslot, hcalls, hLm, hR, List.set_set]
    simp
  · have hLm : leftIsMine p = false := by simp [leftIsMine, hL]
    have hrel : relabelled env.nDim_particle h0 pre p = p := by
      unfold relabelled
      rw [hLm]
      rfl
    have hslot : slotStep h0 pre st.patches_ i = st.patches_ := by
      unfold slotStep
      rw [hpre]
      simp only [hLm]
      rfl
    rw [hrel, hslot, set_self_of_getElem? _ _ _ hget, hLm]
    by_cases hN : p.MPI_neighbor_ 0 0 = env.MPI_PROC_NULL
    · have hR : leftIsRemote env p = false := by simp [leftIsRemote, hN]
      have hcalls : relabelCallsOf env nSpecies pre i = [] := by
        unfold relabelCallsOf
        rw [hpre]
        simp [hLm, hN]
      have hL' : ¬ env.MPI_PROC_NULL = p.MPI_me_ := by rw [← hN]; exact hL
      rw [hR, hcalls]
      simp [hL', hN]
    · have hR : leftIsRemote env p = true := by simp [leftIsRemote, hL, hN]
      have hcalls : relabelCallsOf env nSpecies pre i =
          [WindowCall.isend (PatchRef.old i) (p.MPI_neighbor_ 0 0)
            (p.neighbor_ 0 0 * env.nrequests)] := by
        unfold relabelCallsOf
        rw [hpre]
        simp [hLm, hN]
      rw [hR, hcalls]
      simp [hL, hN]

theorem relabelled_sameFrame {D : Type} (n : Nat) (h0 : Int) (pre : List (WindowPatch D))
    (p : WindowPatch D) : SameFrame p (relabelled n h0 pre p) := by
  unfold relabelled
  split
  · split
    · exact sameFrame_trans _ _ _ (becomeLeftNeighbor_frame p) (stageNeighbors_sameFrame _ _ _)
    · exact becomeLeftNeighbor_frame p
  · exact sameFrame_refl p

theorem filter_cons_at {D : Type} (pre : List (WindowPatch D)) (f : WindowPatch D → Bool)
    (i : Nat) (rest : List Nat) (p : WindowPatch D) (hpre : pre[i]? = some p) :
    (i :: rest).filter (testAt pre f) = (if f p then [i] else []) ++ rest.filter (testAt pre f) := by
  have h : testAt pre f i = f p := by
    unfold testAt
    rw [hpre]
  rw [List.filter_cons, h]
  cases f p <;> rfl

theorem relabelLoop_spec {D : Type} (env : WindowEnv D) (h0 : Int) (nSpecies : Nat)
    (pre : List (WindowPatch D)) (is : List Nat) :
    ∀ st : WindowState D,
      st.objs.length = pre.length →
      (∀ (j : Nat) (a b : WindowPatch D), pre[j]? = some a → st.objs[j]? = some b →
        SameFrame a b) →
      (∀ i ∈ is, st.objs[i]? = pre[i]?) →
      is.Nodup →
      (∀ i ∈ is, i < pre.length) →
      (∀ i ∈ is, ∀ p : WindowPatch D, pre[i]? = some p → p.MPI_neighbor_ 0 0 = p.MPI_me_ →
        0 ≤ p.neighbor_ 0 0 - h0 ∧ (p.neighbor_ 0 0 - h0).toNat < pre.length) →
      ∃ st', relabelLoop env h0 nSpecies is st = Except.ok st'
        ∧ st'.news = st.news
        ∧ st'.patches_ = is.foldl (slotStep h0 pre) st.patches_
        ∧ st'.patch_to_be_created = st.patch_to_be_created
            ++ is.filter (testAt pre (fun p => !rightIsMine p))
        ∧ st'.delete_patches_ = st.delete_patches_
            ++ is.filter (testAt pre (fun p => !leftIsMine p))
        ∧ st'.update_patches_ = st.update_patches_ ++ is.filter (testAt pre leftIsMine)
        ∧ st'.send_patches_ = st.send_patches_ ++ is.filter (testAt pre (leftIsRemote env))
        ∧ st'.calls = st.calls ++ is.flatMap (relabelCallsOf env nSpecies pre)
        ∧ st'.objs.length = pre.length
        ∧ (∀ j, j ∉ is → st'.objs[j]? = st.objs[j]?)
        ∧ (∀ j ∈ is, ∀ a : WindowPatch D, pre[j]? = some a →
            st'.objs[j]? = some (relabelled env.nDim_particle h0 pre a)) := by
  induction is with
  | nil =>
    intro st hlen _ _ _ _ _
    refine ⟨st, rfl, rfl, rfl, by simp, by simp, by simp, by simp, by simp, hlen,
      fun _ _ => rfl, ?_⟩
    intro j hj
    cases hj
  | cons i rest ih =>
    intro st hlen hframe hun hnd hin hval
    have hi : i < pre.length := hin i (List.mem_cons_self _ _)
    have hpre : pre[i]? = some pre[i] := List.getElem?_eq_getElem hi
    have hget : st.objs[i]? = some pre[i] := (hun i (List.mem_cons_self _ _)).trans hpre
    obtain ⟨st1, hstep, e_objs, e_news, e_pat, e_tbc, e_del, e_upd, e_send, e_calls⟩ :
        ∃ st1 : WindowState D, relabelStep env h0 nSpecies i st = Except.ok st1
          ∧ st1.objs = st.objs.set i (relabelled env.nDim_particle h0 pre pre[i])
          ∧ st1.news = st.news
          ∧ st1.patches_ = slotStep h0 pre st.patches_ i
          ∧ st1.patch_to_be_created =
              st.patch_to_be_created ++ (if rightIsMine pre[i] then [] else [i])
          ∧ st1.delete_patches_ = st.delete_patches_ ++ (if leftIsMine pre[i] then [] else [i])
          ∧ st1.update_patches_ = st.update_patches_ ++ (if leftIsMine pre[i] then [i] else [])
          ∧ st1.send_patches_ = st.send_patches_ ++ (if leftIsRemote env pre[i] then [i] else [])
          ∧ st1.calls = st.calls ++ relabelCallsOf env nSpecies pre i :=
      ⟨_, relabelStep_spec env h0 nSpecies pre i pre[i] st hlen hframe hpre hget
        (hval i (List.mem_cons_self _ _) pre[i] hpre), rfl, rfl, rfl, rfl, rfl, rfl, rfl, rfl⟩
    have hnotin : i ∉ rest := (List.nodup_cons.mp hnd).1
    rw [relabelLoop_cons, hstep]
    have hne : ∀ j ∈ rest, j ≠ i := fun j hj hji => hnotin (hji ▸ hj)
    obtain ⟨st', hrun, hnews, hpat, htbc, hdel, hupd, hsend, hcalls, hlen', hout, hin'⟩ :=
      ih st1 (by rw [e_objs, List.length_set]; exact hlen)
        (by
          intro j a b ha hb
          rw [e_objs, List.getElem?_set] at hb
          by_cases hij : i = j
          · subst hij
            have hil : i < st.objs.length := by omega
            simp only [if_true, hil] at hb
            cases hb
            rw [hpre] at ha
            cases ha
            exact relabelled_sameFrame _ _ _ _
          · simp only [hij, if_false] at hb
            exact hframe j a b ha hb)
        (by
          intro j hj
          rw [e_objs, List.getElem?_set_ne (fun h => hne j hj h.symm)]
          exact hun j (List.mem_cons_of_mem _ hj))
        (List.nodup_cons.mp hnd).2
        (fun j hj => hin j (List.mem_cons_of_mem _ hj))
        (fun j hj => hval j (List.mem_cons_of_mem _ hj))
    rw [e_news] at hnews
    rw [e_pat] at hpat
    rw [e_tbc] at htbc
    rw [e_del] at hdel
    rw [e_upd] at hupd
    rw [e_send] at hsend
    rw [e_calls] at hcalls
    simp only [e_objs] at hout
    refine ⟨st', hrun, hnews, ?_, ?_, ?_, ?_, ?_, ?_, hlen', ?_, ?_⟩
    · rw [hpat, List.foldl_cons]
    · rw [htbc, filter_cons_at pre _ i rest pre[i] hpre, List.append_assoc]
      cases rightIsMine pre[i] <;> rfl
    · rw [hdel, filter_cons_at pre _ i rest pre[i] hpre, List.append_assoc]
      cases leftIsMine pre[i] <;> rfl
    · rw [hupd, filter_cons_at pre _ i rest pre[i] hpre, List.append_assoc]
    · rw [hsend, filter_cons_at pre _ i rest pre[i] hpre, List.append_assoc]
    · rw [hcalls, List.flatMap_cons, List.append_assoc]
    · intro j hj
      have hji : j ≠ i := fun h => hj (h ▸ List.mem_cons_self _ _)
      have hjr : j ∉ rest := fun h => hj (List.mem_cons_of_mem _ h)
      rw [hout j hjr, List.getElem?_set_ne (fun h => hji h.symm)]
    · intro j hj a ha
      rcases List.mem_cons.mp hj with rfl | hjr
      · rw [hout j hnotin]
        have hil : j < st.objs.length := by omega
        rw [hpre] at ha
        cases ha
        simp [List.getElem?_set, hil]
      · exact hin' j hjr a ha

/-! ## Moving window: creation, wait, commit and deletion -/

theorem createCalls_no_buffer {D : Type} (env : WindowEnv D) (nSpecies : Nat)
    (template me : PatchRef) (mypatch : WindowPatch D) (n_moved : Nat) :
    ∀ c ∈ createCalls env nSpecies template me mypatch n_moved,
      bufferEventOfWindowCall c = none := by
  intro c hc
  unfold createCalls at hc
  simp only [List.mem_append, List.mem_cons, List.mem_singleton, List.not_mem_nil, or_false]
    at hc
  rcases hc with ((rfl | rfl) | hmid) | (rfl | rfl)
  · rfl
  · rfl
  · split at hmid
    · simp only [List.mem_singleton] at hmid
      subst hmid
      rfl
    · rcases List.mem_append.mp hmid with h | h
      · split at h
        · obtain ⟨_, _, rfl⟩ := List.mem_map.mp h
          rfl
        · cases h
      · obtain ⟨_, _, rfl⟩ := List.mem_map.mp h
        rfl
  · rfl
  · rfl

theorem deref_append_news {D : Type} (objs news : List (WindowPatch D)) (x : WindowPatch D)
    (r : PatchRef) (h : (deref objs news r).isSome = true) :
    (deref objs (news ++ [x]) r).isSome = true := by
  cases r with
  | old i => exact h
  | created j =>
    have h' : (news[j]?).isSome = true := h
    show ((news ++ [x])[j]?).isSome = true
    obtain ⟨a, ha⟩ := Option.isSome_iff_exists.mp h'
    have hj : j < news.length := (List.getElem?_eq_some_iff.mp ha).1
    rw [List.getElem?_append_left hj]
    exact h'

theorem createLoop_spec {D : Type} (env : WindowEnv D) (h0 : Int) (nSpecies n_moved : Nat)
    (tbc : List Nat) :
    ∀ st : WindowState D, RefsValid st → 0 < st.patches_.length →
      ∃ st' extra created, createLoop env h0 nSpecies n_moved tbc st = Except.ok st'
        ∧ st'.objs = st.objs
        ∧ st'.news = st.news ++ created
        ∧ created.map (fun p => p.hindex) = tbc.map (fun (ipatch : Nat) => h0 + (ipatch : Int))
        ∧ st'.patches_ = createSlots st.news.length tbc st.patches_
        ∧ st'.patch_to_be_created = st.patch_to_be_created
        ∧ st'.delete_patches_ = st.delete_patches_
        ∧ st'.update_patches_ = st.update_patches_
        ∧ st'.send_patches_ = st.send_patches_
        ∧ st'.calls = st.calls ++ extra
        ∧ (∀ c ∈ extra, bufferEventOfWindowCall c = none) := by
  induction tbc with
  | nil =>
    intro st _ _
    exact ⟨st, [], [], rfl, rfl, by simp, rfl, rfl, rfl, rfl, rfl, rfl, by simp,
      fun _ h => by cases h⟩
  | cons i rest ih =>
    intro st hv hpos
    have h0lt : 0 < st.patches_.length := hpos
    obtain ⟨first, hfirst⟩ : ∃ first, st.patches_[0]? = some first :=
      ⟨_, List.getElem?_eq_getElem h0lt⟩
    have hfm : first ∈ st.patches_ := by
      rw [List.getElem?_eq_getElem h0lt] at hfirst
      cases hfirst
      exact List.getElem_mem _
    obtain ⟨template, htemp⟩ : ∃ t, deref st.objs st.news first = some t :=
      Option.isSome_iff_exists.mp (hv first hfm)
    rw [createLoop]
    simp only [hfirst, htemp]
    obtain ⟨st', extra, created, hrun, hobjs, hnews, hhx, hpat, h1, h2, h3, h4, hcalls, hnb⟩ :=
      ih { st with
            news := st.news ++ [newPatch env template (h0 + i) n_moved]
            patches_ := st.patches_.set i (PatchRef.created st.news.length)
            calls := st.calls ++
              createCalls env nSpecies first (PatchRef.created st.news.length)
                (newPatch env template (h0 + i) n_moved) n_moved }
        (by
          intro r hr
          simp only at hr ⊢
          rcases List.mem_or_eq_of_mem_set hr with hr' | rfl
          · exact deref_append_news _ _ _ _ (hv r hr')
          · simp [deref])
        (by simp only [List.length_set]; exact hpos)
    refine ⟨st', createCalls env nSpecies first (PatchRef.created st.news.length)
        (newPatch env template (h0 + i) n_moved) n_moved ++ extra,
      newPatch env template (h0 + i) n_moved :: created, hrun, hobjs, ?_, ?_, ?_, h1, h2, h3,
      h4, ?_, ?_⟩
    · rw [hnews]; simp
    · simp only [List.map_cons, hhx]
      rfl
    · rw [hpat]
      simp only [List.length_append, List.length_singleton]
      rfl
    · rw [hcalls]; simp
    · intro c hc
      rcases List.mem_append.mp hc with h | h
      · exact createCalls_no_buffer _ _ _ _ _ _ c h
      · exact hnb c h

theorem flatMap_ite_singleton {α β : Type} (c : α → Bool) (f : α → β) (l : List α) :
    l.flatMap (fun a => if c a then [f a] else []) = (l.filter c).map f := by
  induction l with
  | nil => rfl
  | cons a t ih =>
    rw [List.flatMap_cons, ih, List.filter_cons]
    cases c a <;> rfl

theorem waitCalls_eq {D : Type} (env : WindowEnv D) (pre objs : List (WindowPatch D))
    (hlen : objs.length = pre.length)
    (hframe : ∀ (j : Nat) (a b : WindowPatch D), pre[j]? = some a → objs[j]? = some b →
      SameFrame a b) :
    waitCalls env objs = ((List.range pre.length).filter (testAt pre (leftIsRemote env))).map
      (fun i => WindowCall.waitall (PatchRef.old i)) := by
  unfold waitCalls
  rw [hlen, ← flatMap_ite_singleton]
  apply List.flatMap_congr
  intro i hi
  have hi' : i < pre.length := List.mem_range.mp hi
  have hpre : pre[i]? = some pre[i] := List.getElem?_eq_getElem hi'
  have hio : i < objs.length := by omega
  have hobj : objs[i]? = some objs[i] := List.getElem?_eq_getElem hio
  obtain ⟨f1, f2, _, _⟩ := hframe i _ _ hpre hobj
  rw [hobj]
  simp only
  have : testAt pre (leftIsRemote env) i = leftIsRemote env pre[i] := by
    unfold testAt; rw [hpre]
  rw [this]
  unfold leftIsRemote
  rw [f1, f2]
  by_cases h : pre[i].MPI_neighbor_ 0 0 ≠ pre[i].MPI_me_
      ∧ pre[i].MPI_neighbor_ 0 0 ≠ env.MPI_PROC_NULL
  · rw [if_pos h, if_pos (by simpa using h)]
  · rw [if_neg h, if_neg (by simpa using h)]

theorem commitNeighbors_frame {D : Type} (n : Nat) (m : WindowPatch D) :
    (commitNeighbors n m).hindex = m.hindex
    ∧ (commitNeighbors n m).Pcoordinates0 = m.Pcoordinates0
    ∧ (commitNeighbors n m).MPI_me_ = m.MPI_me_
    ∧ (commitNeighbors n m).neighbor_ 0 1 = m.neighbor_ 0 1
    ∧ (commitNeighbors n m).MPI_neighbor_ 0 1 = m.MPI_neighbor_ 0 1
    ∧ (commitNeighbors n m).nSpecies = m.nSpecies
    ∧ (commitNeighbors n m).fieldNRJ = m.fieldNRJ
    ∧ (commitNeighbors n m).speciesNRJ = m.speciesNRJ
    ∧ (commitNeighbors n m).tmp_neighbor_ = m.tmp_neighbor_
    ∧ (commitNeighbors n m).tmp_MPI_neighbor_ = m.tmp_MPI_neighbor_ := by
  unfold commitNeighbors
  generalize hx : ({ m with
      MPI_neighbor_ := m.MPI_neighbor_.assign 0 0 (m.tmp_MPI_neighbor_ 0 0)
      neighbor_ := m.neighbor_.assign 0 0 (m.tmp_neighbor_ 0 0) } : WindowPatch D) = x
  have hx0 : x.hindex = m.hindex ∧ x.Pcoordinates0 = m.Pcoordinates0 ∧ x.MPI_me_ = m.MPI_me_
      ∧ x.neighbor_ 0 1 = m.neighbor_ 0 1 ∧ x.MPI_neighbor_ 0 1 = m.MPI_neighbor_ 0 1
      ∧ x.nSpecies = m.nSpecies ∧ x.fieldNRJ = m.fieldNRJ ∧ x.speciesNRJ = m.speciesNRJ
      ∧ x.tmp_neighbor_ = m.tmp_neighbor_ ∧ x.tmp_MPI_neighbor_ = m.tmp_MPI_neighbor_ := by
    subst hx
    refine ⟨rfl, rfl, rfl, ?_, ?_, rfl, rfl, rfl, rfl, rfl⟩ <;> simp [assign_apply]
  clear hx
  have hmem : ∀ d ∈ List.range' 1 (n - 1), 1 ≤ d := fun d hd => (List.mem_range'_1.mp hd).1
  generalize List.range' 1 (n - 1) = L at hmem
  induction L generalizing x with
  | nil => exact hx0
  | cons d ds ih =>
    rw [List.foldl_cons]
    apply ih
    · obtain ⟨h1, h2, h3, h4, h5, h6, h7, h8, h9, h10⟩ := hx0
      have hd : ¬ (0 = d) := by
        have := hmem d (List.mem_cons_self _ _)
        omega
      refine ⟨h1, h2, h3, ?_, ?_, h6, h7, h8, h9, h10⟩
      · simp [commitDim, assign_apply, hd, h4]
      · simp [commitDim, assign_apply, hd, h5]
    · exact fun d' hd' => hmem d' (List.mem_cons_of_mem _ hd')

theorem commitLoop_length {D : Type} (n : Nat) (us : List Nat) :
    ∀ objs : List (WindowPatch D), (commitLoop n us objs).length = objs.length := by
  induction us with
  | nil => intro objs; rfl
  | cons u rest ih =>
    intro objs
    rw [commitLoop]
    cases objs[u]? with
    | none => exact ih objs
    | some p => simp only; rw [ih, List.length_set]

theorem commitLoop_not_mem {D : Type} (n : Nat) (us : List Nat) (j : Nat) (hj : j ∉ us) :
    ∀ objs : List (WindowPatch D), (commitLoop n us objs)[j]? = objs[j]? := by
  induction us with
  | nil => intro objs; rfl
  | cons u rest ih =>
    intro objs
    have hju : u ≠ j := fun h => hj (h ▸ List.mem_cons_self _ _)
    have hjr : j ∉ rest := fun h => hj (List.mem_cons_of_mem _ h)
    rw [commitLoop]
    cases objs[u]? with
    | none => exact ih hjr objs
    | some p => simp only; rw [ih hjr, List.getElem?_set_ne hju]

theorem commitLoop_mem {D : Type} (n : Nat) (us : List Nat) (j : Nat) (hnd : us.Nodup)
    (hj : j ∈ us) :
    ∀ objs : List (WindowPatch D),
      (commitLoop n us objs)[j]? = (objs[j]?).map (commitNeighbors n) := by
  induction us with
  | nil => cases hj
  | cons u rest ih =>
    intro objs
    have hur : u ∉ rest := (List.nodup_cons.mp hnd).1
    rw [commitLoop]
    rcases List.mem_cons.mp hj with rfl | hjr
    · cases hget : objs[j]? with
      | none =>
        simp only
        rw [commitLoop_not_mem n rest j hur, hget]
        rfl
      | some p =>
        simp only
        rw [commitLoop_not_mem n rest j hur]
        have hlt : j < objs.length := (List.getElem?_eq_some_iff.mp hget).1
        simp [List.getElem?_set, hlt]
    · have hne : u ≠ j := fun h => hur (h ▸ hjr)
      cases objs[u]? with
      | none => exact ih (List.nodup_cons.mp hnd).2 hjr objs
      | some p =>
        simp only
        rw [ih (List.nodup_cons.mp hnd).2 hjr, List.getElem?_set_ne hne]

theorem lostEnergy_congr {D : Type} [Add D] (env : WindowEnv D) (nSpecies : Nat)
    (objs objs' : List (WindowPatch D)) (del : List Nat)
    (h : ∀ j ∈ del, objs[j]? = objs'[j]?) :
    ∀ acc : D × (Nat → D),
      lostEnergy env nSpecies objs del acc = lostEnergy env nSpecies objs' del acc := by
  induction del with
  | nil => intro acc; rfl
  | cons d rest ih =>
    intro acc
    obtain ⟨a, b⟩ := acc
    rw [lostEnergy, lostEnergy, h d (List.mem_cons_self _ _)]
    have ih' := ih (fun j hj => h j (List.mem_cons_of_mem _ hj))
    cases objs'[d]? with
    | none => exact ih' _
    | some p =>
      simp only
      split
      · exact ih' _
      · exact ih' _

theorem lostEnergy_eq {D : Type} [Add D] (env : WindowEnv D) (nSpecies : Nat)
    (objs : List (WindowPatch D)) (del : List Nat) :
    ∀ acc : D × (Nat → D),
      (lostEnergy env nSpecies objs del acc).1
          = ((del.filterMap (fun j => objs[j]?)).filter env.isXmin).foldl
              (fun e p => e + p.fieldNRJ) acc.1
      ∧ ∀ ispec, ispec < nSpecies →
          (lostEnergy env nSpecies objs del acc).2 ispec
            = ((del.filterMap (fun j => objs[j]?)).filter env.isXmin).foldl
                (fun e p => e + p.speciesNRJ ispec) (acc.2 ispec) := by
  induction del with
  | nil => intro acc; exact ⟨rfl, fun _ _ => rfl⟩
  | cons d rest ih =>
    intro acc
    obtain ⟨a, b⟩ := acc
    rw [lostEnergy]
    cases hget : objs[d]? with
    | none =>
      simp only [List.filterMap_cons, hget]
      exact ih (a, b)
    | some p =>
      simp only [List.filterMap_cons, hget]
      by_cases hx : env.isXmin p = true
      · rw [if_pos hx, List.filter_cons_of_pos hx]
        obtain ⟨i1, i2⟩ := ih (a + p.fieldNRJ,
          fun ispec => if ispec < nSpecies then b ispec + p.speciesNRJ ispec else b ispec)
        refine ⟨i1, ?_⟩
        intro ispec hs
        rw [i2 ispec hs]
        simp only [hs, if_true, List.foldl_cons]
      · rw [if_neg hx, List.filter_cons_of_neg hx]
        exact ih (a, b)

theorem refreshCalls_no_buffer {D : Type} (env : WindowEnv D) (nSpecies : Nat)
    (mypatch r : PatchRef) (p : WindowPatch D) :
    ∀ c ∈ refreshCalls env nSpecies mypatch r p, bufferEventOfWindowCall c = none := by
  intro c hc
  unfold refreshCalls at hc
  simp only [List.mem_append, List.mem_singleton] at hc
  rcases hc with (((rfl | h) | rfl) | h) | h
  · rfl
  · split at h
    · obtain ⟨_, _, rfl⟩ := List.mem_map.mp h
      rfl
    · cases h
  · split <;> rfl
  · split at h
    · simp only [List.mem_cons, List.mem_singleton, List.not_mem_nil, or_false] at h
      rcases h with rfl | rfl <;> rfl
    · cases h
  · split at h
    · simp only [List.mem_cons, List.mem_singleton, List.not_mem_nil, or_false] at h
      rcases h with rfl | rfl | rfl <;> rfl
    · cases h

theorem refreshLoop_no_buffer {D : Type} (env : WindowEnv D) (nSpecies : Nat)
    (mypatch : PatchRef) (objs news : List (WindowPatch D)) (patches_ : List PatchRef) :
    ∀ c ∈ refreshLoop env nSpecies mypatch objs news patches_,
      bufferEventOfWindowCall c = none := by
  intro c hc
  unfold refreshLoop at hc
  obtain ⟨r, _, hcr⟩ := List.mem_flatMap.mp hc
  cases hd : deref objs news r with
  | none => rw [hd] at hcr; cases hcr
  | some p =>
    rw [hd] at hcr
    exact refreshCalls_no_buffer env nSpecies mypatch r p c hcr

theorem slotStep_length {D : Type} (h0 : Int) (pre : List (WindowPatch D))
    (slots : List PatchRef) (i : Nat) : (slotStep h0 pre slots i).length = slots.length := by
  unfold slotStep
  split
  · split
    · rw [List.length_set]
    · rfl
  · rfl

theorem foldl_slotStep_length {D : Type} (h0 : Int) (pre : List (WindowPatch D))
    (is : List Nat) : ∀ slots : List PatchRef,
    (is.foldl (slotStep h0 pre) slots).length = slots.length := by
  induction is with
  | nil => intro slots; rfl
  | cons i rest ih =>
    intro slots
    rw [List.foldl_cons, ih, slotStep_length]

theorem foldl_slotStep_mem {D : Type} (h0 : Int) (pre : List (WindowPatch D))
    (is : List Nat) : ∀ (slots : List PatchRef) (r : PatchRef),
    r ∈ is.foldl (slotStep h0 pre) slots → r ∈ slots ∨ ∃ i ∈ is, r = PatchRef.old i := by
  induction is with
  | nil => intro slots r h; exact Or.inl h
  | cons i rest ih =>
    intro slots r h
    rw [List.foldl_cons] at h
    rcases ih _ r h with h1 | ⟨j, hj, rfl⟩
    · unfold slotStep at h1
      split at h1
      · split at h1
        · rcases List.mem_or_eq_of_mem_set h1 with h2 | rfl
          · exact Or.inl h2
          · exact Or.inr ⟨i, List.mem_cons_self _ _, rfl⟩
        · exact Or.inl h1
      · exact Or.inl h1
    · exact Or.inr ⟨j, List.mem_cons_of_mem _ hj, rfl⟩

theorem createSlots_length (tbc : List Nat) : ∀ (base : Nat) (slots : List PatchRef),
    (createSlots base tbc slots).length = slots.length := by
  induction tbc with
  | nil => intro _ slots; rfl
  | cons i rest ih =>
    intro base slots
    rw [createSlots, ih, List.length_set]

/-! ## Moving window: an advancing tick as a whole -/

theorem operate_advancing {D : Type} [Zero D] [Add D] [Sub D] [Mul D] [NatCast D] [LT D]
    [DecidableRel (fun a b : D => a < b)]
    (env : WindowEnv D) (w : SimWindow D) (vp : WindowVectorPatch D) (time_dual : D)
    (p0 : WindowPatch D) (rest : List (WindowPatch D))
    (hmov : isMoving w time_dual = true) (hp : vp.patches_ = p0 :: rest)
    (hval : RelabelValid p0.hindex vp.patches_) :
    ∃ (r : WindowResult D) (first : PatchRef) (extra refresh : List (WindowCall D)),
      operate env w vp time_dual = Except.ok r
      ∧ r.window = { w with
          x_moved := w.x_moved + w.cell_length_x_ * (env.n_space0 : D)
          n_moved := w.n_moved + env.n_space0 }
      ∧ r.state.patch_to_be_created
          = (List.range vp.patches_.length).filter (testAt vp.patches_ (fun p => !rightIsMine p))
      ∧ r.state.delete_patches_
          = (List.range vp.patches_.length).filter (testAt vp.patches_ (fun p => !leftIsMine p))
      ∧ r.state.update_patches_
          = (List.range vp.patches_.length).filter (testAt vp.patches_ leftIsMine)
      ∧ r.state.send_patches_
          = (List.range vp.patches_.length).filter (testAt vp.patches_ (leftIsRemote env))
      ∧ r.state.patches_ = createSlots 0 r.state.patch_to_be_created
          ((List.range vp.patches_.length).foldl (slotStep p0.hindex vp.patches_)
            ((List.range vp.patches_.length).map PatchRef.old))
      ∧ r.state.news.map (fun p => p.hindex)
          = r.state.patch_to_be_created.map (fun (ipatch : Nat) => p0.hindex + (ipatch : Int))
      ∧ r.state.objs.length = vp.patches_.length
      ∧ (∀ (j : Nat) (a : WindowPatch D), vp.patches_[j]? = some a →
          r.state.objs[j]? = some
            (if leftIsMine a then
              commitNeighbors env.nDim_particle
                (relabelled env.nDim_particle p0.hindex vp.patches_ a)
            else a))
      ∧ r.state.patches_[0]? = some first
      ∧ r.state.calls =
          (List.range vp.patches_.length).map
              (fun ipatch => WindowCall.laserDisabled (PatchRef.old ipatch))
            ++ (List.range vp.patches_.length).flatMap
                (relabelCallsOf env p0.nSpecies vp.patches_)
            ++ extra
            ++ r.state.send_patches_.map (fun i => WindowCall.waitall (PatchRef.old i))
            ++ refresh ++ [WindowCall.update_field_list]
            ++ deleteCalls r.state.delete_patches_
            ++ storeCalls p0.nSpecies first r.energy_field_lost r.energy_part_lost
      ∧ (∀ c ∈ extra, bufferEventOfWindowCall c = none)
      ∧ (∀ c ∈ refresh, bufferEventOfWindowCall c = none)
      ∧ (r.energy_field_lost, r.energy_part_lost)
          = lostEnergy env p0.nSpecies vp.patches_ r.state.delete_patches_ (0, fun _ => 0)
      ∧ r.patches = r.state.patches_.filterMap (deref r.state.objs r.state.news)
      ∧ r.lastIterationPatchesMoved = env.itime := by
  obtain ⟨pre, last⟩ := vp
  simp only at hp hval ⊢
  have hn : 0 < pre.length := by rw [hp]; simp
  -- the first loop
  obtain ⟨st1, hrun1, hnews1, hpat1, htbc1, hdel1, hupd1, hsend1, hcalls1, hlen1, _, hin1⟩ :=
    relabelLoop_spec env p0.hindex p0.nSpecies pre (List.range pre.length) (initialState pre)
      rfl
      (by
        intro j a b ha hb
        have hb' : pre[j]? = some b := hb
        rw [ha] at hb'
        cases hb'
        exact sameFrame_refl a)
      (fun _ _ => rfl) (List.nodup_range _) (fun i hi => List.mem_range.mp hi)
      (fun i _ p hpi hL => hval i p hpi hL)
  have hframe1 : ∀ (j : Nat) (a b : WindowPatch D), pre[j]? = some a → st1.objs[j]? = some b →
      SameFrame a b := by
    intro j a b ha hb
    have hj : j < pre.length := (List.getElem?_eq_some_iff.mp ha).1
    rw [hin1 j (List.mem_range.mpr hj) a ha] at hb
    cases hb
    exact relabelled_sameFrame _ _ _ _
  have hplen1 : st1.patches_.length = pre.length := by
    rw [hpat1, foldl_slotStep_length]
    simp [initialState]
  -- the creation loop
  have hvalid1 : RefsValid st1 := by
    intro r hr
    rw [hpat1] at hr
    have hold : ∃ i, i < pre.length ∧ r = PatchRef.old i := by
      rcases foldl_slotStep_mem _ _ _ _ r hr with h | ⟨i, hi, rfl⟩
      · simp only [initialState, List.mem_map, List.mem_range] at h
        obtain ⟨i, hi, rfl⟩ := h
        exact ⟨i, hi, rfl⟩
      · exact ⟨i, List.mem_range.mp hi, rfl⟩
    obtain ⟨i, hi, rfl⟩ := hold
    show (st1.objs[i]?).isSome = true
    rw [List.getElem?_eq_getElem (by omega)]
    rfl
  obtain ⟨st2, extra, created, hrun2, hobjs2, hnews2, hhx2, hpat2, htbc2, hdel2, hupd2, hsend2,
      hcalls2, hnb2⟩ :=
    createLoop_spec env p0.hindex p0.nSpecies (w.n_moved + env.n_space0)
      st1.patch_to_be_created st1 hvalid1 (by omega)
  have hplen2 : st2.patches_.length = pre.length := by
    rw [hpat2, createSlots_length, hplen1]
  obtain ⟨first, hfirst⟩ : ∃ first, st2.patches_[0]? = some first :=
    ⟨_, List.getElem?_eq_getElem (by omega)⟩
  have hinit_tbc : (initialState pre).patch_to_be_created = [] := rfl
  have hinit_del : (initialState pre).delete_patches_ = [] := rfl
  have hinit_upd : (initialState pre).update_patches_ = [] := rfl
  have hinit_send : (initialState pre).send_patches_ = [] := rfl
  have hinit_news : (initialState pre).news = [] := rfl
  rw [hinit_tbc, List.nil_append] at htbc1
  rw [hinit_del, List.nil_append] at hdel1
  rw [hinit_upd, List.nil_append] at hupd1
  rw [hinit_send, List.nil_append] at hsend1
  rw [hinit_news] at hnews1
  have hop : operate env w { patches_ := pre, lastIterationPatchesMoved := last } time_dual
      = Except.ok
        { window := { w with
            x_moved := w.x_moved + w.cell_length_x_ * (env.n_space0 : D)
            n_moved := w.n_moved + env.n_space0 }
          state :=
            { st2 with
              objs := commitLoop env.nDim_particle st2.update_patches_ st2.objs
              calls := st2.calls ++ waitCalls env st2.objs
                ++ refreshLoop env p0.nSpecies
                    (staleMypatch pre.length st2.patch_to_be_created st2.update_patches_)
                    (commitLoop env.nDim_particle st2.update_patches_ st2.objs) st2.news
                    st2.patches_
                ++ [WindowCall.update_field_list]
                ++ deleteCalls st2.delete_patches_
                ++ storeCalls p0.nSpecies first
                    (lostEnergy env p0.nSpecies
                      (commitLoop env.nDim_particle st2.update_patches_ st2.objs)
                      st2.delete_patches_ (0, fun _ => 0)).1
                    (lostEnergy env p0.nSpecies
                      (commitLoop env.nDim_particle st2.update_patches_ st2.objs)
                      st2.delete_patches_ (0, fun _ => 0)).2 }
          patches := st2.patches_.filterMap
            (deref (commitLoop env.nDim_particle st2.update_patches_ st2.objs) st2.news)
          lastIterationPatchesMoved := env.itime
          energy_field_lost :=
            (lostEnergy env p0.nSpecies
              (commitLoop env.nDim_particle st2.update_patches_ st2.objs)
              st2.delete_patches_ (0, fun _ => 0)).1
          energy_part_lost :=
            (lostEnergy env p0.nSpecies
              (commitLoop env.nDim_particle st2.update_patches_ st2.objs)
              st2.delete_patches_ (0, fun _ => 0)).2 } := by
    unfold operate
    simp only [hmov, Bool.not_true, Bool.false_eq_true, if_false]
    subst hp
    simp only
    rw [hrun1]
    simp only
    rw [hrun2]
    simp only [hfirst]
  have hupd_nodup : st2.update_patches_.Nodup := by
    rw [hupd2, hupd1]
    exact (List.nodup_range _).filter _
  have hobjs_final : ∀ (j : Nat) (a : WindowPatch D), pre[j]? = some a →
      (commitLoop env.nDim_particle st2.update_patches_ st2.objs)[j]? = some
        (if leftIsMine a then
          commitNeighbors env.nDim_particle (relabelled env.nDim_particle p0.hindex pre a)
        else a) := by
    intro j a ha
    have hj : j < pre.length := (List.getElem?_eq_some_iff.mp ha).1
    have hst1 := hin1 j (List.mem_range.mpr hj) a ha
    have hta : testAt pre leftIsMine j = leftIsMine a := by unfold testAt; rw [ha]
    by_cases hL : leftIsMine a = true
    · have hmem : j ∈ st2.update_patches_ := by
        rw [hupd2, hupd1, List.mem_filter]
        exact ⟨List.mem_range.mpr hj, by rw [hta]; exact hL⟩
      rw [commitLoop_mem _ _ _ hupd_nodup hmem, hobjs2, hst1, if_pos hL]
      rfl
    · have hmem : j ∉ st2.update_patches_ := by
        rw [hupd2, hupd1, List.mem_filter]
        rintro ⟨_, h⟩
        rw [hta] at h
        exact hL h
      rw [commitLoop_not_mem _ _ _ hmem, hobjs2, hst1, if_neg hL]
      have : relabelled env.nDim_particle p0.hindex pre a = a := by
        unfold relabelled
        rw [if_neg hL]
      rw [this]
  have hlost : lostEnergy env p0.nSpecies
        (commitLoop env.nDim_particle st2.update_patches_ st2.objs) st2.delete_patches_
        (0, fun _ => 0)
      = lostEnergy env p0.nSpecies pre st2.delete_patches_ (0, fun _ => 0) := by
    apply lostEnergy_congr
    intro j hj
    rw [hdel2, hdel1, List.mem_filter] at hj
    have hjl : j < pre.length := List.mem_range.mp hj.1
    have ha : pre[j]? = some pre[j] := List.getElem?_eq_getElem hjl
    have hta : testAt pre (fun p => !leftIsMine p) j = !leftIsMine pre[j] := by
      unfold testAt; rw [ha]
    rw [hobjs_final j _ ha, ha]
    have hnl : leftIsMine pre[j] = false := by
      have := hj.2
      rw [hta] at this
      simpa using this
    rw [hnl]
    rfl
  refine ⟨_, first, extra,
    refreshLoop env p0.nSpecies
      (staleMypatch pre.length st2.patch_to_be_created st2.update_patches_)
      (commitLoop env.nDim_particle st2.update_patches_ st2.objs) st2.news st2.patches_,
    hop, rfl, ?_, ?_, ?_, ?_, ?_, ?_, ?_, hobjs_final, hfirst, ?_, hnb2,
    refreshLoop_no_buffer _ _ _ _ _ _, ?_, rfl, rfl⟩
  · simp only; rw [htbc2, htbc1]
  · simp only; rw [hdel2, hdel1]
  · simp only; rw [hupd2, hupd1]
  · simp only; rw [hsend2, hsend1]
  · simp only; rw [hpat2, hnews1, hpat1, htbc2]; rfl
  · simp only; rw [hnews2, hnews1, List.nil_append, hhx2, htbc2]
  · simp only; rw [commitLoop_length, hobjs2, hlen1]
  · simp only
    rw [hcalls2, hcalls1, waitCalls_eq env pre st2.objs (by rw [hobjs2, hlen1])
      (by rw [hobjs2]; exact hframe1), hsend2, hsend1]
    rfl
  · simp only
    rw [hlost]

theorem operate_ok_moved {D : Type} [Zero D] [Add D] [Sub D] [Mul D] [NatCast D]
    [LT D] [DecidableRel (fun a b : D => a < b)]
    (env : WindowEnv D) (w : SimWindow D) (vp : WindowVectorPatch D) (time_dual : D)
    (r : WindowResult D) (h : operate env w vp time_dual = Except.ok r) :
    (isMoving w time_dual = false →
      r.window = w ∧ r.lastIterationPatchesMoved = vp.lastIterationPatchesMoved)
    ∧ (isMoving w time_dual = true →
      r.window = { w with
          x_moved := w.x_moved + w.cell_length_x_ * (env.n_space0 : D)
          n_moved := w.n_moved + env.n_space0 }
      ∧ r.lastIterationPatchesMoved = env.itime
      ∧ WindowCall.update_field_list ∈ r.state.calls) := by
  unfold operate at h
  constructor
  · intro hm
    rw [hm] at h
    simp only [Bool.not_false, if_true, Except.ok.injEq] at h
    subst h
    exact ⟨rfl, rfl⟩
  · intro hm
    rw [hm] at h
    simp only [Bool.not_true, Bool.false_eq_true, if_false] at h
    split at h
    · cases h
    · split at h
      · cases h
      · split at h
        · cases h
        · split at h
          · cases h
          · simp only [Except.ok.injEq] at h
            subst h
            refine ⟨rfl, rfl, ?_⟩
            simp only [List.mem_append, List.mem_singleton, true_or, or_true]

/-- C12. The moving window advances exactly when `active && (time_dual - time_start) *
velocity_x > x_moved`.  The method `isMoving` returns that value, so it is false whenever
the window is inactive.  When it is false `SimWindow::operate` returns at once: the window
(with `x_moved` and `n_moved`), the patch objects and the patch sequence are as they were
and no call is made, so no send and no receive is posted.  When it is true, on a
non-empty patch sequence whose left neighbours can be read, `operate` completes an advance:
`x_moved` grows by `cell_length_x_ * n_space[0]`, `n_moved` by `n_space[0]`,
`lastIterationPatchesMoved` becomes `itime` and the field list is updated.  For every call
of `operate` that completes, with `n_space[0] > 0`: `n_moved` has grown by `n_space[0]` if
and only if `isMoving` is true, and is unchanged if and only if `isMoving` is false. -/
theorem operate_advances_iff_isMoving {D : Type} [Zero D] [Add D] [Sub D] [Mul D]
    [NatCast D] [LT D] [DecidableRel (fun a b : D => a < b)]
    (env : WindowEnv D) (w : SimWindow D) (vp : WindowVectorPatch D) (time_dual : D) :
    isMoving w time_dual
        = (w.active && decide ((time_dual - w.time_start) * w.velocity_x > w.x_moved))
    ∧ (isMoving w time_dual = true ↔
        (w.active = true ∧ (time_dual - w.time_start) * w.velocity_x > w.x_moved))
    ∧ (w.active = false → isMoving w time_dual = false)
    ∧ (isMoving w time_dual = false →
        ∃ r, operate env w vp time_dual = Except.ok r
          ∧ r.window = w
          ∧ r.window.x_moved = w.x_moved ∧ r.window.n_moved = w.n_moved
          ∧ r.patches = vp.patches_
          ∧ r.state.objs = vp.patches_
          ∧ r.state.patches_ = (List.range vp.patches_.length).map PatchRef.old
          ∧ r.state.news = []
          ∧ r.state.calls = []
          ∧ r.lastIterationPatchesMoved = vp.lastIterationPatchesMoved)
    ∧ (isMoving w time_dual = true →
        ∀ (p0 : WindowPatch D) (rest : List (WindowPatch D)), vp.patches_ = p0 :: rest →
          RelabelValid p0.hindex vp.patches_ →
          ∃ r, operate env w vp time_dual = Except.ok r
            ∧ r.window.x_moved = w.x_moved + w.cell_length_x_ * (env.n_space0 : D)
            ∧ r.window.n_moved = w.n_moved + env.n_space0
            ∧ r.lastIterationPatchesMoved = env.itime
            ∧ WindowCall.update_field_list ∈ r.state.calls)
    ∧ (∀ r, operate env w vp time_dual = Except.ok r → 0 < env.n_space0 →
        (isMoving w time_dual = true ↔ r.window.n_moved = w.n_moved + env.n_space0)
        ∧ (isMoving w time_dual = false ↔ r.window.n_moved = w.n_moved)) := by
  refine ⟨rfl, ?_, ?_, ?_, ?_, ?_⟩
  · unfold isMoving
    simp only [Bool.and_eq_true, decide_eq_true_eq]
  · intro h
    unfold isMoving
    rw [h]
    rfl
  · intro h
    unfold operate
    rw [h]
    exact ⟨_, rfl, rfl, rfl, rfl, rfl, rfl, rfl, rfl, rfl, rfl⟩
  · intro hmov p0 rest hp hval
    obtain ⟨r, _, _, _, hop, _⟩ := operate_advancing env w vp time_dual p0 rest hmov hp hval
    obtain ⟨hw, hlast, hcall⟩ := (operate_ok_moved env w vp time_dual r hop).2 hmov
    exact ⟨r, hop, by rw [hw], by rw [hw], hlast, hcall⟩
  · intro r hop hn
    obtain ⟨hfalse, htrue⟩ := operate_ok_moved env w vp time_dual r hop
    cases hm : isMoving w time_dual with
    | false =>
      have hw := (hfalse hm).1
      rw [hw]
      refine ⟨⟨fun h => ?_, fun h => ?_⟩, ⟨fun _ => rfl, fun _ => rfl⟩⟩
      · cases h
      · omega
    | true =>
      have hw := (htrue hm).1
      rw [hw]
      refine ⟨⟨fun _ => rfl, fun _ => rfl⟩, ⟨fun h => ?_, fun h => ?_⟩⟩
      · cases h
      · have h' : w.n_moved + env.n_space0 = w.n_moved := h
        omega

/-- Counterexample to C13 as stated: in Scenario B with patches of 8 cells of length 1,
one advance tick takes `x_moved` and `n_moved` from 0 to 8, not to
`0 + cell_length_x_ = 1` and `0 + 1 = 1`. -/
theorem operate_counters_not_one_cell :
    isMoving scenarioBWindow 1 = true
    ∧ (scenarioBResult 8 false).map (fun r => (r.window.x_moved, r.window.n_moved))
        = some (8, 8)
    ∧ (8 : Int) ≠ scenarioBWindow.x_moved + scenarioBWindow.cell_length_x_
    ∧ 8 ≠ scenarioBWindow.n_moved + 1 := by
  refine ⟨by decide, by decide, by decide, by decide⟩

/-- C13, as amended. On each advance tick that completes, `x_moved` increases by
`cell_length_x_ * n_space[0]` and `n_moved` by `n_space[0]`, the width of one patch;
the other members of the window are unchanged. -/
theorem operate_advances_by_patch_width {D : Type} [Zero D] [Add D] [Sub D] [Mul D]
    [NatCast D] [LT D] [DecidableRel (fun a b : D => a < b)]
    (env : WindowEnv D) (w : SimWindow D) (vp : WindowVectorPatch D) (time_dual : D)
    (p0 : WindowPatch D) (rest : List (WindowPatch D))
    (hmov : isMoving w time_dual = true) (hp : vp.patches_ = p0 :: rest)
    (hval : RelabelValid p0.hindex vp.patches_) :
    ∃ r, operate env w vp time_dual = Except.ok r
      ∧ r.window.x_moved = w.x_moved + w.cell_length_x_ * (env.n_space0 : D)
      ∧ r.window.n_moved = w.n_moved + env.n_space0
      ∧ r.window.active = w.active ∧ r.window.time_start = w.time_start
      ∧ r.window.velocity_x = w.velocity_x
      ∧ r.window.cell_length_x_ = w.cell_length_x_ := by
  obtain ⟨r, _, _, _, hop, hw, _⟩ :=
    operate_advancing env w vp time_dual p0 rest hmov hp hval
  refine ⟨r, hop, ?_, ?_, ?_, ?_, ?_, ?_⟩ <;> rw [hw]

theorem scenarioB_relabelValid :
    RelabelValid (linePatch 0 0 4 0).hindex scenarioBPatches.patches_ := by
  intro i p hp hL
  have hi : i < 4 := (List.getElem?_eq_some_iff.mp hp).1
  interval_cases i <;>
    (simp only [scenarioBPatches, List.getElem?_cons_zero, List.getElem?_cons_succ,
      Option.some.injEq] at hp
     subst hp
     revert hL
     decide)

theorem operate_advances_iff_isMoving_witness :
    (∃ r, operate (lineEnv 0 0 4 8 false) inactiveWindow scenarioBPatches 1 = Except.ok r
      ∧ r.window = inactiveWindow
      ∧ r.window.x_moved = inactiveWindow.x_moved ∧ r.window.n_moved = inactiveWindow.n_moved
      ∧ r.patches = scenarioBPatches.patches_
      ∧ r.state.objs = scenarioBPatches.patches_
      ∧ r.state.patches_ = (List.range scenarioBPatches.patches_.length).map PatchRef.old
      ∧ r.state.news = []
      ∧ r.state.calls = []
      ∧ r.lastIterationPatchesMoved = scenarioBPatches.lastIterationPatchesMoved)
    ∧ (∃ r, operate (lineEnv 0 0 4 8 false) scenarioBWindow scenarioBPatches 1 = Except.ok r
      ∧ r.window.x_moved = scenarioBWindow.x_moved
          + scenarioBWindow.cell_length_x_ * (((lineEnv 0 0 4 8 false).n_space0 : Nat) : Int)
      ∧ r.window.n_moved = scenarioBWindow.n_moved + (lineEnv 0 0 4 8 false).n_space0
      ∧ r.lastIterationPatchesMoved = (lineEnv 0 0 4 8 false).itime
      ∧ WindowCall.update_field_list ∈ r.state.calls) :=
  ⟨(operate_advances_iff_isMoving (lineEnv 0 0 4 8 false) inactiveWindow scenarioBPatches
      1).2.2.2.1 (by decide),
    (operate_advances_iff_isMoving (lineEnv 0 0 4 8 false) scenarioBWindow scenarioBPatches
      1).2.2.2.2.1 (by decide) (linePatch 0 0 4 0) _ rfl scenarioB_relabelValid⟩

/-- C19. Scenario B: one process, 4 patches of hindex 0 to 3, `velocity_x = 1`,
`time_start = 0`, one tick at `time_dual = 1`.  The tick advances; the deletion list
is exactly the first patch, which is not sent (no `isend` at all, a single `delete`);
its field energy and the energy of its two species are the lost amounts handed to
`storeNRJlost`; the three other patches are relabelled to hindex 0, 1, 2 in slots 0, 1, 2;
the last slot holds the one created patch, cloned at hindex 3 with the new `n_moved`,
with no `recv`, and with `createParticles` forced for its two species exactly under
`params.restart`. -/
theorem scenarioB_one_tick (restart : Bool) :
    isMoving scenarioBWindow 1 = true
    ∧ (scenarioBResult 8 restart).map (fun r => r.state.delete_patches_) = some [0]
    ∧ (scenarioBResult 8 restart).map (fun r => r.state.send_patches_) = some []
    ∧ (scenarioBResult 8 restart).map (fun r => windowIsends r.state.calls) = some []
    ∧ (scenarioBResult 8 restart).map
          (fun r => r.state.calls.filterMap bufferEventOfWindowCall)
        = some [BufferEvent.delete (PatchRef.old 0)]
    ∧ (scenarioBResult 8 restart).map
          (fun r => (r.energy_field_lost, r.energy_part_lost 0, r.energy_part_lost 1))
        = some ((linePatch 0 0 4 0).fieldNRJ, (linePatch 0 0 4 0).speciesNRJ 0,
            (linePatch 0 0 4 0).speciesNRJ 1)
    ∧ (scenarioBResult 8 restart).map (fun r => windowStored r.state.calls)
        = some [(PatchRef.old 1, none, (linePatch 0 0 4 0).fieldNRJ),
            (PatchRef.old 1, some 0, (linePatch 0 0 4 0).speciesNRJ 0),
            (PatchRef.old 1, some 1, (linePatch 0 0 4 0).speciesNRJ 1)]
    ∧ (scenarioBResult 8 restart).map (fun r => r.state.update_patches_) = some [1, 2, 3]
    ∧ (scenarioBResult 8 restart).map (fun r => r.state.patches_)
        = some [PatchRef.old 1, PatchRef.old 2, PatchRef.old 3, PatchRef.created 0]
    ∧ (scenarioBResult 8 restart).map (fun r => r.patches.map (fun p => p.hindex))
        = some [0, 1, 2, 3]
    ∧ (scenarioBResult 8 restart).map (fun r => r.state.news.map (fun p => p.hindex))
        = some [3]
    ∧ (scenarioBResult 8 restart).map (fun r => windowClones r.state.calls)
        = some [(PatchRef.old 1, 3, 8)]
    ∧ (scenarioBResult 8 restart).map (fun r => windowRecvs r.state.calls) = some []
    ∧ (scenarioBResult 8 restart).map (fun r => windowCreateParticles r.state.calls)
        = some (if restart then [(PatchRef.created 0, 0), (PatchRef.created 0, 1)] else []) := by
  cases restart <;>
    refine ⟨?_, ?_, ?_, ?_, ?_, ?_, ?_, ?_, ?_, ?_, ?_, ?_, ?_, ?_⟩ <;> decide

theorem twoRank_relabelValid :
    RelabelValid (linePatch 1 2 4 2).hindex twoRankPatches.patches_ := by
  intro i p hp hL
  have hi : i < 2 := (List.getElem?_eq_some_iff.mp hp).1
  interval_cases i <;>
    (simp only [twoRankPatches, List.getElem?_cons_zero, List.getElem?_cons_succ,
      Option.some.injEq] at hp
     subst hp
     revert hL
     decide)

/-- C11 fails on `VectorPatch::exchangePatches`. On rank 0 of Scenario A the calls that
concern the send buffer are `isend` of the patch with hindex 2 followed by `delete` of
that patch, with no `waitall` between them (the function calls `barrier` only).  On
rank 1 of a two-rank moving window `SimWindow::operate` does what the claim says:
`isend`, then `waitall`, then `delete` of the same patch. -/
theorem exchangePatches_deletes_without_waitall :
    (scenarioACalls 0).filterMap bufferEventOfCall
        = [BufferEvent.isend (residentPatch 2), BufferEvent.delete (residentPatch 2)]
    ∧ ¬ WaitedBeforeDelete ((scenarioACalls 0).filterMap bufferEventOfCall)
    ∧ twoRankResult.map (fun r => r.state.calls.filterMap bufferEventOfWindowCall)
        = some [BufferEvent.isend (PatchRef.old 0), BufferEvent.waitall (PatchRef.old 0),
            BufferEvent.delete (PatchRef.old 0)]
    ∧ WaitedBeforeDelete
        [BufferEvent.isend (PatchRef.old 0), BufferEvent.waitall (PatchRef.old 0),
          BufferEvent.delete (PatchRef.old 0)] := by
  have h1 : (scenarioACalls 0).filterMap bufferEventOfCall
      = [BufferEvent.isend (residentPatch 2), BufferEvent.delete (residentPatch 2)] := by
    decide
  refine ⟨h1, ?_, by decide, ?_⟩
  · rw [h1]
    intro h
    obtain ⟨k, hk1, hk2, _⟩ := h 1 0 (residentPatch 2) (by decide) rfl rfl
    omega
  · intro i j p hji hj hi
    have hi3 : i < 3 := (List.getElem?_eq_some_iff.mp hi).1
    have hj3 : j < 3 := (List.getElem?_eq_some_iff.mp hj).1
    interval_cases i <;> interval_cases j <;> first
      | omega
      | (exfalso
         simp only [List.getElem?_cons_zero, List.getElem?_cons_succ, Option.some.injEq,
           reduceCtorEq] at hj hi
         done)
      | (simp only [List.getElem?_cons_zero, List.getElem?_cons_succ, Option.some.injEq,
          BufferEvent.isend.injEq, BufferEvent.delete.injEq] at hj hi
         subst hj
         exact ⟨1, by decide, by decide, rfl⟩)

theorem pushCalls_mem (diag_flag : Bool) (ipatch : Nat) (vecSpecies : List Bool)
    (c : DynamicsCall) (hc : c ∈ pushCalls diag_flag ipatch vecSpecies) :
    c = DynamicsCall.restartRhoJ ipatch ∨ ∃ ispec, c = DynamicsCall.speciesDynamics ipatch ispec := by
  unfold pushCalls at hc
  rcases List.mem_cons.mp hc with h | h
  · exact Or.inl h
  · right
    obtain ⟨ispec, _, hi⟩ := List.mem_flatMap.mp h
    cases hv : vecSpecies[ispec]? with
    | none => rw [hv] at hi; cases hi
    | some b =>
      rw [hv] at hi
      simp only at hi
      split at hi
      · exact ⟨ispec, List.mem_singleton.mp hi⟩
      · cases hi

theorem exchangeCalls_mem (vecSpecies0 : List Bool) (c : DynamicsCall)
    (hc : c ∈ exchangeCalls vecSpecies0) : ∃ ispec, c = DynamicsCall.exchangeParticles ispec := by
  unfold exchangeCalls at hc
  obtain ⟨ispec, _, hi⟩ := List.mem_flatMap.mp hc
  cases hv : vecSpecies0[ispec]? with
  | none => rw [hv] at hi; cases hi
  | some b =>
    rw [hv] at hi
    simp only at hi
    split at hi
    · exact ⟨ispec, List.mem_singleton.mp hi⟩
    · cases hi

theorem pushBlock_mem (diag_flag : Bool) (patches : List (List Bool)) (ipatch : Nat)
    (c : DynamicsCall) (hc : c ∈ pushBlock diag_flag patches ipatch) :
    c = DynamicsCall.restartRhoJ ipatch
      ∨ ∃ ispec, c = DynamicsCall.speciesDynamics ipatch ispec := by
  unfold pushBlock at hc
  cases h : patches[ipatch]? with
  | none => rw [h] at hc; cases hc
  | some v => rw [h] at hc; exact pushCalls_mem _ _ _ c hc

theorem pushBlock_head (diag_flag : Bool) (patches : List (List Bool)) (ipatch : Nat)
    (h : pushBlock diag_flag patches ipatch ≠ []) :
    (pushBlock diag_flag patches ipatch)[0]? = some (DynamicsCall.restartRhoJ ipatch) := by
  unfold pushBlock at h ⊢
  cases hv : patches[ipatch]? with
  | none => rw [hv] at h; exact absurd rfl h
  | some v => simp [pushCalls]

theorem push_phase_order (diag_flag : Bool) (patches : List (List Bool)) (is : List Nat) :
    ∀ (j ipatch ispec : Nat),
      (is.flatMap (pushBlock diag_flag patches))[j]?
          = some (DynamicsCall.speciesDynamics ipatch ispec) →
      ∃ i, i < j ∧ (is.flatMap (pushBlock diag_flag patches))[i]?
          = some (DynamicsCall.restartRhoJ ipatch) := by
  induction is with
  | nil => intro j ipatch ispec h; simp at h
  | cons a rest ih =>
    intro j ipatch ispec h
    rw [List.flatMap_cons] at h ⊢
    by_cases hj : j < (pushBlock diag_flag patches a).length
    · rw [List.getElem?_append_left hj] at h
      have hne : pushBlock diag_flag patches a ≠ [] := by
        intro he
        rw [he] at hj
        cases hj
      have hhead := pushBlock_head diag_flag patches a hne
      have hmem := pushBlock_mem diag_flag patches a _ (List.getElem?_mem h)
      rcases hmem with hm | ⟨ispec', hm⟩
      · cases hm
      · cases hm
        have hj0 : 0 < j := by
          rcases Nat.eq_zero_or_pos j with h0 | h0
          · rw [h0, hhead] at h
            cases h
          · exact h0
        refine ⟨0, hj0, ?_⟩
        rw [List.getElem?_append_left (by omega)]
        exact hhead
    · have hge : (pushBlock diag_flag patches a).length ≤ j := by omega
      rw [List.getElem?_append_right hge] at h
      obtain ⟨i, hi, hget⟩ := ih _ ipatch ispec h
      refine ⟨(pushBlock diag_flag patches a).length + i, by omega, ?_⟩
      rw [List.getElem?_append_right (by omega)]
      have : (pushBlock diag_flag patches a).length + i - (pushBlock diag_flag patches a).length
          = i := by omega
      rw [this]
      exact hget

theorem order_of_split {α : Type} (A B : List α) (P Q : α → Prop)
    (hA : ∀ x ∈ A, ¬ Q x) (hB : ∀ x ∈ B, ¬ P x) (i j : Nat) (x y : α)
    (hi : (A ++ B)[i]? = some x) (hj : (A ++ B)[j]? = some y) (hx : P x) (hy : Q y) :
    i < j := by
  have h1 : i < A.length := by
    by_contra hc
    rw [List.getElem?_append_right (by omega)] at hi
    exact hB x (List.getElem?_mem hi) hx
  have h2 : A.length ≤ j := by
    by_contra hc
    rw [List.getElem?_append_left (by omega)] at hj
    exact hA y (List.getElem?_mem hj) hy
  omega

theorem dynamics_eq (diag_flag : Bool) (itime : Int) (first : List Bool)
    (rest : List (List Bool)) :
    dynamics diag_flag itime (first :: rest) = Except.ok
      (([DynamicsCall.timersParticlesRestart]
          ++ (List.range (first :: rest).length).flatMap (pushBlock diag_flag (first :: rest)))
        ++ ([DynamicsCall.timersParticlesUpdate, DynamicsCall.timersSyncPartRestart]
          ++ exchangeCalls first
          ++ (if itime % 10 = 0 then
                (List.range (first :: rest).length).map DynamicsCall.cleanParticlesOverhead
              else [])
          ++ [DynamicsCall.timersSyncPartUpdate])) := by
  unfold dynamics
  simp only [List.append_assoc]
  rfl

/-- C20. In the sequence of calls of one `VectorPatch::dynamics` (loops in program
order, one thread) on a non-empty patch sequence: every patch gets `restartRhoJ`; every
`Species::dynamics` on a patch comes after the `restartRhoJ` of that patch; and every
`Species::dynamics`, on any patch, comes before every
`SyncVectorPatch::exchangeParticles`. -/
theorem dynamics_push_before_exchange (diag_flag : Bool) (itime : Int)
    (patches : List (List Bool)) (hne : patches ≠ []) :
    ∃ calls, dynamics diag_flag itime patches = Except.ok calls
      ∧ (∀ ipatch, ipatch < patches.length → DynamicsCall.restartRhoJ ipatch ∈ calls)
      ∧ (∀ (j ipatch ispec : Nat),
          calls[j]? = some (DynamicsCall.speciesDynamics ipatch ispec) →
          ∃ i, i < j ∧ calls[i]? = some (DynamicsCall.restartRhoJ ipatch))
      ∧ (∀ (i j ipatch ispec ispec' : Nat),
          calls[i]? = some (DynamicsCall.speciesDynamics ipatch ispec) →
          calls[j]? = some (DynamicsCall.exchangeParticles ispec') → i < j) := by
  cases patches with
  | nil => exact absurd rfl hne
  | cons first rest =>
    refine ⟨_, dynamics_eq diag_flag itime first rest, ?_, ?_, ?_⟩
    · intro ipatch hip
      apply List.mem_append_left
      apply List.mem_append_right
      rw [List.mem_flatMap]
      refine ⟨ipatch, List.mem_range.mpr hip, ?_⟩
      unfold pushBlock
      rw [List.getElem?_eq_getElem hip]
      exact List.mem_cons_self _ _
    · intro j ipatch ispec hj
      have hB : ∀ x ∈ ([DynamicsCall.timersParticlesUpdate, DynamicsCall.timersSyncPartRestart]
          ++ exchangeCalls first
          ++ (if itime % 10 = 0 then
                (List.range (first :: rest).length).map DynamicsCall.cleanParticlesOverhead
              else [])
          ++ [DynamicsCall.timersSyncPartUpdate]),
          x ≠ DynamicsCall.speciesDynamics ipatch ispec := by
        intro x hx
        simp only [List.mem_append, List.mem_cons, List.mem_singleton, List.not_mem_nil,
          or_false] at hx
        rcases hx with (((rfl | rfl) | h) | h) | rfl
        · simp
        · simp
        · obtain ⟨s, rfl⟩ := exchangeCalls_mem _ _ h
          simp
        · split at h
          · obtain ⟨_, _, rfl⟩ := List.mem_map.mp h
            simp
          · cases h
        · simp
      have hjA : j < ([DynamicsCall.timersParticlesRestart]
          ++ (List.range (first :: rest).length).flatMap
              (pushBlock diag_flag (first :: rest))).length := by
        by_contra hc
        rw [List.getElem?_append_right (by omega)] at hj
        exact hB _ (List.getElem?_mem hj) rfl
      rw [List.getElem?_append_left hjA] at hj
      have hj1 : 1 ≤ j := by
        rcases Nat.eq_zero_or_pos j with h0 | h0
        · rw [h0] at hj
          simp at hj
        · exact h0
      rw [List.getElem?_append_right (by simpa using hj1)] at hj
      obtain ⟨i, hi, hget⟩ := push_phase_order diag_flag (first :: rest) _ _ ipatch ispec hj
      simp only [List.length_singleton] at hi hget
      refine ⟨i + 1, by omega, ?_⟩
      have hiA : i + 1 < ([DynamicsCall.timersParticlesRestart]
          ++ (List.range (first :: rest).length).flatMap
              (pushBlock diag_flag (first :: rest))).length := by omega
      rw [List.getElem?_append_left hiA, List.getElem?_append_right (by simp)]
      simpa using hget
    · intro i j ipatch ispec ispec' hi hj
      refine order_of_split _ _ (fun c => ∃ a b, c = DynamicsCall.speciesDynamics a b)
        (fun c => ∃ s, c = DynamicsCall.exchangeParticles s) ?_ ?_ i j _ _ hi hj
        ⟨_, _, rfl⟩ ⟨_, rfl⟩
      · intro x hx
        rintro ⟨s, rfl⟩
        rcases List.mem_append.mp hx with h | h
        · simp at h
        · obtain ⟨a, _, ha⟩ := List.mem_flatMap.mp h
          rcases pushBlock_mem _ _ _ _ ha with h' | ⟨_, h'⟩ <;> cases h'
      · intro x hx
        rintro ⟨a, b, rfl⟩
        simp only [List.mem_append, List.mem_cons, List.mem_singleton, List.not_mem_nil,
          or_false] at hx
        rcases hx with (((h | h) | h) | h) | h
        · cases h
        · cases h
        · obtain ⟨s, hs⟩ := exchangeCalls_mem _ _ h
          cases hs
        · split at h
          · obtain ⟨_, _, hm⟩ := List.mem_map.mp h
            cases hm
          · cases h
        · cases h

theorem dynamics_push_before_exchange_witness :
    ∃ calls, dynamics true 10 [[true, false], [true, false]] = Except.ok calls
      ∧ (∀ ipatch, ipatch < [[true, false], [true, false]].length →
          DynamicsCall.restartRhoJ ipatch ∈ calls)
      ∧ (∀ (j ipatch ispec : Nat),
          calls[j]? = some (DynamicsCall.speciesDynamics ipatch ispec) →
          ∃ i, i < j ∧ calls[i]? = some (DynamicsCall.restartRhoJ ipatch))
      ∧ (∀ (i j ipatch ispec ispec' : Nat),
          calls[i]? = some (DynamicsCall.speciesDynamics ipatch ispec) →
          calls[j]? = some (DynamicsCall.exchangeParticles ispec') → i < j) :=
  dynamics_push_before_exchange true 10 [[true, false], [true, false]] (by decide)

theorem operate_advances_by_patch_width_witness :
    ∃ r, operate (lineEnv 0 0 4 8 false) scenarioBWindow scenarioBPatches 1 = Except.ok r
      ∧ r.window.x_moved
          = scenarioBWindow.x_moved
            + scenarioBWindow.cell_length_x_ * (((lineEnv 0 0 4 8 false).n_space0 : Nat) : Int)
      ∧ r.window.n_moved = scenarioBWindow.n_moved + (lineEnv 0 0 4 8 false).n_space0
      ∧ r.window.active = scenarioBWindow.active
      ∧ r.window.time_start = scenarioBWindow.time_start
      ∧ r.window.velocity_x = scenarioBWindow.velocity_x
      ∧ r.window.cell_length_x_ = scenarioBWindow.cell_length_x_ :=
  operate_advances_by_patch_width (lineEnv 0 0 4 8 false) scenarioBWindow scenarioBPatches 1
    (linePatch 0 0 4 0) [linePatch 0 0 4 1, linePatch 0 0 4 2, linePatch 0 0 4 3]
    (by decide) rfl scenarioB_relabelValid

/-! ## Moving window: classification of the patches -/

theorem mem_filter_testAt {D : Type} (pre : List (WindowPatch D)) (f : WindowPatch D → Bool)
    (i : Nat) :
    i ∈ (List.range pre.length).filter (testAt pre f) ↔ ∃ p, pre[i]? = some p ∧ f p = true := by
  rw [List.mem_filter, List.mem_range]
  unfold testAt
  constructor
  · rintro ⟨hi, h⟩
    rw [List.getElem?_eq_getElem hi] at h
    exact ⟨pre[i], List.getElem?_eq_getElem hi, h⟩
  · rintro ⟨p, hp, hf⟩
    refine ⟨(List.getElem?_eq_some_iff.mp hp).1, ?_⟩
    rw [hp]
    exact hf

theorem isend_mem_relabelCalls {D : Type} (env : WindowEnv D) (nSpecies : Nat)
    (pre : List (WindowPatch D)) (ref : PatchRef) (dest tag : Int) :
    WindowCall.isend ref dest tag
        ∈ (List.range pre.length).flatMap (relabelCallsOf env nSpecies pre)
      ↔ ∃ i p, pre[i]? = some p ∧ ref = PatchRef.old i
          ∧ p.MPI_neighbor_ 0 0 ≠ p.MPI_me_ ∧ p.MPI_neighbor_ 0 0 ≠ env.MPI_PROC_NULL
          ∧ dest = p.MPI_neighbor_ 0 0 ∧ tag = p.neighbor_ 0 0 * env.nrequests := by
  rw [List.mem_flatMap]
  constructor
  · rintro ⟨i, _, hc⟩
    unfold relabelCallsOf at hc
    cases hp : pre[i]? with
    | none => rw [hp] at hc; cases hc
    | some p =>
      rw [hp] at hc
      simp only [leftIsMine, decide_eq_true_eq] at hc
      by_cases hL : p.MPI_neighbor_ 0 0 = p.MPI_me_
      · rw [if_pos hL] at hc
        unfold disableXmaxCalls at hc
        split at hc
        · obtain ⟨_, _, h⟩ := List.mem_map.mp hc
          cases h
        · cases hc
      · rw [if_neg hL] at hc
        by_cases hN : p.MPI_neighbor_ 0 0 ≠ env.MPI_PROC_NULL
        · rw [if_pos hN] at hc
          rw [List.mem_singleton] at hc
          cases hc
          exact ⟨i, p, hp, rfl, hL, hN, rfl, rfl⟩
        · rw [if_neg hN] at hc
          cases hc
  · rintro ⟨i, p, hp, rfl, hL, hN, rfl, rfl⟩
    refine ⟨i, List.mem_range.mpr (List.getElem?_eq_some_iff.mp hp).1, ?_⟩
    unfold relabelCallsOf
    rw [hp]
    simp only [leftIsMine, decide_eq_true_eq]
    rw [if_neg hL, if_pos hN]
    exact List.mem_singleton.mpr rfl

theorem isend_mem_window_calls {D : Type} (env : WindowEnv D) (nSpecies : Nat)
    (pre : List (WindowPatch D)) (extra refresh : List (WindowCall D))
    (send del : List Nat) (first : PatchRef) (e : D) (es : Nat → D)
    (hextra : ∀ c ∈ extra, bufferEventOfWindowCall c = none)
    (hrefresh : ∀ c ∈ refresh, bufferEventOfWindowCall c = none)
    (ref : PatchRef) (dest tag : Int) :
    WindowCall.isend ref dest tag ∈
        (List.range pre.length).map (fun ipatch => WindowCall.laserDisabled (PatchRef.old ipatch))
          ++ (List.range pre.length).flatMap (relabelCallsOf env nSpecies pre)
          ++ extra
          ++ send.map (fun i => WindowCall.waitall (PatchRef.old i))
          ++ refresh ++ [WindowCall.update_field_list]
          ++ deleteCalls del
          ++ storeCalls nSpecies first e es
      ↔ WindowCall.isend ref dest tag
          ∈ (List.range pre.length).flatMap (relabelCallsOf env nSpecies pre) := by
  constructor
  · intro h
    simp only [List.mem_append] at h
    rcases h with ((((((h | h) | h) | h) | h) | h) | h) | h
    · obtain ⟨_, _, hc⟩ := List.mem_map.mp h
      cases hc
    · exact h
    · have := hextra _ h
      cases this
    · obtain ⟨_, _, hc⟩ := List.mem_map.mp h
      cases hc
    · have := hrefresh _ h
      cases this
    · rw [List.mem_singleton] at h
      cases h
    · unfold deleteCalls at h
      obtain ⟨_, _, hc⟩ := List.mem_map.mp h
      cases hc
    · unfold storeCalls at h
      rcases List.mem_cons.mp h with hc | hc
      · cases hc
      · obtain ⟨_, _, hc'⟩ := List.mem_map.mp hc
        cases hc'
  · intro h
    simp only [List.mem_append]
    exact Or.inl (Or.inl (Or.inl (Or.inl (Or.inl (Or.inl (Or.inr h))))))

theorem delete_mem_window_calls {D : Type} (env : WindowEnv D) (nSpecies : Nat)
    (pre : List (WindowPatch D)) (extra refresh : List (WindowCall D))
    (send del : List Nat) (first : PatchRef) (e : D) (es : Nat → D)
    (hextra : ∀ c ∈ extra, bufferEventOfWindowCall c = none)
    (hrefresh : ∀ c ∈ refresh, bufferEventOfWindowCall c = none)
    (i : Nat) :
    WindowCall.delete (PatchRef.old i) ∈
        (List.range pre.length).map (fun ipatch => WindowCall.laserDisabled (PatchRef.old ipatch))
          ++ (List.range pre.length).flatMap (relabelCallsOf env nSpecies pre)
          ++ extra
          ++ send.map (fun i => WindowCall.waitall (PatchRef.old i))
          ++ refresh ++ [WindowCall.update_field_list]
          ++ deleteCalls del
          ++ storeCalls nSpecies first e es
      ↔ i ∈ del := by
  constructor
  · intro h
    simp only [List.mem_append] at h
    rcases h with ((((((h | h) | h) | h) | h) | h) | h) | h
    · obtain ⟨_, _, hc⟩ := List.mem_map.mp h
      cases hc
    · obtain ⟨k, _, hc⟩ := List.mem_flatMap.mp h
      unfold relabelCallsOf at hc
      cases hp : pre[k]? with
      | none => rw [hp] at hc; cases hc
      | some p =>
        rw [hp] at hc
        simp only [leftIsMine, decide_eq_true_eq] at hc
        by_cases hL : p.MPI_neighbor_ 0 0 = p.MPI_me_
        · rw [if_pos hL] at hc
          unfold disableXmaxCalls at hc
          split at hc
          · obtain ⟨_, _, h'⟩ := List.mem_map.mp hc
            cases h'
          · cases hc
        · rw [if_neg hL] at hc
          by_cases hN : p.MPI_neighbor_ 0 0 ≠ env.MPI_PROC_NULL
          · rw [if_pos hN, List.mem_singleton] at hc
            cases hc
          · rw [if_neg hN] at hc
            cases hc
    · have := hextra _ h
      cases this
    · obtain ⟨_, _, hc⟩ := List.mem_map.mp h
      cases hc
    · have := hrefresh _ h
      cases this
    · rw [List.mem_singleton] at h
      cases h
    · unfold deleteCalls at h
      obtain ⟨j, hj, hc⟩ := List.mem_map.mp h
      cases hc
      exact hj
    · unfold storeCalls at h
      rcases List.mem_cons.mp h with hc | hc
      · cases hc
      · obtain ⟨_, _, hc'⟩ := List.mem_map.mp hc
        cases hc'
  · intro h
    simp only [List.mem_append]
    refine Or.inl (Or.inr ?_)
    unfold deleteCalls
    exact List.mem_map.mpr ⟨i, h, rfl⟩

/-- C14. In an advance tick that completes, a patch present before the tick whose
left-neighbour rank differs from its own rank is put in the deletion list (and deleted,
not relabelled), and it is sent, by an `isend` to that rank, if and only if that rank is
not `MPI_PROC_NULL`; a patch whose left-neighbour rank is its own rank is relabelled in
place and is neither deleted nor sent. The sent patches are among the deleted ones. -/
theorem operate_classifies_by_left_rank {D : Type} [Zero D] [Add D] [Sub D] [Mul D]
    [NatCast D] [LT D] [DecidableRel (fun a b : D => a < b)]
    (env : WindowEnv D) (w : SimWindow D) (vp : WindowVectorPatch D) (time_dual : D)
    (p0 : WindowPatch D) (rest : List (WindowPatch D))
    (hmov : isMoving w time_dual = true) (hp : vp.patches_ = p0 :: rest)
    (hval : RelabelValid p0.hindex vp.patches_) :
    ∃ r, operate env w vp time_dual = Except.ok r
      ∧ (∀ (i : Nat) (p : WindowPatch D), vp.patches_[i]? = some p →
          p.MPI_neighbor_ 0 0 ≠ p.MPI_me_ →
            i ∈ r.state.delete_patches_ ∧ i ∉ r.state.update_patches_
            ∧ WindowCall.delete (PatchRef.old i) ∈ r.state.calls
            ∧ r.state.objs[i]? = some p
            ∧ (i ∈ r.state.send_patches_ ↔ p.MPI_neighbor_ 0 0 ≠ env.MPI_PROC_NULL)
            ∧ ∀ dest tag, WindowCall.isend (PatchRef.old i) dest tag ∈ r.state.calls
                ↔ (p.MPI_neighbor_ 0 0 ≠ env.MPI_PROC_NULL ∧ dest = p.MPI_neighbor_ 0 0
                    ∧ tag = p.neighbor_ 0 0 * env.nrequests))
      ∧ (∀ (i : Nat) (p : WindowPatch D), vp.patches_[i]? = some p →
          p.MPI_neighbor_ 0 0 = p.MPI_me_ →
            i ∈ r.state.update_patches_ ∧ i ∉ r.state.delete_patches_
            ∧ i ∉ r.state.send_patches_
            ∧ WindowCall.delete (PatchRef.old i) ∉ r.state.calls
            ∧ (∀ dest tag, WindowCall.isend (PatchRef.old i) dest tag ∉ r.state.calls)
            ∧ r.state.objs[i]? = some
                (commitNeighbors env.nDim_particle
                  (relabelled env.nDim_particle p0.hindex vp.patches_ p)))
      ∧ (∀ i ∈ r.state.send_patches_, i ∈ r.state.delete_patches_) := by
  obtain ⟨r, first, extra, refresh, hop, _, _, hdel, hupd, hsend, _, _, _, hobjs, _, hcalls,
      hextra, hrefresh, _⟩ :=
    operate_advancing env w vp time_dual p0 rest hmov hp hval
  have hisend : ∀ (ref : PatchRef) (dest tag : Int),
      WindowCall.isend ref dest tag ∈ r.state.calls
        ↔ ∃ i p, vp.patches_[i]? = some p ∧ ref = PatchRef.old i
            ∧ p.MPI_neighbor_ 0 0 ≠ p.MPI_me_ ∧ p.MPI_neighbor_ 0 0 ≠ env.MPI_PROC_NULL
            ∧ dest = p.MPI_neighbor_ 0 0 ∧ tag = p.neighbor_ 0 0 * env.nrequests := by
    intro ref dest tag
    rw [hcalls, isend_mem_window_calls env p0.nSpecies vp.patches_ extra refresh _ _ first _ _
      hextra hrefresh, isend_mem_relabelCalls]
  have hdelete : ∀ i, WindowCall.delete (PatchRef.old i) ∈ r.state.calls
      ↔ i ∈ r.state.delete_patches_ := by
    intro i
    rw [hcalls]
    exact delete_mem_window_calls env p0.nSpecies vp.patches_ extra refresh _ _ first _ _
      hextra hrefresh i
  have hmemdel : ∀ i, i ∈ r.state.delete_patches_
      ↔ ∃ p, vp.patches_[i]? = some p ∧ (!leftIsMine p) = true := by
    intro i
    rw [hdel]
    exact mem_filter_testAt vp.patches_ _ i
  have hmemupd : ∀ i, i ∈ r.state.update_patches_
      ↔ ∃ p, vp.patches_[i]? = some p ∧ leftIsMine p = true := by
    intro i
    rw [hupd]
    exact mem_filter_testAt vp.patches_ _ i
  have hmemsend : ∀ i, i ∈ r.state.send_patches_
      ↔ ∃ p, vp.patches_[i]? = some p ∧ leftIsRemote env p = true := by
    intro i
    rw [hsend]
    exact mem_filter_testAt vp.patches_ _ i
  refine ⟨r, hop, ?_, ?_, ?_⟩
  · intro i p hi hL
    have hLm : leftIsMine p = false := by simp [leftIsMine, hL]
    refine ⟨(hmemdel i).mpr ⟨p, hi, by simp [hLm]⟩, ?_, ?_, ?_, ?_, ?_⟩
    · intro h
      obtain ⟨q, hq, hqm⟩ := (hmemupd i).mp h
      rw [hi] at hq
      cases hq
      rw [hLm] at hqm
      cases hqm
    · exact (hdelete i).mpr ((hmemdel i).mpr ⟨p, hi, by simp [hLm]⟩)
    · rw [hobjs i p hi, hLm]
      rfl
    · rw [hmemsend i]
      constructor
      · rintro ⟨q, hq, hqr⟩
        rw [hi] at hq
        cases hq
        simp only [leftIsRemote, decide_eq_true_eq] at hqr
        exact hqr.2
      · intro hN
        exact ⟨p, hi, by simp [leftIsRemote, hL, hN]⟩
    · intro dest tag
      rw [hisend]
      constructor
      · rintro ⟨k, q, hq, hk, _, hN, hd, ht⟩
        cases hk
        rw [hi] at hq
        cases hq
        exact ⟨hN, hd, ht⟩
      · rintro ⟨hN, hd, ht⟩
        exact ⟨i, p, hi, rfl, hL, hN, hd, ht⟩
  · intro i p hi hL
    have hLm : leftIsMine p = true := by simp [leftIsMine, hL]
    have hnd : i ∉ r.state.delete_patches_ := by
      intro h
      obtain ⟨q, hq, hqm⟩ := (hmemdel i).mp h
      rw [hi] at hq
      cases hq
      rw [hLm] at hqm
      cases hqm
    refine ⟨(hmemupd i).mpr ⟨p, hi, hLm⟩, hnd, ?_, ?_, ?_, ?_⟩
    · intro h
      obtain ⟨q, hq, hqr⟩ := (hmemsend i).mp h
      rw [hi] at hq
      cases hq
      simp only [leftIsRemote, decide_eq_true_eq] at hqr
      exact hqr.1 hL
    · intro h
      exact hnd ((hdelete i).mp h)
    · intro dest tag h
      obtain ⟨k, q, hq, hk, hqL, _⟩ := (hisend _ dest tag).mp h
      cases hk
      rw [hi] at hq
      cases hq
      exact hqL hL
    · rw [hobjs i p hi, hLm]
      rfl
  · intro i h
    obtain ⟨q, hq, hqr⟩ := (hmemsend i).mp h
    simp only [leftIsRemote, decide_eq_true_eq] at hqr
    exact (hmemdel i).mpr ⟨q, hq, by simp [leftIsMine, hqr.1]⟩

theorem operate_classifies_by_left_rank_witness :
    ∃ r, operate (lineEnv 1 2 4 1 false) scenarioBWindow twoRankPatches 1 = Except.ok r
      ∧ (∀ (i : Nat) (p : WindowPatch Int), twoRankPatches.patches_[i]? = some p →
          p.MPI_neighbor_ 0 0 ≠ p.MPI_me_ →
            i ∈ r.state.delete_patches_ ∧ i ∉ r.state.update_patches_
            ∧ WindowCall.delete (PatchRef.old i) ∈ r.state.calls
            ∧ r.state.objs[i]? = some p
            ∧ (i ∈ r.state.send_patches_
                ↔ p.MPI_neighbor_ 0 0 ≠ (lineEnv 1 2 4 1 false).MPI_PROC_NULL)
            ∧ ∀ dest tag, WindowCall.isend (PatchRef.old i) dest tag ∈ r.state.calls
                ↔ (p.MPI_neighbor_ 0 0 ≠ (lineEnv 1 2 4 1 false).MPI_PROC_NULL
                    ∧ dest = p.MPI_neighbor_ 0 0
                    ∧ tag = p.neighbor_ 0 0 * (lineEnv 1 2 4 1 false).nrequests))
      ∧ (∀ (i : Nat) (p : WindowPatch Int), twoRankPatches.patches_[i]? = some p →
          p.MPI_neighbor_ 0 0 = p.MPI_me_ →
            i ∈ r.state.update_patches_ ∧ i ∉ r.state.delete_patches_
            ∧ i ∉ r.state.send_patches_
            ∧ WindowCall.delete (PatchRef.old i) ∉ r.state.calls
            ∧ (∀ dest tag, WindowCall.isend (PatchRef.old i) dest tag ∉ r.state.calls)
            ∧ r.state.objs[i]? = some
                (commitNeighbors (lineEnv 1 2 4 1 false).nDim_particle
                  (relabelled (lineEnv 1 2 4 1 false).nDim_particle (linePatch 1 2 4 2).hindex
                    twoRankPatches.patches_ p)))
      ∧ (∀ i ∈ r.state.send_patches_, i ∈ r.state.delete_patches_) :=
  operate_classifies_by_left_rank (lineEnv 1 2 4 1 false) scenarioBWindow twoRankPatches 1
    (linePatch 1 2 4 2) [linePatch 1 2 4 3] (by decide) rfl twoRank_relabelValid

/-! ## Moving window: the energy of the deleted patches -/

theorem filterMap_filter_testAt {D : Type} (pre : List (WindowPatch D))
    (f : WindowPatch D → Bool) (is : List Nat) :
    (is.filter (testAt pre f)).filterMap (fun j => pre[j]?)
      = (is.filterMap (fun j => pre[j]?)).filter f := by
  induction is with
  | nil => rfl
  | cons i rest ih =>
    cases hp : pre[i]? with
    | none =>
      have ht : testAt pre f i = false := by unfold testAt; rw [hp]
      rw [List.filter_cons_of_neg (by simp [ht]), List.filterMap_cons_none hp, ih]
    | some p =>
      have ht : testAt pre f i = f p := by unfold testAt; rw [hp]
      rw [List.filterMap_cons_some hp]
      by_cases hf : f p = true
      · rw [List.filter_cons_of_pos (by rw [ht]; exact hf), List.filterMap_cons_some hp,
          List.filter_cons_of_pos hf, ih]
      · rw [List.filter_cons_of_neg (by rw [ht]; exact hf), List.filter_cons_of_neg hf, ih]

theorem filterMap_getElem?_range {α : Type} (l : List α) :
    (List.range l.length).filterMap (fun j => l[j]?) = l := by
  induction l using List.reverseRecOn with
  | nil => rfl
  | append_singleton l x ih =>
    rw [List.length_append, List.length_singleton, List.range_succ, List.filterMap_append]
    have h1 : (List.range l.length).filterMap (fun j => (l ++ [x])[j]?)
        = (List.range l.length).filterMap (fun j => l[j]?) := by
      apply List.filterMap_congr
      intro j hj
      exact List.getElem?_append_left (List.mem_range.mp hj)
    rw [h1, ih]
    simp

theorem filterMap_filter_range {D : Type} (pre : List (WindowPatch D))
    (f : WindowPatch D → Bool) :
    ((List.range pre.length).filter (testAt pre f)).filterMap (fun j => pre[j]?)
      = pre.filter f := by
  rw [filterMap_filter_testAt, filterMap_getElem?_range]

theorem sum_split_three {α M : Type} [AddCommMonoid M] (g : α → M) (a b c : α → Bool)
    (L : List α)
    (h : ∀ x ∈ L, (a x = true ∧ b x = false ∧ c x = false)
      ∨ (a x = false ∧ b x = true ∧ c x = false)
      ∨ (a x = false ∧ b x = false ∧ c x = true)) :
    (L.map g).sum
      = ((L.filter a).map g).sum + ((L.filter b).map g).sum + ((L.filter c).map g).sum := by
  induction L with
  | nil => simp
  | cons x L ih =>
    have ih' := ih (fun y hy => h y (List.mem_cons_of_mem _ hy))
    rcases h x (List.mem_cons_self _ _) with ⟨ha, hb, hc⟩ | ⟨ha, hb, hc⟩ | ⟨ha, hb, hc⟩
    · simp only [List.filter_cons, ha, hb, hc, List.map_cons, List.sum_cons, if_true,
        Bool.false_eq_true, if_false]
      rw [ih']
      abel
    · simp only [List.filter_cons, ha, hb, hc, List.map_cons, List.sum_cons, if_true,
        Bool.false_eq_true, if_false]
      rw [ih']
      abel
    · simp only [List.filter_cons, ha, hb, hc, List.map_cons, List.sum_cons, if_true,
        Bool.false_eq_true, if_false]
      rw [ih']
      abel

theorem foldl_add_eq_sum {α M : Type} [AddCommMonoid M] (g : α → M) (L : List α) :
    L.foldl (fun e p => e + g p) 0 = (L.map g).sum := by
  rw [List.sum_eq_foldl, List.foldl_map]

theorem relabelled_energy {D : Type} (n : Nat) (h0 : Int) (pre : List (WindowPatch D))
    (p : WindowPatch D) :
    (commitNeighbors n (relabelled n h0 pre p)).fieldNRJ = p.fieldNRJ
    ∧ (commitNeighbors n (relabelled n h0 pre p)).speciesNRJ = p.speciesNRJ := by
  obtain ⟨_, _, _, _, _, _, hf, hs, _⟩ := commitNeighbors_frame n (relabelled n h0 pre p)
  rw [hf, hs]
  unfold relabelled
  split
  · split
    · rename_i left _
      obtain ⟨_, _, _, _, _, _, hf', hs'⟩ :=
        stageNeighbors_frame n left (becomeLeftNeighbor p)
      rw [hf', hs']
      exact ⟨rfl, rfl⟩
    · exact ⟨rfl, rfl⟩
  · exact ⟨rfl, rfl⟩

theorem relabelled_energy_sum {D M : Type} (n : Nat) (h0 : Int) (pre objs : List (WindowPatch D))
    (g : WindowPatch D → M)
    (hg : ∀ p, g (commitNeighbors n (relabelled n h0 pre p)) = g p)
    (hobjs : ∀ (j : Nat) (a : WindowPatch D), pre[j]? = some a →
      objs[j]? = some
        (if leftIsMine a then commitNeighbors n (relabelled n h0 pre a) else a)) :
    (((List.range pre.length).filter (testAt pre leftIsMine)).filterMap
        (fun j => objs[j]?)).map g
      = (pre.filter leftIsMine).map g := by
  rw [← filterMap_filter_range pre leftIsMine, List.map_filterMap, List.map_filterMap]
  apply List.filterMap_congr
  intro j hj
  obtain ⟨p, hp, hL⟩ := (mem_filter_testAt pre leftIsMine j).mp hj
  rw [hobjs j p hp, hp, if_pos hL]
  simp only [Option.map_some']
  rw [hg]

/-- C18. In an advance tick that completes, with `isXmin()` true of a patch exactly when
its left-neighbour rank is `MPI_PROC_NULL`: every deleted patch is either sent to its
left-neighbour rank, and then not counted as lost, or counted as lost and never sent;
the field amount and the amount of every species passed to `storeNRJlost` on
`vecPatches(0)` are the sums of the energies of the deleted Xmin patches; and, in exact
arithmetic, the energy of the pre-tick patches is the energy of the relabelled patches
plus that of the sent patches plus the recorded lost energy, for the fields and for
every species. -/
theorem operate_lost_energy_bookkeeping {D : Type} [LinearOrderedRing D]
    (env : WindowEnv D) (w : SimWindow D) (vp : WindowVectorPatch D) (time_dual : D)
    (p0 : WindowPatch D) (rest : List (WindowPatch D))
    (hmov : isMoving w time_dual = true) (hp : vp.patches_ = p0 :: rest)
    (hval : RelabelValid p0.hindex vp.patches_)
    (hxmin : ∀ p ∈ vp.patches_,
      env.isXmin p = true ↔ p.MPI_neighbor_ 0 0 = env.MPI_PROC_NULL) :
    ∃ (r : WindowResult D) (first : PatchRef),
      operate env w vp time_dual = Except.ok r
      ∧ r.state.patches_[0]? = some first
      ∧ (∀ i ∈ r.state.delete_patches_, ∃ p, vp.patches_[i]? = some p
          ∧ ((env.isXmin p = false ∧ i ∈ r.state.send_patches_
                ∧ WindowCall.isend (PatchRef.old i) (p.MPI_neighbor_ 0 0)
                    (p.neighbor_ 0 0 * env.nrequests) ∈ r.state.calls)
              ∨ (env.isXmin p = true ∧ i ∉ r.state.send_patches_
                ∧ ∀ dest tag, WindowCall.isend (PatchRef.old i) dest tag ∉ r.state.calls)))
      ∧ r.energy_field_lost
          = (((r.state.delete_patches_.filterMap (fun j => vp.patches_[j]?)).filter
                env.isXmin).map (fun p => p.fieldNRJ)).sum
      ∧ (∀ ispec, ispec < p0.nSpecies →
          r.energy_part_lost ispec
            = (((r.state.delete_patches_.filterMap (fun j => vp.patches_[j]?)).filter
                  env.isXmin).map (fun p => p.speciesNRJ ispec)).sum)
      ∧ WindowCall.storeNRJlostField first r.energy_field_lost ∈ r.state.calls
      ∧ (∀ ispec, ispec < p0.nSpecies →
          WindowCall.storeNRJlostSpecies first ispec (r.energy_part_lost ispec)
            ∈ r.state.calls)
      ∧ (vp.patches_.map (fun p => p.fieldNRJ)).sum
          = ((r.state.update_patches_.filterMap (fun j => r.state.objs[j]?)).map
                (fun p => p.fieldNRJ)).sum
            + ((r.state.send_patches_.filterMap (fun j => vp.patches_[j]?)).map
                (fun p => p.fieldNRJ)).sum
            + r.energy_field_lost
      ∧ (∀ ispec, ispec < p0.nSpecies →
          (vp.patches_.map (fun p => p.speciesNRJ ispec)).sum
            = ((r.state.update_patches_.filterMap (fun j => r.state.objs[j]?)).map
                  (fun p => p.speciesNRJ ispec)).sum
              + ((r.state.send_patches_.filterMap (fun j => vp.patches_[j]?)).map
                  (fun p => p.speciesNRJ ispec)).sum
              + r.energy_part_lost ispec) := by
  obtain ⟨r, first, extra, refresh, hop, _, _, hdel, hupd, hsend, _, _, _, hobjs, hfirst,
      hcalls, hextra, hrefresh, hen, _⟩ :=
    operate_advancing env w vp time_dual p0 rest hmov hp hval
  have hisend : ∀ (ref : PatchRef) (dest tag : Int),
      WindowCall.isend ref dest tag ∈ r.state.calls
        ↔ ∃ i p, vp.patches_[i]? = some p ∧ ref = PatchRef.old i
            ∧ p.MPI_neighbor_ 0 0 ≠ p.MPI_me_ ∧ p.MPI_neighbor_ 0 0 ≠ env.MPI_PROC_NULL
            ∧ dest = p.MPI_neighbor_ 0 0 ∧ tag = p.neighbor_ 0 0 * env.nrequests := by
    intro ref dest tag
    rw [hcalls, isend_mem_window_calls env p0.nSpecies vp.patches_ extra refresh _ _ first _ _
      hextra hrefresh, isend_mem_relabelCalls]
  have hlost := lostEnergy_eq env p0.nSpecies vp.patches_ r.state.delete_patches_
    ((0 : D), fun _ => (0 : D))
  rw [← hen] at hlost
  have hfield : r.energy_field_lost
      = (((r.state.delete_patches_.filterMap (fun j => vp.patches_[j]?)).filter
            env.isXmin).map (fun p => p.fieldNRJ)).sum := by
    rw [← foldl_add_eq_sum]
    exact hlost.1
  have hpart : ∀ ispec, ispec < p0.nSpecies →
      r.energy_part_lost ispec
        = (((r.state.delete_patches_.filterMap (fun j => vp.patches_[j]?)).filter
              env.isXmin).map (fun p => p.speciesNRJ ispec)).sum := by
    intro ispec hs
    rw [← foldl_add_eq_sum]
    exact hlost.2 ispec hs
  have hsplit : ∀ g : WindowPatch D → D,
      (∀ p, g (commitNeighbors env.nDim_particle
          (relabelled env.nDim_particle p0.hindex vp.patches_ p)) = g p) →
      (vp.patches_.map g).sum
        = ((r.state.update_patches_.filterMap (fun j => r.state.objs[j]?)).map g).sum
          + ((r.state.send_patches_.filterMap (fun j => vp.patches_[j]?)).map g).sum
          + (((r.state.delete_patches_.filterMap (fun j => vp.patches_[j]?)).filter
                env.isXmin).map g).sum := by
    intro g hg
    rw [hupd, hsend, hdel,
      relabelled_energy_sum env.nDim_particle p0.hindex vp.patches_ r.state.objs g hg hobjs,
      filterMap_filter_range, filterMap_filter_range, List.filter_filter]
    apply sum_split_three
    intro p hpm
    have hx := hxmin p hpm
    by_cases hL : p.MPI_neighbor_ 0 0 = p.MPI_me_
    · left
      simp [leftIsMine, leftIsRemote, hL]
    · by_cases hN : p.MPI_neighbor_ 0 0 = env.MPI_PROC_NULL
      · right; right
        have hxt : env.isXmin p = true := hx.mpr hN
        have h1 : leftIsMine p = false := by simp [leftIsMine, hL]
        have h2 : leftIsRemote env p = false := by
          simp only [leftIsRemote]
          rw [decide_eq_false_iff_not]
          intro h
          exact h.2 hN
        exact ⟨h1, h2, by simp [h1, hxt]⟩
      · right; left
        have hxf : env.isXmin p = false := by
          cases h : env.isXmin p with
          | false => rfl
          | true => exact absurd (hx.mp h) hN
        simp [leftIsMine, leftIsRemote, hL, hN, hxf]
  refine ⟨r, first, hop, hfirst, ?_, hfield, hpart, ?_, ?_, ?_, ?_⟩
  · intro i hi
    rw [hdel] at hi
    obtain ⟨p, hpi, hLm⟩ := (mem_filter_testAt vp.patches_ _ i).mp hi
    have hL : p.MPI_neighbor_ 0 0 ≠ p.MPI_me_ := by
      simpa [leftIsMine] using hLm
    have hx := hxmin p (List.getElem?_mem hpi)
    refine ⟨p, hpi, ?_⟩
    by_cases hN : p.MPI_neighbor_ 0 0 = env.MPI_PROC_NULL
    · right
      refine ⟨hx.mpr hN, ?_, ?_⟩
      · intro h
        rw [hsend] at h
        obtain ⟨q, hq, hqr⟩ := (mem_filter_testAt vp.patches_ _ i).mp h
        rw [hpi] at hq
        cases hq
        simp only [leftIsRemote, decide_eq_true_eq] at hqr
        exact hqr.2 hN
      · intro dest tag h
        obtain ⟨k, q, hq, hk, _, hqN, _⟩ := (hisend _ dest tag).mp h
        cases hk
        rw [hpi] at hq
        cases hq
        exact hqN hN
    · left
      refine ⟨?_, ?_, ?_⟩
      · cases h : env.isXmin p with
        | false => rfl
        | true => exact absurd (hx.mp h) hN
      · rw [hsend]
        exact (mem_filter_testAt vp.patches_ _ i).mpr
          ⟨p, hpi, by simp [leftIsRemote, hL, hN]⟩
      · exact (hisend _ _ _).mpr ⟨i, p, hpi, rfl, hL, hN, rfl, rfl⟩
  · rw [hcalls]
    apply List.mem_append_right
    exact List.mem_cons_self _ _
  · intro ispec hs
    rw [hcalls]
    apply List.mem_append_right
    apply List.mem_cons_of_mem
    exact List.mem_map.mpr ⟨ispec, List.mem_range.mpr hs, rfl⟩
  · rw [hfield]
    exact hsplit (fun p => p.fieldNRJ)
      (fun p => (relabelled_energy env.nDim_particle p0.hindex vp.patches_ p).1)
  · intro ispec hs
    rw [hpart ispec hs]
    exact hsplit (fun p => p.speciesNRJ ispec)
      (fun p => by
        show (commitNeighbors env.nDim_particle
          (relabelled env.nDim_particle p0.hindex vp.patches_ p)).speciesNRJ ispec
            = p.speciesNRJ ispec
        rw [(relabelled_energy env.nDim_particle p0.hindex vp.patches_ p).2])

theorem operate_lost_energy_bookkeeping_witness :
    ∃ (r : WindowResult Int) (first : PatchRef),
      operate (lineEnv 0 0 4 8 false) scenarioBWindow scenarioBPatches 1 = Except.ok r
      ∧ r.state.patches_[0]? = some first
      ∧ (∀ i ∈ r.state.delete_patches_, ∃ p, scenarioBPatches.patches_[i]? = some p
          ∧ (((lineEnv 0 0 4 8 false).isXmin p = false ∧ i ∈ r.state.send_patches_
                ∧ WindowCall.isend (PatchRef.old i) (p.MPI_neighbor_ 0 0)
                    (p.neighbor_ 0 0 * (lineEnv 0 0 4 8 false).nrequests) ∈ r.state.calls)
              ∨ ((lineEnv 0 0 4 8 false).isXmin p = true ∧ i ∉ r.state.send_patches_
                ∧ ∀ dest tag, WindowCall.isend (PatchRef.old i) dest tag ∉ r.state.calls)))
      ∧ r.energy_field_lost
          = (((r.state.delete_patches_.filterMap (fun j => scenarioBPatches.patches_[j]?)).filter
                (lineEnv 0 0 4 8 false).isXmin).map (fun p => p.fieldNRJ)).sum
      ∧ (∀ ispec, ispec < (linePatch 0 0 4 0).nSpecies →
          r.energy_part_lost ispec
            = (((r.state.delete_patches_.filterMap
                    (fun j => scenarioBPatches.patches_[j]?)).filter
                  (lineEnv 0 0 4 8 false).isXmin).map (fun p => p.speciesNRJ ispec)).sum)
      ∧ WindowCall.storeNRJlostField first r.energy_field_lost ∈ r.state.calls
      ∧ (∀ ispec, ispec < (linePatch 0 0 4 0).nSpecies →
          WindowCall.storeNRJlostSpecies first ispec (r.energy_part_lost ispec)
            ∈ r.state.calls)
      ∧ (scenarioBPatches.patches_.map (fun p => p.fieldNRJ)).sum
          = ((r.state.update_patches_.filterMap (fun j => r.state.objs[j]?)).map
                (fun p => p.fieldNRJ)).sum
            + ((r.state.send_patches_.filterMap (fun j => scenarioBPatches.patches_[j]?)).map
                (fun p => p.fieldNRJ)).sum
            + r.energy_field_lost
      ∧ (∀ ispec, ispec < (linePatch 0 0 4 0).nSpecies →
          (scenarioBPatches.patches_.map (fun p => p.speciesNRJ ispec)).sum
            = ((r.state.update_patches_.filterMap (fun j => r.state.objs[j]?)).map
                  (fun p => p.speciesNRJ ispec)).sum
              + ((r.state.send_patches_.filterMap
                    (fun j => scenarioBPatches.patches_[j]?)).map
                  (fun p => p.speciesNRJ ispec)).sum
              + r.energy_part_lost ispec) :=
  operate_lost_energy_bookkeeping (lineEnv 0 0 4 8 false) scenarioBWindow scenarioBPatches 1
    (linePatch 0 0 4 0) [linePatch 0 0 4 1, linePatch 0 0 4 2, linePatch 0 0 4 3]
    (by decide) rfl scenarioB_relabelValid
    (by
      intro p _
      simp [lineEnv])

/-! ## Moving window: the slots after the tick -/

theorem hindexOrdered_get {D : Type} (h0 : Int) (pre : List (WindowPatch D))
    (hord : HindexOrdered h0 pre) (i : Nat) (p : WindowPatch D) (hp : pre[i]? = some p) :
    p.hindex = h0 + (i : Int) := by
  have hi : i < pre.length := (List.getElem?_eq_some_iff.mp hp).1
  have h1 : (pre.map (fun p => p.hindex))[i]? = some p.hindex := by
    rw [List.getElem?_map, hp]
    rfl
  have h2 : ((List.range pre.length).map (fun (i : Nat) => h0 + (i : Int)))[i]?
      = some (h0 + (i : Int)) := by
    rw [List.getElem?_map, List.getElem?_range hi]
    rfl
  unfold HindexOrdered at hord
  rw [hord, h2] at h1
  exact (Option.some.inj h1).symm

theorem hindexOrdered_mem {D : Type} (h0 : Int) (pre : List (WindowPatch D))
    (hord : HindexOrdered h0 pre) (l : WindowPatch D) (hl : l ∈ pre) :
    ∃ k : Nat, pre[k]? = some l ∧ l.hindex = h0 + (k : Int) := by
  obtain ⟨k, hk⟩ := List.mem_iff_getElem?.mp hl
  exact ⟨k, hk, hindexOrdered_get h0 pre hord k l hk⟩

theorem consistent_left {D : Type} (h0 : Int) (pre : List (WindowPatch D))
    (hord : HindexOrdered h0 pre) (hcons : XConsistent pre)
    (i : Nat) (p : WindowPatch D) (hp : pre[i]? = some p) (hL : leftIsMine p = true) :
    0 ≤ p.neighbor_ 0 0 - h0
    ∧ ∃ l, pre[relabelTarget h0 p]? = some l ∧ rightIsMine l = true
        ∧ l.neighbor_ 0 1 = h0 + (i : Int)
        ∧ p.neighbor_ 0 0 = h0 + (relabelTarget h0 p : Int) := by
  obtain ⟨h1, _, h3⟩ := hcons
  obtain ⟨l, hl, hlh⟩ := h1 p (List.getElem?_mem hp) hL
  obtain ⟨k, hk, hkh⟩ := hindexOrdered_mem h0 pre hord l hl
  have hpi := hindexOrdered_get h0 pre hord i p hp
  have ht : relabelTarget h0 p = k := by
    unfold relabelTarget
    rw [← hlh, hkh]
    omega
  have hr := (h3 p (List.getElem?_mem hp) l hl).mp ⟨hL, hlh.symm⟩
  refine ⟨by rw [← hlh, hkh]; omega, l, by rw [ht]; exact hk, hr.1, by rw [hr.2, hpi], ?_⟩
  rw [ht, ← hlh, hkh]

theorem consistent_relabelValid {D : Type} (h0 : Int) (pre : List (WindowPatch D))
    (hord : HindexOrdered h0 pre) (hcons : XConsistent pre) : RelabelValid h0 pre := by
  intro i p hp hL
  have hLm : leftIsMine p = true := by simp [leftIsMine, hL]
  obtain ⟨h0le, l, hl, _⟩ := consistent_left h0 pre hord hcons i p hp hLm
  exact ⟨h0le, (List.getElem?_eq_some_iff.mp hl).1⟩

theorem consistent_right {D : Type} (h0 : Int) (pre : List (WindowPatch D))
    (hord : HindexOrdered h0 pre) (hcons : XConsistent pre)
    (k : Nat) (l : WindowPatch D) (hl : pre[k]? = some l) (hR : rightIsMine l = true) :
    ∃ (i : Nat) (p : WindowPatch D),
      pre[i]? = some p ∧ leftIsMine p = true ∧ relabelTarget h0 p = k := by
  obtain ⟨_, h2, h3⟩ := hcons
  obtain ⟨p, hp, hph⟩ := h2 l (List.getElem?_mem hl) hR
  obtain ⟨i, hi, _⟩ := hindexOrdered_mem h0 pre hord p hp
  have hlk := hindexOrdered_get h0 pre hord k l hl
  have hr := (h3 p hp l (List.getElem?_mem hl)).mpr ⟨hR, hph.symm⟩
  refine ⟨i, p, hi, hr.1, ?_⟩
  unfold relabelTarget
  rw [hr.2, hlk]
  omega

theorem consistent_target_inj {D : Type} (h0 : Int) (pre : List (WindowPatch D))
    (hord : HindexOrdered h0 pre) (hcons : XConsistent pre)
    (i i' : Nat) (p p' : WindowPatch D) (hp : pre[i]? = some p) (hp' : pre[i']? = some p')
    (hL : leftIsMine p = true) (hL' : leftIsMine p' = true)
    (ht : relabelTarget h0 p' = relabelTarget h0 p) : i' = i := by
  obtain ⟨_, l, hl, _, hn, _⟩ := consistent_left h0 pre hord hcons i p hp hL
  obtain ⟨_, l', hl', _, hn', _⟩ := consistent_left h0 pre hord hcons i' p' hp' hL'
  rw [ht, hl] at hl'
  cases hl'
  rw [hn] at hn'
  omega

theorem foldl_slotStep_untouched {D : Type} (h0 : Int) (pre : List (WindowPatch D))
    (k : Nat) (is : List Nat) :
    ∀ (slots : List PatchRef),
      (∀ i ∈ is, ∀ p, pre[i]? = some p → leftIsMine p = true → relabelTarget h0 p ≠ k) →
      (is.foldl (slotStep h0 pre) slots)[k]? = slots[k]? := by
  induction is with
  | nil => intro slots _; rfl
  | cons a rest ih =>
    intro slots h
    rw [List.foldl_cons, ih _ (fun i hi => h i (List.mem_cons_of_mem _ hi))]
    unfold slotStep
    cases hp : pre[a]? with
    | none => rfl
    | some p =>
      simp only
      by_cases hL : leftIsMine p = true
      · rw [if_pos hL]
        exact List.getElem?_set_ne (h a (List.mem_cons_self _ _) p hp hL)
      · rw [if_neg hL]

theorem foldl_slotStep_written {D : Type} (h0 : Int) (pre : List (WindowPatch D))
    (k i0 : Nat) (p0 : WindowPatch D) (hp0 : pre[i0]? = some p0)
    (hL0 : leftIsMine p0 = true) (ht0 : relabelTarget h0 p0 = k) (is : List Nat) :
    ∀ (slots : List PatchRef), k < slots.length → i0 ∈ is →
      (∀ i ∈ is, ∀ p, pre[i]? = some p → leftIsMine p = true → relabelTarget h0 p = k →
        i = i0) →
      (is.foldl (slotStep h0 pre) slots)[k]? = some (PatchRef.old i0) := by
  induction is with
  | nil => intro slots _ hmem _; cases hmem
  | cons a rest ih =>
    intro slots hk hmem huniq
    rw [List.foldl_cons]
    have hlen : k < (slotStep h0 pre slots a).length := by
      rw [slotStep_length]; exact hk
    by_cases hrest : i0 ∈ rest
    · exact ih _ hlen hrest (fun i hi => huniq i (List.mem_cons_of_mem _ hi))
    · have ha : a = i0 := by
        rcases List.mem_cons.mp hmem with h | h
        · exact h.symm
        · exact absurd h hrest
      rw [foldl_slotStep_untouched h0 pre k rest _ (by
        intro i hi p hp hL ht
        have := huniq i (List.mem_cons_of_mem _ hi) p hp hL ht
        rw [this] at hi
        exact hrest hi)]
      unfold slotStep
      rw [ha, hp0]
      simp only
      rw [if_pos hL0, ht0]
      exact List.getElem?_set_eq_of_lt _ hk

theorem createSlots_untouched (k : Nat) (tbc : List Nat) :
    ∀ (base : Nat) (slots : List PatchRef), k ∉ tbc →
      (createSlots base tbc slots)[k]? = slots[k]? := by
  induction tbc with
  | nil => intro base slots _; rfl
  | cons a rest ih =>
    intro base slots hk
    rw [createSlots, ih _ _ (fun h => hk (List.mem_cons_of_mem _ h))]
    exact List.getElem?_set_ne (fun h => hk (by rw [h]; exact List.mem_cons_self _ _))

theorem createSlots_written (k : Nat) (tbc : List Nat) :
    ∀ (base : Nat) (slots : List PatchRef) (j : Nat), tbc.Nodup → k < slots.length →
      tbc[j]? = some k →
      (createSlots base tbc slots)[k]? = some (PatchRef.created (base + j)) := by
  induction tbc with
  | nil => intro base slots j _ _ h; cases h
  | cons a rest ih =>
    intro base slots j hnd hk hj
    rw [createSlots]
    cases j with
    | zero =>
      simp only [List.getElem?_cons_zero, Option.some.injEq] at hj
      subst hj
      rw [createSlots_untouched a rest _ _ (List.nodup_cons.mp hnd).1]
      exact List.getElem?_set_eq_of_lt _ hk
    | succ j =>
      rw [List.getElem?_cons_succ] at hj
      rw [ih (base + 1) _ j (List.nodup_cons.mp hnd).2 (by rw [List.length_set]; exact hk) hj]
      congr 2
      omega

theorem filterMap_get_of_all_some {α β : Type} (f : α → Option β) (l : List α)
    (h : ∀ x ∈ l, (f x).isSome = true) :
    (l.filterMap f).length = l.length
    ∧ ∀ k : Nat, (l.filterMap f)[k]? = (l[k]?).bind f := by
  induction l with
  | nil => exact ⟨rfl, fun k => rfl⟩
  | cons x l ih =>
    obtain ⟨y, hy⟩ := Option.isSome_iff_exists.mp (h x (List.mem_cons_self _ _))
    obtain ⟨ih1, ih2⟩ := ih (fun z hz => h z (List.mem_cons_of_mem _ hz))
    rw [List.filterMap_cons_some hy]
    refine ⟨by rw [List.length_cons, List.length_cons, ih1], ?_⟩
    intro k
    cases k with
    | zero => simp [hy]
    | succ k => simp [ih2 k]

theorem relabelled_fields {D : Type} (n : Nat) (h0 : Int) (pre : List (WindowPatch D))
    (p : WindowPatch D) (hL : leftIsMine p = true) :
    (commitNeighbors n (relabelled n h0 pre p)).Pcoordinates0
        = decrementUnsigned p.Pcoordinates0
    ∧ (commitNeighbors n (relabelled n h0 pre p)).hindex = p.neighbor_ 0 0
    ∧ (commitNeighbors n (relabelled n h0 pre p)).neighbor_ 0 1 = p.hindex
    ∧ (commitNeighbors n (relabelled n h0 pre p)).MPI_neighbor_ 0 1 = p.MPI_me_
    ∧ (commitNeighbors n (relabelled n h0 pre p)).MPI_me_ = p.MPI_me_ := by
  obtain ⟨h1, h2, h3, h4, h5, _⟩ := commitNeighbors_frame n (relabelled n h0 pre p)
  rw [h1, h2, h3, h4, h5]
  unfold relabelled
  rw [if_pos hL]
  split
  · rename_i left _
    obtain ⟨g1, g2, g3, g4, g5, _⟩ := stageNeighbors_frame n left (becomeLeftNeighbor p)
    rw [g1, g2, g3, g4, g5]
    exact ⟨rfl, rfl, by simp [becomeLeftNeighbor, assign_apply],
      by simp [becomeLeftNeighbor, assign_apply], rfl⟩
  · exact ⟨rfl, rfl, by simp [becomeLeftNeighbor, assign_apply],
      by simp [becomeLeftNeighbor, assign_apply], rfl⟩

theorem targetAt_eq {D : Type} (h0 : Int) (pre : List (WindowPatch D)) (i : Nat)
    (p : WindowPatch D) (hp : pre[i]? = some p) : targetAt h0 pre i = relabelTarget h0 p := by
  unfold targetAt
  rw [hp]

theorem writes_perm {D : Type} (h0 : Int) (pre : List (WindowPatch D))
    (hord : HindexOrdered h0 pre) (hcons : XConsistent pre) :
    List.Perm
      (((List.range pre.length).filter (testAt pre leftIsMine)).map (targetAt h0 pre)
        ++ (List.range pre.length).filter (testAt pre (fun p => !rightIsMine p)))
      (List.range pre.length) := by
  rw [List.perm_ext_iff_of_nodup _ (List.nodup_range _)]
  · intro a
    rw [List.mem_append, List.mem_range, List.mem_map]
    constructor
    · rintro (⟨i, hi, hia⟩ | h)
      · obtain ⟨p, hp, hL⟩ := (mem_filter_testAt pre leftIsMine i).mp hi
        obtain ⟨_, l, hl, _⟩ := consistent_left h0 pre hord hcons i p hp hL
        rw [← hia, targetAt_eq h0 pre i p hp]
        exact (List.getElem?_eq_some_iff.mp hl).1
      · exact List.mem_range.mp (List.mem_filter.mp h).1
    · intro ha
      have hl : pre[a]? = some pre[a] := List.getElem?_eq_getElem ha
      cases hR : rightIsMine pre[a] with
      | true =>
        obtain ⟨i, p, hp, hL, ht⟩ := consistent_right h0 pre hord hcons a _ hl hR
        left
        exact ⟨i, (mem_filter_testAt pre leftIsMine i).mpr ⟨p, hp, hL⟩,
          by rw [targetAt_eq h0 pre i p hp, ht]⟩
      | false =>
        right
        exact (mem_filter_testAt pre _ a).mpr ⟨_, hl, by simp [hR]⟩
  · rw [List.nodup_append]
    refine ⟨?_, (List.nodup_range _).filter _, ?_⟩
    · apply List.Nodup.map_on _ ((List.nodup_range _).filter _)
      intro x hx y hy hxy
      obtain ⟨p, hp, hL⟩ := (mem_filter_testAt pre leftIsMine x).mp hx
      obtain ⟨q, hq, hLq⟩ := (mem_filter_testAt pre leftIsMine y).mp hy
      rw [targetAt_eq h0 pre x p hp, targetAt_eq h0 pre y q hq] at hxy
      exact consistent_target_inj h0 pre hord hcons y x q p hq hp hLq hL hxy
    · intro a ha hb
      obtain ⟨i, hi, hia⟩ := List.mem_map.mp ha
      obtain ⟨p, hp, hL⟩ := (mem_filter_testAt pre leftIsMine i).mp hi
      obtain ⟨_, l, hl, hR, _⟩ := consistent_left h0 pre hord hcons i p hp hL
      obtain ⟨l', hl', hR'⟩ := (mem_filter_testAt pre _ a).mp hb
      rw [← hia, targetAt_eq h0 pre i p hp, hl] at hl'
      cases hl'
      rw [hR] at hR'
      cases hR'

theorem slots_after {D : Type} (h0 : Int) (pre : List (WindowPatch D))
    (hord : HindexOrdered h0 pre) (hcons : XConsistent pre) (k : Nat) (hk : k < pre.length) :
    (∃ (i : Nat) (p : WindowPatch D), pre[i]? = some p ∧ leftIsMine p = true
        ∧ relabelTarget h0 p = k
        ∧ (createSlots 0
            ((List.range pre.length).filter (testAt pre (fun p => !rightIsMine p)))
            ((List.range pre.length).foldl (slotStep h0 pre)
              ((List.range pre.length).map PatchRef.old)))[k]? = some (PatchRef.old i))
    ∨ (∃ j : Nat,
        ((List.range pre.length).filter (testAt pre (fun p => !rightIsMine p)))[j]? = some k
        ∧ (createSlots 0
            ((List.range pre.length).filter (testAt pre (fun p => !rightIsMine p)))
            ((List.range pre.length).foldl (slotStep h0 pre)
              ((List.range pre.length).map PatchRef.old)))[k]? = some (PatchRef.created j)) := by
  have hl : pre[k]? = some pre[k] := List.getElem?_eq_getElem hk
  have hlen : k < ((List.range pre.length).foldl (slotStep h0 pre)
      ((List.range pre.length).map PatchRef.old)).length := by
    rw [foldl_slotStep_length, List.length_map, List.length_range]
    exact hk
  cases hR : rightIsMine pre[k] with
  | true =>
    left
    obtain ⟨i, p, hp, hL, ht⟩ := consistent_right h0 pre hord hcons k _ hl hR
    refine ⟨i, p, hp, hL, ht, ?_⟩
    rw [createSlots_untouched k _ 0 _ (by
      intro h
      obtain ⟨l', hl', hR'⟩ := (mem_filter_testAt pre _ k).mp h
      rw [hl] at hl'
      cases hl'
      rw [hR] at hR'
      cases hR')]
    apply foldl_slotStep_written h0 pre k i p hp hL ht
    · rw [List.length_map, List.length_range]
      exact hk
    · exact List.mem_range.mpr (List.getElem?_eq_some_iff.mp hp).1
    · intro i' _ p' hp' hL' ht'
      exact consistent_target_inj h0 pre hord hcons i i' p p' hp hp' hL hL'
        (by rw [ht', ht])
  | false =>
    right
    have hmem : k ∈ (List.range pre.length).filter (testAt pre (fun p => !rightIsMine p)) :=
      (mem_filter_testAt pre _ k).mpr ⟨_, hl, by simp [hR]⟩
    obtain ⟨j, hj⟩ := List.mem_iff_getElem?.mp hmem
    refine ⟨j, hj, ?_⟩
    have := createSlots_written k _ 0 _ j ((List.nodup_range _).filter _) hlen hj
    rw [Nat.zero_add] at this
    exact this

theorem operate_ordered {D : Type} [Zero D] [Add D] [Sub D] [Mul D] [NatCast D] [LT D]
    [DecidableRel (fun a b : D => a < b)]
    (env : WindowEnv D) (w : SimWindow D) (vp : WindowVectorPatch D) (time_dual : D)
    (p0 : WindowPatch D) (rest : List (WindowPatch D))
    (hmov : isMoving w time_dual = true) (hp : vp.patches_ = p0 :: rest)
    (hord : HindexOrdered p0.hindex vp.patches_) (hcons : XConsistent vp.patches_) :
    ∃ r, operate env w vp time_dual = Except.ok r
      ∧ r.state.patch_to_be_created
          = (List.range vp.patches_.length).filter (testAt vp.patches_ (fun p => !rightIsMine p))
      ∧ r.state.delete_patches_
          = (List.range vp.patches_.length).filter (testAt vp.patches_ (fun p => !leftIsMine p))
      ∧ r.state.update_patches_
          = (List.range vp.patches_.length).filter (testAt vp.patches_ leftIsMine)
      ∧ r.state.news.length = r.state.patch_to_be_created.length
      ∧ r.state.patches_.length = vp.patches_.length
      ∧ r.patches.length = vp.patches_.length
      ∧ (∀ k : Nat, k < vp.patches_.length →
          (∃ (i : Nat) (p q : WindowPatch D), vp.patches_[i]? = some p ∧ leftIsMine p = true
              ∧ relabelTarget p0.hindex p = k
              ∧ r.state.patches_[k]? = some (PatchRef.old i)
              ∧ r.state.objs[i]? = some q ∧ q.hindex = p0.hindex + (k : Int)
              ∧ r.patches[k]? = some q)
          ∨ (∃ (j : Nat) (q : WindowPatch D), r.state.patch_to_be_created[j]? = some k
              ∧ r.state.patches_[k]? = some (PatchRef.created j)
              ∧ r.state.news[j]? = some q ∧ q.hindex = p0.hindex + (k : Int)
              ∧ r.patches[k]? = some q)) := by
  obtain ⟨r, first, extra, refresh, hop, _, htbc, hdel, hupd, _, hpat, hnews, _, hobjs, _, _,
      _, _, _, hpatches, _⟩ :=
    operate_advancing env w vp time_dual p0 rest hmov hp
      (consistent_relabelValid p0.hindex vp.patches_ hord hcons)
  have hnewslen : r.state.news.length = r.state.patch_to_be_created.length := by
    have := congrArg List.length hnews
    rw [List.length_map, List.length_map] at this
    exact this
  have hlen : r.state.patches_.length = vp.patches_.length := by
    rw [hpat, createSlots_length, foldl_slotStep_length, List.length_map, List.length_range]
  have hslot : ∀ k : Nat, k < vp.patches_.length →
      (∃ (i : Nat) (p q : WindowPatch D), vp.patches_[i]? = some p ∧ leftIsMine p = true
          ∧ relabelTarget p0.hindex p = k
          ∧ r.state.patches_[k]? = some (PatchRef.old i)
          ∧ r.state.objs[i]? = some q ∧ q.hindex = p0.hindex + (k : Int))
      ∨ (∃ (j : Nat) (q : WindowPatch D), r.state.patch_to_be_created[j]? = some k
          ∧ r.state.patches_[k]? = some (PatchRef.created j)
          ∧ r.state.news[j]? = some q ∧ q.hindex = p0.hindex + (k : Int)) := by
    intro k hk
    rw [hpat, htbc]
    rcases slots_after p0.hindex vp.patches_ hord hcons k hk with
      ⟨i, p, hpi, hL, ht, hs⟩ | ⟨j, hj, hs⟩
    · left
      refine ⟨i, p, commitNeighbors env.nDim_particle
        (relabelled env.nDim_particle p0.hindex vp.patches_ p), hpi, hL, ht, hs, ?_, ?_⟩
      · rw [hobjs i p hpi, if_pos hL]
      · rw [(relabelled_fields env.nDim_particle p0.hindex vp.patches_ p hL).2.1]
        obtain ⟨_, _, _, _, _, hn⟩ := consistent_left p0.hindex vp.patches_ hord hcons i p hpi hL
        rw [hn, ht]
    · right
      have hj' : r.state.patch_to_be_created[j]? = some k := by rw [htbc]; exact hj
      have h1 : (r.state.news.map (fun p => p.hindex))[j]? = some (p0.hindex + (k : Int)) := by
        rw [hnews, List.getElem?_map, hj']
        rfl
      rw [List.getElem?_map] at h1
      obtain ⟨q, hq, hqh⟩ := Option.map_eq_some'.mp h1
      exact ⟨j, q, hj, hs, hq, hqh⟩
  have hall : ∀ x ∈ r.state.patches_, (deref r.state.objs r.state.news x).isSome = true := by
    intro x hx
    obtain ⟨k, hkx⟩ := List.mem_iff_getElem?.mp hx
    have hk : k < vp.patches_.length := by
      rw [← hlen]
      exact (List.getElem?_eq_some_iff.mp hkx).1
    rcases hslot k hk with ⟨i, p, q, _, _, _, hs, hq, _⟩ | ⟨j, q, _, hs, hq, _⟩
    · rw [hkx] at hs
      cases hs
      show (r.state.objs[i]?).isSome = true
      rw [hq]
      rfl
    · rw [hkx] at hs
      cases hs
      show (r.state.news[j]?).isSome = true
      rw [hq]
      rfl
  obtain ⟨hplen, hpget⟩ := filterMap_get_of_all_some _ _ hall
  rw [← hpatches] at hplen hpget
  refine ⟨r, hop, htbc, hdel, hupd, hnewslen, hlen, by rw [hplen, hlen], ?_⟩
  intro k hk
  rcases hslot k hk with ⟨i, p, q, h1, h2, h3, hs, hq, hh⟩ | ⟨j, q, h1, hs, hq, hh⟩
  · left
    refine ⟨i, p, q, h1, h2, h3, hs, hq, hh, ?_⟩
    rw [hpget k, hs]
    exact hq
  · right
    refine ⟨j, q, h1, hs, hq, hh, ?_⟩
    rw [hpget k, hs]
    exact hq

theorem scenarioB_hindexOrdered :
    HindexOrdered (linePatch 0 0 4 0).hindex scenarioBPatches.patches_ := by
  unfold HindexOrdered
  decide

theorem scenarioB_xConsistent : XConsistent scenarioBPatches.patches_ := by
  unfold XConsistent
  decide

/-- C16. An advance tick preserves the ordering invariant: if before the tick slot `i`
holds the patch of hindex `h0 + i` and the x-neighbour tables are consistent, then
`SimWindow::operate` completes and afterwards every slot `i` holds a live patch of hindex
`h0 + i`; the slots written by the relabelling and by the creation, taken together, are
each slot exactly once; and no slot refers to a patch of the deletion list. -/
theorem operate_preserves_ordering {D : Type} [Zero D] [Add D] [Sub D] [Mul D] [NatCast D]
    [LT D] [DecidableRel (fun a b : D => a < b)]
    (env : WindowEnv D) (w : SimWindow D) (vp : WindowVectorPatch D) (time_dual : D)
    (p0 : WindowPatch D) (rest : List (WindowPatch D))
    (hmov : isMoving w time_dual = true) (hp : vp.patches_ = p0 :: rest)
    (hord : HindexOrdered p0.hindex vp.patches_) (hcons : XConsistent vp.patches_) :
    ∃ r, operate env w vp time_dual = Except.ok r
      ∧ HindexOrdered p0.hindex r.patches
      ∧ r.patches.length = vp.patches_.length
      ∧ (∀ k : Nat, k < vp.patches_.length →
          ∃ q, r.patches[k]? = some q ∧ q.hindex = p0.hindex + (k : Int)
            ∧ (r.state.patches_[k]?).bind (deref r.state.objs r.state.news) = some q)
      ∧ List.Perm
          (r.state.update_patches_.map (targetAt p0.hindex vp.patches_)
            ++ r.state.patch_to_be_created)
          (List.range vp.patches_.length)
      ∧ (∀ k : Nat, k < vp.patches_.length →
          (∃ i : Nat, i ∈ r.state.update_patches_ ∧ targetAt p0.hindex vp.patches_ i = k
              ∧ r.state.patches_[k]? = some (PatchRef.old i))
          ∨ (∃ j : Nat, r.state.patch_to_be_created[j]? = some k
              ∧ r.state.patches_[k]? = some (PatchRef.created j)))
      ∧ (∀ (k i : Nat), r.state.patches_[k]? = some (PatchRef.old i) →
          i ∉ r.state.delete_patches_) := by
  obtain ⟨r, hop, htbc, hdel, hupd, _, hlen, hplen, hslot⟩ :=
    operate_ordered env w vp time_dual p0 rest hmov hp hord hcons
  have hget : ∀ k : Nat, k < vp.patches_.length →
      ∃ q, r.patches[k]? = some q ∧ q.hindex = p0.hindex + (k : Int)
        ∧ (r.state.patches_[k]?).bind (deref r.state.objs r.state.news) = some q := by
    intro k hk
    rcases hslot k hk with ⟨i, p, q, _, _, _, hs, hq, hh, hpk⟩ | ⟨j, q, _, hs, hq, hh, hpk⟩
    · refine ⟨q, hpk, hh, ?_⟩
      rw [hs]
      exact hq
    · refine ⟨q, hpk, hh, ?_⟩
      rw [hs]
      exact hq
  refine ⟨r, hop, ?_, hplen, hget, ?_, ?_, ?_⟩
  · unfold HindexOrdered
    apply List.ext_getElem?
    intro k
    rw [List.getElem?_map, List.getElem?_map, hplen]
    by_cases hk : k < vp.patches_.length
    · obtain ⟨q, hq, hh, _⟩ := hget k hk
      rw [hq, List.getElem?_range hk]
      show some q.hindex = some (p0.hindex + (k : Int))
      rw [hh]
    · rw [List.getElem?_eq_none (by rw [hplen]; omega),
        List.getElem?_eq_none (by rw [List.length_range]; omega)]
      rfl
  · rw [hupd, htbc]
    exact writes_perm p0.hindex vp.patches_ hord hcons
  · intro k hk
    rcases hslot k hk with ⟨i, p, q, hpi, hL, ht, hs, _⟩ | ⟨j, q, hj, hs, _⟩
    · left
      refine ⟨i, ?_, ?_, hs⟩
      · rw [hupd]
        exact (mem_filter_testAt vp.patches_ leftIsMine i).mpr ⟨p, hpi, hL⟩
      · rw [targetAt_eq p0.hindex vp.patches_ i p hpi, ht]
    · right
      exact ⟨j, hj, hs⟩
  · intro k i hki hdeli
    have hk : k < vp.patches_.length := by
      rw [← hlen]
      exact (List.getElem?_eq_some_iff.mp hki).1
    rw [hdel] at hdeli
    obtain ⟨a, ha, hLa⟩ := (mem_filter_testAt vp.patches_ _ i).mp hdeli
    rcases hslot k hk with ⟨i', p, q, hpi, hL, _, hs, _⟩ | ⟨j, q, _, hs, _⟩
    · rw [hki] at hs
      cases hs
      rw [ha] at hpi
      cases hpi
      rw [hL] at hLa
      cases hLa
    · rw [hki] at hs
      cases hs

theorem operate_preserves_ordering_witness :
    ∃ r, operate (lineEnv 0 0 4 8 false) scenarioBWindow scenarioBPatches 1 = Except.ok r
      ∧ HindexOrdered (linePatch 0 0 4 0).hindex r.patches
      ∧ r.patches.length = scenarioBPatches.patches_.length
      ∧ (∀ k : Nat, k < scenarioBPatches.patches_.length →
          ∃ q, r.patches[k]? = some q ∧ q.hindex = (linePatch 0 0 4 0).hindex + (k : Int)
            ∧ (r.state.patches_[k]?).bind (deref r.state.objs r.state.news) = some q)
      ∧ List.Perm
          (r.state.update_patches_.map
              (targetAt (linePatch 0 0 4 0).hindex scenarioBPatches.patches_)
            ++ r.state.patch_to_be_created)
          (List.range scenarioBPatches.patches_.length)
      ∧ (∀ k : Nat, k < scenarioBPatches.patches_.length →
          (∃ i : Nat, i ∈ r.state.update_patches_
              ∧ targetAt (linePatch 0 0 4 0).hindex scenarioBPatches.patches_ i = k
              ∧ r.state.patches_[k]? = some (PatchRef.old i))
          ∨ (∃ j : Nat, r.state.patch_to_be_created[j]? = some k
              ∧ r.state.patches_[k]? = some (PatchRef.created j)))
      ∧ (∀ (k i : Nat), r.state.patches_[k]? = some (PatchRef.old i) →
          i ∉ r.state.delete_patches_) :=
  operate_preserves_ordering (lineEnv 0 0 4 8 false) scenarioBWindow scenarioBPatches 1
    (linePatch 0 0 4 0) [linePatch 0 0 4 1, linePatch 0 0 4 2, linePatch 0 0 4 3]
    (by decide) rfl scenarioB_hindexOrdered scenarioB_xConsistent

/-- C17. An advance tick on a rank whose patch sequence is ordered and whose x-neighbour
tables are consistent completes and preserves the patch count: the patches created are
those whose right neighbour is not locally owned, the patches deleted are those whose
left neighbour is not locally owned, there are as many of the one as of the other, and
the rank owns as many patches after the tick as before. -/
theorem operate_preserves_patch_count {D : Type} [Zero D] [Add D] [Sub D] [Mul D]
    [NatCast D] [LT D] [DecidableRel (fun a b : D => a < b)]
    (env : WindowEnv D) (w : SimWindow D) (vp : WindowVectorPatch D) (time_dual : D)
    (p0 : WindowPatch D) (rest : List (WindowPatch D))
    (hmov : isMoving w time_dual = true) (hp : vp.patches_ = p0 :: rest)
    (hord : HindexOrdered p0.hindex vp.patches_) (hcons : XConsistent vp.patches_) :
    ∃ r, operate env w vp time_dual = Except.ok r
      ∧ (∀ i : Nat, i ∈ r.state.patch_to_be_created
          ↔ ∃ p, vp.patches_[i]? = some p ∧ p.MPI_neighbor_ 0 1 ≠ p.MPI_me_)
      ∧ (∀ i : Nat, i ∈ r.state.delete_patches_
          ↔ ∃ p, vp.patches_[i]? = some p ∧ p.MPI_neighbor_ 0 0 ≠ p.MPI_me_)
      ∧ r.state.patch_to_be_created.Nodup ∧ r.state.delete_patches_.Nodup
      ∧ r.state.news.length = r.state.patch_to_be_created.length
      ∧ r.state.patch_to_be_created.length = r.state.delete_patches_.length
      ∧ r.patches.length = vp.patches_.length := by
  obtain ⟨r, hop, htbc, hdel, hupd, hnews, _, hplen, _⟩ :=
    operate_ordered env w vp time_dual p0 rest hmov hp hord hcons
  refine ⟨r, hop, ?_, ?_, ?_, ?_, hnews, ?_, hplen⟩
  · intro i
    rw [htbc, mem_filter_testAt]
    constructor
    · rintro ⟨p, hpi, h⟩
      exact ⟨p, hpi, by simpa [rightIsMine] using h⟩
    · rintro ⟨p, hpi, h⟩
      exact ⟨p, hpi, by simpa [rightIsMine] using h⟩
  · intro i
    rw [hdel, mem_filter_testAt]
    constructor
    · rintro ⟨p, hpi, h⟩
      exact ⟨p, hpi, by simpa [leftIsMine] using h⟩
    · rintro ⟨p, hpi, h⟩
      exact ⟨p, hpi, by simpa [leftIsMine] using h⟩
  · rw [htbc]
    exact (List.nodup_range _).filter _
  · rw [hdel]
    exact (List.nodup_range _).filter _
  · have h1 := (writes_perm p0.hindex vp.patches_ hord hcons).length_eq
    rw [List.length_append, List.length_map, ← hupd, ← htbc, List.length_range] at h1
    have h2 := List.length_eq_length_filter_add (testAt vp.patches_ leftIsMine)
      (l := List.range vp.patches_.length)
    have h3 : (List.range vp.patches_.length).filter
          (fun x => !testAt vp.patches_ leftIsMine x)
        = r.state.delete_patches_ := by
      rw [hdel]
      apply List.filter_congr
      intro x hx
      have hx' := List.mem_range.mp hx
      unfold testAt
      rw [List.getElem?_eq_getElem hx']
    rw [h3, ← hupd, List.length_range] at h2
    omega

theorem operate_preserves_patch_count_witness :
    ∃ r, operate (lineEnv 0 0 4 8 false) scenarioBWindow scenarioBPatches 1 = Except.ok r
      ∧ (∀ i : Nat, i ∈ r.state.patch_to_be_created
          ↔ ∃ p, scenarioBPatches.patches_[i]? = some p ∧ p.MPI_neighbor_ 0 1 ≠ p.MPI_me_)
      ∧ (∀ i : Nat, i ∈ r.state.delete_patches_
          ↔ ∃ p, scenarioBPatches.patches_[i]? = some p ∧ p.MPI_neighbor_ 0 0 ≠ p.MPI_me_)
      ∧ r.state.patch_to_be_created.Nodup ∧ r.state.delete_patches_.Nodup
      ∧ r.state.news.length = r.state.patch_to_be_created.length
      ∧ r.state.patch_to_be_created.length = r.state.delete_patches_.length
      ∧ r.patches.length = scenarioBPatches.patches_.length :=
  operate_preserves_patch_count (lineEnv 0 0 4 8 false) scenarioBWindow scenarioBPatches 1
    (linePatch 0 0 4 0) [linePatch 0 0 4 1, linePatch 0 0 4 2, linePatch 0 0 4 3]
    (by decide) rfl scenarioB_hindexOrdered scenarioB_xConsistent

/-- C15. In an advance tick that completes, a patch whose left neighbour is locally
owned becomes its own left neighbour: its `Pcoordinates[0]` is decremented as an
`unsigned int` (so it decreases by exactly 1 when it was at least 1), its hindex becomes
its pre-tick left-neighbour hindex, its right-neighbour hindex becomes its own pre-tick
hindex with this rank as owner, and the slot `new hindex - h0` of the patch sequence,
`h0` being the pre-tick hindex of the first local patch, holds it at the end of the tick
unless another relabelled patch or a created patch was written to that slot. -/
theorem operate_relabels_in_place {D : Type} [Zero D] [Add D] [Sub D] [Mul D] [NatCast D]
    [LT D] [DecidableRel (fun a b : D => a < b)]
    (env : WindowEnv D) (w : SimWindow D) (vp : WindowVectorPatch D) (time_dual : D)
    (p0 : WindowPatch D) (rest : List (WindowPatch D))
    (hmov : isMoving w time_dual = true) (hp : vp.patches_ = p0 :: rest)
    (hval : RelabelValid p0.hindex vp.patches_) :
    ∃ r, operate env w vp time_dual = Except.ok r
      ∧ ∀ (i : Nat) (p : WindowPatch D), vp.patches_[i]? = some p →
          p.MPI_neighbor_ 0 0 = p.MPI_me_ →
          ∃ q, r.state.objs[i]? = some q
            ∧ q.Pcoordinates0 = decrementUnsigned p.Pcoordinates0
            ∧ (1 ≤ p.Pcoordinates0 → p.Pcoordinates0 < 4294967296 →
                q.Pcoordinates0 + 1 = p.Pcoordinates0)
            ∧ q.hindex = p.neighbor_ 0 0
            ∧ q.neighbor_ 0 1 = p.hindex
            ∧ q.MPI_neighbor_ 0 1 = p.MPI_me_
            ∧ q.MPI_me_ = p.MPI_me_
            ∧ 0 ≤ q.hindex - p0.hindex
            ∧ (q.hindex - p0.hindex).toNat < r.state.patches_.length
            ∧ ((∀ (i' : Nat) (p' : WindowPatch D), vp.patches_[i']? = some p' →
                  p'.MPI_neighbor_ 0 0 = p'.MPI_me_ → p'.neighbor_ 0 0 = p.neighbor_ 0 0 →
                  i' = i) →
                (q.hindex - p0.hindex).toNat ∉ r.state.patch_to_be_created →
                r.state.patches_[(q.hindex - p0.hindex).toNat]? = some (PatchRef.old i)) := by
  obtain ⟨r, first, extra, refresh, hop, _, htbc, _, _, _, hpat, _, _, hobjs, _⟩ :=
    operate_advancing env w vp time_dual p0 rest hmov hp hval
  have hlen : r.state.patches_.length = vp.patches_.length := by
    rw [hpat, createSlots_length, foldl_slotStep_length, List.length_map, List.length_range]
  refine ⟨r, hop, ?_⟩
  intro i p hpi hL
  have hLm : leftIsMine p = true := by simp [leftIsMine, hL]
  obtain ⟨f1, f2, f3, f4, f5⟩ :=
    relabelled_fields env.nDim_particle p0.hindex vp.patches_ p hLm
  obtain ⟨hv1, hv2⟩ := hval i p hpi hL
  refine ⟨_, by rw [hobjs i p hpi, if_pos hLm], f1, ?_, f2, f3, f4, f5, ?_, ?_, ?_⟩
  · intro h1 h2
    rw [f1]
    unfold decrementUnsigned
    omega
  · rw [f2]
    exact hv1
  · rw [f2, hlen]
    exact hv2
  · intro huniq hnot
    rw [f2] at hnot ⊢
    rw [hpat, createSlots_untouched _ _ 0 _ hnot]
    apply foldl_slotStep_written p0.hindex vp.patches_ _ i p hpi hLm rfl
    · rw [List.length_map, List.length_range]
      exact hv2
    · exact List.mem_range.mpr (List.getElem?_eq_some_iff.mp hpi).1
    · intro i' _ p' hp' hL' ht'
      have hL'' : p'.MPI_neighbor_ 0 0 = p'.MPI_me_ := by
        simpa [leftIsMine] using hL'
      obtain ⟨hv1', _⟩ := hval i' p' hp' hL''
      apply huniq i' p' hp' hL''
      unfold relabelTarget at ht'
      omega

theorem operate_relabels_in_place_witness :
    ∃ r, operate (lineEnv 0 0 4 8 false) scenarioBWindow scenarioBPatches 1 = Except.ok r
      ∧ ∀ (i : Nat) (p : WindowPatch Int), scenarioBPatches.patches_[i]? = some p →
          p.MPI_neighbor_ 0 0 = p.MPI_me_ →
          ∃ q, r.state.objs[i]? = some q
            ∧ q.Pcoordinates0 = decrementUnsigned p.Pcoordinates0
            ∧ (1 ≤ p.Pcoordinates0 → p.Pcoordinates0 < 4294967296 →
                q.Pcoordinates0 + 1 = p.Pcoordinates0)
            ∧ q.hindex = p.neighbor_ 0 0
            ∧ q.neighbor_ 0 1 = p.hindex
            ∧ q.MPI_neighbor_ 0 1 = p.MPI_me_
            ∧ q.MPI_me_ = p.MPI_me_
            ∧ 0 ≤ q.hindex - (linePatch 0 0 4 0).hindex
            ∧ (q.hindex - (linePatch 0 0 4 0).hindex).toNat < r.state.patches_.length
            ∧ ((∀ (i' : Nat) (p' : WindowPatch Int), scenarioBPatches.patches_[i']? = some p' →
                  p'.MPI_neighbor_ 0 0 = p'.MPI_me_ → p'.neighbor_ 0 0 = p.neighbor_ 0 0 →
                  i' = i) →
                (q.hindex - (linePatch 0 0 4 0).hindex).toNat ∉ r.state.patch_to_be_created →
                r.state.patches_[(q.hindex - (linePatch 0 0 4 0).hindex).toNat]?
                  = some (PatchRef.old i)) :=
  operate_relabels_in_place (lineEnv 0 0 4 8 false) scenarioBWindow scenarioBPatches 1
    (linePatch 0 0 4 0) [linePatch 0 0 4 1, linePatch 0 0 4 2, linePatch 0 0 4 3]
    (by decide) rfl scenarioB_relabelValid

/-! ## Moving window: `waitall` before `delete` -/

theorem filterMap_none_of_forall {α β : Type} (f : α → Option β) (l : List α)
    (h : ∀ c ∈ l, f c = none) : l.filterMap f = [] := by
  induction l with
  | nil => rfl
  | cons c l ih =>
    rw [List.filterMap_cons_none (h c (List.mem_cons_self _ _)),
      ih (fun x hx => h x (List.mem_cons_of_mem _ hx))]

theorem filterMap_map_some {α β γ : Type} (f : β → Option γ) (g : α → β) (k : α → γ)
    (l : List α) (h : ∀ a, f (g a) = some (k a)) : (l.map g).filterMap f = l.map k := by
  induction l with
  | nil => rfl
  | cons a l ih => rw [List.map_cons, List.filterMap_cons_some (h a), ih, List.map_cons]

theorem waited_of_blocks {α : Type} (B : List (BufferEvent α)) (send del : List α)
    (hB : ∀ e ∈ B, ∃ s ∈ send, e = BufferEvent.isend s) :
    WaitedBeforeDelete
      (B ++ send.map (fun s => BufferEvent.waitall s)
        ++ del.map (fun s => BufferEvent.delete s)) := by
  intro i j p hji hj hi
  have hjB : j < B.length := by
    by_contra hc
    rw [List.append_assoc, List.getElem?_append_right (by omega)] at hj
    rcases List.mem_append.mp (List.getElem?_mem hj) with h | h
    · obtain ⟨_, _, h'⟩ := List.mem_map.mp h
      cases h'
    · obtain ⟨_, _, h'⟩ := List.mem_map.mp h
      cases h'
  rw [List.append_assoc, List.getElem?_append_left hjB] at hj
  obtain ⟨s, hs, hse⟩ := hB _ (List.getElem?_mem hj)
  cases hse
  obtain ⟨m, hm⟩ := List.mem_iff_getElem?.mp hs
  have hmlt : m < send.length := (List.getElem?_eq_some_iff.mp hm).1
  have hi2 : (B ++ send.map (fun s => BufferEvent.waitall s)).length ≤ i := by
    by_contra hc
    rw [List.getElem?_append_left (by omega)] at hi
    rcases List.mem_append.mp (List.getElem?_mem hi) with h | h
    · obtain ⟨_, _, h'⟩ := hB _ h
      cases h'
    · obtain ⟨_, _, h'⟩ := List.mem_map.mp h
      cases h'
  rw [List.length_append, List.length_map] at hi2
  refine ⟨B.length + m, by omega, by omega, ?_⟩
  rw [List.getElem?_append_left (by rw [List.length_append, List.length_map]; omega),
    List.getElem?_append_right (by omega)]
  have : B.length + m - B.length = m := by omega
  rw [this, List.getElem?_map, hm]
  rfl

/-- In every advance tick of `SimWindow::operate` that completes, each `delete` of a
patch passed to an earlier `isend` has a `waitall` on that patch between the two. -/
theorem operate_waits_before_delete {D : Type} [Zero D] [Add D] [Sub D] [Mul D] [NatCast D]
    [LT D] [DecidableRel (fun a b : D => a < b)]
    (env : WindowEnv D) (w : SimWindow D) (vp : WindowVectorPatch D) (time_dual : D)
    (p0 : WindowPatch D) (rest : List (WindowPatch D))
    (hmov : isMoving w time_dual = true) (hp : vp.patches_ = p0 :: rest)
    (hval : RelabelValid p0.hindex vp.patches_) :
    ∃ r, operate env w vp time_dual = Except.ok r
      ∧ WaitedBeforeDelete (r.state.calls.filterMap bufferEventOfWindowCall) := by
  obtain ⟨r, first, extra, refresh, hop, _, _, _, _, hsend, _, _, _, _, _, hcalls,
      hextra, hrefresh, _⟩ :=
    operate_advancing env w vp time_dual p0 rest hmov hp hval
  refine ⟨r, hop, ?_⟩
  have hev : r.state.calls.filterMap bufferEventOfWindowCall
      = ((List.range vp.patches_.length).flatMap
            (relabelCallsOf env p0.nSpecies vp.patches_)).filterMap bufferEventOfWindowCall
        ++ (r.state.send_patches_.map PatchRef.old).map (fun s => BufferEvent.waitall s)
        ++ (r.state.delete_patches_.map PatchRef.old).map (fun s => BufferEvent.delete s) := by
    rw [hcalls]
    simp only [List.filterMap_append]
    rw [filterMap_none_of_forall _ _ (by
        intro c hc
        obtain ⟨_, _, h⟩ := List.mem_map.mp hc
        rw [← h]
        rfl),
      filterMap_none_of_forall _ extra hextra,
      filterMap_none_of_forall _ refresh hrefresh,
      filterMap_none_of_forall _ [WindowCall.update_field_list] (by
        intro c hc
        rw [List.mem_singleton] at hc
        rw [hc]
        rfl),
      filterMap_none_of_forall _ (storeCalls _ _ _ _) (by
        intro c hc
        unfold storeCalls at hc
        rcases List.mem_cons.mp hc with h | h
        · rw [h]; rfl
        · obtain ⟨_, _, h'⟩ := List.mem_map.mp h
          rw [← h']
          rfl),
      filterMap_map_some bufferEventOfWindowCall
        (fun i => WindowCall.waitall (PatchRef.old i))
        (fun i => BufferEvent.waitall (PatchRef.old i)) _ (fun _ => rfl)]
    unfold deleteCalls
    rw [filterMap_map_some bufferEventOfWindowCall
        (fun i => WindowCall.delete (PatchRef.old i))
        (fun i => BufferEvent.delete (PatchRef.old i)) _ (fun _ => rfl)]
    simp only [List.nil_append, List.append_nil, List.map_map]
    rfl
  rw [hev]
  apply waited_of_blocks
  intro e he
  obtain ⟨c, hc, hce⟩ := List.mem_filterMap.mp he
  obtain ⟨i, _, hci⟩ := List.mem_flatMap.mp hc
  unfold relabelCallsOf at hci
  cases hpi : vp.patches_[i]? with
  | none => rw [hpi] at hci; cases hci
  | some p =>
    rw [hpi] at hci
    simp only [leftIsMine, decide_eq_true_eq] at hci
    by_cases hL : p.MPI_neighbor_ 0 0 = p.MPI_me_
    · rw [if_pos hL] at hci
      unfold disableXmaxCalls at hci
      split at hci
      · obtain ⟨_, _, h⟩ := List.mem_map.mp hci
        rw [← h] at hce
        cases hce
      · cases hci
    · rw [if_neg hL] at hci
      by_cases hN : p.MPI_neighbor_ 0 0 ≠ env.MPI_PROC_NULL
      · rw [if_pos hN, List.mem_singleton] at hci
        rw [hci] at hce
        refine ⟨PatchRef.old i, ?_, ?_⟩
        · apply List.mem_map.mpr
          refine ⟨i, ?_, rfl⟩
          rw [hsend]
          exact (mem_filter_testAt vp.patches_ _ i).mpr
            ⟨p, hpi, by simp [leftIsRemote, hL, hN]⟩
        · exact (Option.some.inj hce).symm
      · rw [if_neg hN] at hci
        cases hci

/-! ## `VectorPatch::dynamics`: which species are pushed and which are exchanged -/

theorem speciesDynamics_mem_pushCalls (diag_flag : Bool) (ipatch : Nat) (v : List Bool)
    (jpatch ispec : Nat) :
    DynamicsCall.speciesDynamics jpatch ispec ∈ pushCalls diag_flag ipatch v
      ↔ jpatch = ipatch ∧ ∃ b, v[ispec]? = some b ∧ (b || diag_flag) = true := by
  unfold pushCalls
  rw [List.mem_cons, List.mem_flatMap]
  constructor
  · rintro (h | ⟨k, hk, hc⟩)
    · cases h
    · cases hv : v[k]? with
      | none => rw [hv] at hc; cases hc
      | some b =>
        rw [hv] at hc
        simp only at hc
        split at hc
        · rename_i hb
          rw [List.mem_singleton] at hc
          cases hc
          exact ⟨rfl, b, hv, hb⟩
        · cases hc
  · rintro ⟨rfl, b, hv, hb⟩
    right
    refine ⟨ispec, List.mem_range.mpr (List.getElem?_eq_some_iff.mp hv).1, ?_⟩
    rw [hv]
    simp only
    rw [if_pos hb]
    exact List.mem_singleton.mpr rfl

theorem exchangeParticles_mem_exchangeCalls (v : List Bool) (ispec : Nat) :
    DynamicsCall.exchangeParticles ispec ∈ exchangeCalls v ↔ v[ispec]? = some true := by
  unfold exchangeCalls
  rw [List.mem_flatMap]
  constructor
  · rintro ⟨k, hk, hc⟩
    cases hv : v[k]? with
    | none => rw [hv] at hc; cases hc
    | some b =>
      rw [hv] at hc
      simp only at hc
      split at hc
      · rename_i hb
        rw [List.mem_singleton] at hc
        cases hc
        rw [hv, hb]
      · cases hc
  · intro hv
    refine ⟨ispec, List.mem_range.mpr (List.getElem?_eq_some_iff.mp hv).1, ?_⟩
    rw [hv]
    exact List.mem_singleton.mpr rfl

theorem mem_dynamics_calls (diag_flag : Bool) (itime : Int) (first : List Bool)
    (rest : List (List Bool)) (calls : List DynamicsCall)
    (h : dynamics diag_flag itime (first :: rest) = Except.ok calls) (c : DynamicsCall) :
    c ∈ calls ↔
      c = DynamicsCall.timersParticlesRestart
      ∨ c ∈ (List.range (first :: rest).length).flatMap (pushBlock diag_flag (first :: rest))
      ∨ c = DynamicsCall.timersParticlesUpdate
      ∨ c = DynamicsCall.timersSyncPartRestart
      ∨ c ∈ exchangeCalls first
      ∨ c ∈ (if itime % 10 = 0 then
              (List.range (first :: rest).length).map DynamicsCall.cleanParticlesOverhead
            else [])
      ∨ c = DynamicsCall.timersSyncPartUpdate := by
  rw [dynamics_eq] at h
  cases h
  simp only [List.mem_append, List.mem_cons, List.mem_singleton, List.not_mem_nil, or_false,
    or_assoc]

theorem speciesDynamics_mem_dynamics (diag_flag : Bool) (itime : Int) (first : List Bool)
    (rest : List (List Bool)) (calls : List DynamicsCall)
    (h : dynamics diag_flag itime (first :: rest) = Except.ok calls) (ipatch ispec : Nat) :
    DynamicsCall.speciesDynamics ipatch ispec ∈ calls
      ↔ ∃ v b, (first :: rest)[ipatch]? = some v ∧ v[ispec]? = some b
          ∧ (b || diag_flag) = true := by
  rw [mem_dynamics_calls diag_flag itime first rest calls h]
  constructor
  · rintro (h | h | h | h | h | h | h)
    · cases h
    · obtain ⟨k, _, hk⟩ := List.mem_flatMap.mp h
      unfold pushBlock at hk
      cases hv : (first :: rest)[k]? with
      | none => rw [hv] at hk; cases hk
      | some v =>
        rw [hv] at hk
        obtain ⟨rfl, b, hb, hbd⟩ := (speciesDynamics_mem_pushCalls _ _ _ _ _).mp hk
        exact ⟨v, b, hv, hb, hbd⟩
    · cases h
    · cases h
    · obtain ⟨s, hs⟩ := exchangeCalls_mem _ _ h
      cases hs
    · split at h
      · obtain ⟨_, _, hm⟩ := List.mem_map.mp h
        cases hm
      · cases h
    · cases h
  · rintro ⟨v, b, hv, hb, hbd⟩
    right; left
    rw [List.mem_flatMap]
    refine ⟨ipatch, List.mem_range.mpr (List.getElem?_eq_some_iff.mp hv).1, ?_⟩
    unfold pushBlock
    rw [hv]
    exact (speciesDynamics_mem_pushCalls _ _ _ _ _).mpr ⟨rfl, b, hb, hbd⟩

theorem exchangeParticles_mem_dynamics (diag_flag : Bool) (itime : Int) (first : List Bool)
    (rest : List (List Bool)) (calls : List DynamicsCall)
    (h : dynamics diag_flag itime (first :: rest) = Except.ok calls) (ispec : Nat) :
    DynamicsCall.exchangeParticles ispec ∈ calls ↔ first[ispec]? = some true := by
  rw [mem_dynamics_calls diag_flag itime first rest calls h]
  constructor
  · rintro (h | h | h | h | h | h | h)
    · cases h
    · obtain ⟨k, _, hk⟩ := List.mem_flatMap.mp h
      rcases pushBlock_mem _ _ _ _ hk with h' | ⟨_, h'⟩ <;> cases h'
    · cases h
    · cases h
    · exact (exchangeParticles_mem_exchangeCalls _ _).mp h
    · split at h
      · obtain ⟨_, _, hm⟩ := List.mem_map.mp h
        cases hm
      · cases h
    · cases h
  · intro hv
    right; right; right; right; left
    exact (exchangeParticles_mem_exchangeCalls _ _).mpr hv

/-- Counterexample to C21 as stated: with `diag_flag` set and one patch whose single
species does not require projection, `dynamics` calls `Species::dynamics` for species 0
on patch 0 and never calls `exchangeParticles` for species 0. -/
theorem dynamics_push_without_exchange :
    ∃ calls, dynamics true 1 [[false]] = Except.ok calls
      ∧ DynamicsCall.speciesDynamics 0 0 ∈ calls
      ∧ DynamicsCall.exchangeParticles 0 ∉ calls :=
  ⟨_, rfl, by decide, by decide⟩

/-- C21, as amended. On a non-empty patch sequence `dynamics` completes and:
`Species::dynamics` is called for species `ispec` on patch `ipatch` exactly when that
species requires projection there (`isProj`) or `diag_flag` is set;
`exchangeParticles` is called for species `ispec` exactly when it is a species of patch 0
that requires projection; so every species that requires projection on patch 0 is
pushed there and exchanged, and when `isProj` is the same on every patch and
`diag_flag` is not set, every species pushed on some patch is exchanged. -/
theorem dynamics_exchange_follows_projection (diag_flag : Bool) (itime : Int)
    (patches : List (List Bool)) (first : List Bool) (rest : List (List Bool))
    (hp : patches = first :: rest) :
    ∃ calls, dynamics diag_flag itime patches = Except.ok calls
      ∧ (∀ (ipatch ispec : Nat), DynamicsCall.speciesDynamics ipatch ispec ∈ calls
          ↔ ∃ v b, patches[ipatch]? = some v ∧ v[ispec]? = some b
              ∧ (b = true ∨ diag_flag = true))
      ∧ (∀ ispec : Nat, DynamicsCall.exchangeParticles ispec ∈ calls
          ↔ first[ispec]? = some true)
      ∧ (∀ ispec : Nat, first[ispec]? = some true →
          DynamicsCall.speciesDynamics 0 ispec ∈ calls
            ∧ DynamicsCall.exchangeParticles ispec ∈ calls)
      ∧ ((∀ v ∈ patches, v = first) → diag_flag = false →
          ∀ (ipatch ispec : Nat), DynamicsCall.speciesDynamics ipatch ispec ∈ calls →
            DynamicsCall.exchangeParticles ispec ∈ calls) := by
  subst hp
  have hrun := dynamics_eq diag_flag itime first rest
  refine ⟨_, hrun, ?_, ?_, ?_, ?_⟩
  · intro ipatch ispec
    rw [speciesDynamics_mem_dynamics diag_flag itime first rest _ hrun]
    constructor
    · rintro ⟨v, b, hv, hb, hbd⟩
      exact ⟨v, b, hv, hb, by simpa using hbd⟩
    · rintro ⟨v, b, hv, hb, hbd⟩
      exact ⟨v, b, hv, hb, by simpa using hbd⟩
  · intro ispec
    exact exchangeParticles_mem_dynamics diag_flag itime first rest _ hrun ispec
  · intro ispec hv
    refine ⟨?_, (exchangeParticles_mem_dynamics diag_flag itime first rest _ hrun ispec).mpr hv⟩
    exact (speciesDynamics_mem_dynamics diag_flag itime first rest _ hrun 0 ispec).mpr
      ⟨first, true, List.getElem?_cons_zero, hv, rfl⟩
  · intro hall hdiag ipatch ispec hc
    obtain ⟨v, b, hv, hb, hbd⟩ :=
      (speciesDynamics_mem_dynamics diag_flag itime first rest _ hrun ipatch ispec).mp hc
    have hvf : v = first := hall v (List.getElem?_mem hv)
    subst hvf
    subst hdiag
    have hbt : b = true := by simpa using hbd
    subst hbt
    exact (exchangeParticles_mem_dynamics false itime v rest _ hrun ispec).mpr hb

theorem dynamics_exchange_follows_projection_witness :
    ∃ calls, dynamics true 10 [[true, false], [true, false]] = Except.ok calls
      ∧ (∀ (ipatch ispec : Nat), DynamicsCall.speciesDynamics ipatch ispec ∈ calls
          ↔ ∃ v b, [[true, false], [true, false]][ipatch]? = some v ∧ v[ispec]? = some b
              ∧ (b = true ∨ true = true))
      ∧ (∀ ispec : Nat, DynamicsCall.exchangeParticles ispec ∈ calls
          ↔ [true, false][ispec]? = some true)
      ∧ (∀ ispec : Nat, [true, false][ispec]? = some true →
          DynamicsCall.speciesDynamics 0 ispec ∈ calls
            ∧ DynamicsCall.exchangeParticles ispec ∈ calls)
      ∧ ((∀ v ∈ [[true, false], [true, false]], v = [true, false]) → true = false →
          ∀ (ipatch ispec : Nat), DynamicsCall.speciesDynamics ipatch ispec ∈ calls →
            DynamicsCall.exchangeParticles ispec ∈ calls) :=
  dynamics_exchange_follows_projection true 10 [[true, false], [true, false]]
    [true, false] [[true, false]] rfl

/-! ## Moving window: what the staging and the commit copy -/

theorem foldl_stageDim_tables {D : Type} (l : WindowPatch D) (L : List Nat) :
    ∀ (m : WindowPatch D) (idim side : Nat),
      ((L.foldl (stageDim l) m).tmp_neighbor_ idim side
          = if idim ∈ L ∧ side < 2 then l.neighbor_ idim side else m.tmp_neighbor_ idim side)
      ∧ ((L.foldl (stageDim l) m).tmp_MPI_neighbor_ idim side
          = if idim ∈ L ∧ side < 2 then l.MPI_neighbor_ idim side
            else m.tmp_MPI_neighbor_ idim side) := by
  induction L with
  | nil => intro m idim side; simp
  | cons a L ih =>
    intro m idim side
    rw [List.foldl_cons]
    obtain ⟨h1, h2⟩ := ih (stageDim l m a) idim side
    rw [h1, h2]
    by_cases hL : idim ∈ L ∧ side < 2
    · have hL' : idim ∈ a :: L ∧ side < 2 := ⟨List.mem_cons_of_mem _ hL.1, hL.2⟩
      rw [if_pos hL, if_pos hL, if_pos hL', if_pos hL']
      exact ⟨rfl, rfl⟩
    · rw [if_neg hL, if_neg hL]
      by_cases ha : idim = a ∧ side < 2
      · have hL' : idim ∈ a :: L ∧ side < 2 := ⟨by rw [ha.1]; exact List.mem_cons_self _ _, ha.2⟩
        rw [if_pos hL', if_pos hL']
        obtain ⟨rfl, hs⟩ := ha
        have hs' : side = 0 ∨ side = 1 := by omega
        rcases hs' with rfl | rfl <;> simp [stageDim, assign_apply]
      · have hL' : ¬ (idim ∈ a :: L ∧ side < 2) := by
          rintro ⟨hm, hs⟩
          rcases List.mem_cons.mp hm with h | h
          · exact ha ⟨h, hs⟩
          · exact hL ⟨h, hs⟩
        rw [if_neg hL', if_neg hL']
        have h0 : ¬ (idim = a ∧ side = 0) := fun h => ha ⟨h.1, by omega⟩
        have h1 : ¬ (idim = a ∧ side = 1) := fun h => ha ⟨h.1, by omega⟩
        simp [stageDim, assign_apply, h0, h1]

theorem stageNeighbors_values {D : Type} (n : Nat) (l m : WindowPatch D) :
    (stageNeighbors n l m).tmp_neighbor_ 0 0 = l.neighbor_ 0 0
    ∧ (stageNeighbors n l m).tmp_MPI_neighbor_ 0 0 = l.MPI_neighbor_ 0 0
    ∧ ∀ idim side : Nat, 1 ≤ idim → idim < n → side < 2 →
        (stageNeighbors n l m).tmp_neighbor_ idim side = l.neighbor_ idim side
        ∧ (stageNeighbors n l m).tmp_MPI_neighbor_ idim side = l.MPI_neighbor_ idim side := by
  unfold stageNeighbors
  have h0 : ¬ (0 ∈ List.range' 1 (n - 1) ∧ 0 < 2) := by
    rintro ⟨h, _⟩
    have := (List.mem_range'_1.mp h).1
    omega
  refine ⟨?_, ?_, ?_⟩
  · rw [(foldl_stageDim_tables l _ _ 0 0).1, if_neg h0]
    simp [assign_apply]
  · rw [(foldl_stageDim_tables l _ _ 0 0).2, if_neg h0]
    simp [assign_apply]
  · intro idim side h1 h2 hs
    have hmem : idim ∈ List.range' 1 (n - 1) ∧ side < 2 :=
      ⟨List.mem_range'_1.mpr ⟨h1, by omega⟩, hs⟩
    rw [(foldl_stageDim_tables l _ _ idim side).1, (foldl_stageDim_tables l _ _ idim side).2,
      if_pos hmem, if_pos hmem]
    exact ⟨rfl, rfl⟩

theorem foldl_commitDim_tables {D : Type} (L : List Nat) :
    ∀ (m : WindowPatch D) (idim side : Nat),
      (L.foldl commitDim m).tmp_neighbor_ = m.tmp_neighbor_
      ∧ (L.foldl commitDim m).tmp_MPI_neighbor_ = m.tmp_MPI_neighbor_
      ∧ ((L.foldl commitDim m).neighbor_ idim side
          = if idim ∈ L ∧ side < 2 then m.tmp_neighbor_ idim side else m.neighbor_ idim side)
      ∧ ((L.foldl commitDim m).MPI_neighbor_ idim side
          = if idim ∈ L ∧ side < 2 then m.tmp_MPI_neighbor_ idim side
            else m.MPI_neighbor_ idim side) := by
  induction L with
  | nil => intro m idim side; simp
  | cons a L ih =>
    intro m idim side
    rw [List.foldl_cons]
    obtain ⟨h1, h2, h3, h4⟩ := ih (commitDim m a) idim side
    rw [h1, h2, h3, h4]
    refine ⟨rfl, rfl, ?_, ?_⟩
    · by_cases hL : idim ∈ L ∧ side < 2
      · have hL' : idim ∈ a :: L ∧ side < 2 := ⟨List.mem_cons_of_mem _ hL.1, hL.2⟩
        rw [if_pos hL, if_pos hL']
        rfl
      · rw [if_neg hL]
        by_cases ha : idim = a ∧ side < 2
        · have hL' : idim ∈ a :: L ∧ side < 2 :=
            ⟨by rw [ha.1]; exact List.mem_cons_self _ _, ha.2⟩
          rw [if_pos hL']
          obtain ⟨rfl, hs⟩ := ha
          have hs' : side = 0 ∨ side = 1 := by omega
          rcases hs' with rfl | rfl <;> simp [commitDim, assign_apply]
        · have hL' : ¬ (idim ∈ a :: L ∧ side < 2) := by
            rintro ⟨hm, hs⟩
            rcases List.mem_cons.mp hm with h | h
            · exact ha ⟨h, hs⟩
            · exact hL ⟨h, hs⟩
          rw [if_neg hL']
          have h0 : ¬ (idim = a ∧ side = 0) := fun h => ha ⟨h.1, by omega⟩
          have h1 : ¬ (idim = a ∧ side = 1) := fun h => ha ⟨h.1, by omega⟩
          simp [commitDim, assign_apply, h0, h1]
    · by_cases hL : idim ∈ L ∧ side < 2
      · have hL' : idim ∈ a :: L ∧ side < 2 := ⟨List.mem_cons_of_mem _ hL.1, hL.2⟩
        rw [if_pos hL, if_pos hL']
        rfl
      · rw [if_neg hL]
        by_cases ha : idim = a ∧ side < 2
        · have hL' : idim ∈ a :: L ∧ side < 2 :=
            ⟨by rw [ha.1]; exact List.mem_cons_self _ _, ha.2⟩
          rw [if_pos hL']
          obtain ⟨rfl, hs⟩ := ha
          have hs' : side = 0 ∨ side = 1 := by omega
          rcases hs' with rfl | rfl <;> simp [commitDim, assign_apply]
        · have hL' : ¬ (idim ∈ a :: L ∧ side < 2) := by
            rintro ⟨hm, hs⟩
            rcases List.mem_cons.mp hm with h | h
            · exact ha ⟨h, hs⟩
            · exact hL ⟨h, hs⟩
          rw [if_neg hL']
          have h0 : ¬ (idim = a ∧ side = 0) := fun h => ha ⟨h.1, by omega⟩
          have h1 : ¬ (idim = a ∧ side = 1) := fun h => ha ⟨h.1, by omega⟩
          simp [commitDim, assign_apply, h0, h1]

theorem commitNeighbors_values {D : Type} (n : Nat) (m : WindowPatch D) :
    (commitNeighbors n m).neighbor_ 0 0 = m.tmp_neighbor_ 0 0
    ∧ (commitNeighbors n m).MPI_neighbor_ 0 0 = m.tmp_MPI_neighbor_ 0 0
    ∧ ∀ idim side : Nat, 1 ≤ idim → idim < n → side < 2 →
        (commitNeighbors n m).neighbor_ idim side = m.tmp_neighbor_ idim side
        ∧ (commitNeighbors n m).MPI_neighbor_ idim side = m.tmp_MPI_neighbor_ idim side := by
  unfold commitNeighbors
  have h0 : ¬ (0 ∈ List.range' 1 (n - 1) ∧ 0 < 2) := by
    rintro ⟨h, _⟩
    have := (List.mem_range'_1.mp h).1
    omega
  refine ⟨?_, ?_, ?_⟩
  · rw [(foldl_commitDim_tables _ _ 0 0).2.2.1, if_neg h0]
    simp [assign_apply]
  · rw [(foldl_commitDim_tables _ _ 0 0).2.2.2, if_neg h0]
    simp [assign_apply]
  · intro idim side h1 h2 hs
    have hmem : idim ∈ List.range' 1 (n - 1) ∧ side < 2 :=
      ⟨List.mem_range'_1.mpr ⟨h1, by omega⟩, hs⟩
    rw [(foldl_commitDim_tables _ _ idim side).2.2.1,
      (foldl_commitDim_tables _ _ idim side).2.2.2, if_pos hmem, if_pos hmem]
    exact ⟨rfl, rfl⟩

theorem relabelled_staged {D : Type} (n : Nat) (h0 : Int) (pre : List (WindowPatch D))
    (p l : WindowPatch D) (hL : leftIsMine p = true)
    (hl : pre[relabelTarget h0 p]? = some l) :
    (relabelled n h0 pre p).tmp_neighbor_ 0 0 = l.neighbor_ 0 0
    ∧ (relabelled n h0 pre p).tmp_MPI_neighbor_ 0 0 = l.MPI_neighbor_ 0 0
    ∧ ∀ idim side : Nat, 1 ≤ idim → idim < n → side < 2 →
        (relabelled n h0 pre p).tmp_neighbor_ idim side = l.neighbor_ idim side
        ∧ (relabelled n h0 pre p).tmp_MPI_neighbor_ idim side = l.MPI_neighbor_ idim side := by
  unfold relabelled
  rw [if_pos hL, hl]
  exact stageNeighbors_values n l (becomeLeftNeighbor p)

/-- C26. The relabelling of an advance tick has no read-after-write hazard. In a tick
that completes, for every relabelled patch `P` and the patch `L` that
`vecPatches_old[P.neighbor_[0][0] - h0]` pointed to before the tick: after the commit,
`neighbor_[0][0]` and `MPI_neighbor_[0][0]` of `P`, and for every transverse dimension
`1 <= idim < nDim_particle` both entries of `neighbor_[idim]` and `MPI_neighbor_[idim]`,
are the values `L` had before the tick began, wherever `L` stands in the sequence.  And
in whatever order the first loop visits the patches, the values it stages in the `tmp_`
tables of `P` are these pre-tick values of `L`. -/
theorem operate_relabel_reads_pre_tick {D : Type} [Zero D] [Add D] [Sub D] [Mul D]
    [NatCast D] [LT D] [DecidableRel (fun a b : D => a < b)]
    (env : WindowEnv D) (w : SimWindow D) (vp : WindowVectorPatch D) (time_dual : D)
    (p0 : WindowPatch D) (rest : List (WindowPatch D))
    (hmov : isMoving w time_dual = true) (hp : vp.patches_ = p0 :: rest)
    (hval : RelabelValid p0.hindex vp.patches_) :
    ∃ r, operate env w vp time_dual = Except.ok r
      ∧ (∀ (i : Nat) (p l : WindowPatch D), vp.patches_[i]? = some p →
          p.MPI_neighbor_ 0 0 = p.MPI_me_ →
          vp.patches_[relabelTarget p0.hindex p]? = some l →
          ∃ q, r.state.objs[i]? = some q
            ∧ q.neighbor_ 0 0 = l.neighbor_ 0 0
            ∧ q.MPI_neighbor_ 0 0 = l.MPI_neighbor_ 0 0
            ∧ ∀ idim side : Nat, 1 ≤ idim → idim < env.nDim_particle → side < 2 →
                q.neighbor_ idim side = l.neighbor_ idim side
                ∧ q.MPI_neighbor_ idim side = l.MPI_neighbor_ idim side)
      ∧ (∀ order : List Nat, order.Nodup → (∀ i ∈ order, i < vp.patches_.length) →
          ∃ st, relabelLoop env p0.hindex p0.nSpecies order (initialState vp.patches_)
              = Except.ok st
            ∧ ∀ i ∈ order, ∀ (p l : WindowPatch D), vp.patches_[i]? = some p →
                p.MPI_neighbor_ 0 0 = p.MPI_me_ →
                vp.patches_[relabelTarget p0.hindex p]? = some l →
                ∃ m, st.objs[i]? = some m
                  ∧ m.tmp_neighbor_ 0 0 = l.neighbor_ 0 0
                  ∧ m.tmp_MPI_neighbor_ 0 0 = l.MPI_neighbor_ 0 0
                  ∧ ∀ idim side : Nat, 1 ≤ idim → idim < env.nDim_particle → side < 2 →
                      m.tmp_neighbor_ idim side = l.neighbor_ idim side
                      ∧ m.tmp_MPI_neighbor_ idim side = l.MPI_neighbor_ idim side) := by
  obtain ⟨r, first, extra, refresh, hop, _, _, _, _, _, _, _, _, hobjs, _⟩ :=
    operate_advancing env w vp time_dual p0 rest hmov hp hval
  refine ⟨r, hop, ?_, ?_⟩
  · intro i p l hpi hL hl
    have hLm : leftIsMine p = true := by simp [leftIsMine, hL]
    obtain ⟨s1, s2, s3⟩ :=
      relabelled_staged env.nDim_particle p0.hindex vp.patches_ p l hLm hl
    obtain ⟨c1, c2, c3⟩ := commitNeighbors_values env.nDim_particle
      (relabelled env.nDim_particle p0.hindex vp.patches_ p)
    refine ⟨_, by rw [hobjs i p hpi, if_pos hLm], by rw [c1, s1], by rw [c2, s2], ?_⟩
    intro idim side h1 h2 hs
    rw [(c3 idim side h1 h2 hs).1, (c3 idim side h1 h2 hs).2]
    exact s3 idim side h1 h2 hs
  · intro order hnd hlt
    obtain ⟨st, hrun, _, _, _, _, _, _, _, _, _, hin⟩ :=
      relabelLoop_spec env p0.hindex p0.nSpecies vp.patches_ order (initialState vp.patches_)
        rfl
        (by
          intro j a b ha hb
          have hb' : vp.patches_[j]? = some b := hb
          rw [ha] at hb'
          cases hb'
          exact sameFrame_refl a)
        (fun _ _ => rfl) hnd hlt
        (fun i _ p hpi hL => hval i p hpi hL)
    refine ⟨st, hrun, ?_⟩
    intro i hi p l hpi hL hl
    have hLm : leftIsMine p = true := by simp [leftIsMine, hL]
    exact ⟨_, hin i hi p hpi,
      relabelled_staged env.nDim_particle p0.hindex vp.patches_ p l hLm hl⟩

theorem operate_relabel_reads_pre_tick_witness :
    ∃ r, operate (lineEnv 0 0 4 8 false) scenarioBWindow scenarioBPatches 1 = Except.ok r
      ∧ (∀ (i : Nat) (p l : WindowPatch Int), scenarioBPatches.patches_[i]? = some p →
          p.MPI_neighbor_ 0 0 = p.MPI_me_ →
          scenarioBPatches.patches_[relabelTarget (linePatch 0 0 4 0).hindex p]? = some l →
          ∃ q, r.state.objs[i]? = some q
            ∧ q.neighbor_ 0 0 = l.neighbor_ 0 0
            ∧ q.MPI_neighbor_ 0 0 = l.MPI_neighbor_ 0 0
            ∧ ∀ idim side : Nat, 1 ≤ idim → idim < (lineEnv 0 0 4 8 false).nDim_particle →
                side < 2 →
                q.neighbor_ idim side = l.neighbor_ idim side
                ∧ q.MPI_neighbor_ idim side = l.MPI_neighbor_ idim side)
      ∧ (∀ order : List Nat, order.Nodup →
          (∀ i ∈ order, i < scenarioBPatches.patches_.length) →
          ∃ st, relabelLoop (lineEnv 0 0 4 8 false) (linePatch 0 0 4 0).hindex
                (linePatch 0 0 4 0).nSpecies order (initialState scenarioBPatches.patches_)
              = Except.ok st
            ∧ ∀ i ∈ order, ∀ (p l : WindowPatch Int), scenarioBPatches.patches_[i]? = some p →
                p.MPI_neighbor_ 0 0 = p.MPI_me_ →
                scenarioBPatches.patches_[relabelTarget (linePatch 0 0 4 0).hindex p]? = some l →
                ∃ m, st.objs[i]? = some m
                  ∧ m.tmp_neighbor_ 0 0 = l.neighbor_ 0 0
                  ∧ m.tmp_MPI_neighbor_ 0 0 = l.MPI_neighbor_ 0 0
                  ∧ ∀ idim side : Nat, 1 ≤ idim →
                      idim < (lineEnv 0 0 4 8 false).nDim_particle → side < 2 →
                      m.tmp_neighbor_ idim side = l.neighbor_ idim side
                      ∧ m.tmp_MPI_neighbor_ idim side = l.MPI_neighbor_ idim side) :=
  operate_relabel_reads_pre_tick (lineEnv 0 0 4 8 false) scenarioBWindow scenarioBPatches 1
    (linePatch 0 0 4 0) [linePatch 0 0 4 1, linePatch 0 0 4 2, linePatch 0 0 4 3]
    (by decide) rfl scenarioB_relabelValid

/-! ## Notification of the probes -/

theorem markProbes_flag (localDiags : List LocalDiag) (b : Bool)
    (h : LocalDiag.probes b ∈ markProbes localDiags) : b = true := by
  unfold markProbes at h
  obtain ⟨d, _, hd⟩ := List.mem_map.mp h
  cases d with
  | probes c => cases hd; rfl
  | track => cases hd
  | other => cases hd

/-- After every `VectorPatch::load_balance` that completes, every probe diagnostic of
`localDiags` has `patchesHaveMoved == true`, and the list has the same entries
otherwise. -/
theorem load_balance_marks_probes (sw : Option Nat) (rank : Nat)
    (pc : Nat → Nat) (nDim : Nat) (v : VectorPatch) (localDiags : List LocalDiag)
    (calls : List Call) (w : VectorPatch) (diags : List LocalDiag)
    (h : load_balance sw rank pc nDim v localDiags = Except.ok (calls, w, diags)) :
    diags.length = localDiags.length
    ∧ (∀ b, LocalDiag.probes b ∈ diags → b = true)
    ∧ rebalance sw rank pc nDim v = Except.ok (calls, w) := by
  unfold load_balance at h
  cases hr : rebalance sw rank pc nDim v with
  | error e => rw [hr] at h; cases h
  | ok cw =>
    rw [hr] at h
    obtain ⟨c, w'⟩ := cw
    simp only [Except.ok.injEq, Prod.mk.injEq] at h
    obtain ⟨rfl, rfl, rfl⟩ := h
    exact ⟨by simp [markProbes], fun b hb => markProbes_flag localDiags b hb, rfl⟩

/-- Counterexample to C23 as stated. In Scenario B with a `DiagnosticTrack` and a
`DiagnosticProbes` whose `patchesHaveMoved` is false, one advancing tick at `itime = 7`
leaves the flag false (it records `lastIterationPatchesMoved = 7` instead), while
`load_balance` on rank 0 of Scenario A with the same diagnostics sets the flag. -/
theorem operate_leaves_patchesHaveMoved :
    isMoving scenarioBWindow 1 = true
    ∧ scenarioBDiags = some ([LocalDiag.track, LocalDiag.probes false], 7)
    ∧ scenarioADiags = some [LocalDiag.track, LocalDiag.probes true] := by
  refine ⟨by decide, by decide, by decide⟩

theorem operateWithDiags_keeps_diags {D : Type} [Zero D] [Add D] [Sub D] [Mul D]
    [NatCast D] [LT D] [DecidableRel (fun a b : D => a < b)]
    (env : WindowEnv D) (w : SimWindow D) (vp : WindowVectorPatch D) (time_dual : D)
    (localDiags : List LocalDiag) (r : WindowResult D) (diags : List LocalDiag)
    (h : operateWithDiags env w vp time_dual localDiags = Except.ok (r, diags)) :
    diags = localDiags := by
  unfold operateWithDiags at h
  split at h
  · cases h
  · cases h
    rfl

/-- C23, as amended. Probes are told that patches moved after any rebalance or window
shift, by two different members.  After every `VectorPatch::load_balance` that completes,
every probe diagnostic of `localDiags` has `patchesHaveMoved == true` and the list has as
many entries as before.  After every advancing call of `SimWindow::operate` that
completes, `vecPatches.lastIterationPatchesMoved` is the current `itime`, the member that
`operate` sets for the probes, and `localDiags` is as it was: `operate` does not touch
`patchesHaveMoved`. -/
theorem probes_told_patches_moved {D : Type} [Zero D] [Add D] [Sub D] [Mul D]
    [NatCast D] [LT D] [DecidableRel (fun a b : D => a < b)] :
    (∀ (sw : Option Nat) (rank : Nat) (pc : Nat → Nat) (nDim : Nat) (v : VectorPatch)
        (localDiags : List LocalDiag) (calls : List Call) (w : VectorPatch)
        (diags : List LocalDiag),
        load_balance sw rank pc nDim v localDiags = Except.ok (calls, w, diags) →
        diags.length = localDiags.length ∧ ∀ b, LocalDiag.probes b ∈ diags → b = true)
    ∧ (∀ (env : WindowEnv D) (w : SimWindow D) (vp : WindowVectorPatch D) (time_dual : D)
        (localDiags : List LocalDiag) (r : WindowResult D) (diags : List LocalDiag),
        isMoving w time_dual = true →
        operateWithDiags env w vp time_dual localDiags = Except.ok (r, diags) →
        r.lastIterationPatchesMoved = env.itime ∧ diags = localDiags) := by
  constructor
  · intro sw rank pc nDim v localDiags calls w diags h
    obtain ⟨h1, h2, _⟩ := load_balance_marks_probes sw rank pc nDim v localDiags calls w diags h
    exact ⟨h1, h2⟩
  · intro env w vp time_dual localDiags r diags hmov h
    have hd := operateWithDiags_keeps_diags env w vp time_dual localDiags r diags h
    refine ⟨?_, hd⟩
    unfold operateWithDiags at h
    cases hop : operate { env with trackDiags := trackIndices localDiags } w vp time_dual with
    | error e => rw [hop] at h; cases h
    | ok r' =>
      rw [hop] at h
      simp only [Except.ok.injEq, Prod.mk.injEq] at h
      obtain ⟨rfl, _⟩ := h
      exact ((operate_ok_moved _ w vp time_dual r' hop).2 hmov).2.1

theorem probes_told_patches_moved_witness :
    (∃ calls w diags,
      load_balance none 0 (tableOf [2, 3, 3]) 1 (scenarioABefore 0)
          [LocalDiag.track, LocalDiag.probes false] = Except.ok (calls, w, diags)
      ∧ diags.length = 2 ∧ ∀ b, LocalDiag.probes b ∈ diags → b = true)
    ∧ (∃ r diags,
      operateWithDiags (lineEnv 0 0 4 8 false) scenarioBWindow scenarioBPatches 1
          [LocalDiag.track, LocalDiag.probes false] = Except.ok (r, diags)
      ∧ r.lastIterationPatchesMoved = (lineEnv 0 0 4 8 false).itime
      ∧ diags = [LocalDiag.track, LocalDiag.probes false]) := by
  have h := @probes_told_patches_moved Int _ _ _ _ _ _ _
  constructor
  · exact ⟨scenarioACalls 0, scenarioAAfter 0, [LocalDiag.track, LocalDiag.probes true], rfl,
      h.1 none 0 (tableOf [2, 3, 3]) 1 (scenarioABefore 0)
        [LocalDiag.track, LocalDiag.probes false] _ _ _ rfl⟩
  · obtain ⟨r, _, _, _, hop, _⟩ := operate_advancing
      { lineEnv 0 0 4 8 false with
        trackDiags := trackIndices [LocalDiag.track, LocalDiag.probes false] }
      scenarioBWindow scenarioBPatches 1 (linePatch 0 0 4 0) _ (by decide) rfl
      scenarioB_relabelValid
    have hrun : operateWithDiags (lineEnv 0 0 4 8 false) scenarioBWindow scenarioBPatches 1
        [LocalDiag.track, LocalDiag.probes false]
        = Except.ok (r, [LocalDiag.track, LocalDiag.probes false]) := by
      unfold operateWithDiags
      rw [hop]
    exact ⟨r, _, hrun, h.2 _ _ _ _ _ _ _ (by decide) hrun⟩

/-! ## `solvePoisson`: the iteration budget and the status report -/

theorem cgLoop_spec {D : Type} [LT D] [DecidableRel (fun a b : D => a < b)]
    (error_max : D) (ctrlOf : Nat → D) (iteration_max : Nat) :
    ∀ (fuel iteration : Nat), iteration + fuel = iteration_max →
      iteration ≤ cgLoop error_max ctrlOf iteration_max fuel iteration
      ∧ cgLoop error_max ctrlOf iteration_max fuel iteration ≤ iteration_max
      ∧ (∀ j, iteration ≤ j → j < cgLoop error_max ctrlOf iteration_max fuel iteration →
          ctrlOf j > error_max)
      ∧ ¬ (ctrlOf (cgLoop error_max ctrlOf iteration_max fuel iteration) > error_max
            ∧ cgLoop error_max ctrlOf iteration_max fuel iteration < iteration_max) := by
  intro fuel
  induction fuel with
  | zero =>
    intro iteration h
    rw [cgLoop]
    exact ⟨le_refl _, by omega, fun j h1 h2 => by omega, fun hc => by omega⟩
  | succ fuel ih =>
    intro iteration h
    rw [cgLoop]
    by_cases hc : ctrlOf iteration > error_max ∧ iteration < iteration_max
    · rw [if_pos hc]
      obtain ⟨h1, h2, h3, h4⟩ := ih (iteration + 1) (by omega)
      refine ⟨by omega, h2, ?_, h4⟩
      intro j hj1 hj2
      by_cases hji : j = iteration
      · rw [hji]
        exact hc.1
      · exact h3 j (by omega) hj2
    · rw [if_neg hc]
      exact ⟨le_refl _, by omega, fun j h1 h2 => by omega, hc⟩

theorem centeringVector_dims_gt_one {D : Type} [Zero D] [One D] [Add D] [Neg D] [Mul D]
    [Div D] (params : PoissonParams D) (world : List (PoissonRank D)) (dims : Nat)
    (generalhilbertindex : Nat → Nat → Int → Int → Int) (hrank : Int → Int)
    (h : dims > 1) :
    centeringVector params world dims generalhilbertindex hrank
      = Except.ok (List.replicate dims 0) := by
  unfold centeringVector
  simp only
  rw [if_pos h]

theorem centeringVector_dims_one {D : Type} [Zero D] [One D] [Add D] [Neg D] [Mul D]
    [Div D] (params : PoissonParams D) (world : List (PoissonRank D))
    (generalhilbertindex : Nat → Nat → Int → Int → Int) (hrank : Int → Int)
    (Ex_Xmin Ex_Xmax : D)
    (hmin : bcastFrom world 0 0 (fun p => p.getEx_Xmin) = Except.ok Ex_Xmin)
    (hmax : bcastFrom world ((world.length : Int) - 1)
      ((params.number_of_patches 0 : Int) - 1) (fun p => p.getEx_Xmax) = Except.ok Ex_Xmax) :
    centeringVector params world 1 generalhilbertindex hrank
      = Except.ok [-(1 / (1 + 1)) * (Ex_Xmin + Ex_Xmax)] := by
  unfold centeringVector
  simp only [gt_iff_lt, lt_self_iff_false, if_false, if_true, hmin, hmax]
  rfl

theorem solvePoisson_ok {D : Type} [Zero D] [One D] [Add D] [Neg D] [Mul D] [Div D]
    [NatCast D] [LT D] [DecidableRel (fun a b : D => a < b)]
    (params : PoissonParams D) (world : List (PoissonRank D)) (me : Nat) (isMaster : Bool)
    (dims : Nat) (rnew : Nat → D)
    (generalhilbertindex : Nat → Nat → Int → Int → Int) (hrank : Int → Int)
    (this : PoissonRank D) (p0 : PoissonPatch D) (rest : List (PoissonPatch D)) (E : List D)
    (hme : world[me]? = some this) (hp : this.patches_ = p0 :: rest)
    (hE : centeringVector params world dims generalhilbertindex hrank = Except.ok E) :
    ∃ r, solvePoisson params world me isMaster dims rnew generalhilbertindex hrank
        = Except.ok r
      ∧ r.iteration = cgLoop params.poisson_error_max
          (fun k => rnew k / ((nx_p2_global dims params.n_space_global : Nat) : D))
          params.poisson_iter_max params.poisson_iter_max 0
      ∧ r.ctrl = rnew r.iteration / ((nx_p2_global dims params.n_space_global : Nat) : D)
      ∧ r.status =
          (if params.poisson_iter_max > 0 ∧ r.iteration = params.poisson_iter_max then
            PoissonStatus.didNotConverge r.iteration r.ctrl
          else PoissonStatus.converged r.iteration r.ctrl)
      ∧ r.log = (if isMaster then [r.status] else [])
      ∧ r.E_Add = E
      ∧ r.centeringE = (List.range this.patches_.length).map (fun ipatch => (ipatch, E)) := by
  unfold solvePoisson
  rw [hme]
  simp only
  rw [hp]
  simp only [hE]
  exact ⟨_, rfl, rfl, rfl, rfl, rfl, rfl, rfl⟩

/-- Counterexample to C22 as stated, on a one-patch run with `error_max = 1` and
`nx_p2_global = 2`.  With `poisson_iter_max = 0` and a residual 10 no iteration is made,
the control parameter is 5, above `error_max`, and the report is "converged", not the
warning.  With `poisson_iter_max = 2` and residuals 10, 10, 0 the second iteration brings
the control parameter to 0, below `error_max`, and the report is the warning "did not
converge". -/
theorem solvePoisson_report_not_by_ctrl :
    poissonReport 0 1 (fun _ => 10) = some (0, 5, PoissonStatus.converged 0 5)
    ∧ (5 : Int) > 1
    ∧ poissonReport 2 1 (fun k => if k < 2 then 10 else 0)
        = some (2, 0, PoissonStatus.didNotConverge 2 0)
    ∧ ¬ ((0 : Int) > 1) := by
  refine ⟨by decide, by decide, by decide, by decide⟩

/-- C22, as amended. On a rank with at least one patch, and whatever the residuals are,
`solvePoisson` returns (when the centring that follows has the patches it reads) after at
most `poisson_iter_max` iterations, each of them started with `ctrl > error_max`.  If it
made fewer than `poisson_iter_max` iterations, the last `ctrl` is not above `error_max`
and it reports convergence.  If `poisson_iter_max > 0` and the last `ctrl` is still above
`error_max`, all `poisson_iter_max` iterations were made and it reports the warning; it
reports the warning only when `poisson_iter_max > 0` iterations were made.  If
`poisson_iter_max = 0` it makes no iteration and reports convergence whatever `ctrl` is.
The report is logged on the master only. -/
theorem solvePoisson_iteration_budget {D : Type} [Zero D] [One D] [Add D] [Neg D] [Mul D]
    [Div D] [NatCast D] [LT D] [DecidableRel (fun a b : D => a < b)]
    (params : PoissonParams D) (world : List (PoissonRank D)) (me : Nat) (isMaster : Bool)
    (dims : Nat) (rnew : Nat → D)
    (generalhilbertindex : Nat → Nat → Int → Int → Int) (hrank : Int → Int)
    (this : PoissonRank D) (p0 : PoissonPatch D) (rest : List (PoissonPatch D)) (E : List D)
    (hme : world[me]? = some this) (hp : this.patches_ = p0 :: rest)
    (hE : centeringVector params world dims generalhilbertindex hrank = Except.ok E) :
    ∃ r, solvePoisson params world me isMaster dims rnew generalhilbertindex hrank
        = Except.ok r
      ∧ r.iteration ≤ params.poisson_iter_max
      ∧ r.ctrl = rnew r.iteration / ((nx_p2_global dims params.n_space_global : Nat) : D)
      ∧ (∀ j, j < r.iteration →
          rnew j / ((nx_p2_global dims params.n_space_global : Nat) : D)
            > params.poisson_error_max)
      ∧ (r.iteration < params.poisson_iter_max →
          ¬ (r.ctrl > params.poisson_error_max)
          ∧ r.status = PoissonStatus.converged r.iteration r.ctrl)
      ∧ (0 < params.poisson_iter_max → r.ctrl > params.poisson_error_max →
          r.iteration = params.poisson_iter_max
          ∧ r.status = PoissonStatus.didNotConverge r.iteration r.ctrl)
      ∧ (∀ i c, r.status = PoissonStatus.didNotConverge i c →
          0 < params.poisson_iter_max ∧ r.iteration = params.poisson_iter_max)
      ∧ (params.poisson_iter_max = 0 →
          r.iteration = 0 ∧ r.status = PoissonStatus.converged 0 r.ctrl)
      ∧ r.log = (if isMaster then [r.status] else []) := by
  obtain ⟨r, hr, hit, hctrl, hst, hlog, _, _⟩ :=
    solvePoisson_ok params world me isMaster dims rnew generalhilbertindex hrank this p0 rest E
      hme hp hE
  obtain ⟨_, h2, h3, h4⟩ := cgLoop_spec params.poisson_error_max
    (fun k => rnew k / ((nx_p2_global dims params.n_space_global : Nat) : D))
    params.poisson_iter_max params.poisson_iter_max 0 (by omega)
  rw [← hit] at h2 h3 h4
  have h4' : ¬ (r.ctrl > params.poisson_error_max
      ∧ r.iteration < params.poisson_iter_max) := by
    rw [hctrl]
    exact h4
  clear h4
  rename' h4' => h4
  refine ⟨r, hr, h2, hctrl, fun j hj => h3 j (Nat.zero_le _) hj, ?_, ?_, ?_, ?_, hlog⟩
  · intro hlt
    refine ⟨fun hc => h4 ⟨hc, hlt⟩, ?_⟩
    rw [hst, if_neg (by omega)]
  · intro hpos hc
    have heq : r.iteration = params.poisson_iter_max := by
      by_contra hne
      exact h4 ⟨hc, by omega⟩
    refine ⟨heq, ?_⟩
    rw [hst, if_pos ⟨hpos, heq⟩]
  · intro i c hs
    rw [hst] at hs
    split at hs
    · rename_i h
      exact h
    · cases hs
  · intro h0
    have hz : r.iteration = 0 := by omega
    refine ⟨hz, ?_⟩
    rw [hst, if_neg (by omega), hz]

theorem solvePoisson_iteration_budget_witness :
    ∃ r, solvePoisson (poissonParams 2 (1 : Int)) [poissonRank 0 0 0 0 0 0] 0 true 1
          (fun _ => 10) (fun _ _ _ _ => 0) (fun _ => 0) = Except.ok r
      ∧ r.iteration ≤ (poissonParams 2 (1 : Int)).poisson_iter_max
      ∧ r.ctrl = (fun _ => 10) r.iteration
          / ((nx_p2_global 1 (poissonParams 2 (1 : Int)).n_space_global : Nat) : Int)
      ∧ (∀ j, j < r.iteration →
          (fun _ => (10 : Int)) j
              / ((nx_p2_global 1 (poissonParams 2 (1 : Int)).n_space_global : Nat) : Int)
            > (poissonParams 2 (1 : Int)).poisson_error_max)
      ∧ (r.iteration < (poissonParams 2 (1 : Int)).poisson_iter_max →
          ¬ (r.ctrl > (poissonParams 2 (1 : Int)).poisson_error_max)
          ∧ r.status = PoissonStatus.converged r.iteration r.ctrl)
      ∧ (0 < (poissonParams 2 (1 : Int)).poisson_iter_max →
          r.ctrl > (poissonParams 2 (1 : Int)).poisson_error_max →
          r.iteration = (poissonParams 2 (1 : Int)).poisson_iter_max
          ∧ r.status = PoissonStatus.didNotConverge r.iteration r.ctrl)
      ∧ (∀ i c, r.status = PoissonStatus.didNotConverge i c →
          0 < (poissonParams 2 (1 : Int)).poisson_iter_max
          ∧ r.iteration = (poissonParams 2 (1 : Int)).poisson_iter_max)
      ∧ ((poissonParams 2 (1 : Int)).poisson_iter_max = 0 →
          r.iteration = 0 ∧ r.status = PoissonStatus.converged 0 r.ctrl)
      ∧ r.log = (if true then [r.status] else []) :=
  solvePoisson_iteration_budget (poissonParams 2 (1 : Int)) [poissonRank 0 0 0 0 0 0] 0 true 1
    (fun _ => 10) (fun _ _ _ _ => 0) (fun _ => 0) (poissonRank 0 0 0 0 0 0) _ [] _ rfl rfl
    (centeringVector_dims_one _ _ _ _ 0 0 rfl rfl)

/-- C29 fails for two-dimensional fields. On a one-patch run with `Ex` 2 and 4 and `Ey` 6
and 8 at the Xmin-Ymax and Xmax-Ymin corners, the vector passed to `centeringE` is
`(0, 0)`, not `(-0.5*(2+4), -0.5*(6+8))`: the branch that computes the corner correction
is guarded by the same condition as the branch before it.  For one-dimensional fields
with `Ex` 1 at Xmin and 2 at Xmax the vector is `-0.5*(1+2)`. -/
theorem solvePoisson_2d_no_corner_correction :
    poissonCentering 2 (poissonRank 1 1 2 6 4 8) = some [0, 0]
    ∧ ([0, 0] : List Rat) ≠ [-(1 / 2) * (2 + 4), -(1 / 2) * (6 + 8)]
    ∧ poissonCentering 1 (poissonRank 1 2 2 6 4 8) = some [-(1 / 2) * (1 + 2)] := by
  refine ⟨by decide, by norm_num, ?_⟩
  have h : centeringVector (poissonParams 0 (0 : Rat)) [poissonRank 1 2 2 6 4 8] 1
      (fun _ _ _ _ => 0) (fun _ => 0) = Except.ok [-(1 / (1 + 1)) * ((1 : Rat) + 2)] :=
    centeringVector_dims_one _ _ _ _ 1 2 rfl rfl
  obtain ⟨r, hr, _, _, _, _, hE, _⟩ := solvePoisson_ok (poissonParams 0 (0 : Rat))
    [poissonRank 1 2 2 6 4 8] 0 true 1 (fun _ => 0) (fun _ _ _ _ => 0) (fun _ => 0)
    (poissonRank 1 2 2 6 4 8) _ [] _ rfl rfl h
  unfold poissonCentering
  rw [hr]
  simp only [hE]
  norm_num

/-- For fields of more than one dimension, `solvePoisson` passes the zero vector to
`centeringE` on every patch, whatever the corner values are. -/
theorem solvePoisson_centering_zero {D : Type} [Zero D] [One D] [Add D] [Neg D] [Mul D]
    [Div D] [NatCast D] [LT D] [DecidableRel (fun a b : D => a < b)]
    (params : PoissonParams D) (world : List (PoissonRank D)) (me : Nat) (isMaster : Bool)
    (dims : Nat) (rnew : Nat → D)
    (generalhilbertindex : Nat → Nat → Int → Int → Int) (hrank : Int → Int)
    (this : PoissonRank D) (p0 : PoissonPatch D) (rest : List (PoissonPatch D))
    (hme : world[me]? = some this) (hp : this.patches_ = p0 :: rest) (hdims : dims > 1) :
    ∃ r, solvePoisson params world me isMaster dims rnew generalhilbertindex hrank
        = Except.ok r
      ∧ r.E_Add = List.replicate dims 0
      ∧ r.centeringE
          = (List.range this.patches_.length).map (fun ipatch => (ipatch, List.replicate dims 0)) := by
  obtain ⟨r, hr, _, _, _, _, hE, hc⟩ :=
    solvePoisson_ok params world me isMaster dims rnew generalhilbertindex hrank this p0 rest _
      hme hp (centeringVector_dims_gt_one params world dims generalhilbertindex hrank hdims)
  exact ⟨r, hr, hE, hc⟩

/-- For one-dimensional fields, `solvePoisson` passes `-0.5*(Ex_Xmin + Ex_Xmax)` to
`centeringE` on every patch: `Ex_Xmin` read on rank 0 from the patch of hindex 0,
`Ex_Xmax` on the last rank from the patch of hindex `number_of_patches[0] - 1`. -/
theorem solvePoisson_centering_1d {D : Type} [Zero D] [One D] [Add D] [Neg D] [Mul D]
    [Div D] [NatCast D] [LT D] [DecidableRel (fun a b : D => a < b)]
    (params : PoissonParams D) (world : List (PoissonRank D)) (me : Nat) (isMaster : Bool)
    (rnew : Nat → D)
    (generalhilbertindex : Nat → Nat → Int → Int → Int) (hrank : Int → Int)
    (this : PoissonRank D) (p0 : PoissonPatch D) (rest : List (PoissonPatch D))
    (Ex_Xmin Ex_Xmax : D)
    (hme : world[me]? = some this) (hp : this.patches_ = p0 :: rest)
    (hmin : bcastFrom world 0 0 (fun p => p.getEx_Xmin) = Except.ok Ex_Xmin)
    (hmax : bcastFrom world ((world.length : Int) - 1)
      ((params.number_of_patches 0 : Int) - 1) (fun p => p.getEx_Xmax) = Except.ok Ex_Xmax) :
    ∃ r, solvePoisson params world me isMaster 1 rnew generalhilbertindex hrank = Except.ok r
      ∧ r.E_Add = [-(1 / (1 + 1)) * (Ex_Xmin + Ex_Xmax)]
      ∧ r.centeringE = (List.range this.patches_.length).map
          (fun ipatch => (ipatch, [-(1 / (1 + 1)) * (Ex_Xmin + Ex_Xmax)])) := by
  obtain ⟨r, hr, _, _, _, _, hE, hc⟩ :=
    solvePoisson_ok params world me isMaster 1 rnew generalhilbertindex hrank this p0 rest _
      hme hp (centeringVector_dims_one params world generalhilbertindex hrank Ex_Xmin Ex_Xmax
        hmin hmax)
  exact ⟨r, hr, hE, hc⟩

/-! ## `move_probes`: the scan of the patches -/

theorem outsideDims_true {D : Type} [LT D] [LE D] [DecidableRel (fun a b : D => a < b)]
    [DecidableRel (fun a b : D => a ≤ b)] (nDim : Nat) (pos : Nat → D)
    (patch : ProbePatch D) : outsideDims nDim pos patch true = true := by
  unfold outsideDims
  induction (List.range nDim) with
  | nil => rfl
  | cons d ds ih => rw [List.foldl_cons, Bool.true_or]; exact ih

/-- Once `isNotIn` is true the loop `while (isNotIn)` never ends normally: it raises the
"not in a patch" error, whatever the patches are. -/
theorem scanPatches_true_fails {D : Type} [LT D] [LE D] [DecidableRel (fun a b : D => a < b)]
    [DecidableRel (fun a b : D => a ≤ b)] (patches_ : List (ProbePatch D)) (nDim : Nat)
    (pos : Nat → D) (ipart_mpi : Nat) :
    ∀ (fuel iPatch ilocal_part : Nat),
      scanPatches patches_ nDim pos ipart_mpi fuel iPatch true ilocal_part
        = Except.error (ProbeFault.notInPatch ipart_mpi) := by
  intro fuel
  induction fuel with
  | zero => intro iPatch ilocal_part; rfl
  | succ fuel ih =>
    intro iPatch ilocal_part
    rw [scanPatches]
    simp only [if_true]
    by_cases h : iPatch + 1 ≥ patches_.length
    · rw [if_pos h]
    · rw [if_neg h, List.getElem?_eq_getElem (by omega)]
      simp only
      rw [outsideDims_true]
      exact ih _ _

/-- C28 fails. With two local patches of domains `[0, 10)` and `[10, 20)` and one probe
diagnostic with points at 5 and 15, `move_probes` raises "1 not in a patch on this
process" although the second patch contains the point 15: in the loop
`while (isNotIn)` the flag is only ever or-ed with the test of the next patch, so it
stays true until `iPatch` runs past the last patch.  With the single point 5 the point
is put in patch 0. -/
theorem move_probes_misses_next_patch :
    move_probes [probePatch 0 10, probePatch 10 20] 0 [some (probeLine [5, 15])]
      = Except.error (ProbeFault.notInPatch 1)
    ∧ outsideDims 1 (fun _ => (15 : Int)) (probePatch 10 20) false = false
    ∧ move_probes [probePatch 0 10, probePatch 10 20] 0 [some (probeLine [5])]
      = Except.ok [[{ ipart_mpi := 0, iPatch := 0, ilocal_part := 0 }]] := by
  refine ⟨by rfl, by decide, by rfl⟩

/-- A probe particle that is not in the current patch makes `move_probes` raise the
"not in a patch" error, also when a later patch contains it. -/
theorem placeProbes_fails_outside {D : Type} [Add D] [LT D] [LE D]
    [DecidableRel (fun a b : D => a < b)] [DecidableRel (fun a b : D => a ≤ b)]
    (patches_ : List (ProbePatch D)) (nDim : Nat) (x_moved : D) (row : Nat → D)
    (rows : List (Nat → D)) (ipart_mpi iPatch ilocal_part : Nat) (patch : ProbePatch D)
    (hp : patches_[iPatch]? = some patch)
    (hout : outsideDims nDim (fun iDim => if iDim = 0 then row 0 + x_moved else row iDim)
      patch false = true) :
    placeProbes patches_ nDim x_moved (row :: rows) ipart_mpi iPatch ilocal_part
      = Except.error (ProbeFault.notInPatch ipart_mpi) := by
  rw [placeProbes]
  simp only [hp, hout]
  rw [scanPatches_true_fails]

/-! ## `DiagnosticParticles::run`: the loops on the particles -/

theorem mem_binRange (bmin bmax j : Nat) : j ∈ binRange bmin bmax ↔ bmin ≤ j ∧ j < bmax := by
  unfold binRange
  rw [List.mem_range'_1]
  omega

theorem binRange_nodup (bmin bmax : Nat) : (binRange bmin bmax).Nodup :=
  List.nodup_range' _ _

theorem forParticles_set_aux {α : Type} (body : Nat → List α → Except DiagFault (List α))
    (v : Nat → α) (orig : List α) (is : List Nat) :
    ∀ arr : List α, is.Nodup → arr.length = orig.length → (∀ i ∈ is, i < orig.length) →
      (∀ i ∈ is, arr[i]? = orig[i]?) →
      (∀ i ∈ is, ∀ a : List α, a.length = orig.length → a[i]? = orig[i]? →
        body i a = Except.ok (a.set i (v i))) →
      ∃ res, forParticles body is arr = Except.ok res ∧ res.length = orig.length
        ∧ ∀ j : Nat, res[j]? = if j ∈ is then some (v j) else arr[j]? := by
  induction is with
  | nil =>
    intro arr _ hlen _ _ _
    exact ⟨arr, rfl, hlen, fun j => by simp⟩
  | cons i rest ih =>
    intro arr hnd hlen hlt harr hbody
    rw [forParticles, hbody i (List.mem_cons_self _ _) arr hlen (harr i (List.mem_cons_self _ _))]
    simp only
    have hi : i ∉ rest := (List.nodup_cons.mp hnd).1
    obtain ⟨res, hres, hrl, hget⟩ := ih (arr.set i (v i)) (List.nodup_cons.mp hnd).2
      (by rw [List.length_set]; exact hlen)
      (fun k hk => hlt k (List.mem_cons_of_mem _ hk))
      (by
        intro k hk
        have hki : i ≠ k := fun h => hi (h ▸ hk)
        rw [List.getElem?_set_ne hki]
        exact harr k (List.mem_cons_of_mem _ hk))
      (fun k hk => hbody k (List.mem_cons_of_mem _ hk))
    refine ⟨res, hres, hrl, ?_⟩
    intro j
    rw [hget j]
    by_cases hj : j ∈ rest
    · rw [if_pos hj, if_pos (List.mem_cons_of_mem _ hj)]
    · rw [if_neg hj]
      by_cases hji : j = i
      · subst hji
        rw [if_pos (List.mem_cons_self _ _)]
        exact List.getElem?_set_eq_of_lt _ (by rw [hlen]; exact hlt j (List.mem_cons_self _ _))
      · have : j ∉ i :: rest := by
          intro h
          rcases List.mem_cons.mp h with h | h
          · exact hji h
          · exact hj h
        rw [if_neg this]
        exact List.getElem?_set_ne (fun h => hji h.symm)

theorem forParticles_set {α : Type} (body : Nat → List α → Except DiagFault (List α))
    (v : Nat → α) (orig : List α) (is : List Nat) (hnd : is.Nodup)
    (hlt : ∀ i ∈ is, i < orig.length)
    (hbody : ∀ i ∈ is, ∀ a : List α, a.length = orig.length → a[i]? = orig[i]? →
      body i a = Except.ok (a.set i (v i))) :
    ∃ res, forParticles body is orig = Except.ok res ∧ res.length = orig.length
      ∧ ∀ j : Nat, res[j]? = if j ∈ is then some (v j) else orig[j]? :=
  forParticles_set_aux body v orig is orig hnd rfl hlt (fun _ _ => rfl) hbody

theorem forParticles_invariant {σ : Type} (body : Nat → σ → Except DiagFault σ)
    (Inv : σ → Prop) (is : List Nat) :
    ∀ st : σ, Inv st →
      (∀ i ∈ is, ∀ s : σ, Inv s → ∃ s', body i s = Except.ok s' ∧ Inv s') →
      ∃ st', forParticles body is st = Except.ok st' ∧ Inv st' := by
  induction is with
  | nil => intro st h _; exact ⟨st, rfl, h⟩
  | cons i rest ih =>
    intro st h hbody
    obtain ⟨s', hs', hinv⟩ := hbody i (List.mem_cons_self _ _) st h
    rw [forParticles, hs']
    exact ih s' hinv (fun k hk => hbody k (List.mem_cons_of_mem _ hk))

theorem readAt_ok {α : Type} (v : List α) (i : Nat) (a : α) (h : v[i]? = some a) :
    readAt v i = Except.ok a := by
  unfold readAt
  rw [h]

theorem writeAt_ok {α : Type} (v : List α) (i : Nat) (a : α) (h : i < v.length) :
    writeAt v i a = Except.ok (v.set i a) := by
  unfold writeAt
  rw [if_pos h]

theorem axisPass_spec {D : Type} [One D] [Add D] [Sub D] [Neg D] [Mul D] [Div D] [IntCast D]
    (fns : MathFns D) (s : DiagSpecies D) (chi : Option (List D)) (bmin bmax iaxis : Nat)
    (axis : DiagnosticParticlesAxis D) (A : List D) (I : List Int) (n : Nat)
    (hA : A.length = n) (hI : I.length = n) (hb : bmax ≤ n)
    (quantity : Nat → Except DiagFault D) (value : Nat → D)
    (hq : axisQuantity fns s chi axis.type = Except.ok quantity)
    (hv : ∀ j, bmin ≤ j → j < bmax → quantity j = Except.ok (value j)) :
    ∃ (A' : List D) (I' : List Int),
      axisPass fns s chi bmin bmax iaxis axis (A, I) = Except.ok (A', I')
      ∧ A'.length = n ∧ I'.length = n
      ∧ ∀ j : Nat, I'[j]? =
          if bmin ≤ j ∧ j < bmax then
            (I[j]?).map (fun idx =>
              binIndex axis.edge_inclusive axis.nbins (axisBin fns axis (value j))
                (if iaxis > 0 then wrapInt32 (idx * axis.nbins) else idx))
          else I[j]? := by
  have hr : ∀ i ∈ binRange bmin bmax, i < n := fun i hi =>
    lt_of_lt_of_le ((mem_binRange bmin bmax i).mp hi).2 hb
  -- the first loop
  obtain ⟨A1, hA1, hA1l, hA1g⟩ := forParticles_set
    (fun ipart (axis_array : List D) =>
      match quantity ipart with
      | Except.error e => Except.error e
      | Except.ok v => writeAt axis_array ipart v)
    value
    A (binRange bmin bmax) (binRange_nodup _ _) (by rw [hA]; exact hr)
    (by
      intro i hi a ha _
      have hvv := hv i ((mem_binRange _ _ _).mp hi).1 ((mem_binRange _ _ _).mp hi).2
      simp only [hvv]
      exact writeAt_ok a i _ (by rw [ha, hA]; exact hr i hi))
  -- the logarithm
  obtain ⟨A2, hA2, hA2l, hA2g⟩ : ∃ A2,
      (if axis.logscale then
          forParticles (fun ipart (axis_array : List D) =>
            match readAt axis_array ipart with
            | Except.error e => Except.error e
            | Except.ok v => writeAt axis_array ipart (fns.log10 v)) (binRange bmin bmax) A1
        else Except.ok A1) = Except.ok A2
      ∧ A2.length = n
      ∧ ∀ j ∈ binRange bmin bmax,
          A2[j]? = some (if axis.logscale then fns.log10 (value j) else value j) := by
    cases hlog : axis.logscale with
    | false =>
      refine ⟨A1, by simp, by rw [hA1l, hA], ?_⟩
      intro j hj
      rw [hA1g j, if_pos hj]
      rfl
    | true =>
      obtain ⟨A2, h2, h2l, h2g⟩ := forParticles_set
        (fun ipart (axis_array : List D) =>
          match readAt axis_array ipart with
          | Except.error e => Except.error e
          | Except.ok v => writeAt axis_array ipart (fns.log10 v))
        (fun j => fns.log10 (value j))
        A1 (binRange bmin bmax) (binRange_nodup _ _) (by rw [hA1l, hA]; exact hr)
        (by
          intro i hi a ha hai
          rw [hA1g i, if_pos hi] at hai
          beta_reduce
          rw [readAt_ok a i _ hai]
          exact writeAt_ok a i _ (by rw [ha, hA1l, hA]; exact hr i hi))
      refine ⟨A2, by simpa using h2, by rw [h2l, hA1l, hA], ?_⟩
      intro j hj
      rw [h2g j, if_pos hj]
      rfl
  -- the multiplication
  obtain ⟨I1, hI1, hI1l, hI1g⟩ : ∃ I1,
      (if iaxis > 0 then
          forParticles (fun ipart (index_array : List Int) =>
            match readAt index_array ipart with
            | Except.error e => Except.error e
            | Except.ok index => writeAt index_array ipart (wrapInt32 (index * axis.nbins)))
            (binRange bmin bmax) I
        else Except.ok I) = Except.ok I1
      ∧ I1.length = n
      ∧ ∀ j : Nat, I1[j]? = if j ∈ binRange bmin bmax then
          (I[j]?).map (fun idx => if iaxis > 0 then wrapInt32 (idx * axis.nbins) else idx)
          else I[j]? := by
    by_cases hi0 : iaxis > 0
    · obtain ⟨I1, h1, h1l, h1g⟩ := forParticles_set
        (fun ipart (index_array : List Int) =>
          match readAt index_array ipart with
          | Except.error e => Except.error e
          | Except.ok index => writeAt index_array ipart (wrapInt32 (index * axis.nbins)))
        (fun j => wrapInt32 ((I.getD j 0) * axis.nbins))
        I (binRange bmin bmax) (binRange_nodup _ _) (by rw [hI]; exact hr)
        (by
          intro i hi a ha hai
          have hlt : i < I.length := by rw [hI]; exact hr i hi
          have hIi : I[i]? = some (I.getD i 0) := by
            rw [List.getD_eq_getElem?_getD, List.getElem?_eq_getElem hlt]
            rfl
          rw [hIi] at hai
          beta_reduce
          rw [readAt_ok a i _ hai]
          exact writeAt_ok a i _ (by rw [ha]; exact hlt))
      refine ⟨I1, by rw [if_pos hi0]; exact h1, by rw [h1l, hI], ?_⟩
      intro j
      rw [h1g j]
      by_cases hj : j ∈ binRange bmin bmax
      · have hlt : j < I.length := by rw [hI]; exact hr j hj
        rw [if_pos hj, if_pos hj, List.getElem?_eq_getElem hlt, List.getD_eq_getElem?_getD,
          List.getElem?_eq_getElem hlt]
        simp [hi0]
      · rw [if_neg hj, if_neg hj]
    · refine ⟨I, by rw [if_neg hi0], hI, ?_⟩
      intro j
      by_cases hj : j ∈ binRange bmin bmax
      · rw [if_pos hj]
        cases I[j]? <;> simp [hi0]
      · rw [if_neg hj]
  -- the index
  obtain ⟨I2, hI2, hI2l, hI2g⟩ := forParticles_set
    (fun ipart (index_array : List Int) =>
      match readAt index_array ipart, readAt A2 ipart with
      | Except.ok index, Except.ok v =>
        writeAt index_array ipart
          (binIndex axis.edge_inclusive axis.nbins
            (fns.floor ((v - (if axis.logscale then fns.log10 axis.min else axis.min))
              * (((axis.nbins : Int) : D)
                / ((if axis.logscale then fns.log10 axis.max else axis.max)
                  - (if axis.logscale then fns.log10 axis.min else axis.min)))))
            index)
      | _, _ => Except.error DiagFault.outOfRange)
    (fun j => binIndex axis.edge_inclusive axis.nbins
      (fns.floor (((A2.getD j 1) - (if axis.logscale then fns.log10 axis.min else axis.min))
        * (((axis.nbins : Int) : D)
          / ((if axis.logscale then fns.log10 axis.max else axis.max)
            - (if axis.logscale then fns.log10 axis.min else axis.min)))))
      (I1.getD j 0))
    I1 (binRange bmin bmax) (binRange_nodup _ _) (by rw [hI1l]; exact hr)
    (by
      intro i hi a ha hai
      have hlt : i < I1.length := by rw [hI1l]; exact hr i hi
      have hIi : I1[i]? = some (I1.getD i 0) := by
        rw [List.getD_eq_getElem?_getD, List.getElem?_eq_getElem hlt]
        rfl
      have hlt2 : i < A2.length := by rw [hA2l]; exact hr i hi
      have hAi : A2[i]? = some (A2.getD i 1) := by
        rw [List.getD_eq_getElem?_getD, List.getElem?_eq_getElem hlt2]
        rfl
      rw [hIi] at hai
      beta_reduce
      rw [readAt_ok a i _ hai, readAt_ok A2 i _ hAi]
      exact writeAt_ok a i _ (by rw [ha]; exact hlt))
  refine ⟨A2, I2, ?_, hA2l, by rw [hI2l, hI1l], ?_⟩
  · unfold axisPass
    simp only [hq, hA1, hA2, hI1, hI2]
  · intro j
    rw [hI2g j]
    by_cases hj : j ∈ binRange bmin bmax
    · have hj' := (mem_binRange _ _ _).mp hj
      have hlt : j < I.length := by rw [hI]; exact hr j hj
      have h1 : I1.getD j 0 = (if iaxis > 0 then wrapInt32 (I[j] * axis.nbins) else I[j]) := by
        rw [List.getD_eq_getElem?_getD, hI1g j, if_pos hj, List.getElem?_eq_getElem hlt]
        rfl
      have h2 : A2.getD j 1 = (if axis.logscale then fns.log10 (value j) else value j) := by
        rw [List.getD_eq_getElem?_getD, hA2g j hj]
        rfl
      rw [if_pos hj, if_pos hj', h1, h2, List.getElem?_eq_getElem hlt]
      rfl
    · have hj' : ¬ (bmin ≤ j ∧ j < bmax) := fun h => hj ((mem_binRange _ _ _).mpr h)
      rw [if_neg hj, if_neg hj', hI1g j, if_neg hj]

theorem quantity_value {D : Type} [One D] (quantity : Nat → Except DiagFault D)
    (bmin bmax : Nat) (hv : ∀ j, bmin ≤ j → j < bmax → ∃ v, quantity j = Except.ok v) :
    ∃ value : Nat → D, ∀ j, bmin ≤ j → j < bmax → quantity j = Except.ok (value j) := by
  refine ⟨fun j => match quantity j with
    | Except.ok v => v
    | Except.error _ => 1, ?_⟩
  intro j h1 h2
  obtain ⟨v, hvv⟩ := hv j h1 h2
  simp only [hvv]

/-! ## `DiagnosticParticles::run`: the flattened index -/

theorem binIndex_neg (edge_inclusive : Bool) (axissize ind index : Int) (h : index < 0) :
    binIndex edge_inclusive axissize ind index = index := by
  unfold binIndex
  rw [if_pos h]

theorem binIndex_exact (edge_inclusive : Bool) (axissize ind index : Int)
    (hn : 1 ≤ axissize) (h : 0 ≤ index) (hfit : index + axissize ≤ 2147483648) :
    binIndex edge_inclusive axissize ind index =
      if !edge_inclusive then
        (if ind ≥ 0 ∧ ind < axissize then index + ind else -1)
      else
        index + (if (if ind < 0 then 0 else ind) ≥ axissize then axissize - 1
          else (if ind < 0 then 0 else ind)) := by
  unfold binIndex
  rw [if_neg (by omega)]
  cases edge_inclusive with
  | false =>
    simp only [Bool.not_false, if_true]
    by_cases hin : ind ≥ 0 ∧ ind < axissize
    · rw [if_pos hin, if_pos hin]
      exact wrapInt32_id _ (by omega) (by omega)
    · rw [if_neg hin, if_neg hin]
  | true =>
    simp only [Bool.not_true, Bool.false_eq_true, if_false]
    rw [wrapInt32_id (axissize - 1) (by omega) (by omega)]
    apply wrapInt32_id
    · split_ifs <;> omega
    · split_ifs <;> omega

theorem binIndex_discard (axissize ind index : Int) (h : 0 ≤ index)
    (hout : ¬ (0 ≤ ind ∧ ind < axissize)) : binIndex false axissize ind index = -1 := by
  unfold binIndex
  rw [if_neg (by omega)]
  simp only [Bool.not_false, if_true]
  rw [if_neg (by omega)]

theorem binIndex_inside (edge_inclusive : Bool) (axissize ind index : Int)
    (hn : 1 ≤ axissize) (h : 0 ≤ index) (hfit : index + axissize ≤ 2147483648)
    (hin : 0 ≤ ind ∧ ind < axissize) :
    binIndex edge_inclusive axissize ind index = index + ind := by
  rw [binIndex_exact _ _ _ _ hn h hfit]
  cases edge_inclusive with
  | false =>
    simp only [Bool.not_false, if_true]
    rw [if_pos (by omega)]
  | true =>
    simp only [Bool.not_true, Bool.false_eq_true, if_false]
    split_ifs <;> omega

theorem binIndex_clamp (axissize ind index : Int) (hn : 1 ≤ axissize) (h : 0 ≤ index)
    (hfit : index + axissize ≤ 2147483648) :
    (ind < 0 → binIndex true axissize ind index = index + 0)
    ∧ (ind ≥ axissize → binIndex true axissize ind index = index + (axissize - 1))
    ∧ 0 ≤ binIndex true axissize ind index := by
  rw [binIndex_exact _ _ _ _ hn h hfit]
  simp only [Bool.not_true, Bool.false_eq_true, if_false]
  refine ⟨?_, ?_, ?_⟩
  · intro hlt
    split_ifs <;> omega
  · intro hge
    split_ifs <;> omega
  · split_ifs <;> omega

theorem index_base (axissize idx P : Int) (iaxis : Nat) (hn : 1 ≤ axissize)
    (hlo : -P ≤ idx) (hhi : idx < P) (h0 : iaxis = 0 → P = 1 ∧ idx = 0)
    (hfit : P * axissize ≤ 2147483648) :
    (if iaxis > 0 then wrapInt32 (idx * axissize) else idx) = idx * axissize
    ∧ (if iaxis > 0 then idx * axissize else idx) = idx * axissize
    ∧ -(P * axissize) ≤ idx * axissize
    ∧ idx * axissize + axissize ≤ P * axissize
    ∧ (0 ≤ idx → 0 ≤ idx * axissize)
    ∧ (idx < 0 → idx * axissize < 0) := by
  have b3 : -(P * axissize) ≤ idx * axissize := by nlinarith
  have b4 : idx * axissize + axissize ≤ P * axissize := by nlinarith
  refine ⟨?_, ?_, b3, b4, fun h => by nlinarith, fun h => by nlinarith⟩
  · by_cases hi : iaxis > 0
    · rw [if_pos hi]
      exact wrapInt32_id _ (by omega) (by omega)
    · rw [if_neg hi]
      obtain ⟨_, hz⟩ := h0 (by omega)
      rw [hz]
      simp
  · by_cases hi : iaxis > 0
    · rw [if_pos hi]
    · rw [if_neg hi]
      obtain ⟨_, hz⟩ := h0 (by omega)
      rw [hz]
      simp

theorem binIndex_bounds (edge_inclusive : Bool) (axissize ind m Q : Int)
    (hn : 1 ≤ axissize) (hlo : -Q ≤ m) (hhi : m + axissize ≤ Q) (hfit : Q ≤ 2147483648) :
    -Q ≤ binIndex edge_inclusive axissize ind m
    ∧ binIndex edge_inclusive axissize ind m < Q
    ∧ (m < 0 → binIndex edge_inclusive axissize ind m < 0) := by
  by_cases hneg : m < 0
  · rw [binIndex_neg _ _ _ _ hneg]
    exact ⟨hlo, by omega, fun _ => hneg⟩
  · rw [binIndex_exact _ _ _ _ hn (by omega) (by omega)]
    cases edge_inclusive with
    | false =>
      simp only [Bool.not_false, if_true]
      refine ⟨?_, ?_, fun h => absurd h hneg⟩
      · split_ifs <;> omega
      · split_ifs <;> omega
    | true =>
      simp only [Bool.not_true, Bool.false_eq_true, if_false]
      refine ⟨?_, ?_, fun h => absurd h hneg⟩
      · split_ifs <;> omega
      · split_ifs <;> omega

theorem binIndex_step (edge_inclusive : Bool) (axissize ind idx P : Int) (iaxis : Nat)
    (hn : 1 ≤ axissize) (hlo : -P ≤ idx) (hhi : idx < P)
    (h0 : iaxis = 0 → P = 1 ∧ idx = 0) (hfit : P * axissize ≤ 2147483648) :
    -(P * axissize) ≤ binIndex edge_inclusive axissize ind
        (if iaxis > 0 then wrapInt32 (idx * axissize) else idx)
    ∧ binIndex edge_inclusive axissize ind
        (if iaxis > 0 then wrapInt32 (idx * axissize) else idx) < P * axissize
    ∧ (idx < 0 →
        binIndex edge_inclusive axissize ind
          (if iaxis > 0 then wrapInt32 (idx * axissize) else idx) < 0) := by
  obtain ⟨b1, _, b3, b4, _, b6⟩ := index_base axissize idx P iaxis hn hlo hhi h0 hfit
  rw [b1]
  obtain ⟨c1, c2, c3⟩ := binIndex_bounds edge_inclusive axissize ind (idx * axissize)
    (P * axissize) hn b3 b4 hfit
  exact ⟨c1, c2, fun h => c3 (b6 h)⟩

theorem foldl_nbins_ge_one {D : Type} (axes : List (DiagnosticParticlesAxis D))
    (hbins : ∀ axis ∈ axes, 1 ≤ axis.nbins) :
    ∀ P : Int, 1 ≤ P → P ≤ axes.foldl (fun output_size axis => output_size * axis.nbins) P := by
  induction axes with
  | nil => intro P _; exact le_refl _
  | cons a rest ih =>
    intro P hP
    rw [List.foldl_cons]
    have ha := hbins a (List.mem_cons_self _ _)
    have h1 : 1 ≤ P * a.nbins := by nlinarith
    have h2 : P ≤ P * a.nbins := by nlinarith
    exact le_trans h2 (ih (fun x hx => hbins x (List.mem_cons_of_mem _ hx)) _ h1)

theorem foldl_nbins_prod {D : Type} (axes : List (DiagnosticParticlesAxis D)) :
    ∀ P : Int, axes.foldl (fun output_size axis => output_size * axis.nbins) P
      = P * (axes.map (fun axis => axis.nbins)).prod := by
  induction axes with
  | nil => intro P; simp
  | cons a rest ih =>
    intro P
    rw [List.foldl_cons, ih, List.map_cons, List.prod_cons, mul_assoc]

theorem foldl_wrap_exact {D : Type} (axes : List (DiagnosticParticlesAxis D))
    (hbins : ∀ axis ∈ axes, 1 ≤ axis.nbins) :
    ∀ P : Int, 1 ≤ P →
      axes.foldl (fun output_size axis => output_size * axis.nbins) P < 2147483648 →
      axes.foldl (fun output_size axis => wrapInt32 (output_size * axis.nbins)) P
        = axes.foldl (fun output_size axis => output_size * axis.nbins) P := by
  induction axes with
  | nil => intro P _ _; rfl
  | cons a rest ih =>
    intro P hP hfit
    rw [List.foldl_cons] at hfit
    rw [List.foldl_cons, List.foldl_cons]
    have ha := hbins a (List.mem_cons_self _ _)
    have h1 : 1 ≤ P * a.nbins := by nlinarith
    have h2 := foldl_nbins_ge_one rest (fun x hx => hbins x (List.mem_cons_of_mem _ hx))
      (P * a.nbins) h1
    have h3 : wrapInt32 (P * a.nbins) = P * a.nbins :=
      wrapInt32_id _ (by omega) (by omega)
    rw [h3]
    exact ih (fun x hx => hbins x (List.mem_cons_of_mem _ hx)) _ h1 hfit

theorem outputSize_exact {D : Type} (axes : List (DiagnosticParticlesAxis D))
    (hbins : ∀ axis ∈ axes, 1 ≤ axis.nbins)
    (hfit : (axes.map (fun axis => axis.nbins)).prod < 2147483648) :
    outputSize axes = (axes.map (fun axis => axis.nbins)).prod
    ∧ outputSize axes = axes.foldl (fun output_size axis => output_size * axis.nbins) 1
    ∧ 1 ≤ outputSize axes := by
  have hp := foldl_nbins_prod axes 1
  rw [one_mul] at hp
  have he : outputSize axes
      = axes.foldl (fun output_size axis => output_size * axis.nbins) 1 := by
    unfold outputSize
    exact foldl_wrap_exact axes hbins 1 (le_refl _) (by rw [hp]; exact hfit)
  refine ⟨by rw [he, hp], he, ?_⟩
  rw [he]
  exact foldl_nbins_ge_one axes hbins 1 (le_refl _)

theorem resizeInt_length {α : Type} (v : List α) (n : Int) (fill : α) (hn : 0 ≤ n) :
    ∃ d, resizeInt v n fill = Except.ok d ∧ d.length = n.toNat := by
  refine ⟨resize v n.toNat fill, ?_, ?_⟩
  · unfold resizeInt
    rw [if_neg (by omega)]
  · unfold resize
    rw [List.length_append, List.length_take, List.length_replicate]
    omega

theorem binAxes_bounds {D : Type} [One D] [Add D] [Sub D] [Neg D] [Mul D] [Div D] [IntCast D]
    (fns : MathFns D) (s : DiagSpecies D) (chi : Option (List D)) (bmin bmax n : Nat)
    (hb : bmax ≤ n) :
    ∀ (axes : List (DiagnosticParticlesAxis D)) (iaxis : Nat) (A : List D) (I : List Int)
      (P : Int),
      A.length = n → I.length = n → 1 ≤ P →
      (∀ axis ∈ axes, 1 ≤ axis.nbins) →
      axes.foldl (fun output_size axis => output_size * axis.nbins) P ≤ 2147483648 →
      (∀ axis ∈ axes, ∃ quantity : Nat → Except DiagFault D,
        axisQuantity fns s chi axis.type = Except.ok quantity
        ∧ ∀ j, bmin ≤ j → j < bmax → ∃ v, quantity j = Except.ok v) →
      (∀ j : Nat, bmin ≤ j → j < bmax →
        ∃ idx : Int, I[j]? = some idx ∧ -P ≤ idx ∧ idx < P ∧ (iaxis = 0 → P = 1 ∧ idx = 0)) →
      ∃ (A' : List D) (I' : List Int),
        binAxes fns s chi bmin bmax axes iaxis (A, I) = Except.ok (A', I')
        ∧ A'.length = n ∧ I'.length = n
        ∧ (∀ j : Nat, ¬ (bmin ≤ j ∧ j < bmax) → I'[j]? = I[j]?)
        ∧ ∀ j : Nat, bmin ≤ j → j < bmax →
          ∃ idx idx' : Int, I[j]? = some idx ∧ I'[j]? = some idx'
            ∧ -(axes.foldl (fun output_size axis => output_size * axis.nbins) P) ≤ idx'
            ∧ idx' < axes.foldl (fun output_size axis => output_size * axis.nbins) P
            ∧ (idx < 0 → idx' < 0) := by
  intro axes
  induction axes with
  | nil =>
    intro iaxis A I P hA hI _ _ _ _ hinv
    refine ⟨A, I, rfl, hA, hI, fun _ _ => rfl, ?_⟩
    intro j h1 h2
    obtain ⟨idx, hidx, hlo, hhi, _⟩ := hinv j h1 h2
    exact ⟨idx, idx, hidx, hidx, hlo, hhi, fun h => h⟩
  | cons a rest ih =>
    intro iaxis A I P hA hI hP hbins hfit hknown hinv
    obtain ⟨quantity, hq, hv⟩ := hknown a (List.mem_cons_self _ _)
    obtain ⟨value, hval⟩ := quantity_value quantity bmin bmax hv
    obtain ⟨A1, I1, hpass, hA1, hI1, hget⟩ :=
      axisPass_spec fns s chi bmin bmax iaxis a A I n hA hI hb quantity value hq hval
    have hn := hbins a (List.mem_cons_self _ _)
    have hPn : 1 ≤ P * a.nbins := by nlinarith
    rw [List.foldl_cons] at hfit
    have hfit1 : P * a.nbins ≤ 2147483648 :=
      le_trans (foldl_nbins_ge_one rest (fun x hx => hbins x (List.mem_cons_of_mem _ hx))
        (P * a.nbins) hPn) hfit
    have hinv1 : ∀ j : Nat, bmin ≤ j → j < bmax →
        ∃ idx : Int, I1[j]? = some idx ∧ -(P * a.nbins) ≤ idx ∧ idx < P * a.nbins
          ∧ (iaxis + 1 = 0 → P * a.nbins = 1 ∧ idx = 0) := by
      intro j h1 h2
      obtain ⟨idx, hidx, hlo, hhi, h0⟩ := hinv j h1 h2
      obtain ⟨s1, s2, _⟩ := binIndex_step a.edge_inclusive a.nbins
        (axisBin fns a (value j)) idx P iaxis hn hlo hhi h0 hfit1
      refine ⟨_, ?_, s1, s2, fun h => absurd h (Nat.succ_ne_zero _)⟩
      rw [hget j, if_pos ⟨h1, h2⟩, hidx]
      rfl
    obtain ⟨A2, I2, hrest, hA2, hI2, hframe, hfin⟩ :=
      ih (iaxis + 1) A1 I1 (P * a.nbins) hA1 hI1 hPn
        (fun x hx => hbins x (List.mem_cons_of_mem _ hx)) hfit
        (fun x hx => hknown x (List.mem_cons_of_mem _ hx)) hinv1
    refine ⟨A2, I2, ?_, hA2, hI2, ?_, ?_⟩
    · rw [binAxes, hpass]
      exact hrest
    · intro j hj
      rw [hframe j hj, hget j, if_neg hj]
    · intro j h1 h2
      obtain ⟨idx, hidx, hlo, hhi, h0⟩ := hinv j h1 h2
      obtain ⟨idx1, idx2, hidx1, hidx2, b1, b2, b3⟩ := hfin j h1 h2
      obtain ⟨_, _, s3⟩ := binIndex_step a.edge_inclusive a.nbins
        (axisBin fns a (value j)) idx P iaxis hn hlo hhi h0 hfit1
      have e1 : idx1 = binIndex a.edge_inclusive a.nbins (axisBin fns a (value j))
          (if iaxis > 0 then wrapInt32 (idx * a.nbins) else idx) := by
        have := hget j
        rw [if_pos ⟨h1, h2⟩, hidx, hidx1] at this
        exact Option.some.inj this
      refine ⟨idx, idx2, hidx, hidx2, ?_, ?_, ?_⟩
      · rw [List.foldl_cons]; exact b1
      · rw [List.foldl_cons]; exact b2
      · intro hneg
        exact b3 (by rw [e1]; exact s3 hneg)

theorem binAxes_append {D : Type} [One D] [Add D] [Sub D] [Neg D] [Mul D] [Div D] [IntCast D]
    (fns : MathFns D) (s : DiagSpecies D) (chi : Option (List D)) (bmin bmax : Nat) :
    ∀ (pre post : List (DiagnosticParticlesAxis D)) (iaxis : Nat) (st : List D × List Int),
      binAxes fns s chi bmin bmax (pre ++ post) iaxis st =
        match binAxes fns s chi bmin bmax pre iaxis st with
        | Except.error e => Except.error e
        | Except.ok mid => binAxes fns s chi bmin bmax post (iaxis + pre.length) mid := by
  intro pre
  induction pre with
  | nil => intro post iaxis st; simp [binAxes]
  | cons a rest ih =>
    intro post iaxis st
    rw [List.cons_append, binAxes, binAxes]
    cases hpass : axisPass fns s chi bmin bmax iaxis a st with
    | error e => rfl
    | ok st1 =>
      simp only []
      rw [ih post (iaxis + 1) st1, List.length_cons]
      have : iaxis + 1 + rest.length = iaxis + (rest.length + 1) := by omega
      rw [this]

theorem accumulate_ok {D : Type} [Add D] (index_array : List Int) (data_array : List D)
    (bmin bmax n : Nat) (size : Int) (data_sum : List D)
    (hD : data_array.length = n) (hb : bmax ≤ n)
    (hS : data_sum.length = size.toNat)
    (hidx : ∀ j : Nat, bmin ≤ j → j < bmax →
      ∃ idx : Int, index_array[j]? = some idx ∧ idx < size) :
    ∃ data_sum' : List D,
      accumulate index_array data_array bmin bmax data_sum = Except.ok data_sum'
      ∧ data_sum'.length = data_sum.length := by
  unfold accumulate
  refine forParticles_invariant _ (fun d : List D => d.length = data_sum.length)
    (binRange bmin bmax) data_sum rfl ?_
  intro i hi d hd
  obtain ⟨h1, h2⟩ := (mem_binRange bmin bmax i).mp hi
  obtain ⟨idx, hget, hlt⟩ := hidx i h1 h2
  beta_reduce
  rw [readAt_ok _ _ _ hget]
  simp only []
  by_cases hneg : idx < 0
  · rw [if_pos hneg]
    exact ⟨d, rfl, hd⟩
  · rw [if_neg hneg]
    have hin : idx.toNat < d.length := by
      rw [hd, hS]
      omega
    have hv : i < data_array.length := by omega
    rw [readAt_ok d idx.toNat d[idx.toNat] (List.getElem?_eq_getElem hin),
      readAt_ok data_array i data_array[i] (List.getElem?_eq_getElem hv)]
    simp only []
    rw [writeAt_ok _ _ _ hin]
    exact ⟨_, rfl, by rw [List.length_set]; exact hd⟩

theorem binAxes_split {D : Type} [One D] [Add D] [Sub D] [Neg D] [Mul D] [Div D] [IntCast D]
    (fns : MathFns D) (s : DiagSpecies D) (chi : Option (List D)) (bmin bmax n : Nat)
    (hb : bmax ≤ n) (A : List D) (I : List Int) (hA : A.length = n) (hI : I.length = n)
    (hfresh : ∀ j : Nat, bmin ≤ j → j < bmax → I[j]? = some 0)
    (pre post : List (DiagnosticParticlesAxis D)) (axis : DiagnosticParticlesAxis D)
    (hbins : ∀ a ∈ pre ++ axis :: post, 1 ≤ a.nbins)
    (hfit : (pre ++ axis :: post).foldl (fun output_size a => output_size * a.nbins) 1
      ≤ 2147483648)
    (hknown : ∀ a ∈ pre ++ axis :: post, ∃ quantity : Nat → Except DiagFault D,
      axisQuantity fns s chi a.type = Except.ok quantity
      ∧ ∀ j, bmin ≤ j → j < bmax → ∃ v, quantity j = Except.ok v) :
    ∃ (mid mid' fin : List D × List Int) (quantity : Nat → Except DiagFault D),
      axisQuantity fns s chi axis.type = Except.ok quantity
      ∧ binAxes fns s chi bmin bmax pre 0 (A, I) = Except.ok mid
      ∧ axisPass fns s chi bmin bmax pre.length axis mid = Except.ok mid'
      ∧ binAxes fns s chi bmin bmax post (pre.length + 1) mid' = Except.ok fin
      ∧ binAxes fns s chi bmin bmax (pre ++ axis :: post) 0 (A, I) = Except.ok fin
      ∧ ∀ j : Nat, bmin ≤ j → j < bmax →
        ∃ (v : D) (before after final : Int),
          quantity j = Except.ok v
          ∧ mid.2[j]? = some before ∧ mid'.2[j]? = some after ∧ fin.2[j]? = some final
          ∧ after = binIndex axis.edge_inclusive axis.nbins (axisBin fns axis v)
              (if pre.length > 0 then wrapInt32 (before * axis.nbins) else before)
          ∧ (if pre.length > 0 then wrapInt32 (before * axis.nbins) else before)
              = (if pre.length > 0 then before * axis.nbins else before)
          ∧ (0 ≤ before → 0 ≤ (if pre.length > 0 then before * axis.nbins else before)
              ∧ (if pre.length > 0 then before * axis.nbins else before) + axis.nbins
                  ≤ 2147483648)
          ∧ -((pre ++ axis :: post).foldl (fun output_size a => output_size * a.nbins) 1)
              ≤ after
          ∧ after < (pre ++ axis :: post).foldl (fun output_size a => output_size * a.nbins) 1
          ∧ (before < 0 → after < 0)
          ∧ (after < 0 → final < 0) := by
  have hbpre : ∀ a ∈ pre, 1 ≤ a.nbins := fun a ha =>
    hbins a (List.mem_append_left _ ha)
  have hbpost : ∀ a ∈ post, 1 ≤ a.nbins := fun a ha =>
    hbins a (List.mem_append_right _ (List.mem_cons_of_mem _ ha))
  have hn : 1 ≤ axis.nbins := hbins axis (List.mem_append_right _ (List.mem_cons_self _ _))
  have hP : (1 : Int) ≤ pre.foldl (fun output_size a => output_size * a.nbins) 1 :=
    foldl_nbins_ge_one pre hbpre 1 (le_refl _)
  have hPn : (1 : Int) ≤ pre.foldl (fun output_size a => output_size * a.nbins) 1
      * axis.nbins := by nlinarith
  have hsize : (pre ++ axis :: post).foldl (fun output_size a => output_size * a.nbins) 1 =
      post.foldl (fun output_size a => output_size * a.nbins)
        (pre.foldl (fun output_size a => output_size * a.nbins) 1 * axis.nbins) := by
    rw [List.foldl_append, List.foldl_cons]
  have hmono := foldl_nbins_ge_one post hbpost _ hPn
  rw [hsize] at hfit
  have hfitn : pre.foldl (fun output_size a => output_size * a.nbins) 1 * axis.nbins
      ≤ 2147483648 := le_trans hmono hfit
  have hfitp : pre.foldl (fun output_size a => output_size * a.nbins) 1 ≤ 2147483648 := by
    have : pre.foldl (fun output_size a => output_size * a.nbins) 1
        ≤ pre.foldl (fun output_size a => output_size * a.nbins) 1 * axis.nbins := by
      nlinarith
    exact le_trans this hfitn
  -- the axes before
  obtain ⟨A1, I1, hpre, hA1, hI1, _, hb1⟩ :=
    binAxes_bounds fns s chi bmin bmax n hb pre 0 A I 1 hA hI (le_refl _) hbpre hfitp
      (fun a ha => hknown a (List.mem_append_left _ ha))
      (fun j h1 h2 => ⟨0, hfresh j h1 h2, by omega, by omega, fun _ => ⟨rfl, rfl⟩⟩)
  have hzero : pre.length = 0 → ∀ j : Nat, bmin ≤ j → j < bmax →
      pre.foldl (fun output_size a => output_size * a.nbins) 1 = 1 ∧ I1[j]? = some 0 := by
    intro h0 j h1 h2
    have hnil : pre = [] := List.length_eq_zero.mp h0
    subst hnil
    rw [binAxes] at hpre
    have : (A, I) = (A1, I1) := Except.ok.inj hpre
    have hII : I = I1 := congrArg Prod.snd this
    rw [← hII]
    exact ⟨rfl, hfresh j h1 h2⟩
  -- this axis
  obtain ⟨quantity, hq, hv⟩ := hknown axis (List.mem_append_right _ (List.mem_cons_self _ _))
  obtain ⟨value, hval⟩ := quantity_value quantity bmin bmax hv
  obtain ⟨A2, I2, hpass, hA2, hI2, hget⟩ :=
    axisPass_spec fns s chi bmin bmax pre.length axis A1 I1 n hA1 hI1 hb quantity value hq hval
  have hstep : ∀ j : Nat, bmin ≤ j → j < bmax → ∃ before : Int,
      I1[j]? = some before
      ∧ I2[j]? = some (binIndex axis.edge_inclusive axis.nbins (axisBin fns axis (value j))
          (if pre.length > 0 then wrapInt32 (before * axis.nbins) else before))
      ∧ -(pre.foldl (fun output_size a => output_size * a.nbins) 1 * axis.nbins) ≤
          binIndex axis.edge_inclusive axis.nbins (axisBin fns axis (value j))
            (if pre.length > 0 then wrapInt32 (before * axis.nbins) else before)
      ∧ binIndex axis.edge_inclusive axis.nbins (axisBin fns axis (value j))
            (if pre.length > 0 then wrapInt32 (before * axis.nbins) else before)
          < pre.foldl (fun output_size a => output_size * a.nbins) 1 * axis.nbins
      ∧ (before < 0 → binIndex axis.edge_inclusive axis.nbins (axisBin fns axis (value j))
            (if pre.length > 0 then wrapInt32 (before * axis.nbins) else before) < 0)
      ∧ (if pre.length > 0 then wrapInt32 (before * axis.nbins) else before)
          = (if pre.length > 0 then before * axis.nbins else before)
      ∧ (0 ≤ before → 0 ≤ (if pre.length > 0 then before * axis.nbins else before)
          ∧ (if pre.length > 0 then before * axis.nbins else before) + axis.nbins
              ≤ 2147483648) := by
    intro j h1 h2
    obtain ⟨_, before, _, hbef, hlo, hhi, _⟩ := hb1 j h1 h2
    have h0 : pre.length = 0 →
        pre.foldl (fun output_size a => output_size * a.nbins) 1 = 1 ∧ before = 0 := by
      intro h0
      obtain ⟨e1, e2⟩ := hzero h0 j h1 h2
      rw [hbef] at e2
      exact ⟨e1, Option.some.inj e2⟩
    obtain ⟨s1, s2, s3⟩ := binIndex_step axis.edge_inclusive axis.nbins
      (axisBin fns axis (value j)) before _ pre.length hn hlo hhi h0 hfitn
    obtain ⟨b1, b2, _, b4, b5, _⟩ := index_base axis.nbins before _ pre.length hn hlo hhi h0
      hfitn
    refine ⟨before, hbef, ?_, s1, s2, s3, by rw [b1, b2], ?_⟩
    · rw [hget j, if_pos ⟨h1, h2⟩, hbef]
      rfl
    · intro hnn
      rw [b2]
      exact ⟨b5 hnn, le_trans b4 hfitn⟩
  -- the axes after
  obtain ⟨A3, I3, hpost, _, _, _, hb3⟩ :=
    binAxes_bounds fns s chi bmin bmax n hb post (pre.length + 1) A2 I2 _ hA2 hI2 hPn hbpost
      hfit
      (fun a ha => hknown a (List.mem_append_right _ (List.mem_cons_of_mem _ ha)))
      (fun j h1 h2 => by
        obtain ⟨before, _, h2', s1, s2, _⟩ := hstep j h1 h2
        exact ⟨_, h2', s1, s2, fun h => absurd h (Nat.succ_ne_zero _)⟩)
  refine ⟨(A1, I1), (A2, I2), (A3, I3), quantity, hq, hpre, hpass, hpost, ?_, ?_⟩
  · rw [binAxes_append, hpre]
    simp only []
    rw [binAxes, Nat.zero_add, hpass]
    exact hpost
  · intro j h1 h2
    obtain ⟨before, hbef, haft, s1, s2, s3, s4, s5⟩ := hstep j h1 h2
    obtain ⟨after, final, haft', hfin, _, _, hneg⟩ := hb3 j h1 h2
    have e : after = binIndex axis.edge_inclusive axis.nbins (axisBin fns axis (value j))
        (if pre.length > 0 then wrapInt32 (before * axis.nbins) else before) := by
      rw [haft] at haft'
      exact (Option.some.inj haft').symm
    refine ⟨value j, before, after, final, hval j h1 h2, hbef, haft', hfin, e, s4, s5,
      ?_, ?_, ?_, hneg⟩
    · rw [hsize, e]
      exact le_trans (neg_le_neg hmono) s1
    · rw [hsize, e]
      exact lt_of_lt_of_le s2 hmono
    · rw [e]; exact s3

/-- C30, as amended.  Histogram bin indices of `DiagnosticParticles::run` stay in range as
long as the product of the `nbins` fits the 32-bit `int` `output_size`.  For a bin
`[bmin, bmax)` of a species whose work arrays have one entry per particle and whose
`index_array` is still 0 on the bin, for axes with `nbins ≥ 1` each whose quantities can be
read and whose product of `nbins` is below `2^31`, and for a `data_sum` of `output_size`
entries: `output_size` is the product of the `nbins`, and the resize of `data_sum` to it
gives that many entries; the loop on the axes finishes; every particle of the bin ends with
a flattened index that is negative or lies in `[0, output_size)`, and never below
`-output_size`; the indices outside the bin are untouched; the accumulation
`data_sum[ind] += data_array[ipart]` finishes without an access out of bounds.  At every
axis of the list, with `v` the axis quantity of the particle and
`axisBin = floor((v - min) * nbins / (max - min))` its bin number (on the `log10` of `v`,
`min`, `max` for a logarithmic axis): the index after the axis is `binIndex` of that bin
number and of the index before the axis (multiplied by `nbins` from the second axis on,
without overflow); a particle that was kept and falls outside a non-edge-inclusive axis
gets the index -1; on an edge-inclusive axis a kept particle stays kept and a bin number
below 0 or at least `nbins` counts as bin 0 or bin `nbins - 1`; a particle whose index is
negative before or after an axis has a negative index at the end. -/
theorem run_indices_in_range_when_size_fits {D : Type} [One D] [Add D] [Sub D] [Neg D]
    [Mul D] [Div D] [IntCast D] (fns : MathFns D) (s : DiagSpecies D)
    (chi : Option (List D)) (bmin bmax : Nat) (axes : List (DiagnosticParticlesAxis D))
    (axis_array : List D) (index_array : List Int) (data_array data_sum : List D)
    (hA : axis_array.length = s.particles.length)
    (hI : index_array.length = s.particles.length)
    (hD : data_array.length = s.particles.length)
    (hb : bmax ≤ s.particles.length)
    (hS : data_sum.length = (outputSize axes).toNat)
    (hfresh : ∀ j : Nat, bmin ≤ j → j < bmax → index_array[j]? = some 0)
    (hbins : ∀ axis ∈ axes, 1 ≤ axis.nbins)
    (hfit : (axes.map (fun axis => axis.nbins)).prod < 2147483648)
    (hknown : ∀ axis ∈ axes, ∃ quantity : Nat → Except DiagFault D,
      axisQuantity fns s chi axis.type = Except.ok quantity
      ∧ ∀ j, bmin ≤ j → j < bmax → ∃ v, quantity j = Except.ok v) :
    outputSize axes = (axes.map (fun axis => axis.nbins)).prod
    ∧ (∀ (old : List D) (fill : D), ∃ resized : List D,
        resizeInt old (outputSize axes) fill = Except.ok resized
        ∧ resized.length = (outputSize axes).toNat)
    ∧ ∃ (axis_array' : List D) (index_array' : List Int),
      binAxes fns s chi bmin bmax axes 0 (axis_array, index_array)
        = Except.ok (axis_array', index_array')
      ∧ (∀ j : Nat, bmin ≤ j → j < bmax →
          ∃ ind : Int, index_array'[j]? = some ind
            ∧ (ind < 0 ∨ (0 ≤ ind ∧ ind < outputSize axes)) ∧ -(outputSize axes) ≤ ind)
      ∧ (∀ j : Nat, ¬ (bmin ≤ j ∧ j < bmax) → index_array'[j]? = index_array[j]?)
      ∧ (∃ data_sum' : List D,
          accumulate index_array' data_array bmin bmax data_sum = Except.ok data_sum'
          ∧ data_sum'.length = data_sum.length)
      ∧ ∀ (pre post : List (DiagnosticParticlesAxis D)) (axis : DiagnosticParticlesAxis D),
          axes = pre ++ axis :: post →
          ∃ (mid mid' : List D × List Int) (quantity : Nat → Except DiagFault D),
            axisQuantity fns s chi axis.type = Except.ok quantity
            ∧ binAxes fns s chi bmin bmax pre 0 (axis_array, index_array) = Except.ok mid
            ∧ axisPass fns s chi bmin bmax pre.length axis mid = Except.ok mid'
            ∧ binAxes fns s chi bmin bmax post (pre.length + 1) mid'
                = Except.ok (axis_array', index_array')
            ∧ ∀ j : Nat, bmin ≤ j → j < bmax →
              ∃ (v : D) (before after final : Int),
                quantity j = Except.ok v
                ∧ mid.2[j]? = some before ∧ mid'.2[j]? = some after
                ∧ index_array'[j]? = some final
                ∧ after = binIndex axis.edge_inclusive axis.nbins (axisBin fns axis v)
                    (if pre.length > 0 then wrapInt32 (before * axis.nbins) else before)
                ∧ (if pre.length > 0 then wrapInt32 (before * axis.nbins) else before)
                    = (if pre.length > 0 then before * axis.nbins else before)
                ∧ -(outputSize axes) ≤ after ∧ after < outputSize axes
                ∧ (0 ≤ before → axis.edge_inclusive = false →
                    ¬ (0 ≤ axisBin fns axis v ∧ axisBin fns axis v < axis.nbins) →
                    after = -1)
                ∧ (0 ≤ before → axis.edge_inclusive = true →
                    0 ≤ after
                    ∧ (axisBin fns axis v < 0 →
                        after = (if pre.length > 0 then before * axis.nbins else before) + 0)
                    ∧ (axisBin fns axis v ≥ axis.nbins →
                        after = (if pre.length > 0 then before * axis.nbins else before)
                          + (axis.nbins - 1)))
                ∧ (0 ≤ before → 0 ≤ axisBin fns axis v ∧ axisBin fns axis v < axis.nbins →
                    after = (if pre.length > 0 then before * axis.nbins else before)
                      + axisBin fns axis v)
                ∧ (before < 0 → final < 0)
                ∧ (after < 0 → final < 0) := by
  obtain ⟨hprod, hexact, hone⟩ := outputSize_exact axes hbins hfit
  have hfit' : axes.foldl (fun output_size axis => output_size * axis.nbins) 1
      ≤ 2147483648 := by
    rw [← hexact, hprod]
    exact le_of_lt hfit
  refine ⟨hprod, fun old fill => resizeInt_length old _ fill (le_trans (by decide) hone), ?_⟩
  obtain ⟨A', I', hrun, _, _, hframe, hbound⟩ :=
    binAxes_bounds fns s chi bmin bmax s.particles.length hb axes 0 axis_array index_array 1
      hA hI (le_refl _) hbins hfit' hknown
      (fun j h1 h2 => ⟨0, hfresh j h1 h2, by omega, by omega, fun _ => ⟨rfl, rfl⟩⟩)
  rw [← hexact] at hbound
  have hrange : ∀ j : Nat, bmin ≤ j → j < bmax →
      ∃ ind : Int, I'[j]? = some ind
        ∧ (ind < 0 ∨ (0 ≤ ind ∧ ind < outputSize axes)) ∧ -(outputSize axes) ≤ ind := by
    intro j h1 h2
    obtain ⟨_, ind, _, hind, hlo, hhi, _⟩ := hbound j h1 h2
    refine ⟨ind, hind, ?_, hlo⟩
    by_cases hneg : ind < 0
    · exact Or.inl hneg
    · exact Or.inr ⟨not_lt.mp hneg, hhi⟩
  refine ⟨A', I', hrun, hrange, hframe, ?_, ?_⟩
  · refine accumulate_ok I' data_array bmin bmax s.particles.length (outputSize axes)
      data_sum hD hb hS ?_
    intro j h1 h2
    obtain ⟨ind, hind, hcase, _⟩ := hrange j h1 h2
    refine ⟨ind, hind, ?_⟩
    rcases hcase with h | h
    · exact lt_of_lt_of_le h (le_trans (by decide) hone)
    · exact h.2
  · intro pre post axis hsplit
    subst hsplit
    obtain ⟨mid, mid', fin, quantity, hq, hpre, hpass, hpost, hall, hj⟩ :=
      binAxes_split fns s chi bmin bmax s.particles.length hb axis_array index_array hA hI
        hfresh pre post axis hbins hfit' hknown
    have hfin : fin = (A', I') := by
      rw [hrun] at hall
      exact (Except.ok.inj hall).symm
    have hn : 1 ≤ axis.nbins := hbins axis (List.mem_append_right _ (List.mem_cons_self _ _))
    refine ⟨mid, mid', quantity, hq, hpre, hpass, by rw [← hfin]; exact hpost, ?_⟩
    intro j h1 h2
    obtain ⟨v, before, after, final, hv, hb1, hb2, hb3, e, ewrap, hbase, lo, hi, hneg1,
      hneg2⟩ := hj j h1 h2
    rw [hfin] at hb3
    rw [← hexact] at lo hi
    rw [ewrap] at e
    refine ⟨v, before, after, final, hv, hb1, hb2, hb3, by rw [ewrap]; exact e, ewrap, lo, hi,
      ?_, ?_, ?_, ?_, hneg2⟩
    · intro h0 hedge hout
      rw [e, hedge]
      exact binIndex_discard _ _ _ (hbase h0).1 hout
    · intro h0 hedge
      obtain ⟨c1, c2, c3⟩ := binIndex_clamp axis.nbins (axisBin fns axis v) _ hn (hbase h0).1
        (hbase h0).2
      rw [hedge] at e
      exact ⟨by rw [e]; exact c3, fun h => by rw [e]; exact c1 h,
        fun h => by rw [e]; exact c2 h⟩
    · intro h0 hin
      rw [e]
      exact binIndex_inside _ _ _ _ hn (hbase h0).1 (hbase h0).2 hin
    · intro h
      exact hneg2 (hneg1 h)

theorem run_indices_in_range_when_size_fits_witness :
    outputSize [unitAxis "x" 2 false, unitAxis "y" 3 true] = 6
    ∧ ∃ (axis_array' : List Int) (index_array' : List Int),
      binAxes intFns (diagSpecies [diagParticle 1 0 0, diagParticle 7 0 0, diagParticle 1 2 3])
          none 0 3 [unitAxis "x" 2 false, unitAxis "y" 3 true] 0
          (List.replicate 3 0, List.replicate 3 0)
        = Except.ok (axis_array', index_array')
      ∧ (∀ j : Nat, 0 ≤ j → j < 3 →
          ∃ ind : Int, index_array'[j]? = some ind
            ∧ (ind < 0 ∨ (0 ≤ ind ∧ ind < 6)) ∧ -6 ≤ ind)
      ∧ ∃ data_sum' : List Int,
          accumulate index_array' [1, 1, 1] 0 3 (List.replicate 6 0) = Except.ok data_sum'
          ∧ data_sum'.length = 6 := by
  obtain ⟨h0, _, A', I', h1, h2, _, h4, _⟩ :=
    run_indices_in_range_when_size_fits intFns
      (diagSpecies [diagParticle 1 0 0, diagParticle 7 0 0, diagParticle 1 2 3]) none 0 3
      [unitAxis "x" 2 false, unitAxis "y" 3 true] (List.replicate 3 0) (List.replicate 3 0)
      [1, 1, 1] (List.replicate 6 0) rfl rfl rfl (by decide) rfl
      (by intro j _ hj; interval_cases j <;> rfl)
      (by
        intro axis h
        simp only [List.mem_cons, List.mem_singleton, List.not_mem_nil, or_false] at h
        rcases h with rfl | rfl <;> decide)
      (by decide)
      (by
        intro axis h
        simp only [List.mem_cons, List.mem_singleton, List.not_mem_nil, or_false] at h
        rcases h with rfl | rfl
        · exact ⟨_, rfl, fun j _ hj => by interval_cases j <;> exact ⟨_, rfl⟩⟩
        · exact ⟨_, rfl, fun j _ hj => by interval_cases j <;> exact ⟨_, rfl⟩⟩)
  exact ⟨by decide, A', I', h1, h2, h4⟩

/-- Counterexample to C30 as stated.  Two axes `x` and `y` of 65536 bins each, from 0 to
65536, have `nbins ≥ 1` and `max ≠ min`, and the 32-bit product `output_size` is 0.  A
particle at `(1, 1)` gets the flattened index `1 * 65536 + 1 = 65537`, which is not in
`[0, output_size)`, and `run` reads `data_sum[65537]` in an array that the resize left
empty.  A particle at `(32768, 0)`, inside both axes, gets the index `32768 * 65536`, which
wraps to `-2^31`: it is dropped from the histogram although no axis discards it.  With axes
of 65536 and 32768 bins `output_size` is `-2^31` and the resize of `data_sum` fails. -/
theorem run_index_out_of_range_on_overflow :
    (∀ axis ∈ [unitAxis "x" 65536 false, unitAxis "y" 65536 false],
      1 ≤ axis.nbins ∧ axis.max ≠ axis.min)
    ∧ outputSize [unitAxis "x" 65536 false, unitAxis "y" 65536 false] = 0
    ∧ binAxes intFns (diagSpecies [diagParticle 1 1 0]) none 0 1
        [unitAxis "x" 65536 false, unitAxis "y" 65536 false] 0 ([0], [0])
        = Except.ok ([1], [65537])
    ∧ (densityDiag [unitAxis "x" 65536 false, unitAxis "y" 65536 false]).run intFns 0
        [diagSpecies [diagParticle 1 1 0]] = Except.error DiagFault.outOfRange
    ∧ axisBin intFns (unitAxis "x" 65536 false) 32768 = 32768
    ∧ axisBin intFns (unitAxis "y" 65536 false) 0 = 0
    ∧ binAxes intFns (diagSpecies [diagParticle 32768 0 0]) none 0 1
        [unitAxis "x" 65536 false, unitAxis "y" 65536 false] 0 ([0], [0])
        = Except.ok ([0], [-2147483648])
    ∧ outputSize [unitAxis "x" 65536 false, unitAxis "y" 32768 false] = -2147483648
    ∧ (densityDiag [unitAxis "x" 65536 false, unitAxis "y" 32768 false]).run intFns 0
        [diagSpecies [diagParticle 1 1 0]] = Except.error DiagFault.lengthError := by
  refine ⟨?_, by decide, by rfl, by rfl, by decide, by decide, by rfl, by decide, by rfl⟩
  intro axis h
  simp only [List.mem_cons, List.mem_singleton, List.not_mem_nil, or_false] at h
  rcases h with rfl | rfl <;> decide

theorem axisQuantity_keywords {D : Type} [One D] [Add D] [Sub D] [Neg D] [Mul D] [Div D]
    [IntCast D] (fns : MathFns D) (s : DiagSpecies D) (chi : Option (List D))
    (axistype : String) :
    (axistype ∈ ["x", "y", "px", "py", "pz", "p", "gamma", "ekin", "vx", "vy", "vz", "v",
        "vperp2", "charge", "chi"] →
      ∃ quantity, axisQuantity fns s chi axistype = Except.ok quantity)
    ∧ (axistype ∉ ["x", "y", "px", "py", "pz", "p", "gamma", "ekin", "vx", "vy", "vz", "v",
        "vperp2", "charge", "chi"] →
      axisQuantity fns s chi axistype = Except.error (DiagFault.axisUnknown axistype)) := by
  constructor
  · intro h
    simp only [List.mem_cons, List.mem_singleton, List.not_mem_nil, or_false] at h
    rcases h with h | h | h | h | h | h | h | h | h | h | h | h | h | h | h <;>
      subst h <;> exact ⟨_, rfl⟩
  · intro h
    simp only [List.mem_cons, List.mem_singleton, List.not_mem_nil, or_false, not_or] at h
    obtain ⟨h1, h2, h3, h4, h5, h6, h7, h8, h9, h10, h11, h12, h13, h14, h15⟩ := h
    unfold axisQuantity
    simp only [h1, h2, h3, h4, h5, h6, h7, h8, h9, h10, h11, h12, h13, h14, h15, if_false]

/-- C25 fails for the axis `"z"`. In a 3D simulation the constructor of
`DiagnosticParticles` accepts an axis of type `"z"`, and `run` then aborts on it with the
"axis unknown" error, whatever the species and the library functions: the chain of tests
of `run` has no branch for `"z"`, its third test repeats `"y"`.  A diagnostic on one axis
`"z"` over a species of one particle aborts, while the same diagnostic on the axis `"y"`
returns its histogram. -/
theorem run_aborts_on_axis_z :
    checkAxisType 3 "z" = Except.ok ()
    ∧ (∀ (fns : MathFns Int) (s : DiagSpecies Int) (chi : Option (List Int)),
        axisQuantity fns s chi "z" = Except.error (DiagFault.axisUnknown "z"))
    ∧ (densityDiag [unitAxis "z" 5 false]).run intFns 0 [diagSpecies [diagParticle 1 2 3]]
        = Except.error (DiagFault.axisUnknown "z")
    ∧ (densityDiag [unitAxis "y" 5 false]).run intFns 0 [diagSpecies [diagParticle 1 2 3]]
        = Except.ok [0, 0, 1, 0, 0] :=
  ⟨rfl, fun _ _ _ => rfl, rfl, rfl⟩

/-! ## The messages of a rebalance on all ranks -/

theorem rebalance_messages (sw : Option Nat) (rank : Nat) (pc : Nat → Nat)
    (nDim : Nat) (v : VectorPatch) (p0 : Patch) (rest : List Patch)
    (hp : v.patches_ = p0 :: rest)
    (hinv : hindexes v.patches_ = List.range' p0.hindex (rest.length + 1))
    (hov : ∃ h, (istartOf rank pc ≤ h ∧ h < istartOf rank pc + pc rank)
            ∧ (p0.hindex ≤ h ∧ h < p0.hindex + (rest.length + 1))) :
    ∃ calls w, rebalance sw rank pc nDim v = Except.ok (calls, w)
      ∧ (isendsOf calls).map (fun m => (m.1.hindex, m.2.1, m.2.2))
          = ((List.range' p0.hindex (rest.length + 1)).filter
              (fun h => decide (¬ (istartOf rank pc ≤ h ∧ h < istartOf rank pc + pc rank)))).map
              (fun h => (h, (if h > istartOf rank pc then (rank : Int) + 1 else (rank : Int) - 1),
                recvTag h (nmessageOf p0.nSpecies nDim p0.nProbes p0.nAntennas)))
      ∧ (recvsOf calls).map (fun m => (m.1.hindex, m.2.1, m.2.2))
          = ((List.range' (istartOf rank pc) (pc rank)).filter
              (fun h => decide (¬ (p0.hindex ≤ h ∧ h < p0.hindex + (rest.length + 1))))).map
              (fun h => (h, (if h > p0.hindex then (rank : Int) + 1 else (rank : Int) - 1),
                recvTag h (nmessageOf p0.nSpecies nDim p0.nProbes p0.nAntennas))) := by
  obtain ⟨c, hc⟩ := createPatches_completes sw rank pc v p0 rest hp hov
  obtain ⟨hps, href, hss, hsv, hrs, hrp⟩ := createPatches_staged sw rank pc v p0 rest c hp hc
  obtain ⟨r, e, _, _, hN, hC, hcc⟩ := createPatches_ok_inv sw rank pc v p0 rest c hp hc
  have hx := exchangePatches_closed rank pc nDim c.vp p0 rest _ hps hss hsv hrs hrp
  have hsend : c.vp.send_patch_id_ = (List.range (rest.length + 1)).filter
      (fun i => decide (¬ (istartOf rank pc ≤ p0.hindex + i
        ∧ p0.hindex + i < istartOf rank pc + pc rank))) := by rw [hcc]
  have hrecv : c.vp.recv_patch_id_ = (List.range' (istartOf rank pc) (pc rank)).filter
      (fun h => decide (¬ (p0.hindex ≤ h ∧ h < p0.hindex + (rest.length + 1)))) := by rw [hcc]
  have hinv' : hindexes c.vp.patches_ = List.range' p0.hindex (rest.length + 1) := by
    rw [hps, ← hp]; exact hinv
  refine ⟨_, _, by rw [rebalance, hc]; exact hx, ?_⟩
  simp only [isendsOf_append, recvsOf_append, isendsOf_sends, recvsOf_sends, isendsOf_recvs,
    recvsOf_recvs, isendsOf_deletes, recvsOf_deletes, isendsOf_updates, recvsOf_updates,
    List.append_nil, List.nil_append]
  have hb1 : isendsOf [Call.barrier] = [] := rfl
  have hb2 : recvsOf [Call.barrier] = [] := rfl
  have hu1 : isendsOf [Call.update_field_list] = [] := rfl
  have hu2 : recvsOf [Call.update_field_list] = [] := rfl
  simp only [hb1, hb2, hu1, hu2, List.append_nil, List.nil_append]
  constructor
  · rw [List.map_filterMap]
    have hrange : List.range' p0.hindex (rest.length + 1)
        = (List.range (rest.length + 1)).map (fun i => p0.hindex + i) := by
      rw [List.range'_eq_map_range]
    rw [hrange, List.filter_map, List.map_map, ← List.filterMap_eq_map, hsend]
    apply List.filterMap_congr
    intro id hid
    have hlt : id < c.vp.patches_.length := by
      rw [← hsend] at hid
      exact hsv id hid
    have hget : c.vp.patches_[id]? = some c.vp.patches_[id] := List.getElem?_eq_getElem hlt
    have hh := hindex_of_getElem? c.vp.patches_ p0.hindex (rest.length + 1) id _ hinv' hget
    rw [hget]
    simp only [Option.map_some', Function.comp, href, sendTag, recvTag, hh.2]
    have : (id + p0.hindex > istartOf rank pc) ↔ (p0.hindex + id > istartOf rank pc) := by omega
    simp only [this]
  · rw [List.map_map, hrecv]
    apply List.map_congr_left
    intro h _
    simp only [Function.comp, href, recvTag]
    rfl

theorem neighbour_owner (nprocs : Nat) (a b : Nat → Nat)
    (htot : istartOf nprocs b = istartOf nprocs a)
    (hov : ∀ r, r < nprocs → ∃ h, istartOf r a ≤ h ∧ h < istartOf r a + a r
      ∧ istartOf r b ≤ h ∧ h < istartOf r b + b r)
    (r h : Nat) (hr : r < nprocs)
    (hin : istartOf r a ≤ h ∧ h < istartOf r a + a r)
    (hout : ¬ (istartOf r b ≤ h ∧ h < istartOf r b + b r)) :
    ∃ r' : Nat, r' < nprocs
      ∧ (if h > istartOf r b then (r : Int) + 1 else (r : Int) - 1) = (r' : Int)
      ∧ (r' + 1 = r ∨ r' = r + 1)
      ∧ (istartOf r' b ≤ h ∧ h < istartOf r' b + b r')
      ∧ ¬ (istartOf r' a ≤ h ∧ h < istartOf r' a + a r')
      ∧ (if h > istartOf r' a then (r' : Int) + 1 else (r' : Int) - 1) = (r : Int) := by
  obtain ⟨g, g1, g2, g3, g4⟩ := hov r hr
  by_cases hlow : h < istartOf r b
  · -- the patch goes to the rank below
    have hr0 : 1 ≤ r := by
      rcases Nat.eq_zero_or_pos r with h0 | h0
      · subst h0
        simp [istartOf] at hlow
      · exact h0
    obtain ⟨k, hk⟩ : ∃ k, r = k + 1 := ⟨r - 1, by omega⟩
    subst hk
    obtain ⟨g', g1', g2', g3', g4'⟩ := hov k (by omega)
    have ea := istartOf_succ k a
    have eb := istartOf_succ k b
    refine ⟨k, by omega, ?_, Or.inl rfl, ⟨by omega, by omega⟩, by omega, ?_⟩
    · rw [if_neg (by omega)]
      push_cast
      omega
    · rw [if_pos (by omega)]
      push_cast
      rfl
  · -- the patch goes to the rank above
    have hhigh : istartOf r b + b r ≤ h := by omega
    have ea := istartOf_succ r a
    have eb := istartOf_succ r b
    have hr1 : r + 1 < nprocs := by
      by_contra hcon
      have : r + 1 = nprocs := by omega
      subst this
      omega
    obtain ⟨g', g1', g2', g3', g4'⟩ := hov (r + 1) hr1
    refine ⟨r + 1, hr1, ?_, Or.inr rfl, ⟨by omega, by omega⟩, by omega, ?_⟩
    · rw [if_pos (by omega)]
      push_cast
      rfl
    · rw [if_neg (by omega)]
      push_cast
      omega

theorem filter_eq_singleton (l : List Nat) (hnd : l.Nodup) (P : Nat → Bool) (a : Nat)
    (ha : a ∈ l) (hP : ∀ x ∈ l, P x = true ↔ x = a) : l.filter P = [a] := by
  induction l with
  | nil => cases ha
  | cons x rest ih =>
    have hnd' := List.nodup_cons.mp hnd
    by_cases hx : x = a
    · subst hx
      have hPx : P x = true := (hP x (List.mem_cons_self _ _)).mpr rfl
      rw [List.filter_cons_of_pos hPx]
      have : rest.filter P = [] := by
        rw [List.filter_eq_nil_iff]
        intro y hy hPy
        have := (hP y (List.mem_cons_of_mem _ hy)).mp hPy
        subst this
        exact hnd'.1 hy
      rw [this]
    · have hPx : ¬ P x = true := fun h => hx ((hP x (List.mem_cons_self _ _)).mp h)
      rw [List.filter_cons_of_neg hPx]
      have ha' : a ∈ rest := by
        rcases List.mem_cons.mp ha with h | h
        · exact absurd h.symm hx
        · exact h
      exact ih hnd'.2 ha' (fun y hy => hP y (List.mem_cons_of_mem _ hy))

theorem recvTag_fits (total h : Nat) (nm : Int) (h25 : 25 ≤ nm)
    (hfit : (total : Int) * nm ≤ 2147483648) (hh : h < total) :
    recvTag h nm = (h : Int) * nm := by
  apply recvTag_exact h nm (by omega)
  have h1 : ((h : Int) + 1) * nm ≤ (total : Int) * nm :=
    Int.mul_le_mul_of_nonneg_right (by omega) (by omega)
  rw [Int.add_mul] at h1
  generalize (h : Int) * nm = a at h1 ⊢
  generalize (total : Int) * nm = b at h1 hfit
  omega

theorem recvTag_inj (total x h : Nat) (nm : Int) (h25 : 25 ≤ nm)
    (hfit : (total : Int) * nm ≤ 2147483648) (hx : x < total) (hh : h < total)
    (heq : recvTag x nm = recvTag h nm) : x = h := by
  rw [recvTag_fits total x nm h25 hfit hx, recvTag_fits total h nm h25 hfit hh] at heq
  have := Int.eq_of_mul_eq_mul_right (by omega) heq
  exact Int.ofNat.inj this

theorem rebalance_world (sw : Option Nat) (nprocs : Nat)
    (pc_old pc : Nat → Nat) (nDim : Nat) (before : Nat → VectorPatch)
    (nSpecies nProbes nAntennas : Nat)
    (hold : ∀ r, r < nprocs → 1 ≤ pc_old r
      ∧ hindexes (before r).patches_ = List.range' (istartOf r pc_old) (pc_old r))
    (huni : ∀ r, r < nprocs → ∀ p ∈ (before r).patches_,
      p.nSpecies = nSpecies ∧ p.nProbes = nProbes ∧ p.nAntennas = nAntennas)
    (hov : ∀ r, r < nprocs → ∃ h, istartOf r pc_old ≤ h ∧ h < istartOf r pc_old + pc_old r
      ∧ istartOf r pc ≤ h ∧ h < istartOf r pc + pc r)
    (r : Nat) (hr : r < nprocs) :
    ∃ calls w, rebalance sw r pc nDim (before r) = Except.ok (calls, w)
      ∧ (isendsOf calls).map (fun m => (m.1.hindex, m.2.1, m.2.2))
          = ((List.range' (istartOf r pc_old) (pc_old r)).filter
              (fun h => decide (¬ (istartOf r pc ≤ h ∧ h < istartOf r pc + pc r)))).map
              (fun h => (h, (if h > istartOf r pc then (r : Int) + 1 else (r : Int) - 1),
                recvTag h (nmessageOf nSpecies nDim nProbes nAntennas)))
      ∧ (recvsOf calls).map (fun m => (m.1.hindex, m.2.1, m.2.2))
          = ((List.range' (istartOf r pc) (pc r)).filter
              (fun h => decide (¬ (istartOf r pc_old ≤ h
                ∧ h < istartOf r pc_old + pc_old r)))).map
              (fun h => (h, (if h > istartOf r pc_old then (r : Int) + 1 else (r : Int) - 1),
                recvTag h (nmessageOf nSpecies nDim nProbes nAntennas))) := by
  obtain ⟨hn, hinv⟩ := hold r hr
  obtain ⟨p0, rest, hp, h0, hl⟩ := cons_of_hindexes (before r).patches_ _ _ hn hinv
  obtain ⟨e1, e2, e3⟩ := huni r hr p0 (by rw [hp]; exact List.mem_cons_self _ _)
  obtain ⟨g, g1, g2, g3, g4⟩ := hov r hr
  obtain ⟨calls, w, hrun, hs, hrc⟩ := rebalance_messages sw r pc nDim (before r) p0 rest hp
    (by rw [h0, hl]; exact hinv) ⟨g, ⟨g3, g4⟩, by rw [h0, hl]; exact ⟨g1, g2⟩⟩
  rw [h0, hl, e1, e2, e3] at hs hrc
  exact ⟨calls, w, hrun, hs, hrc⟩

/-- Counterexample to C27 as stated. Two ranks: rank 0 held the hindices below 159072863
and rank 1 the hindices 159072863 and 159072864; under the new table rank 0 also owns
159072863.  On both ranks the old and the new range share a hindex.  Rank 1 sends the
patch of hindex 159072863 to rank 0, and the tag it passes, computed in a 32-bit `int`
with `nmessage = 27`, is 5 and not `159072863 * 27`. -/
theorem exchangePatches_tag_wraps :
    istartOf 2 (tableOf [159072864, 1]) = istartOf 2 (tableOf [159072863, 2])
    ∧ (istartOf 0 (tableOf [159072863, 2]) ≤ 0
        ∧ 0 < istartOf 0 (tableOf [159072863, 2]) + tableOf [159072863, 2] 0
        ∧ istartOf 0 (tableOf [159072864, 1]) ≤ 0
        ∧ 0 < istartOf 0 (tableOf [159072864, 1]) + tableOf [159072864, 1] 0)
    ∧ (istartOf 1 (tableOf [159072863, 2]) ≤ 159072864
        ∧ 159072864 < istartOf 1 (tableOf [159072863, 2]) + tableOf [159072863, 2] 1
        ∧ istartOf 1 (tableOf [159072864, 1]) ≤ 159072864
        ∧ 159072864 < istartOf 1 (tableOf [159072864, 1]) + tableOf [159072864, 1] 1)
    ∧ hindexes (residentRank 159072863 2).patches_
        = List.range' (istartOf 1 (tableOf [159072863, 2])) (tableOf [159072863, 2] 1)
    ∧ (∃ w, rebalance none 1 (tableOf [159072864, 1]) 1 (residentRank 159072863 2)
        = Except.ok (overflowCalls, w))
    ∧ isendsOf overflowCalls = [(residentPatch 159072863, 0, 5)]
    ∧ nmessageOf 1 1 0 0 = 27
    ∧ (5 : Int) ≠ ((residentPatch 159072863).hindex : Int) * nmessageOf 1 1 0 0 :=
  ⟨by decide, by decide, by decide, by decide, ⟨_, rfl⟩, by rfl, by decide, by decide⟩

/-- C27, as amended. The neighbours-only routing of `exchangePatches` is enough when every
rank keeps a patch, as long as the tags fit a 32-bit `int`.  For every number of ranks, old
ownership table `pc_old` (rank `r` holds the hindices `istart_old(r), ...,
istart_old(r) + pc_old(r) - 1`, at least one) and new table `pc` over the same total,
such that on every rank the old and the new range share a hindex, with patches that agree
on the sizes entering `nmessage`, and with `nmessage` below `2^31` and
`total * nmessage` at most `2^31`: the rebalance completes on every rank; each patch a rank
`r` sends was owned by `r`, is sent to a rank `r'` that is `r - 1` or `r + 1`, exists, and
owns the hindex of the patch under the new table, with the tag `hindex * nmessage`, and
`r'` posts a receive for this hindex with source `r` and the same tag; conversely for every
receive posted by a rank `r'` its source is a rank `r` whose sends to `r'` with that tag
are exactly one, of the hindex received, and no other rank sends to `r'` with that tag. -/
theorem exchangePatches_neighbours_suffice_when_tags_fit (sw : Option Nat) (nprocs : Nat)
    (pc_old pc : Nat → Nat) (nDim : Nat) (before : Nat → VectorPatch)
    (nSpecies nProbes nAntennas : Nat)
    (hold : ∀ r, r < nprocs → 1 ≤ pc_old r
      ∧ hindexes (before r).patches_ = List.range' (istartOf r pc_old) (pc_old r))
    (huni : ∀ r, r < nprocs → ∀ p ∈ (before r).patches_,
      p.nSpecies = nSpecies ∧ p.nProbes = nProbes ∧ p.nAntennas = nAntennas)
    (htot : istartOf nprocs pc = istartOf nprocs pc_old)
    (hnmfit : 2 * nSpecies + (2 + nDim) * nProbes + 9 + nAntennas + 16 < 2147483648)
    (hfit : istartOf nprocs pc_old
      * (2 * nSpecies + (2 + nDim) * nProbes + 9 + nAntennas + 16) ≤ 2147483648)
    (hov : ∀ r, r < nprocs → ∃ h, istartOf r pc_old ≤ h ∧ h < istartOf r pc_old + pc_old r
      ∧ istartOf r pc ≤ h ∧ h < istartOf r pc + pc r) :
    (∀ r, r < nprocs → ∃ calls w, rebalance sw r pc nDim (before r) = Except.ok (calls, w))
    ∧ (∀ r calls w, r < nprocs → rebalance sw r pc nDim (before r) = Except.ok (calls, w) →
        ∀ m ∈ isendsOf calls,
          (istartOf r pc_old ≤ m.1.hindex ∧ m.1.hindex < istartOf r pc_old + pc_old r)
          ∧ ∃ (r' : Nat) (calls' : List Call) (w' : VectorPatch),
              r' < nprocs
              ∧ rebalance sw r' pc nDim (before r') = Except.ok (calls', w')
              ∧ m.2.1 = (r' : Int) ∧ (r' + 1 = r ∨ r' = r + 1)
              ∧ (istartOf r' pc ≤ m.1.hindex ∧ m.1.hindex < istartOf r' pc + pc r')
              ∧ m.2.2 = (m.1.hindex : Int) * nmessageOf nSpecies nDim nProbes nAntennas
              ∧ ∃ m' ∈ recvsOf calls',
                  m'.1.hindex = m.1.hindex ∧ m'.2.1 = (r : Int) ∧ m'.2.2 = m.2.2)
    ∧ (∀ r' calls' w', r' < nprocs →
        rebalance sw r' pc nDim (before r') = Except.ok (calls', w') →
        ∀ m' ∈ recvsOf calls',
          ∃ (r : Nat) (calls : List Call) (w : VectorPatch),
            r < nprocs
            ∧ rebalance sw r pc nDim (before r) = Except.ok (calls, w)
            ∧ m'.2.1 = (r : Int) ∧ (r + 1 = r' ∨ r = r' + 1)
            ∧ ((isendsOf calls).filter
                (fun m => decide (m.2.1 = (r' : Int) ∧ m.2.2 = m'.2.2))).map
                  (fun m => m.1.hindex) = [m'.1.hindex]
            ∧ ∀ (q : Nat) (callsq : List Call) (wq : VectorPatch), q < nprocs → q ≠ r →
                rebalance sw q pc nDim (before q) = Except.ok (callsq, wq) →
                (isendsOf callsq).filter
                  (fun m => decide (m.2.1 = (r' : Int) ∧ m.2.2 = m'.2.2)) = []) := by
  have hw := rebalance_world sw nprocs pc_old pc nDim before nSpecies nProbes nAntennas
    hold huni hov
  have hov' : ∀ r, r < nprocs → ∃ h, istartOf r pc ≤ h ∧ h < istartOf r pc + pc r
      ∧ istartOf r pc_old ≤ h ∧ h < istartOf r pc_old + pc_old r := by
    intro r hr
    obtain ⟨g, g1, g2, g3, g4⟩ := hov r hr
    exact ⟨g, g3, g4, g1, g2⟩
  have hnm := nmessageOf_exact nSpecies nDim nProbes nAntennas hnmfit
  have h25 : 25 ≤ nmessageOf nSpecies nDim nProbes nAntennas := by
    rw [hnm]
    omega
  have hfit' : (istartOf nprocs pc_old : Int) * nmessageOf nSpecies nDim nProbes nAntennas
      ≤ 2147483648 := by
    rw [hnm]
    exact_mod_cast hfit
  have hexact : ∀ h : Nat, h < istartOf nprocs pc_old →
      recvTag h (nmessageOf nSpecies nDim nProbes nAntennas)
        = (h : Int) * nmessageOf nSpecies nDim nProbes nAntennas :=
    fun h hh => recvTag_fits _ h _ h25 hfit' hh
  have hold_lt : ∀ r h, r < nprocs → h < istartOf r pc_old + pc_old r →
      h < istartOf nprocs pc_old := by
    intro r h hr hh
    have := istartOf_next_le pc_old r nprocs hr
    omega
  have hnew_lt : ∀ r h, r < nprocs → h < istartOf r pc + pc r →
      h < istartOf nprocs pc_old := by
    intro r h hr hh
    have := istartOf_next_le pc r nprocs hr
    omega
  -- what an isend of rank `r` is
  have hsend : ∀ r calls w, r < nprocs →
      rebalance sw r pc nDim (before r) = Except.ok (calls, w) →
      ∀ m ∈ isendsOf calls,
        (istartOf r pc_old ≤ m.1.hindex ∧ m.1.hindex < istartOf r pc_old + pc_old r)
        ∧ ¬ (istartOf r pc ≤ m.1.hindex ∧ m.1.hindex < istartOf r pc + pc r)
        ∧ m.2.1 = (if m.1.hindex > istartOf r pc then (r : Int) + 1 else (r : Int) - 1)
        ∧ m.2.2 = recvTag m.1.hindex (nmessageOf nSpecies nDim nProbes nAntennas) := by
    intro r calls w hr hrun m hm
    obtain ⟨calls0, w0, hrun0, hs, _⟩ := hw r hr
    rw [hrun] at hrun0
    have hc : calls = calls0 := congrArg Prod.fst (Except.ok.inj hrun0)
    subst hc
    have hmem : (m.1.hindex, m.2.1, m.2.2) ∈
        (isendsOf calls).map (fun m => (m.1.hindex, m.2.1, m.2.2)) :=
      List.mem_map.mpr ⟨m, hm, rfl⟩
    rw [hs] at hmem
    obtain ⟨h, hh, heq⟩ := List.mem_map.mp hmem
    obtain ⟨hran, hcond⟩ := List.mem_filter.mp hh
    simp only [Prod.mk.injEq] at heq
    obtain ⟨q1, q2, q3⟩ := heq
    rw [List.mem_range'_1] at hran
    simp only [decide_eq_true_eq] at hcond
    subst q1
    exact ⟨hran, hcond, q2.symm, q3.symm⟩
  -- what a recv of rank `r` is
  have hrecv : ∀ r calls w, r < nprocs →
      rebalance sw r pc nDim (before r) = Except.ok (calls, w) →
      ∀ m ∈ recvsOf calls,
        (istartOf r pc ≤ m.1.hindex ∧ m.1.hindex < istartOf r pc + pc r)
        ∧ ¬ (istartOf r pc_old ≤ m.1.hindex ∧ m.1.hindex < istartOf r pc_old + pc_old r)
        ∧ m.2.1 = (if m.1.hindex > istartOf r pc_old then (r : Int) + 1 else (r : Int) - 1)
        ∧ m.2.2 = recvTag m.1.hindex (nmessageOf nSpecies nDim nProbes nAntennas) := by
    intro r calls w hr hrun m hm
    obtain ⟨calls0, w0, hrun0, _, hrc⟩ := hw r hr
    rw [hrun] at hrun0
    have hc : calls = calls0 := congrArg Prod.fst (Except.ok.inj hrun0)
    subst hc
    have hmem : (m.1.hindex, m.2.1, m.2.2) ∈
        (recvsOf calls).map (fun m => (m.1.hindex, m.2.1, m.2.2)) :=
      List.mem_map.mpr ⟨m, hm, rfl⟩
    rw [hrc] at hmem
    obtain ⟨h, hh, heq⟩ := List.mem_map.mp hmem
    obtain ⟨hran, hcond⟩ := List.mem_filter.mp hh
    simp only [Prod.mk.injEq] at heq
    obtain ⟨q1, q2, q3⟩ := heq
    rw [List.mem_range'_1] at hran
    simp only [decide_eq_true_eq] at hcond
    subst q1
    exact ⟨hran, hcond, q2.symm, q3.symm⟩
  refine ⟨?_, ?_, ?_⟩
  · intro r hr
    obtain ⟨calls, w, hrun, _⟩ := hw r hr
    exact ⟨calls, w, hrun⟩
  · intro r calls w hr hrun m hm
    obtain ⟨hin, hout, hdest, htag⟩ := hsend r calls w hr hrun m hm
    obtain ⟨r', hr', d1, d2, d3, d4, d5⟩ :=
      neighbour_owner nprocs pc_old pc htot hov r m.1.hindex hr hin hout
    obtain ⟨calls', w', hrun', _, hrc'⟩ := hw r' hr'
    refine ⟨hin, r', calls', w', hr', hrun', by rw [hdest]; exact d1, d2, d3,
      by rw [htag]; exact hexact _ (hold_lt r _ hr hin.2), ?_⟩
    have hmem : (m.1.hindex,
        (if m.1.hindex > istartOf r' pc_old then (r' : Int) + 1 else (r' : Int) - 1),
        recvTag m.1.hindex (nmessageOf nSpecies nDim nProbes nAntennas)) ∈
        (recvsOf calls').map (fun m => (m.1.hindex, m.2.1, m.2.2)) := by
      rw [hrc']
      refine List.mem_map.mpr ⟨m.1.hindex, List.mem_filter.mpr ⟨?_, ?_⟩, rfl⟩
      · rw [List.mem_range'_1]; exact d3
      · simp only [decide_eq_true_eq]; exact d4
    obtain ⟨m', hm', heq⟩ := List.mem_map.mp hmem
    simp only [Prod.mk.injEq] at heq
    exact ⟨m', hm', heq.1, by rw [heq.2.1]; exact d5, by rw [heq.2.2, htag]⟩
  · intro r' calls' w' hr' hrun' m' hm'
    obtain ⟨hin, hout, hsrc, htag⟩ := hrecv r' calls' w' hr' hrun' m' hm'
    obtain ⟨r, hr, d1, d2, d3, d4, d5⟩ :=
      neighbour_owner nprocs pc pc_old htot.symm hov' r' m'.1.hindex hr' hin hout
    obtain ⟨calls, w, hrun, hs, _⟩ := hw r hr
    refine ⟨r, calls, w, hr, hrun, by rw [hsrc]; exact d1, d2, ?_, ?_⟩
    · have hfm : ((isendsOf calls).filter
          (fun m => decide (m.2.1 = (r' : Int) ∧ m.2.2 = m'.2.2))).map (fun m => m.1.hindex)
          = ((((isendsOf calls).map (fun m => (m.1.hindex, m.2.1, m.2.2))).filter
              (fun t : Nat × Int × Int => decide (t.2.1 = (r' : Int) ∧ t.2.2 = m'.2.2))).map
              (fun t => t.1)) := by
        rw [List.filter_map, List.map_map]
        rfl
      rw [hfm, hs, List.filter_map, List.map_map]
      have hone := filter_eq_singleton
        ((List.range' (istartOf r pc_old) (pc_old r)).filter
          (fun h => decide (¬ (istartOf r pc ≤ h ∧ h < istartOf r pc + pc r))))
        (List.Nodup.filter _ (List.nodup_range' _ _))
        ((fun t : Nat × Int × Int => decide (t.2.1 = (r' : Int) ∧ t.2.2 = m'.2.2)) ∘
          (fun h => (h, (if h > istartOf r pc then (r : Int) + 1 else (r : Int) - 1),
            recvTag h (nmessageOf nSpecies nDim nProbes nAntennas))))
        m'.1.hindex
        (List.mem_filter.mpr ⟨by rw [List.mem_range'_1]; exact d3,
          by simp only [decide_eq_true_eq]; exact d4⟩)
        (by
          intro x hxmem
          have hxr := (List.mem_range'_1.mp (List.mem_filter.mp hxmem).1).2
          simp only [Function.comp, decide_eq_true_eq, htag]
          constructor
          · intro hx
            exact recvTag_inj _ x m'.1.hindex _ h25 hfit' (hold_lt r _ hr hxr)
              (hold_lt r _ hr d3.2) hx.2
          · intro hx
            subst hx
            exact ⟨d5, rfl⟩)
      rw [hone]
      rfl
    · intro q callsq wq hq hqr hrunq
      rw [List.filter_eq_nil_iff]
      intro m hm hP
      simp only [decide_eq_true_eq] at hP
      obtain ⟨hinq, _, _, htagq⟩ := hsend q callsq wq hq hrunq m hm
      have heq : m.1.hindex = m'.1.hindex := by
        have : recvTag m.1.hindex (nmessageOf nSpecies nDim nProbes nAntennas)
            = recvTag m'.1.hindex (nmessageOf nSpecies nDim nProbes nAntennas) := by
          rw [← htagq, ← htag]; exact hP.2
        exact recvTag_inj _ _ _ _ h25 hfit' (hold_lt q _ hq hinq.2) (hold_lt r _ hr d3.2) this
      rw [heq] at hinq
      rcases Nat.lt_or_gt_of_ne hqr with hlt | hgt
      · have := istartOf_next_le pc_old q r hlt
        omega
      · have := istartOf_next_le pc_old r q hgt
        omega

theorem exchangePatches_neighbours_suffice_when_tags_fit_witness :
    (∀ r, r < 3 → ∃ calls w,
      rebalance none r (tableOf [2, 3, 3]) 1 (scenarioABefore r) = Except.ok (calls, w))
    ∧ (∀ m ∈ isendsOf (scenarioACalls 1),
        ∃ r' : Nat, r' < 3 ∧ m.2.1 = (r' : Int) ∧ (r' + 1 = 1 ∨ r' = 1 + 1)
          ∧ m.2.2 = (m.1.hindex : Int) * nmessageOf 1 1 0 0
          ∧ istartOf r' (tableOf [2, 3, 3]) ≤ m.1.hindex
          ∧ m.1.hindex < istartOf r' (tableOf [2, 3, 3]) + tableOf [2, 3, 3] r') := by
  have h := exchangePatches_neighbours_suffice_when_tags_fit none 3 (tableOf [3, 3, 2])
    (tableOf [2, 3, 3]) 1 scenarioABefore 1 0 0
    (by intro r hr; interval_cases r <;> decide)
    (by intro r hr; interval_cases r <;> decide)
    (by decide) (by decide) (by decide)
    (by
      intro r hr
      interval_cases r
      · exact ⟨0, by decide, by decide, by decide, by decide⟩
      · exact ⟨3, by decide, by decide, by decide, by decide⟩
      · exact ⟨6, by decide, by decide, by decide, by decide⟩)
  refine ⟨h.1, ?_⟩
  intro m hm
  obtain ⟨_, r', _, _, hr', _, e1, e2, e3, e4, _⟩ :=
    h.2.1 1 (scenarioACalls 1) (scenarioAAfter 1) (by decide) rfl m hm
  exact ⟨r', hr', e1, e2, e4, e3.1, e3.2⟩

/-! ## The Hilbert index is a bijection -/

theorem hilbert_level2 : ∀ e, e < 4 → ∀ d, d < 2 → ∀ l, l < 4 →
    gcinv 2 (ted 2 e d l) < 4 ∧ tedinv 2 e d (gc (gcinv 2 (ted 2 e d l))) = l
    ∧ nextEntry 2 e d (gcinv 2 (ted 2 e d l)) < 4
    ∧ tedinv 2 e d (gc l) < 4 ∧ gcinv 2 (ted 2 e d (tedinv 2 e d (gc l))) = l
    ∧ nextEntry 2 e d l < 4 := by decide

theorem hilbert_level3 : ∀ e, e < 8 → ∀ d, d < 3 → ∀ l, l < 8 →
    gcinv 3 (ted 3 e d l) < 8 ∧ tedinv 3 e d (gc (gcinv 3 (ted 3 e d l))) = l
    ∧ nextEntry 3 e d (gcinv 3 (ted 3 e d l)) < 8
    ∧ tedinv 3 e d (gc l) < 8 ∧ gcinv 3 (ted 3 e d (tedinv 3 e d (gc l))) = l
    ∧ nextEntry 3 e d l < 8 := by decide

theorem split_digit (b : Nat) (hb : 0 < b) (w rest : Nat) (hrest : rest < b) :
    (w * b + rest) / b = w ∧ (w * b + rest) % b = rest := by
  constructor
  · rw [Nat.add_comm, Nat.add_mul_div_right _ _ hb, Nat.div_eq_of_lt hrest, Nat.zero_add]
  · rw [Nat.add_comm, Nat.add_mul_mod_self_right, Nat.mod_eq_of_lt hrest]

theorem top_bit (m x : Nat) (hx : x < 2 ^ (m + 1)) :
    x / 2 ^ m < 2 ∧ x % 2 ^ m < 2 ^ m ∧ x / 2 ^ m * 2 ^ m + x % 2 ^ m = x := by
  have hpos : 0 < 2 ^ m := by positivity
  refine ⟨?_, Nat.mod_lt _ hpos, ?_⟩
  · apply Nat.div_lt_of_lt_mul
    rw [pow_succ] at hx
    omega
  · rw [Nat.mul_comm]
    exact Nat.div_add_mod x (2 ^ m)

theorem digit_lt (m bit rest : Nat) (hbit : bit < 2) (hr : rest < 2 ^ m) :
    bit * 2 ^ m + rest < 2 ^ (m + 1) := by
  rw [pow_succ]
  have : bit * 2 ^ m ≤ 1 * 2 ^ m := Nat.mul_le_mul_right _ (by omega)
  omega

theorem bits2 (bx b : Nat) (hbx : bx < 2) (hb : b < 2) :
    bx % 2 + 2 * (b % 2) < 4 ∧ (bx % 2 + 2 * (b % 2)) % 2 = bx
    ∧ (bx % 2 + 2 * (b % 2)) / 2 % 2 = b := by
  omega

theorem bits2_inv (l : Nat) (hl : l < 4) : l % 2 % 2 + 2 * (l / 2 % 2 % 2) = l := by
  omega

theorem bits3 (bx b bz : Nat) (hbx : bx < 2) (hb : b < 2) (hbz : bz < 2) :
    bx % 2 + 2 * (b % 2) + 4 * (bz % 2) < 8
    ∧ (bx % 2 + 2 * (b % 2) + 4 * (bz % 2)) % 2 = bx
    ∧ (bx % 2 + 2 * (b % 2) + 4 * (bz % 2)) / 2 % 2 = b
    ∧ (bx % 2 + 2 * (b % 2) + 4 * (bz % 2)) / 4 % 2 = bz := by
  omega

theorem bits3_inv (l : Nat) (hl : l < 8) :
    l % 2 % 2 + 2 * (l / 2 % 2 % 2) + 4 * (l / 4 % 2 % 2) = l := by
  omega

theorem hilbertindex_roundtrip : ∀ (m e d x y : Nat), e < 4 → d < 2 → x < 2 ^ m → y < 2 ^ m →
    hilbertindex m e d x y < 4 ^ m
    ∧ hilbertindexinv m e d (hilbertindex m e d x y) = (x, y) := by
  intro m
  induction m with
  | zero =>
    intro e d x y _ _ hx hy
    simp only [pow_zero, Nat.lt_one_iff] at hx hy
    subst hx hy
    exact ⟨by rw [hilbertindex]; decide, rfl⟩
  | succ m ih =>
    intro e d x y he hd hx hy
    obtain ⟨bx, rx, ex⟩ := top_bit m x hx
    obtain ⟨by1, ry, ey⟩ := top_bit m y hy
    obtain ⟨hl, e1, e2⟩ := bits2 _ _ bx by1
    obtain ⟨hw, hback, hnext, _⟩ := hilbert_level2 e he d hd _ hl
    have hdn : nextDirection 2 d (gcinv 2 (ted 2 e d (x / 2 ^ m % 2 + 2 * (y / 2 ^ m % 2)))) < 2 :=
      Nat.mod_lt _ (by decide)
    obtain ⟨hlt, hinv⟩ := ih _ _ (x % 2 ^ m) (y % 2 ^ m) hnext hdn rx ry
    have hpos : 0 < 4 ^ m := by positivity
    obtain ⟨hq, hr⟩ := split_digit (4 ^ m) hpos _ _ hlt
    constructor
    · rw [hilbertindex]
      rw [pow_succ]
      have : gcinv 2 (ted 2 e d (x / 2 ^ m % 2 + 2 * (y / 2 ^ m % 2))) * 4 ^ m + 4 ^ m
          ≤ 4 ^ m * 4 := by nlinarith
      omega
    · rw [hilbertindex, hilbertindexinv]
      rw [hq, hr, hinv, hback]
      rw [e1, e2, ex, ey]

theorem hilbertindexinv_roundtrip : ∀ (m e d h : Nat), e < 4 → d < 2 → h < 4 ^ m →
    (hilbertindexinv m e d h).1 < 2 ^ m ∧ (hilbertindexinv m e d h).2 < 2 ^ m
    ∧ hilbertindex m e d (hilbertindexinv m e d h).1 (hilbertindexinv m e d h).2 = h := by
  intro m
  induction m with
  | zero =>
    intro e d h _ _ hh
    simp only [pow_zero, Nat.lt_one_iff] at hh
    subst hh
    exact ⟨by rw [hilbertindexinv]; decide, by rw [hilbertindexinv]; decide, rfl⟩
  | succ m ih =>
    intro e d h he hd hh
    have hpos : 0 < 4 ^ m := by positivity
    have hp2 : 0 < 2 ^ m := by positivity
    have hw : h / 4 ^ m < 4 := by
      apply Nat.div_lt_of_lt_mul
      rw [pow_succ] at hh
      omega
    have hrest : h % 4 ^ m < 4 ^ m := Nat.mod_lt _ hpos
    obtain ⟨_, _, _, hl, hback, hnext⟩ := hilbert_level2 e he d hd _ hw
    have hdn : nextDirection 2 d (h / 4 ^ m) < 2 := Nat.mod_lt _ (by decide)
    obtain ⟨r1, r2, hidx⟩ := ih _ _ (h % 4 ^ m) hnext hdn hrest
    rw [hilbertindexinv]
    have b1 : tedinv 2 e d (gc (h / 4 ^ m)) % 2 < 2 := Nat.mod_lt _ (by decide)
    have b2 : tedinv 2 e d (gc (h / 4 ^ m)) / 2 % 2 < 2 := Nat.mod_lt _ (by decide)
    have q1 := split_digit (2 ^ m) hp2 (tedinv 2 e d (gc (h / 4 ^ m)) % 2) _ r1
    have q2 := split_digit (2 ^ m) hp2 (tedinv 2 e d (gc (h / 4 ^ m)) / 2 % 2) _ r2
    refine ⟨?_, ?_, ?_⟩
    · exact digit_lt m _ _ b1 r1
    · exact digit_lt m _ _ b2 r2
    · rw [hilbertindex]
      rw [q1.1, q1.2, q2.1, q2.2]
      rw [bits2_inv _ hl, hback, hidx]
      rw [Nat.mul_comm]
      exact Nat.div_add_mod h (4 ^ m)

theorem hilbertindex3D_roundtrip : ∀ (m e d x y z : Nat), e < 8 → d < 3 →
    x < 2 ^ m → y < 2 ^ m → z < 2 ^ m →
    hilbertindex3D m e d x y z < 8 ^ m
    ∧ hilbertindexinv3D m e d (hilbertindex3D m e d x y z) = (x, y, z) := by
  intro m
  induction m with
  | zero =>
    intro e d x y z _ _ hx hy hz
    simp only [pow_zero, Nat.lt_one_iff] at hx hy hz
    subst hx hy hz
    exact ⟨by rw [hilbertindex3D]; decide, rfl⟩
  | succ m ih =>
    intro e d x y z he hd hx hy hz
    obtain ⟨bx, rx, ex⟩ := top_bit m x hx
    obtain ⟨by1, ry, ey⟩ := top_bit m y hy
    obtain ⟨bz, rz, ez⟩ := top_bit m z hz
    obtain ⟨hl, e1, e2, e3⟩ := bits3 _ _ _ bx by1 bz
    obtain ⟨hw, hback, hnext, _⟩ := hilbert_level3 e he d hd _ hl
    have hdn : nextDirection 3 d
        (gcinv 3 (ted 3 e d (x / 2 ^ m % 2 + 2 * (y / 2 ^ m % 2) + 4 * (z / 2 ^ m % 2)))) < 3 :=
      Nat.mod_lt _ (by decide)
    obtain ⟨hlt, hinv⟩ := ih _ _ (x % 2 ^ m) (y % 2 ^ m) (z % 2 ^ m) hnext hdn rx ry rz
    have hpos : 0 < 8 ^ m := by positivity
    obtain ⟨hq, hr⟩ := split_digit (8 ^ m) hpos _ _ hlt
    constructor
    · rw [hilbertindex3D]
      rw [pow_succ]
      have : gcinv 3 (ted 3 e d (x / 2 ^ m % 2 + 2 * (y / 2 ^ m % 2) + 4 * (z / 2 ^ m % 2)))
          * 8 ^ m + 8 ^ m ≤ 8 ^ m * 8 := by nlinarith
      omega
    · rw [hilbertindex3D, hilbertindexinv3D]
      rw [hq, hr, hinv, hback]
      rw [e1, e2, e3, ex, ey, ez]

theorem hilbertindexinv3D_roundtrip : ∀ (m e d h : Nat), e < 8 → d < 3 → h < 8 ^ m →
    (hilbertindexinv3D m e d h).1 < 2 ^ m ∧ (hilbertindexinv3D m e d h).2.1 < 2 ^ m
    ∧ (hilbertindexinv3D m e d h).2.2 < 2 ^ m
    ∧ hilbertindex3D m e d (hilbertindexinv3D m e d h).1 (hilbertindexinv3D m e d h).2.1
        (hilbertindexinv3D m e d h).2.2 = h := by
  intro m
  induction m with
  | zero =>
    intro e d h _ _ hh
    simp only [pow_zero, Nat.lt_one_iff] at hh
    subst hh
    exact ⟨by rw [hilbertindexinv3D]; decide, by rw [hilbertindexinv3D]; decide,
      by rw [hilbertindexinv3D]; decide, rfl⟩
  | succ m ih =>
    intro e d h he hd hh
    have hpos : 0 < 8 ^ m := by positivity
    have hp2 : 0 < 2 ^ m := by positivity
    have hw : h / 8 ^ m < 8 := by
      apply Nat.div_lt_of_lt_mul
      rw [pow_succ] at hh
      omega
    have hrest : h % 8 ^ m < 8 ^ m := Nat.mod_lt _ hpos
    obtain ⟨_, _, _, hl, hback, hnext⟩ := hilbert_level3 e he d hd _ hw
    have hdn : nextDirection 3 d (h / 8 ^ m) < 3 := Nat.mod_lt _ (by decide)
    obtain ⟨r1, r2, r3, hidx⟩ := ih _ _ (h % 8 ^ m) hnext hdn hrest
    rw [hilbertindexinv3D]
    have b1 : tedinv 3 e d (gc (h / 8 ^ m)) % 2 < 2 := Nat.mod_lt _ (by decide)
    have b2 : tedinv 3 e d (gc (h / 8 ^ m)) / 2 % 2 < 2 := Nat.mod_lt _ (by decide)
    have b3 : tedinv 3 e d (gc (h / 8 ^ m)) / 4 % 2 < 2 := Nat.mod_lt _ (by decide)
    have q1 := split_digit (2 ^ m) hp2 (tedinv 3 e d (gc (h / 8 ^ m)) % 2) _ r1
    have q2 := split_digit (2 ^ m) hp2 (tedinv 3 e d (gc (h / 8 ^ m)) / 2 % 2) _ r2
    have q3 := split_digit (2 ^ m) hp2 (tedinv 3 e d (gc (h / 8 ^ m)) / 4 % 2) _ r3
    refine ⟨?_, ?_, ?_, ?_⟩
    · exact digit_lt m _ _ b1 r1
    · exact digit_lt m _ _ b2 r2
    · exact digit_lt m _ _ b3 r3
    · rw [hilbertindex3D]
      rw [q1.1, q1.2, q2.1, q2.2, q3.1, q3.2]
      rw [bits3_inv _ hl, hback, hidx]
      rw [Nat.mul_comm]
      exact Nat.div_add_mod h (8 ^ m)

theorem pow_split (a b : Nat) (h : b ≤ a) : 2 ^ a = 2 ^ (a - b) * 2 ^ b := by
  rw [← pow_add, Nat.sub_add_cancel h]

theorem four_pow (m : Nat) : 4 ^ m = 2 ^ m * 2 ^ m := by
  have h : (4 : Nat) = 2 * 2 := rfl
  rw [h, mul_pow]

theorem eight_pow (m : Nat) : 8 ^ m = 2 ^ m * 2 ^ m * 2 ^ m := by
  have h : (8 : Nat) = 2 * 2 * 2 := rfl
  rw [h, mul_pow, mul_pow]

theorem square_count (a b : Nat) (h : b ≤ a) : 2 ^ (a - b) * 4 ^ b = 2 ^ a * 2 ^ b := by
  rw [four_pow, ← Nat.mul_assoc, ← pow_split a b h]

theorem stack_lt (K B rest N : Nat) (hK : K < N) (hrest : rest < B) : K * B + rest < N * B := by
  have : (K + 1) * B ≤ N * B := Nat.mul_le_mul_right _ hK
  rw [Nat.add_mul] at this
  omega

theorem div_lt_of_stack (h B N : Nat) (hh : h < N * B) : h / B < N := by
  apply Nat.div_lt_of_lt_mul
  rw [Nat.mul_comm]
  exact hh

theorem generalhilbertindex_roundtrip (m0 m1 x y : Nat) (hx : x < 2 ^ m0) (hy : y < 2 ^ m1) :
    generalhilbertindex m0 m1 x y < 2 ^ m0 * 2 ^ m1
    ∧ generalhilbertindexinv m0 m1 (generalhilbertindex m0 m1 x y) = (x, y) := by
  unfold generalhilbertindex generalhilbertindexinv
  by_cases hm : m0 ≥ m1
  · rw [if_pos hm, if_pos hm]
    have hp : 0 < 2 ^ m1 := by positivity
    have hp4 : 0 < 4 ^ m1 := by positivity
    have hk : x / 2 ^ m1 < 2 ^ (m0 - m1) :=
      div_lt_of_stack x _ _ (by rw [← pow_split m0 m1 hm]; exact hx)
    obtain ⟨hlt, hinv⟩ := hilbertindex_roundtrip m1 0 0 (x % 2 ^ m1) y (by decide) (by decide)
      (Nat.mod_lt _ hp) hy
    obtain ⟨hq, hr⟩ := split_digit (4 ^ m1) hp4 (x / 2 ^ m1) _ hlt
    constructor
    · exact lt_of_lt_of_eq (stack_lt _ _ _ _ hk hlt) (square_count m0 m1 hm)
    · rw [hq, hr, hinv]
      have : x / 2 ^ m1 * 2 ^ m1 + x % 2 ^ m1 = x := by
        rw [Nat.mul_comm]; exact Nat.div_add_mod x _
      simp only [this]
  · rw [if_neg hm, if_neg hm]
    have hm' : m0 ≤ m1 := by omega
    have hp : 0 < 2 ^ m0 := by positivity
    have hp4 : 0 < 4 ^ m0 := by positivity
    have hk : y / 2 ^ m0 < 2 ^ (m1 - m0) :=
      div_lt_of_stack y _ _ (by rw [← pow_split m1 m0 hm']; exact hy)
    obtain ⟨hlt, hinv⟩ := hilbertindex_roundtrip m0 0 0 x (y % 2 ^ m0) (by decide) (by decide)
      hx (Nat.mod_lt _ hp)
    obtain ⟨hq, hr⟩ := split_digit (4 ^ m0) hp4 (y / 2 ^ m0) _ hlt
    constructor
    · rw [Nat.mul_comm (2 ^ m0) (2 ^ m1)]
      exact lt_of_lt_of_eq (stack_lt _ _ _ _ hk hlt) (square_count m1 m0 hm')
    · rw [hq, hr, hinv]
      have : y / 2 ^ m0 * 2 ^ m0 + y % 2 ^ m0 = y := by
        rw [Nat.mul_comm]; exact Nat.div_add_mod y _
      simp only [this]

theorem generalhilbertindexinv_roundtrip (m0 m1 h : Nat) (hh : h < 2 ^ m0 * 2 ^ m1) :
    (generalhilbertindexinv m0 m1 h).1 < 2 ^ m0 ∧ (generalhilbertindexinv m0 m1 h).2 < 2 ^ m1
    ∧ generalhilbertindex m0 m1 (generalhilbertindexinv m0 m1 h).1
        (generalhilbertindexinv m0 m1 h).2 = h := by
  unfold generalhilbertindex generalhilbertindexinv
  by_cases hm : m0 ≥ m1
  · rw [if_pos hm]
    simp only [if_pos hm]
    have hp : 0 < 2 ^ m1 := by positivity
    have hp4 : 0 < 4 ^ m1 := by positivity
    have hK : h / 4 ^ m1 < 2 ^ (m0 - m1) :=
      div_lt_of_stack h _ _ (by rw [square_count m0 m1 hm]; exact hh)
    obtain ⟨r1, r2, hidx⟩ := hilbertindexinv_roundtrip m1 0 0 (h % 4 ^ m1) (by decide)
      (by decide) (Nat.mod_lt _ hp4)
    obtain ⟨hq, hr⟩ := split_digit (2 ^ m1) hp (h / 4 ^ m1) _ r1
    refine ⟨?_, r2, ?_⟩
    · have := stack_lt _ _ _ _ hK r1
      rw [← pow_split m0 m1 hm] at this
      exact this
    · rw [hq, hr, hidx, Nat.mul_comm]
      exact Nat.div_add_mod h _
  · rw [if_neg hm]
    simp only [if_neg hm]
    have hm' : m0 ≤ m1 := by omega
    have hp : 0 < 2 ^ m0 := by positivity
    have hp4 : 0 < 4 ^ m0 := by positivity
    have hK : h / 4 ^ m0 < 2 ^ (m1 - m0) :=
      div_lt_of_stack h _ _ (by rw [square_count m1 m0 hm', Nat.mul_comm]; exact hh)
    obtain ⟨r1, r2, hidx⟩ := hilbertindexinv_roundtrip m0 0 0 (h % 4 ^ m0) (by decide)
      (by decide) (Nat.mod_lt _ hp4)
    obtain ⟨hq, hr⟩ := split_digit (2 ^ m0) hp (h / 4 ^ m0) _ r2
    refine ⟨r1, ?_, ?_⟩
    · have := stack_lt _ _ _ _ hK r2
      rw [← pow_split m1 m0 hm'] at this
      exact this
    · rw [hq, hr, hidx, Nat.mul_comm]
      exact Nat.div_add_mod h _

theorem low_part (μ c : Nat) (hc : c < 2 ^ μ) : c % 2 ^ μ = c := Nat.mod_eq_of_lt hc

theorem recombine (μ c : Nat) : c / 2 ^ μ * 2 ^ μ + c % 2 ^ μ = c := by
  rw [Nat.mul_comm]
  exact Nat.div_add_mod c _

theorem recombine_base (c B : Nat) : c / B * B + c % B = c := by
  rw [Nat.mul_comm]
  exact Nat.div_add_mod c _

theorem up_lt (m μ c : Nat) (hμ : μ ≤ m) (hc : c < 2 ^ m) : c / 2 ^ μ < 2 ^ (m - μ) :=
  div_lt_of_stack c _ _ (by rw [← pow_split m μ hμ]; exact hc)

theorem cube_count (a b μ : Nat) (ha : μ ≤ a) (hb : μ ≤ b) :
    2 ^ (a - μ) * 2 ^ (b - μ) * 8 ^ μ = 2 ^ a * 2 ^ b * 2 ^ μ := by
  have ea := pow_split a μ ha
  have eb := pow_split b μ hb
  rw [ea, eb, eight_pow]
  ring

theorem generalhilbertindex3D_roundtrip (m0 m1 m2 x y z : Nat) (hx : x < 2 ^ m0)
    (hy : y < 2 ^ m1) (hz : z < 2 ^ m2) :
    generalhilbertindex3D m0 m1 m2 x y z < 2 ^ m0 * 2 ^ m1 * 2 ^ m2
    ∧ generalhilbertindexinv3D m0 m1 m2 (generalhilbertindex3D m0 m1 m2 x y z) = (x, y, z) := by
  by_cases hA : m2 ≤ m0 ∧ m2 ≤ m1
  · have hμ : min m0 (min m1 m2) = m2 := by omega
    have hp : 0 < 2 ^ m2 := by positivity
    have hp8 : 0 < 8 ^ m2 := by positivity
    obtain ⟨hU, hUinv⟩ := generalhilbertindex_roundtrip (m0 - m2) (m1 - m2) (x / 2 ^ m2)
      (y / 2 ^ m2) (up_lt m0 m2 x hA.1 hx) (up_lt m1 m2 y hA.2 hy)
    obtain ⟨hC, hCinv⟩ := hilbertindex3D_roundtrip m2 0 0 (x % 2 ^ m2) (y % 2 ^ m2)
      (z % 2 ^ m2) (by decide) (by decide) (Nat.mod_lt _ hp) (Nat.mod_lt _ hp) (Nat.mod_lt _ hp)
    obtain ⟨hq, hr⟩ := split_digit (8 ^ m2) hp8 _ _ hC
    simp only [generalhilbertindex3D, generalhilbertindexinv3D, hμ, if_pos hA]
    constructor
    · exact lt_of_lt_of_eq (stack_lt _ _ _ _ hU hC) (cube_count m0 m1 m2 hA.1 hA.2)
    · rw [hq, hr, hUinv, hCinv]
      simp only [recombine, low_part m2 z hz]
  · by_cases hB : m1 ≤ m0
    · have hμ : min m0 (min m1 m2) = m1 := by omega
      have h12 : m1 ≤ m2 := by omega
      have hp : 0 < 2 ^ m1 := by positivity
      have hp8 : 0 < 8 ^ m1 := by positivity
      obtain ⟨hU, hUinv⟩ := generalhilbertindex_roundtrip (m0 - m1) (m2 - m1) (x / 2 ^ m1)
        (z / 2 ^ m1) (up_lt m0 m1 x hB hx) (up_lt m2 m1 z h12 hz)
      obtain ⟨hC, hCinv⟩ := hilbertindex3D_roundtrip m1 0 0 (x % 2 ^ m1) (y % 2 ^ m1)
        (z % 2 ^ m1) (by decide) (by decide) (Nat.mod_lt _ hp) (Nat.mod_lt _ hp)
        (Nat.mod_lt _ hp)
      obtain ⟨hq, hr⟩ := split_digit (8 ^ m1) hp8 _ _ hC
      simp only [generalhilbertindex3D, generalhilbertindexinv3D, hμ, if_neg hA, if_pos hB]
      constructor
      · have := lt_of_lt_of_eq (stack_lt _ _ _ _ hU hC) (cube_count m0 m2 m1 hB h12)
        calc _ < 2 ^ m0 * 2 ^ m2 * 2 ^ m1 := this
          _ = 2 ^ m0 * 2 ^ m1 * 2 ^ m2 := by ring
      · rw [hq, hr, hUinv, hCinv]
        simp only [recombine, low_part m1 y hy]
    · have hμ : min m0 (min m1 m2) = m0 := by omega
      have h01 : m0 ≤ m1 := by omega
      have h02 : m0 ≤ m2 := by omega
      have hp : 0 < 2 ^ m0 := by positivity
      have hp8 : 0 < 8 ^ m0 := by positivity
      obtain ⟨hU, hUinv⟩ := generalhilbertindex_roundtrip (m1 - m0) (m2 - m0) (y / 2 ^ m0)
        (z / 2 ^ m0) (up_lt m1 m0 y h01 hy) (up_lt m2 m0 z h02 hz)
      obtain ⟨hC, hCinv⟩ := hilbertindex3D_roundtrip m0 0 0 (x % 2 ^ m0) (y % 2 ^ m0)
        (z % 2 ^ m0) (by decide) (by decide) (Nat.mod_lt _ hp) (Nat.mod_lt _ hp)
        (Nat.mod_lt _ hp)
      obtain ⟨hq, hr⟩ := split_digit (8 ^ m0) hp8 _ _ hC
      simp only [generalhilbertindex3D, generalhilbertindexinv3D, hμ, if_neg hA, if_neg hB]
      constructor
      · have := lt_of_lt_of_eq (stack_lt _ _ _ _ hU hC) (cube_count m1 m2 m0 h01 h02)
        calc _ < 2 ^ m1 * 2 ^ m2 * 2 ^ m0 := this
          _ = 2 ^ m0 * 2 ^ m1 * 2 ^ m2 := by ring
      · rw [hq, hr, hUinv, hCinv]
        simp only [recombine, low_part m0 x hx]

theorem generalhilbertindexinv3D_roundtrip (m0 m1 m2 h : Nat)
    (hh : h < 2 ^ m0 * 2 ^ m1 * 2 ^ m2) :
    (generalhilbertindexinv3D m0 m1 m2 h).1 < 2 ^ m0
    ∧ (generalhilbertindexinv3D m0 m1 m2 h).2.1 < 2 ^ m1
    ∧ (generalhilbertindexinv3D m0 m1 m2 h).2.2 < 2 ^ m2
    ∧ generalhilbertindex3D m0 m1 m2 (generalhilbertindexinv3D m0 m1 m2 h).1
        (generalhilbertindexinv3D m0 m1 m2 h).2.1 (generalhilbertindexinv3D m0 m1 m2 h).2.2
        = h := by
  by_cases hA : m2 ≤ m0 ∧ m2 ≤ m1
  · have hμ : min m0 (min m1 m2) = m2 := by omega
    have hp : 0 < 2 ^ m2 := by positivity
    have hp8 : 0 < 8 ^ m2 := by positivity
    have hK : h / 8 ^ m2 < 2 ^ (m0 - m2) * 2 ^ (m1 - m2) :=
      div_lt_of_stack h _ _ (by rw [cube_count m0 m1 m2 hA.1 hA.2]; exact hh)
    obtain ⟨u1, u2, hU⟩ := generalhilbertindexinv_roundtrip (m0 - m2) (m1 - m2) _ hK
    obtain ⟨c1, c2, c3, hC⟩ := hilbertindexinv3D_roundtrip m2 0 0 (h % 8 ^ m2) (by decide)
      (by decide) (Nat.mod_lt _ hp8)
    obtain ⟨q1, r1⟩ := split_digit (2 ^ m2) hp _ _ c1
    obtain ⟨q2, r2⟩ := split_digit (2 ^ m2) hp _ _ c2
    simp only [generalhilbertindex3D, generalhilbertindexinv3D, hμ, if_pos hA]
    refine ⟨?_, ?_, c3, ?_⟩
    · exact lt_of_lt_of_eq (stack_lt _ _ _ _ u1 c1) (pow_split m0 m2 hA.1).symm
    · exact lt_of_lt_of_eq (stack_lt _ _ _ _ u2 c2) (pow_split m1 m2 hA.2).symm
    · rw [q1, r1, q2, r2, low_part m2 _ c3, hU, hC]
      exact recombine_base h (8 ^ m2)
  · by_cases hB : m1 ≤ m0
    · have hμ : min m0 (min m1 m2) = m1 := by omega
      have h12 : m1 ≤ m2 := by omega
      have hp : 0 < 2 ^ m1 := by positivity
      have hp8 : 0 < 8 ^ m1 := by positivity
      have hK : h / 8 ^ m1 < 2 ^ (m0 - m1) * 2 ^ (m2 - m1) :=
        div_lt_of_stack h _ _ (by
          rw [cube_count m0 m2 m1 hB h12]
          calc h < 2 ^ m0 * 2 ^ m1 * 2 ^ m2 := hh
            _ = 2 ^ m0 * 2 ^ m2 * 2 ^ m1 := by ring)
      obtain ⟨u1, u2, hU⟩ := generalhilbertindexinv_roundtrip (m0 - m1) (m2 - m1) _ hK
      obtain ⟨c1, c2, c3, hC⟩ := hilbertindexinv3D_roundtrip m1 0 0 (h % 8 ^ m1) (by decide)
        (by decide) (Nat.mod_lt _ hp8)
      obtain ⟨q1, r1⟩ := split_digit (2 ^ m1) hp _ _ c1
      obtain ⟨q3, r3⟩ := split_digit (2 ^ m1) hp _ _ c3
      simp only [generalhilbertindex3D, generalhilbertindexinv3D, hμ, if_neg hA, if_pos hB]
      refine ⟨?_, c2, ?_, ?_⟩
      · exact lt_of_lt_of_eq (stack_lt _ _ _ _ u1 c1) (pow_split m0 m1 hB).symm
      · exact lt_of_lt_of_eq (stack_lt _ _ _ _ u2 c3) (pow_split m2 m1 h12).symm
      · rw [q1, r1, q3, r3, low_part m1 _ c2, hU, hC]
        exact recombine_base h (8 ^ m1)
    · have hμ : min m0 (min m1 m2) = m0 := by omega
      have h01 : m0 ≤ m1 := by omega
      have h02 : m0 ≤ m2 := by omega
      have hp : 0 < 2 ^ m0 := by positivity
      have hp8 : 0 < 8 ^ m0 := by positivity
      have hK : h / 8 ^ m0 < 2 ^ (m1 - m0) * 2 ^ (m2 - m0) :=
        div_lt_of_stack h _ _ (by
          rw [cube_count m1 m2 m0 h01 h02]
          calc h < 2 ^ m0 * 2 ^ m1 * 2 ^ m2 := hh
            _ = 2 ^ m1 * 2 ^ m2 * 2 ^ m0 := by ring)
      obtain ⟨u1, u2, hU⟩ := generalhilbertindexinv_roundtrip (m1 - m0) (m2 - m0) _ hK
      obtain ⟨c1, c2, c3, hC⟩ := hilbertindexinv3D_roundtrip m0 0 0 (h % 8 ^ m0) (by decide)
        (by decide) (Nat.mod_lt _ hp8)
      obtain ⟨q2, r2⟩ := split_digit (2 ^ m0) hp _ _ c2
      obtain ⟨q3, r3⟩ := split_digit (2 ^ m0) hp _ _ c3
      simp only [generalhilbertindex3D, generalhilbertindexinv3D, hμ, if_neg hA, if_neg hB]
      refine ⟨c1, ?_, ?_, ?_⟩
      · exact lt_of_lt_of_eq (stack_lt _ _ _ _ u1 c2) (pow_split m1 m0 h01).symm
      · exact lt_of_lt_of_eq (stack_lt _ _ _ _ u2 c3) (pow_split m2 m0 h02).symm
      · rw [q2, r2, q3, r3, low_part m0 _ c1, hU, hC]
        exact recombine_base h (8 ^ m0)

theorem hilbert_curve_adjacent :
    (∀ h, h < 15 →
      Int.natAbs (((generalhilbertindexinv 2 2 h).1 : Int)
          - (generalhilbertindexinv 2 2 (h + 1)).1)
        + Int.natAbs (((generalhilbertindexinv 2 2 h).2 : Int)
          - (generalhilbertindexinv 2 2 (h + 1)).2) = 1)
    ∧ (∀ h, h < 63 →
      Int.natAbs (((generalhilbertindexinv3D 2 2 2 h).1 : Int)
          - (generalhilbertindexinv3D 2 2 2 (h + 1)).1)
        + Int.natAbs (((generalhilbertindexinv3D 2 2 2 h).2.1 : Int)
          - (generalhilbertindexinv3D 2 2 2 (h + 1)).2.1)
        + Int.natAbs (((generalhilbertindexinv3D 2 2 2 h).2.2 : Int)
          - (generalhilbertindexinv3D 2 2 2 (h + 1)).2.2) = 1) := by
  decide

/-- C24. The Hilbert patch index is a bijection with a working inverse, on the
model of the index (the functions themselves are not in the sources at hand).  For a grid
of `2^m0` patches in 1D, `2^m0 x 2^m1` in 2D and `2^m0 x 2^m1 x 2^m2` in 3D: the index of
every coordinate of the grid is below the number of patches and the inverse gives the
coordinate back; the inverse of every index below the number of patches is a coordinate
of the grid whose index is that index; two coordinates of the grid with the same index
are equal.  For `m0 = m1 = 2` the indices of the 4 x 4 grid, row by row, are the 16
values 0 to 15. -/
theorem generalhilbertindex_bijection :
    (∀ m0 x, x < 2 ^ m0 →
      generalhilbertindex1D m0 x < 2 ^ m0
      ∧ generalhilbertindexinv1D m0 (generalhilbertindex1D m0 x) = x)
    ∧ (∀ m0 h, h < 2 ^ m0 →
      generalhilbertindexinv1D m0 h < 2 ^ m0
      ∧ generalhilbertindex1D m0 (generalhilbertindexinv1D m0 h) = h)
    ∧ (∀ m0 m1 x y, x < 2 ^ m0 → y < 2 ^ m1 →
      generalhilbertindex m0 m1 x y < 2 ^ m0 * 2 ^ m1
      ∧ generalhilbertindexinv m0 m1 (generalhilbertindex m0 m1 x y) = (x, y))
    ∧ (∀ m0 m1 h, h < 2 ^ m0 * 2 ^ m1 →
      (generalhilbertindexinv m0 m1 h).1 < 2 ^ m0 ∧ (generalhilbertindexinv m0 m1 h).2 < 2 ^ m1
      ∧ generalhilbertindex m0 m1 (generalhilbertindexinv m0 m1 h).1
          (generalhilbertindexinv m0 m1 h).2 = h)
    ∧ (∀ m0 m1 x y x' y', x < 2 ^ m0 → y < 2 ^ m1 → x' < 2 ^ m0 → y' < 2 ^ m1 →
      generalhilbertindex m0 m1 x y = generalhilbertindex m0 m1 x' y' → x = x' ∧ y = y')
    ∧ (∀ m0 m1 m2 x y z, x < 2 ^ m0 → y < 2 ^ m1 → z < 2 ^ m2 →
      generalhilbertindex3D m0 m1 m2 x y z < 2 ^ m0 * 2 ^ m1 * 2 ^ m2
      ∧ generalhilbertindexinv3D m0 m1 m2 (generalhilbertindex3D m0 m1 m2 x y z) = (x, y, z))
    ∧ (∀ m0 m1 m2 h, h < 2 ^ m0 * 2 ^ m1 * 2 ^ m2 →
      (generalhilbertindexinv3D m0 m1 m2 h).1 < 2 ^ m0
      ∧ (generalhilbertindexinv3D m0 m1 m2 h).2.1 < 2 ^ m1
      ∧ (generalhilbertindexinv3D m0 m1 m2 h).2.2 < 2 ^ m2
      ∧ generalhilbertindex3D m0 m1 m2 (generalhilbertindexinv3D m0 m1 m2 h).1
          (generalhilbertindexinv3D m0 m1 m2 h).2.1 (generalhilbertindexinv3D m0 m1 m2 h).2.2
          = h)
    ∧ (∀ m0 m1 m2 x y z x' y' z', x < 2 ^ m0 → y < 2 ^ m1 → z < 2 ^ m2 →
      x' < 2 ^ m0 → y' < 2 ^ m1 → z' < 2 ^ m2 →
      generalhilbertindex3D m0 m1 m2 x y z = generalhilbertindex3D m0 m1 m2 x' y' z' →
      x = x' ∧ y = y' ∧ z = z')
    ∧ (List.range 4).map (fun y => (List.range 4).map (fun x => generalhilbertindex 2 2 x y))
        = [[0, 1, 14, 15], [3, 2, 13, 12], [4, 7, 8, 11], [5, 6, 9, 10]] := by
  refine ⟨fun _ _ hx => ⟨hx, rfl⟩, fun _ _ hh => ⟨hh, rfl⟩,
    fun m0 m1 x y hx hy => generalhilbertindex_roundtrip m0 m1 x y hx hy,
    fun m0 m1 h hh => generalhilbertindexinv_roundtrip m0 m1 h hh, ?_,
    fun m0 m1 m2 x y z hx hy hz => generalhilbertindex3D_roundtrip m0 m1 m2 x y z hx hy hz,
    fun m0 m1 m2 h hh => generalhilbertindexinv3D_roundtrip m0 m1 m2 h hh, ?_, by decide⟩
  · intro m0 m1 x y x' y' hx hy hx' hy' heq
    have h1 := (generalhilbertindex_roundtrip m0 m1 x y hx hy).2
    have h2 := (generalhilbertindex_roundtrip m0 m1 x' y' hx' hy').2
    rw [heq, h2] at h1
    exact ⟨(congrArg Prod.fst h1).symm, (congrArg Prod.snd h1).symm⟩
  · intro m0 m1 m2 x y z x' y' z' hx hy hz hx' hy' hz' heq
    have h1 := (generalhilbertindex3D_roundtrip m0 m1 m2 x y z hx hy hz).2
    have h2 := (generalhilbertindex3D_roundtrip m0 m1 m2 x' y' z' hx' hy' hz').2
    rw [heq, h2] at h1
    exact ⟨(congrArg Prod.fst h1).symm, (congrArg (fun p => p.2.1) h1).symm,
      (congrArg (fun p => p.2.2) h1).symm⟩

theorem generalhilbertindex_bijection_witness :
    generalhilbertindex 2 2 3 1 < 2 ^ 2 * 2 ^ 2
    ∧ generalhilbertindexinv 2 2 (generalhilbertindex 2 2 3 1) = (3, 1) :=
  generalhilbertindex_bijection.2.2.1 2 2 3 1 (by decide) (by decide)

end Smilei
